import Mathlib

/-!
# libtmt: a shallow embedding of `tmt.c`

The virtual terminal of `src/tmt.c` is embedded as pure functions over an
explicit instance record `TMT`.

Conventions of the embedding.

* `size_t` values are natural numbers; the arithmetic that can wrap on the
  code's 64-bit `size_t` (parameter arithmetic, `maxline - r` in the scroll
  routines) is written with `addz`, `subz`, `mulz`, which reduce modulo `2^64`.
  Screen dimensions are at least 2 after `tmt_resize`, so `nline - 1` and
  `ncol - 1` never wrap and are written with the truncated subtraction.
* A `char` is a byte `0..255`; `schar` gives its value as a signed `char`.
* The callback `cb` is modelled by the log `out`, to which every `CB(...)`
  appends the message it would deliver.
* Pointers to lines are modelled by the lines themselves, the line array by a
  list.  An access outside an array makes the operation return `none`.
* `mbrtowc` and `MB_LEN_MAX` belong to the C library and are taken as a
  parameter `LibC`.
* `TMT_HAS_WCWIDTH` is not defined (the default build).
-/

namespace Libtmt

/-! ## Machine arithmetic -/

/-- The modulus of `size_t` arithmetic, `2^64`. -/
def SIZE_MOD : Nat := 18446744073709551616

/-- The constant `(size_t)-1`. -/
def SIZE_MAX : Nat := 18446744073709551615

/-- Wrapping `size_t` addition. -/
def addz (a b : Nat) : Nat := (a + b) % SIZE_MOD

/-- Wrapping `size_t` subtraction: `a - b` when it is not negative, else
`a - b + 2^64`. -/
def subz (a b : Nat) : Nat :=
  if b % SIZE_MOD ≤ a % SIZE_MOD then a % SIZE_MOD - b % SIZE_MOD
  else SIZE_MOD - (b % SIZE_MOD - a % SIZE_MOD)

/-- Wrapping `size_t` multiplication. -/
def mulz (a b : Nat) : Nat := (a * b) % SIZE_MOD

/-- The macro `MAX(x, y)` on `size_t` operands. -/
def MAX (x y : Nat) : Nat := if x > y then x else y

/-- The macro `MIN(x, y)` on `size_t` operands. -/
def MIN (x y : Nat) : Nat := if x < y then x else y

/-- The value of a byte read as a (signed) `char`. -/
def schar (i : Nat) : Int := if i < 128 then (i : Int) else (i : Int) - 256

def BUF_MAX : Nat := 100
def PAR_MAX : Nat := 8
def TITLE_MAX : Nat := 128
def TAB : Nat := 8

/-- The constant `SCR_DEF`, `(size_t)-1`. -/
def SCR_DEF : Nat := SIZE_MAX

/-- The constant `TMT_INVALID_CHAR`, U+FFFD. -/
def TMT_INVALID_CHAR : Nat := 0xfffd

/-! ## Data model (`tmt.h`) -/

/-- Modelled from the spec: the colour enumeration with `TMT_COLOR_DEFAULT`.
`src/tmt.h` declares the eight ANSI colours in this order, `TMT_COLOR_BLACK`
first (value 0); the declaration of `TMT_COLOR_DEFAULT`, which `tmt.c` uses,
is missing, and the spec gives it as a ninth value of the closed set. -/
inductive tmt_color_t
  | TMT_COLOR_BLACK
  | TMT_COLOR_RED
  | TMT_COLOR_GREEN
  | TMT_COLOR_YELLOW
  | TMT_COLOR_BLUE
  | TMT_COLOR_MAGENTA
  | TMT_COLOR_CYAN
  | TMT_COLOR_WHITE
  | TMT_COLOR_DEFAULT
  deriving DecidableEq, Repr

open tmt_color_t

structure TMTATTRS where
  bold : Bool
  dim : Bool
  underline : Bool
  blink : Bool
  reverse : Bool
  invisible : Bool
  fg : tmt_color_t
  bg : tmt_color_t
  deriving DecidableEq, Repr

structure TMTCHAR where
  c : Nat
  a : TMTATTRS
  deriving DecidableEq, Repr

structure TMTPOINT where
  r : Nat
  c : Nat
  deriving DecidableEq, Repr

structure TMTLINE where
  dirty : Bool
  chars : List TMTCHAR
  deriving DecidableEq, Repr

structure TMTSCREEN where
  nline : Nat
  ncol : Nat
  lines : List TMTLINE
  deriving DecidableEq, Repr

/-- Modelled from the spec: the callback messages with their payloads.
`src/tmt.h` declares only `MOVED`, `UPDATE` and `BELL`; `tmt.c` also sends
`ANSWER`, `TITLE`, `CURSOR`, `SETMODE` and `UNSETMODE`, whose declarations are
missing.  `MOVED` carries the cursor it points to, strings are byte lists. -/
inductive tmt_msg_t
  | TMT_MSG_MOVED (p : TMTPOINT)
  | TMT_MSG_UPDATE
  | TMT_MSG_BELL
  | TMT_MSG_ANSWER (s : List Nat)
  | TMT_MSG_TITLE (s : List Nat)
  | TMT_MSG_CURSOR (s : List Nat)
  | TMT_MSG_SETMODE (pars : List Nat)
  | TMT_MSG_UNSETMODE (pars : List Nat)
  deriving DecidableEq, Repr

open tmt_msg_t

/-- The parser states of `struct TMT`. -/
inductive State
  | S_NUL
  | S_ESC
  | S_ARG
  | S_TITLE
  | S_TITLE_ARG
  | S_GT_ARG
  | S_LPAREN
  | S_RPAREN
  deriving DecidableEq, Repr

open State

/-- The instance record `struct TMT`.  `xlate0`, `xlate1` are `xlate[0]`,
`xlate[1]`; `out` is the log of the messages passed to the callback. -/
structure TMT where
  curs : TMTPOINT
  oldcurs : TMTPOINT
  attrs : TMTATTRS
  oldattrs : TMTATTRS
  hang : Nat
  terminal_name : Option (List Nat)
  minline : Nat
  maxline : Nat
  dirty : Bool
  acs : Bool
  ignored : Bool
  screen : TMTSCREEN
  tabs : TMTLINE
  acschars : List Nat
  charset : Nat
  xlate0 : Nat
  xlate1 : Nat
  decode_unicode : Bool
  ms : Nat
  nmb : Nat
  mb : List Nat
  title : List Nat
  ntitle : Nat
  pars : List Nat
  npar : Nat
  arg : Nat
  q : Bool
  state : State
  out : List tmt_msg_t
  deriving DecidableEq, Repr

/-- The static `defattrs`. -/
def defattrs : TMTATTRS :=
  { bold := false, dim := false, underline := false, blink := false,
    reverse := false, invisible := false,
    fg := TMT_COLOR_DEFAULT, bg := TMT_COLOR_DEFAULT }

/-- An attribute record of zero bytes, as `calloc` leaves it: the flags are
false and both colours hold the enumerator of value 0, which `src/tmt.h` gives
to `TMT_COLOR_BLACK`. -/
def zeroattrs : TMTATTRS :=
  { bold := false, dim := false, underline := false, blink := false,
    reverse := false, invisible := false,
    fg := TMT_COLOR_BLACK, bg := TMT_COLOR_BLACK }

/-- A cell of zero bytes. -/
def zerochar : TMTCHAR := { c := 0, a := zeroattrs }

/-- A line without cells, standing for a null line pointer. -/
def nullline : TMTLINE := { dirty := false, chars := [] }

/-- The macro `CB(vt, m, a)`: deliver a message to the callback. -/
def CB (vt : TMT) (m : tmt_msg_t) : TMT := { vt with out := vt.out ++ [m] }

/-- The macro `P0(x)`. -/
def P0 (vt : TMT) (x : Nat) : Nat := vt.pars.getD x 0

/-- The macro `P1(x)`. -/
def P1 (vt : TMT) (x : Nat) : Nat := if vt.pars.getD x 0 ≠ 0 then vt.pars.getD x 0 else 1

/-- The index of the line `CLINE(vt)`. -/
def CLINE (vt : TMT) : Nat := MIN vt.curs.r (vt.screen.nline - 1)

/-- The line with index `i` of the screen. -/
def lineAt (vt : TMT) (i : Nat) : TMTLINE := vt.screen.lines.getD i nullline

/-- The cell with index `j` of a line. -/
def cellAt (l : TMTLINE) (j : Nat) : TMTCHAR := l.chars.getD j zerochar

/-- `tmt_set_unicode_decode`: set the flag, return the former value. -/
def tmt_set_unicode_decode (vt : TMT) (v : Bool) : TMT × Bool :=
  ({ vt with decode_unicode := v }, vt.decode_unicode)

/-- The map of `tacs`, the terminfo alternate character set for ANSI. -/
def tacs_map : List Nat :=
  [16, 17, 24, 25, 219, 4, 177, 248, 241, 176, 217, 191, 218, 192, 197, 126,
   196, 196, 196, 95, 195, 180, 193, 194, 179, 243, 242, 227, 216, 156, 254]

/-- The function `tacs`: the first index of the map holding the byte selects
the entry of `acschars`. -/
def tacs (vt : TMT) (c : Nat) : Nat :=
  match tacs_map.indexOf? c with
  | some i => vt.acschars.getD i 0
  | none => c

/-! ## Clearing and marking lines -/

/-- The loop of `clearline` over the cells of a line: the cells with index in
`[s, e)` and below `ncol` become blanks with the attributes `a`. -/
def clearcells (a : TMTATTRS) (s e ncol : Nat) : Nat → List TMTCHAR → List TMTCHAR
  | _, [] => []
  | i, ch :: rest =>
    (if s ≤ i ∧ i < e ∧ i < ncol then { c := 32, a := a } else ch)
      :: clearcells a s e ncol (i + 1) rest

/-- The effect of `clearline(vt, l, s, e)` on the line `l`. -/
def clearline (vt : TMT) (l : TMTLINE) (s e : Nat) : TMTLINE :=
  { dirty := true, chars := clearcells vt.attrs s e vt.screen.ncol 0 l.chars }

/-- The call `clearline(vt, vt->screen.lines[i], s, e)`. -/
def clearline_at (vt : TMT) (i s e : Nat) : TMT :=
  { vt with
    dirty := true
    screen := { vt.screen with lines := vt.screen.lines.set i (clearline vt (lineAt vt i) s e) } }

/-- The call `clearline(vt, vt->tabs, s, e)`. -/
def clearline_tabs (vt : TMT) (s e : Nat) : TMT :=
  { vt with dirty := true, tabs := clearline vt vt.tabs s e }

/-- The lines of `clearlines`: those with index in `[lo, hi)` are cleared in
full width. -/
def clearrows (vt : TMT) (lo hi : Nat) : Nat → List TMTLINE → List TMTLINE
  | _, [] => []
  | i, l :: rest =>
    (if lo ≤ i ∧ i < hi then clearline vt l 0 vt.screen.ncol else l)
      :: clearrows vt lo hi (i + 1) rest

/-- The function `clearlines(vt, r, n)`: the loop runs over the indices `i`
with `r ≤ i < r + n` and `i < nline`. -/
def clearlines (vt : TMT) (r n : Nat) : TMT :=
  let hi := MIN (addz r n) vt.screen.nline
  { vt with
    dirty := vt.dirty || decide (r < hi)
    screen := { vt.screen with lines := clearrows vt r hi 0 vt.screen.lines } }

/-- The lines of `dirtylines`: those with index in `[s, e)` are marked. -/
def dirtyrows (s e : Nat) : Nat → List TMTLINE → List TMTLINE
  | _, [] => []
  | i, l :: rest =>
    (if s ≤ i ∧ i < e then { l with dirty := true } else l) :: dirtyrows s e (i + 1) rest

/-- The function `dirtylines(vt, s, e)`. -/
def dirtylines (vt : TMT) (s e : Nat) : TMT :=
  { vt with
    dirty := true
    screen := { vt.screen with lines := dirtyrows s e 0 vt.screen.lines } }

/-! ## Array copies -/

/-- The `n` elements of an array from offset `off`, read as `memcpy` and
`memmove` read their source; `none` when the range leaves the array. -/
def slice {α : Type} (xs : List α) (off n : Nat) : Option (List α) :=
  if off + n ≤ xs.length then some ((xs.drop off).take n) else none

/-- An array with the elements `src` stored from offset `off`; `none` when the
range leaves the array. -/
def blit {α : Type} (xs : List α) (off : Nat) (src : List α) : Option (List α) :=
  if off + src.length ≤ xs.length then
    some (xs.take off ++ src ++ xs.drop (off + src.length))
  else none

/-- The call `memmove(xs + dst, xs + src, n * sizeof(xs[0]))` inside one array. -/
def memmove {α : Type} (xs : List α) (dst src n : Nat) : Option (List α) :=
  (slice xs src n).bind (blit xs dst)

/-- The number of line pointers in `k * sizeof(TMTLINE *)` bytes, the product
taken in `size_t`. -/
def nptr (k : Nat) : Nat := mulz k 8 / 8

/-! ## Scrolling -/

/-- The row a scroll starts from: `if (r == SCR_DEF) r = vt->minline`. -/
def scr_row (vt : TMT) (r : Nat) : Nat := if r = SCR_DEF then vt.minline else r

/-- The number of lines of a scroll: `n = MIN(n, vt->maxline - r)`. -/
def scr_count (vt : TMT) (r n : Nat) : Nat := MIN n (subz vt.maxline r)

/-- The body of `scrup` once `r` and `n` are settled.  `n` is an `ssize_t`
given by its bits; `n > 0` is the signed comparison. -/
def scrup_body (vt : TMT) (r n : Nat) : Option TMT :=
  if 0 < n ∧ n < 9223372036854775808 then
    (slice vt.screen.lines r (nptr n)).bind fun buf =>
    (memmove vt.screen.lines r (r + n) (nptr (addz (subz (subz vt.maxline n) r) 1))).bind fun l1 =>
    (blit l1 (addz (subz vt.maxline n) 1) buf).bind fun l2 =>
    some (dirtylines
      (clearlines { vt with screen := { vt.screen with lines := l2 } }
        (addz (subz vt.maxline n) 1) n)
      r (addz vt.maxline 1))
  else some vt

/-- The function `scrup(vt, r, n)`. -/
def scrup (vt : TMT) (r n : Nat) : Option TMT :=
  scrup_body vt (scr_row vt r) (scr_count vt (scr_row vt r) n)

/-- The body of `scrdn` once `r` and `n` are settled. -/
def scrdn_body (vt : TMT) (r n : Nat) : Option TMT :=
  if 0 < n ∧ n < 9223372036854775808 then
    (slice vt.screen.lines (addz (subz vt.maxline n) 1) (nptr n)).bind fun buf =>
    (memmove vt.screen.lines (r + n) r (nptr (addz (subz (subz vt.maxline n) r) 1))).bind fun l1 =>
    (blit l1 r buf).bind fun l2 =>
    some (dirtylines
      (clearlines { vt with screen := { vt.screen with lines := l2 } } r n)
      r (addz vt.maxline 1))
  else some vt

/-- The function `scrdn(vt, r, n)`. -/
def scrdn (vt : TMT) (r n : Nat) : Option TMT :=
  scrdn_body vt (scr_row vt r) (scr_count vt (scr_row vt r) n)

/-! ## The handlers -/

/-- The handler `ed` (erase in display). -/
def ed (vt : TMT) : TMT :=
  if P0 vt 0 = 0 then
    clearlines (clearline_at vt (CLINE vt) vt.curs.c vt.screen.ncol)
      (addz vt.curs.r 1) (subz vt.screen.nline (addz vt.curs.r 1))
  else if P0 vt 0 = 1 then
    clearlines (clearline_at vt (CLINE vt) 0 vt.curs.c) 0 (subz vt.curs.r 0)
  else if P0 vt 0 = 2 then
    clearlines vt 0 (subz vt.screen.nline 0)
  else vt

/-- The line of the screen with index `i` replaced by a line with the cells
`chars`. -/
def setchars (vt : TMT) (i : Nat) (chars : List TMTCHAR) : TMT :=
  { vt with
    screen := { vt.screen with
      lines := vt.screen.lines.set i { lineAt vt i with chars := chars } } }

/-- The count of `ich`: `n = P1(0); if (n > s->ncol - c->c - 1) n = s->ncol - c->c - 1`. -/
def ich_count (vt : TMT) : Nat :=
  if P1 vt 0 > vt.screen.ncol - vt.curs.c - 1 then vt.screen.ncol - vt.curs.c - 1 else P1 vt 0

/-- The handler `ich` (insert characters). -/
def ich (vt : TMT) : Option TMT :=
  (memmove (lineAt vt (CLINE vt)).chars (vt.curs.c + ich_count vt) vt.curs.c
      (MIN (vt.screen.ncol - 1 - vt.curs.c)
        (vt.screen.ncol - vt.curs.c - ich_count vt - 1))).bind fun chars =>
  some (clearline_at (setchars vt (CLINE vt) chars) (CLINE vt) vt.curs.c (ich_count vt))

/-- The count of `dch`: `n = P1(0); if (n > s->ncol - c->c) n = s->ncol - c->c`. -/
def dch_count (vt : TMT) : Nat :=
  if P1 vt 0 > vt.screen.ncol - vt.curs.c then vt.screen.ncol - vt.curs.c else P1 vt 0

/-- The handler `dch` (delete characters). -/
def dch (vt : TMT) : Option TMT :=
  if P1 vt 0 ≤ vt.screen.ncol - vt.curs.c ∧ P1 vt 0 = 0 then some vt
  else if vt.screen.ncol - dch_count vt < (lineAt vt (CLINE vt)).chars.length then
    (memmove (lineAt vt (CLINE vt)).chars vt.curs.c (vt.curs.c + dch_count vt)
        (vt.screen.ncol - vt.curs.c - dch_count vt)).bind fun chars =>
    some { clearline_at
             (setchars
               { vt with
                 attrs := (cellAt (lineAt vt (CLINE vt)) (vt.screen.ncol - dch_count vt)).a }
               (CLINE vt) chars)
             (CLINE vt) (vt.screen.ncol - dch_count vt) vt.screen.ncol
           with attrs := vt.attrs }
  else none

/-- The handler `el` (erase in line). -/
def el (vt : TMT) : TMT :=
  if P0 vt 0 = 0 then clearline_at vt (CLINE vt) vt.curs.c vt.screen.ncol
  else if P0 vt 0 = 1 then
    clearline_at vt (CLINE vt) 0 (MIN (addz vt.curs.c 1) (vt.screen.ncol - 1))
  else if P0 vt 0 = 2 then clearline_at vt (CLINE vt) 0 vt.screen.ncol
  else vt

/-- The macro `FGBG(c)` of `sgr` for the parameter value `p`. -/
def FGBG (vt : TMT) (p : Nat) (c : tmt_color_t) : TMT :=
  if p < 40 then { vt with attrs := { vt.attrs with fg := c } }
  else { vt with attrs := { vt.attrs with bg := c } }

/-- The body of the loop of `sgr` for the parameter value `p`. -/
def sgr_step (vt : TMT) (p : Nat) : TMT :=
  if p = 0 then { vt with attrs := defattrs }
  else if p = 1 ∨ p = 22 then { vt with attrs := { vt.attrs with bold := decide (p < 20) } }
  else if p = 2 ∨ p = 23 then { vt with attrs := { vt.attrs with dim := decide (p < 20) } }
  else if p = 4 ∨ p = 24 then { vt with attrs := { vt.attrs with underline := decide (p < 20) } }
  else if p = 5 ∨ p = 25 then { vt with attrs := { vt.attrs with blink := decide (p < 20) } }
  else if p = 7 ∨ p = 27 then { vt with attrs := { vt.attrs with reverse := decide (p < 20) } }
  else if p = 8 ∨ p = 28 then { vt with attrs := { vt.attrs with invisible := decide (p < 20) } }
  else if p = 10 ∨ p = 11 then { vt with acs := decide (p > 10) }
  else if p = 30 ∨ p = 40 then FGBG vt p TMT_COLOR_BLACK
  else if p = 31 ∨ p = 41 then FGBG vt p TMT_COLOR_RED
  else if p = 32 ∨ p = 42 then FGBG vt p TMT_COLOR_GREEN
  else if p = 33 ∨ p = 43 then FGBG vt p TMT_COLOR_YELLOW
  else if p = 34 ∨ p = 44 then FGBG vt p TMT_COLOR_BLUE
  else if p = 35 ∨ p = 45 then FGBG vt p TMT_COLOR_MAGENTA
  else if p = 36 ∨ p = 46 then FGBG vt p TMT_COLOR_CYAN
  else if p = 37 ∨ p = 47 then FGBG vt p TMT_COLOR_WHITE
  else if p = 39 ∨ p = 49 then FGBG vt p TMT_COLOR_DEFAULT
  else vt

/-- The handler `sgr`: the loop over the parameters `0 .. npar - 1`. -/
def sgr (vt : TMT) : TMT :=
  (List.range vt.npar).foldl (fun v i => sgr_step v (P0 v i)) vt

/-- The decimal digits of `%zd` for a `size_t` argument. -/
def fmt_zd (v : Nat) : List Nat :=
  if v < 9223372036854775808 then (Nat.toDigits 10 v).map Char.toNat
  else 45 :: (Nat.toDigits 10 (SIZE_MOD - v)).map Char.toNat

/-- The handler `dsr`: the cursor position report `ESC [ r ; c R`. -/
def dsr (vt : TMT) : TMT :=
  CB vt (TMT_MSG_ANSWER
    (([27, 91] ++ fmt_zd (addz vt.curs.r 1) ++ [59] ++ fmt_zd (addz vt.curs.c 1) ++ [82]).take
      (BUF_MAX - 1)))

/-- The handler `resetparser`. -/
def resetparser (vt : TMT) : TMT :=
  { vt with
    pars := List.replicate PAR_MAX 0
    q := false, ntitle := 0, state := S_NUL, npar := 0, arg := 0, ignored := false }

/-- The handler `consumearg`. -/
def consumearg (vt : TMT) : TMT :=
  if vt.npar < PAR_MAX then
    { vt with pars := vt.pars.set vt.npar vt.arg, npar := vt.npar + 1, arg := 0 }
  else { vt with arg := 0 }

/-- The handler `fixcursor`. -/
def fixcursor (vt : TMT) : TMT :=
  { vt with
    curs := { r := MIN vt.curs.r (vt.screen.nline - 1),
              c := MIN vt.curs.c (vt.screen.ncol - 1) } }

/-- The parameters with the entries from index `npar` on set to `(size_t)-1`. -/
def fillpars (npar : Nat) : Nat → List Nat → List Nat
  | _, [] => []
  | i, p :: rest => (if npar ≤ i ∧ i < PAR_MAX then SIZE_MAX else p) :: fillpars npar (i + 1) rest

/-- The handler `sm` (set mode). -/
def sm (vt : TMT) : TMT :=
  if P0 vt 0 = 25 then CB vt (TMT_MSG_CURSOR [116])
  else
    let vt1 : TMT := { vt with pars := fillpars vt.npar 0 vt.pars }
    CB vt1 (TMT_MSG_SETMODE vt1.pars)

/-- The handler `rm` (reset mode). -/
def rm (vt : TMT) : TMT :=
  if P0 vt 0 = 25 then CB vt (TMT_MSG_CURSOR [102])
  else
    let vt1 : TMT := { vt with pars := fillpars vt.npar 0 vt.pars }
    CB vt1 (TMT_MSG_UNSETMODE vt1.pars)

/-- The bytes of a C string held in a buffer: those before the first NUL. -/
def cstring (buf : List Nat) : List Nat := buf.takeWhile (fun b => b ≠ 0)

/-- The handler `title`. -/
def title (vt : TMT) : TMT :=
  let vt1 : TMT := { vt with title := vt.title.set vt.ntitle 0 }
  if vt1.npar ≥ 1 then
    if P0 vt1 0 = 0 ∨ P0 vt1 0 = 2 then CB vt1 (TMT_MSG_TITLE (cstring vt1.title))
    else vt1
  else vt1

/-- The function `reverse_nl`. -/
def reverse_nl (vt : TMT) : Option TMT :=
  let vt1 : TMT := { vt with hang := 0 }
  if vt1.curs.r = vt1.minline then scrdn vt1 SCR_DEF 1
  else if vt1.curs.r > 0 then some { vt1 with curs := { vt1.curs with r := vt1.curs.r - 1 } }
  else some vt1

/-- The function `nl`. -/
def nl (vt : TMT) : Option TMT :=
  if vt.hang ≠ 0 then
    (if vt.hang = 2 then scrup vt SCR_DEF 1 else some vt).bind fun vt1 =>
    some { vt1 with hang := 0 }
  else if vt.curs.r = vt.maxline then scrup vt SCR_DEF 1
  else if vt.curs.r < vt.screen.nline - 1 then
    some { vt with curs := { vt.curs with r := vt.curs.r + 1 } }
  else some vt

/-- The function `cr`. -/
def cr (vt : TMT) : TMT :=
  let vt1 : TMT := { vt with curs := { vt.curs with c := 0 } }
  if vt1.hang = 1 then
    let vt2 : TMT := { vt1 with hang := 0 }
    if vt2.curs.r > vt2.minline ∧ vt2.curs.r ≤ vt2.maxline then
      { vt2 with curs := { vt2.curs with r := vt2.curs.r - 1 } }
    else vt2
  else vt1

/-- The function `margin`. -/
def margin (vt : TMT) (top bot : Nat) : TMT :=
  if top ≥ bot then vt
  else if bot ≥ vt.screen.nline then vt
  else { vt with minline := top, maxline := bot }

/-- The function `xtversion`: the reply `DCS > | name ESC \`. -/
def xtversion (vt : TMT) : TMT :=
  let pre : List Nat := [27, 80, 62, 124]
  let post : List Nat := [27, 92]
  let dflt : List Nat := [116, 109, 116, 40, 48, 46, 48, 46, 48, 41]
  let name :=
    match vt.terminal_name with
    | some tn => if pre.length + post.length + tn.length + 1 ≤ 255 then tn else dflt
    | none => dflt
  CB vt (TMT_MSG_ANSWER (pre ++ name ++ post))

/-! ## Writing a character -/

/-- The function `dec_to_acs`: DEC Special Graphics to the ACS characters. -/
def dec_to_acs (vt : TMT) (w : Nat) : Nat :=
  if w = 95 then 32
  else if 96 ≤ w ∧ w ≤ 97 then vt.acschars.getD (w - 96 + 5) 0
  else if 98 ≤ w ∧ w ≤ 101 then [84, 70, 67, 76].getD (w - 98) 0
  else if 102 ≤ w ∧ w ≤ 103 then vt.acschars.getD (w - 102 + 7) 0
  else if 104 ≤ w ∧ w ≤ 105 then [78, 86].getD (w - 104) 0
  else if 106 ≤ w ∧ w ≤ 126 then vt.acschars.getD (w - 106 + 10) 0
  else w

/-- The cases of the `switch` of `writecharatcurs` that select an entry of
`acschars`: code point and index. -/
def unicode_acs_index : List (Nat × Nat) :=
  [(0x2192, 0), (0x2190, 1), (0x2191, 2), (0x2193, 3), (0x2588, 4), (0x25A6, 9)]

/-- The cases of the `switch` of `writecharatcurs` that go through
`dec_to_acs`: code point and DEC Special Graphics code. -/
def unicode_dec_code : List (Nat × Nat) :=
  [(0x00A0, 0x5f), (0x2666, 0x60), (0x25C6, 0x60), (0x2592, 0x61), (0x2409, 0x62),
   (0x240C, 0x63), (0x240D, 0x64), (0x240A, 0x65), (0x00B0, 0x66), (0x00B1, 0x67),
   (0x2424, 0x68), (0x240B, 0x69), (0x2518, 0x6a), (0x2510, 0x6b), (0x250C, 0x6c),
   (0x2514, 0x6d), (0x253C, 0x6e), (0x23BA, 0x6f), (0x23BB, 0x70), (0x2500, 0x71),
   (0x23BC, 0x72), (0x23BD, 0x73), (0x251C, 0x74), (0x2524, 0x75), (0x2534, 0x76),
   (0x252C, 0x77), (0x2502, 0x78), (0x2264, 0x79), (0x2265, 0x7a), (0x03C0, 0x7b),
   (0x2260, 0x7c), (0x00A3, 0x7d), (0x00B7, 0x7e)]

/-- The `switch (w)` of `writecharatcurs` under `decode_unicode`. -/
def unicode_to_acs (vt : TMT) (w : Nat) : Nat :=
  match unicode_acs_index.lookup w with
  | some i => vt.acschars.getD i 0
  | none =>
    match unicode_dec_code.lookup w with
    | some d => dec_to_acs vt d
    | none => w

/-- The value `vt->xlate[vt->charset]`. -/
def xlate (vt : TMT) : Nat := if vt.charset = 0 then vt.xlate0 else vt.xlate1

/-- The cursor advance at the end of `writecharatcurs`. -/
def advance (vt : TMT) : TMT :=
  let vt1 : TMT :=
    if vt.curs.c < vt.screen.ncol - 1 then
      { vt with curs := { vt.curs with c := vt.curs.c + 1 } }
    else
      { vt with hang := 1, curs := { r := addz vt.curs.r 1, c := 0 } }
  if vt1.hang ≠ 0 ∧ vt1.curs.r > vt1.maxline then
    { vt1 with curs := { vt1.curs with r := vt1.maxline }, hang := 2 }
  else vt1

/-- The translations of `writecharatcurs`: the `switch` under
`decode_unicode`, then `dec_to_acs` when `vt->xlate[vt->charset]` is set. -/
def translate (vt : TMT) (w : Nat) : Nat :=
  if xlate vt ≠ 0 then dec_to_acs vt (if vt.decode_unicode then unicode_to_acs vt w else w)
  else if vt.decode_unicode then unicode_to_acs vt w else w

/-- The stores `CLINE(vt)->chars[vt->curs.c].c = w`, `.a = vt->attrs` and
`CLINE(vt)->dirty = vt->dirty = true`. -/
def putcell (vt : TMT) (w : Nat) : TMT :=
  { vt with
    dirty := true
    screen := { vt.screen with
      lines := vt.screen.lines.set (CLINE vt)
        { dirty := true
          chars := (lineAt vt (CLINE vt)).chars.set vt.curs.c { c := w, a := vt.attrs } } } }

/-- The part of `writecharatcurs` after the hang is cleared: translate, store
and advance. -/
def storechar (vt : TMT) (w : Nat) : Option TMT :=
  if CLINE vt < vt.screen.lines.length ∧ vt.curs.c < (lineAt vt (CLINE vt)).chars.length then
    some (advance (putcell vt (translate vt w)))
  else none

/-- The function `writecharatcurs(vt, w)`. -/
def writecharatcurs (vt : TMT) (w : Nat) : Option TMT :=
  (if vt.hang = 2 then scrup vt SCR_DEF 1 else some vt).bind fun vt1 =>
  storechar { vt1 with hang := 0 } w

/-- The loop of `rep`: `k` calls of `writecharatcurs(vt, w)`. -/
def rep_loop (w : Nat) : Nat → TMT → Option TMT
  | 0, vt => some vt
  | k + 1, vt => (writecharatcurs vt w).bind (rep_loop w k)

/-- The handler `rep` (repeat the character before the cursor). -/
def rep (vt : TMT) : Option TMT :=
  if vt.curs.c = 0 then some vt
  else
    let l := lineAt vt (CLINE vt)
    if vt.curs.c - 1 < l.chars.length then rep_loop (cellAt l (vt.curs.c - 1)).c (P1 vt 0) vt
    else none

/-! ## Reset and resize -/

/-- The function `notify`. -/
def notify (vt : TMT) (update moved : Bool) : TMT :=
  let vt1 := if update then CB vt TMT_MSG_UPDATE else vt
  if moved then CB vt1 (TMT_MSG_MOVED vt1.curs) else vt1

/-- The function `tmt_reset`.  Its `memset(vt, 0, sizeof(vt))` clears as many
bytes as a pointer has, which are those of the first member `curs.r`. -/
def tmt_reset (vt : TMT) : TMT :=
  let vt1 : TMT := { vt with curs := { vt.curs with r := 0 } }
  let vt2 := resetparser vt1
  let vt3 : TMT := { vt2 with attrs := defattrs, oldattrs := defattrs, ms := 0 }
  let vt4 := clearlines vt3 0 vt3.screen.nline
  let vt5 := CB vt4 (TMT_MSG_CURSOR [116])
  notify vt5 true true

/-- The function `allocline(vt, o, n, pc)` without allocation failure: `realloc`
keeps the cells that fit, cells it adds are indeterminate (zero cells here) and
`clearline` blanks the cells from `pc` on. -/
def allocline (vt : TMT) (o : TMTLINE) (n pc : Nat) : TMTLINE :=
  clearline vt
    { dirty := o.dirty, chars := o.chars.take n ++ List.replicate (n - o.chars.length) zerochar }
    pc n

/-- The default tab stops written by `tmt_resize`: column 0, column `ncol - 1`
and every column divisible by `TAB`. -/
def tabstops (ncol : Nat) : Nat → List TMTCHAR → List TMTCHAR
  | _, [] => []
  | i, ch :: rest =>
    (if i = 0 ∨ i = ncol - 1 ∨ i % TAB = 0 then { ch with c := 42 } else ch)
      :: tabstops ncol (i + 1) rest

/-- The function `tmt_resize` without allocation failure. -/
def tmt_resize (vt : TMT) (nline ncol : Nat) : TMT × Bool :=
  if nline < 2 ∨ ncol < 2 then (vt, false)
  else
    let pc := vt.screen.ncol
    let vt1 : TMT := { vt with screen := { vt.screen with ncol := ncol } }
    let lines := (List.range nline).map fun i =>
      if i ≥ vt.screen.nline then allocline vt1 nullline ncol 0
      else allocline vt1 (lineAt vt i) ncol pc
    let vt2 : TMT :=
      { vt1 with
        dirty := true
        screen := { nline := nline, ncol := ncol, lines := lines }
        minline := 0
        maxline := nline - 1 }
    let tabs := allocline vt2 vt2.tabs ncol 0
    let vt3 : TMT := { vt2 with tabs := { tabs with chars := tabstops ncol 0 tabs.chars } }
    (notify (dirtylines (fixcursor vt3) 0 nline) true true, true)

/-- The default `acschars` of `tmt_open`. -/
def default_acschars : List Nat :=
  [62, 60, 94, 118, 35, 43, 58, 111, 35, 35, 43, 43, 43, 43, 43, 126,
   45, 45, 45, 95, 43, 43, 43, 43, 124, 60, 62, 42, 33, 102, 111]

/-- The instance of zero bytes that `calloc` returns. -/
def calloc_TMT : TMT :=
  { curs := { r := 0, c := 0 }, oldcurs := { r := 0, c := 0 }
    attrs := zeroattrs, oldattrs := zeroattrs
    hang := 0, terminal_name := none, minline := 0, maxline := 0
    dirty := false, acs := false, ignored := false
    screen := { nline := 0, ncol := 0, lines := [] }
    tabs := nullline, acschars := []
    charset := 0, xlate0 := 0, xlate1 := 0, decode_unicode := false
    ms := 0, nmb := 0, mb := List.replicate (BUF_MAX + 1) 0
    title := List.replicate (TITLE_MAX + 1) 0, ntitle := 0
    pars := List.replicate PAR_MAX 0, npar := 0, arg := 0, q := false
    state := S_NUL, out := [] }

/-- The function `tmt_open` without allocation failure; `none` is the null
pointer. -/
def tmt_open (nline ncol : Nat) (acs : Option (List Nat)) : Option TMT :=
  if nline = 0 ∨ ncol = 0 then none
  else
    let vt : TMT := { calloc_TMT with acschars := acs.getD default_acschars }
    match tmt_resize vt nline ncol with
    | (vt1, true) => some vt1
    | (_, false) => none

/-- The function `tmt_screen`. -/
def tmt_screen (vt : TMT) : TMTSCREEN := vt.screen

/-- The function `tmt_cursor`. -/
def tmt_cursor (vt : TMT) : TMTPOINT := vt.curs

/-- The function `tmt_clean`. -/
def tmt_clean (vt : TMT) : TMT :=
  { vt with
    dirty := if 0 < vt.screen.nline then false else vt.dirty
    screen := { vt.screen with
      lines := vt.screen.lines.map fun l => { l with dirty := false } } }

/-! ## The escape-sequence state machine -/

/-- The call `strchr(C, i) != NULL` for a string `C` without its terminator:
the terminating NUL of `C` is found when `i` is 0. -/
def strchr (C : List Nat) (i : Nat) : Bool := i == 0 || C.contains i

/-- The call `atoi(cs)` for the string `cs = {i, 0}`. -/
def atoi (i : Nat) : Nat := if 48 ≤ i ∧ i ≤ 57 then i - 48 else 0

/-- The loop `while (++c->c < s->ncol - 1 && t[c->c].c != L'*')` from the
column `c`; the first argument bounds the number of iterations and `ncol`
iterations are never exceeded. -/
def tabfwd (vt : TMT) : Nat → Nat → Nat
  | 0, c => c + 1
  | k + 1, c =>
    if c + 1 < vt.screen.ncol - 1 ∧ (cellAt vt.tabs (c + 1)).c ≠ 42 then tabfwd vt k (c + 1)
    else c + 1

/-- The loop `while (c->c && t[--c->c].c != L'*')` from the column `c`; the
first argument bounds the number of iterations and `c` iterations are never
exceeded. -/
def tabback (vt : TMT) : Nat → Nat → Nat
  | 0, c => c
  | k + 1, c =>
    if c ≠ 0 then
      if (cellAt vt.tabs (c - 1)).c ≠ 42 then tabback vt k (c - 1) else c - 1
    else c

/-- The cursor with its row replaced. -/
def setrow (vt : TMT) (r : Nat) : TMT := { vt with curs := { vt.curs with r := r } }

/-- The cursor with its column replaced. -/
def setcol (vt : TMT) (c : Nat) : TMT := { vt with curs := { vt.curs with c := c } }

/-- The action `vt->oldcurs = vt->curs; vt->oldattrs = vt->attrs`. -/
def savecurs (vt : TMT) : TMT := { vt with oldcurs := vt.curs, oldattrs := vt.attrs }

/-- The action `vt->curs = vt->oldcurs; vt->attrs = vt->oldattrs`. -/
def restorecurs (vt : TMT) : TMT := { vt with curs := vt.oldcurs, attrs := vt.oldattrs }

/-- The action `t[c->c].c = L'*'`. -/
def settab (vt : TMT) : Option TMT :=
  if vt.curs.c < vt.tabs.chars.length then
    some { vt with
      tabs := { vt.tabs with
        chars := vt.tabs.chars.set vt.curs.c { cellAt vt.tabs vt.curs.c with c := 42 } } }
  else none

/-- The assignment `vt->state = s`. -/
def setstate (vt : TMT) (s : State) : TMT := { vt with state := s }

/-- The assignment `vt->charset = v`. -/
def setcharset (vt : TMT) (v : Nat) : TMT := { vt with charset := v }

/-- The assignment `vt->xlate[0] = v`. -/
def setxlate0 (vt : TMT) (v : Nat) : TMT := { vt with xlate0 := v }

/-- The assignment `vt->xlate[1] = v`. -/
def setxlate1 (vt : TMT) (v : Nat) : TMT := { vt with xlate1 := v }

/-- The action `vt->q = 1`. -/
def setq (vt : TMT) : TMT := { vt with q := true }

/-- The action `vt->ignored = true; vt->state = S_ARG`. -/
def act_ignore (vt : TMT) : TMT := { vt with ignored := true, state := S_ARG }

/-- The action `vt->arg = vt->arg * 10 + atoi(cs)`. -/
def act_digit (vt : TMT) (i : Nat) : TMT := { vt with arg := addz (mulz vt.arg 10) (atoi i) }

/-- The action `if (c->c) c->c--`. -/
def act_bs (vt : TMT) : TMT := if vt.curs.c ≠ 0 then setcol vt (vt.curs.c - 1) else vt

/-- The action `while (++c->c < s->ncol - 1 && t[c->c].c != L'*')`. -/
def act_ht (vt : TMT) : TMT := setcol vt (tabfwd vt vt.screen.ncol vt.curs.c)

/-- The action `while (c->c && t[--c->c].c != L'*')`. -/
def act_cbt (vt : TMT) : TMT := setcol vt (tabback vt vt.curs.c vt.curs.c)

/-- The action `if (!vt->q) CB(vt, TMT_MSG_ANSWER, "\033[?6c")`. -/
def act_da (vt : TMT) : TMT :=
  if vt.q then vt else CB vt (TMT_MSG_ANSWER [27, 91, 63, 54, 99])

/-- The action `if (P0(0) == 3) clearline(vt, vt->tabs, 0, s->ncol)`. -/
def act_tbc (vt : TMT) : TMT :=
  if P0 vt 0 = 3 then clearline_tabs vt 0 vt.screen.ncol else vt

/-- The action `if (P0(0) == 6) dsr(vt)`. -/
def act_dsr (vt : TMT) : TMT := if P0 vt 0 = 6 then dsr vt else vt

/-- One line `ON(S, C, A)` or `DO(S, C, A)` of `handlechar`: the state, the
characters, whether the line is a `DO`, and the action on the instance and the
input character. -/
structure Rule where
  S : State
  C : List Nat
  isDO : Bool
  A : TMT → Nat → Option TMT

/-- The lines of `handlechar`, in the order of the source. -/
def rules : List Rule :=
  [ ⟨S_NUL, [7], true, fun vt _ => some (CB vt TMT_MSG_BELL)⟩,
    ⟨S_NUL, [8], true, fun vt _ => some (act_bs vt)⟩,
    ⟨S_NUL, [9], true, fun vt _ => some (act_ht vt)⟩,
    ⟨S_NUL, [10], true, fun vt _ => nl vt⟩,
    ⟨S_NUL, [13], true, fun vt _ => some (cr vt)⟩,
    ⟨S_NUL, [14], true, fun vt _ => some (setcharset vt 1)⟩,
    ⟨S_NUL, [15], true, fun vt _ => some (setcharset vt 0)⟩,
    ⟨S_NUL, [27], false, fun vt _ => some (setstate vt S_ESC)⟩,
    ⟨S_ESC, [27], false, fun vt _ => some (setstate vt S_ESC)⟩,
    ⟨S_ESC, [61], true, fun vt _ => some vt⟩,
    ⟨S_ESC, [62], true, fun vt _ => some vt⟩,
    ⟨S_ESC, [72], true, fun vt _ => settab vt⟩,
    ⟨S_ESC, [55], true, fun vt _ => some (savecurs vt)⟩,
    ⟨S_ESC, [56], true, fun vt _ => some (restorecurs vt)⟩,
    ⟨S_ESC, [43, 42], false, fun vt _ => some (act_ignore vt)⟩,
    ⟨S_ESC, [99], true, fun vt _ => some (tmt_reset vt)⟩,
    ⟨S_ESC, [77], true, fun vt _ => reverse_nl vt⟩,
    ⟨S_ESC, [91], false, fun vt _ => some (setstate vt S_ARG)⟩,
    ⟨S_ESC, [93], false, fun vt _ => some (setstate vt S_TITLE_ARG)⟩,
    ⟨S_ARG, [27], false, fun vt _ => some (setstate vt S_ESC)⟩,
    ⟨S_ARG, [59], false, fun vt _ => some (consumearg vt)⟩,
    ⟨S_ARG, [63], false, fun vt _ => some (setq vt)⟩,
    ⟨S_ARG, [48, 49, 50, 51, 52, 53, 54, 55, 56, 57], false, fun vt i => some (act_digit vt i)⟩,
    ⟨S_TITLE_ARG, [48, 49, 50], false, fun vt i => some (act_digit vt i)⟩,
    ⟨S_TITLE_ARG, [59], false, fun vt _ => some (setstate (consumearg vt) S_TITLE)⟩,
    ⟨S_ARG, [65], true, fun vt _ => some (setrow vt (MAX (subz vt.curs.r (P1 vt 0)) 0))⟩,
    ⟨S_ARG, [66], true,
      fun vt _ => some (setrow vt (MIN (addz vt.curs.r (P1 vt 0)) (vt.screen.nline - 1)))⟩,
    ⟨S_ARG, [67], true,
      fun vt _ => some (setcol vt (MIN (addz vt.curs.c (P1 vt 0)) (vt.screen.ncol - 1)))⟩,
    ⟨S_ARG, [68], true, fun vt _ => some (setcol vt (MIN (subz vt.curs.c (P1 vt 0)) vt.curs.c))⟩,
    ⟨S_ARG, [69], true,
      fun vt _ => some (setrow (setcol vt 0) (MIN (addz vt.curs.r (P1 vt 0)) (vt.screen.nline - 1)))⟩,
    ⟨S_ARG, [70], true,
      fun vt _ => some (setrow (setcol vt 0) (MAX (subz vt.curs.r (P1 vt 0)) 0))⟩,
    ⟨S_ARG, [71], true,
      fun vt _ => some (setcol vt (MIN (subz (P1 vt 0) 1) (vt.screen.ncol - 1)))⟩,
    ⟨S_ARG, [100], true,
      fun vt _ => some (setrow vt (MIN (subz (P1 vt 0) 1) (vt.screen.nline - 1)))⟩,
    ⟨S_ARG, [114], true, fun vt _ => some (margin vt (subz (P1 vt 0) 1) (subz (P1 vt 1) 1))⟩,
    ⟨S_ARG, [72, 102], true,
      fun vt _ => some (setcol (setrow vt (subz (P1 vt 0) 1)) (subz (P1 vt 1) 1))⟩,
    ⟨S_ARG, [73], true, fun vt _ => some (act_ht vt)⟩,
    ⟨S_ARG, [74], true, fun vt _ => some (ed vt)⟩,
    ⟨S_ARG, [75], true, fun vt _ => some (el vt)⟩,
    ⟨S_ARG, [76], true, fun vt _ => scrdn vt vt.curs.r (P1 vt 0)⟩,
    ⟨S_ARG, [77], true, fun vt _ => scrup vt vt.curs.r (P1 vt 0)⟩,
    ⟨S_ARG, [80], true, fun vt _ => dch vt⟩,
    ⟨S_ARG, [83], true, fun vt _ => scrup vt SCR_DEF (P1 vt 0)⟩,
    ⟨S_ARG, [84], true, fun vt _ => scrdn vt SCR_DEF (P1 vt 0)⟩,
    ⟨S_ARG, [88], true,
      fun vt _ => some (clearline_at vt (CLINE vt) vt.curs.c (addz vt.curs.c (P1 vt 0)))⟩,
    ⟨S_ARG, [90], true, fun vt _ => some (act_cbt vt)⟩,
    ⟨S_ARG, [98], true, fun vt _ => rep vt⟩,
    ⟨S_ARG, [99], true, fun vt _ => some (act_da vt)⟩,
    ⟨S_ARG, [103], true, fun vt _ => some (act_tbc vt)⟩,
    ⟨S_ARG, [109], true, fun vt _ => some (sgr vt)⟩,
    ⟨S_ARG, [110], true, fun vt _ => some (act_dsr vt)⟩,
    ⟨S_ARG, [104], true, fun vt _ => some (sm vt)⟩,
    ⟨S_ARG, [108], true, fun vt _ => some (rm vt)⟩,
    ⟨S_ARG, [105], true, fun vt _ => some vt⟩,
    ⟨S_ARG, [115], true, fun vt _ => some (savecurs vt)⟩,
    ⟨S_ARG, [117], true, fun vt _ => some (restorecurs vt)⟩,
    ⟨S_ARG, [62], false, fun vt _ => some (setstate vt S_GT_ARG)⟩,
    ⟨S_GT_ARG, [99], true,
      fun vt _ => some (CB vt (TMT_MSG_ANSWER [27, 91, 62, 48, 59, 57, 53, 99]))⟩,
    ⟨S_GT_ARG, [113], true, fun vt _ => some (xtversion vt)⟩,
    ⟨S_TITLE, [7], true, fun vt _ => some (title vt)⟩,
    ⟨S_ARG, [64], true, fun vt _ => ich vt⟩,
    ⟨S_ESC, [40], false, fun vt _ => some (setstate vt S_LPAREN)⟩,
    ⟨S_ESC, [41], false, fun vt _ => some (setstate vt S_RPAREN)⟩,
    ⟨S_LPAREN, [65, 66, 49, 50], true, fun vt _ => some (setxlate0 vt 0)⟩,
    ⟨S_LPAREN, [48], true, fun vt _ => some (setxlate0 vt 1)⟩,
    ⟨S_RPAREN, [65, 66, 49, 50], true, fun vt _ => some (setxlate1 vt 0)⟩,
    ⟨S_RPAREN, [48], true, fun vt _ => some (setxlate1 vt 1)⟩ ]

/-- The macro `DO`: `consumearg(vt); if (!vt->ignored) {A;} fixcursor(vt);
resetparser(vt);`. -/
def DO (vt : TMT) (A : TMT → Option TMT) : Option TMT :=
  (if (consumearg vt).ignored then some (consumearg vt) else A (consumearg vt)).bind fun vt2 =>
  some (resetparser (fixcursor vt2))

/-- The body of a line of `handlechar` whose guard holds. -/
def Rule.run (ru : Rule) (vt : TMT) (i : Nat) : Option TMT :=
  if ru.isDO then DO vt (fun v => ru.A v i) else ru.A vt i

/-- The guard `vt->state == (S) && strchr(C, i)` of a line. -/
def Rule.guard (ru : Rule) (vt : TMT) (i : Nat) : Bool :=
  decide (ru.S = vt.state) && strchr ru.C i

/-- The function `handlechar`: the first line whose guard holds runs and the
result is true; without one, a title byte is stored (true) or the parser is
reset (false). -/
def handlechar (vt : TMT) (i : Nat) : Option (TMT × Bool) :=
  match rules.find? (fun ru => ru.guard vt i) with
  | some ru => (ru.run vt i).map fun vt1 => (vt1, true)
  | none =>
    if vt.state = S_TITLE ∧ schar i ≥ 32 ∧ vt.ntitle < TITLE_MAX then
      some ({ vt with title := vt.title.set vt.ntitle i, ntitle := vt.ntitle + 1 }, true)
    else some (resetparser vt, false)

/-! ## The byte decoder and `tmt_write` -/

/-- The result of a call of `mbrtowc`: the value returned, the wide character
stored and the conversion state left. -/
structure MbResult where
  ret : Nat
  wc : Nat
  ps : Nat

/-- The part of the C library that `tmt_write` uses: `MB_LEN_MAX` and
`mbrtowc`, as a function of the conversion state and the bytes given. -/
structure LibC where
  MB_LEN_MAX : Nat
  mbrtowc : Nat → List Nat → MbResult

/-- The function `testmbchar`. -/
def testmbchar (libc : LibC) (vt : TMT) : Nat :=
  if vt.nmb ≠ 0 then (libc.mbrtowc vt.ms (vt.mb.take vt.nmb)).ret else SIZE_MAX - 1

/-- The function `getmbchar`: the instance left and the character returned. -/
def getmbchar (libc : LibC) (vt : TMT) : TMT × Nat :=
  let res := libc.mbrtowc vt.ms (vt.mb.take vt.nmb)
  ({ vt with ms := res.ps, nmb := 0 },
   if res.ret = SIZE_MAX ∨ res.ret = SIZE_MAX - 1 then TMT_INVALID_CHAR else res.wc)

/-- The call `writecharatcurs(vt, getmbchar(vt))`. -/
def writemb (libc : LibC) (vt : TMT) : Option TMT :=
  writecharatcurs (getmbchar libc vt).1 (getmbchar libc vt).2

/-- The store `vt->mb[vt->nmb++] = s[p]`. -/
def pushmb (vt : TMT) (b : Nat) : TMT :=
  { vt with mb := vt.mb.set vt.nmb b, nmb := vt.nmb + 1 }

/-- The body of the loop of `tmt_write` for the byte `b`. -/
def tmt_write_byte (libc : LibC) (vt : TMT) (b : Nat) : Option TMT :=
  (handlechar vt b).bind fun res =>
  let vt1 := res.1
  if res.2 then some { vt1 with hang := 0 }
  else if vt1.acs then writecharatcurs vt1 (tacs vt1 b)
  else if vt1.nmb ≥ BUF_MAX then writemb libc vt1
  else
    (if testmbchar libc vt1 = SIZE_MAX then writemb libc vt1
     else if testmbchar libc vt1 = SIZE_MAX - 1 then
       some (pushmb vt1 b)
     else some vt1).bind fun vt2 =>
    if testmbchar libc vt2 ≤ libc.MB_LEN_MAX then writemb libc vt2 else some vt2

/-- The loop of `tmt_write` over the bytes. -/
def tmt_write_loop (libc : LibC) : TMT → List Nat → Option TMT
  | vt, [] => some vt
  | vt, b :: bs => (tmt_write_byte libc vt b).bind fun vt1 => tmt_write_loop libc vt1 bs

/-- The bytes that `tmt_write(vt, s, n)` reads from the buffer `s`. -/
def input_bytes (s : List Nat) (n : Nat) : List Nat :=
  if n ≠ 0 then s.take n else s.takeWhile (fun b => b ≠ 0)

/-- The function `tmt_write(vt, s, n)`. -/
def tmt_write (libc : LibC) (vt : TMT) (s : List Nat) (n : Nat) : Option TMT :=
  (tmt_write_loop libc vt (input_bytes s n)).map fun vt1 =>
    notify vt1 vt1.dirty (decide (vt.curs ≠ vt1.curs))

/-- A C library in the "C" locale: a byte below 128 is a character of its own
(NUL returns 0), any other byte is an invalid sequence. -/
def clocale : LibC :=
  { MB_LEN_MAX := 16
    mbrtowc := fun ps s =>
      match s with
      | [] => { ret := SIZE_MAX - 1, wc := 0, ps := ps }
      | b :: _ =>
        if b = 0 then { ret := 0, wc := 0, ps := ps }
        else if b < 128 then { ret := 1, wc := b, ps := ps }
        else { ret := SIZE_MAX, wc := 0, ps := ps } }

/-! ## Predicates of the verification -/

/-- The screen dimensions and the scroll region of an instance. -/
def geo (vt : TMT) : Nat × Nat × Nat × Nat :=
  (vt.screen.nline, vt.screen.ncol, vt.minline, vt.maxline)

/-- On dimensions and scroll region: the screen has a line and a column and
the scroll region is a proper range of its lines. -/
def RegionP (g : Nat × Nat × Nat × Nat) : Prop :=
  1 ≤ g.1 ∧ 1 ≤ g.2.1 ∧ g.2.2.1 < g.2.2.2 ∧ g.2.2.2 < g.1

/-- The region invariant of an instance: `1 ≤ nline`, `1 ≤ ncol` and
`minline < maxline < nline`. -/
def RegionOK (vt : TMT) : Prop := RegionP (geo vt)

/-- The cursor lies on the screen. -/
def CursorOK (vt : TMT) : Prop :=
  vt.curs.r < vt.screen.nline ∧ vt.curs.c < vt.screen.ncol

/-- The states an instance can be in between calls: it is opened with
`tmt_open` and driven by `tmt_write` calls that return, `tmt_resize` calls
(accepted or refused), `tmt_reset`, `tmt_clean` and `tmt_set_unicode_decode`. -/
inductive Reachable (libc : LibC) : TMT → Prop
  | opened (nline ncol : Nat) (acs : Option (List Nat)) (vt : TMT) :
      tmt_open nline ncol acs = some vt → Reachable libc vt
  | write (vt : TMT) (s : List Nat) (n : Nat) (vt' : TMT) :
      Reachable libc vt → tmt_write libc vt s n = some vt' → Reachable libc vt'
  | resize (vt : TMT) (nline ncol : Nat) :
      Reachable libc vt → Reachable libc (tmt_resize vt nline ncol).1
  | reset (vt : TMT) : Reachable libc vt → Reachable libc (tmt_reset vt)
  | clean (vt : TMT) : Reachable libc vt → Reachable libc (tmt_clean vt)
  | decode (vt : TMT) (v : Bool) :
      Reachable libc vt → Reachable libc (tmt_set_unicode_decode vt v).1

/-- A fresh instance of 2 lines and 2 columns. -/
def fresh22 : TMT := (tmt_resize { calloc_TMT with acschars := default_acschars } 2 2).1

/-- The cell in line `i`, column `j` of the screen. -/
def cell (vt : TMT) (i j : Nat) : TMTCHAR := cellAt (lineAt vt i) j

/-- The screen has `nline` lines of `ncol` cells each. -/
def ScreenOK (vt : TMT) : Prop :=
  vt.screen.lines.length = vt.screen.nline ∧
    ∀ l ∈ vt.screen.lines, l.chars.length = vt.screen.ncol

/-- The messages of `notify`: `UPDATE` and `MOVED`. -/
def isEndMsg : tmt_msg_t → Bool
  | TMT_MSG_UPDATE => true
  | TMT_MSG_MOVED _ => true
  | _ => false

/-- The log `b` is the log `a` followed by messages other than `UPDATE` and
`MOVED`. -/
def Inline (a b : List tmt_msg_t) : Prop :=
  ∃ l, b = a ++ l ∧ ∀ m ∈ l, isEndMsg m = false

/-- A full reset runs while `tmt_write` processes the bytes: for one of them
`handlechar` takes the line `DO(S_ESC, "c", tmt_reset(vt))` outside an ignored
sequence. -/
def reset_runs (libc : LibC) : TMT → List Nat → Bool
  | _, [] => false
  | vt, b :: bs =>
    (decide (vt.state = S_ESC) && decide (b = 99) && !vt.ignored) ||
      match tmt_write_byte libc vt b with
      | some vt1 => reset_runs libc vt1 bs
      | none => false

/-- The fresh 2 x 2 instance after a call that delivered `BELL` and `UPDATE`
and changed nothing else. -/
def fresh22_belled : TMT :=
  { fresh22 with out := fresh22.out ++ [TMT_MSG_BELL, TMT_MSG_UPDATE] }

/-- The decoder takes every printable ASCII byte in the conversion state `ms`
as a character of its own and stays in that state. -/
def AsciiLibC (libc : LibC) (ms : Nat) : Prop :=
  1 ≤ libc.MB_LEN_MAX ∧
    ∀ b, 32 ≤ b → b ≤ 126 →
      (libc.mbrtowc ms [b]).ret = 1 ∧ (libc.mbrtowc ms [b]).wc = b ∧
        (libc.mbrtowc ms [b]).ps = ms

/-- The instance takes printable text as it is: the parser is in the state
`S_NUL`, the decoder carry is empty, and neither the ACS flag nor a charset
translation is active. -/
def TextReady (libc : LibC) (vt : TMT) : Prop :=
  vt.state = S_NUL ∧ vt.acs = false ∧ vt.nmb = 0 ∧ xlate vt = 0 ∧ 0 < vt.mb.length ∧
    AsciiLibC libc vt.ms

/-- The instance after `tmt_write` has processed the printable byte `b`
outside a hang past the bottom: the parser is reset, the byte has gone through
the carry, the cell under the cursor is written and the cursor advanced. -/
def typed (vt : TMT) (b : Nat) : TMT :=
  advance (putcell { resetparser vt with mb := vt.mb.set 0 b, nmb := 0, hang := 0 } b)

/-- The dimensions of the screen are `size_t` values. -/
def DimsOK (vt : TMT) : Prop :=
  vt.screen.nline < SIZE_MOD ∧ vt.screen.ncol < SIZE_MOD

/-- A 4 x 2 instance with the scroll region on the lines 0..1 and the cursor
at (2, 0), below the region: a fresh instance after `ESC [ 1 ; 2 r` and
`ESC [ 3 ; 1 H`. -/
def below42 : Option TMT :=
  (tmt_open 4 2 none).bind fun vt =>
    tmt_write clocale vt [27, 91, 49, 59, 50, 114, 27, 91, 51, 59, 49, 72] 12

/-- A 4 x 2 instance with the scroll region on the lines 1..2 and the cursor
at (0, 0), above the region: a fresh instance after `ESC [ 2 ; 3 r`. -/
def above42 : Option TMT :=
  (tmt_open 4 2 none).bind fun vt => tmt_write clocale vt [27, 91, 50, 59, 51, 114] 6

/-- The parser as `resetparser` leaves it: ground state, no argument being
read, no parameter stored, nothing ignored. -/
def Ground (vt : TMT) : Prop :=
  vt.state = S_NUL ∧ vt.arg = 0 ∧ vt.npar = 0 ∧ vt.pars = List.replicate PAR_MAX 0 ∧
    vt.ignored = false ∧ vt.q = false ∧ vt.ntitle = 0

/-- The value that a decimal numeral denotes; the numeral is a list of the
ASCII digits `0`..`9`, the empty numeral denotes 0. -/
def numval (ds : List Nat) : Nat := ds.foldl (fun acc d => acc * 10 + (d - 48)) 0

/-- The decimal rendering of a number, as ASCII digits. -/
def decimal (n : Nat) : List Nat := (Nat.toDigits 10 n).map Char.toNat

/-- A list of ASCII decimal digits. -/
def IsNumeral (ds : List Nat) : Prop := ∀ d ∈ ds, 48 ≤ d ∧ d ≤ 57

/-- The parameter table holding the values `vals` in its first entries and
zero in the others. -/
def parsOf (vals : List Nat) : List Nat := vals ++ List.replicate (PAR_MAX - vals.length) 0

/-- The parser inside a control sequence (`ESC [` read): the parameters
`vals` are stored and the argument being read has the value `x`. -/
def csi_state (vt : TMT) (vals : List Nat) (x : Nat) : TMT :=
  { vt with state := S_ARG, hang := 0, pars := parsOf vals, npar := vals.length, arg := x }

/-- The parameter numerals `p1 ; ... ; pk` of a control sequence, separated
by `;`. -/
def csi_params : List (List Nat) → List Nat
  | [] => []
  | [p] => p
  | p :: q :: rest => p ++ 59 :: csi_params (q :: rest)

/-- The bytes of the control sequence `ESC [ p1 ; ... ; pk F` with the
parameter numerals `ps` and the final byte `F`. -/
def csi_bytes (ps : List (List Nat)) (F : Nat) : List Nat :=
  [27, 91] ++ csi_params ps ++ [F]

/-- The colour with the number `k` among the eight ANSI colours, in the order
of the enumeration `tmt_color_t` (`BLACK` = 0, ..., `WHITE` = 7). -/
def ansi_colour : Nat → tmt_color_t
  | 0 => TMT_COLOR_BLACK
  | 1 => TMT_COLOR_RED
  | 2 => TMT_COLOR_GREEN
  | 3 => TMT_COLOR_YELLOW
  | 4 => TMT_COLOR_BLUE
  | 5 => TMT_COLOR_MAGENTA
  | 6 => TMT_COLOR_CYAN
  | 7 => TMT_COLOR_WHITE
  | _ => TMT_COLOR_DEFAULT

/-- The effect of one SGR parameter on the attributes, in the words of the
specification: 0 gives the defaults; 1/22, 2/23, 4/24, 5/25, 7/27, 8/28 set
and clear bold, dim, underline, blink, reverse, invisible; 30..37 and 40..47
set the foreground and the background to the colour `p - 30` and `p - 40`;
39 and 49 set them to `DEFAULT`; any other value changes nothing. -/
def sgr_spec (a : TMTATTRS) (p : Nat) : TMTATTRS :=
  if p = 0 then defattrs
  else if p = 1 then { a with bold := true }
  else if p = 22 then { a with bold := false }
  else if p = 2 then { a with dim := true }
  else if p = 23 then { a with dim := false }
  else if p = 4 then { a with underline := true }
  else if p = 24 then { a with underline := false }
  else if p = 5 then { a with blink := true }
  else if p = 25 then { a with blink := false }
  else if p = 7 then { a with reverse := true }
  else if p = 27 then { a with reverse := false }
  else if p = 8 then { a with invisible := true }
  else if p = 28 then { a with invisible := false }
  else if 30 ≤ p ∧ p ≤ 37 then { a with fg := ansi_colour (p - 30) }
  else if 40 ≤ p ∧ p ≤ 47 then { a with bg := ansi_colour (p - 40) }
  else if p = 39 then { a with fg := TMT_COLOR_DEFAULT }
  else if p = 49 then { a with bg := TMT_COLOR_DEFAULT }
  else a

/-- The saved cursor and the saved attributes. -/
def saved (vt : TMT) : TMTPOINT × TMTATTRS := (vt.oldcurs, vt.oldattrs)

/-- The dimensions of the screen. -/
def dims (vt : TMT) : Nat × Nat := (vt.screen.nline, vt.screen.ncol)

/-- A save or a full reset runs while `tmt_write` processes the bytes: for one
of them `handlechar` takes the line `DO(S_ESC, "7", ...)`, `DO(S_ARG, "s", ...)`
or `DO(S_ESC, "c", tmt_reset(vt))` outside an ignored sequence. -/
def save_runs (libc : LibC) : TMT → List Nat → Bool
  | _, [] => false
  | vt, b :: bs =>
    (!vt.ignored &&
      ((decide (vt.state = S_ESC) && (decide (b = 55) || decide (b = 99))) ||
        (decide (vt.state = S_ARG) && decide (b = 115)))) ||
      match tmt_write_byte libc vt b with
      | some vt1 => save_runs libc vt1 bs
      | none => false

instance (vt : TMT) : Decidable (Ground vt) := by unfold Ground; infer_instance

/-- The input side of the instance is idle: the parser is in the state
`S_NUL`, the decoder carry is empty, and the decoder takes printable ASCII
bytes as they are. -/
def InputReady (libc : LibC) (vt : TMT) : Prop :=
  vt.state = S_NUL ∧ vt.nmb = 0 ∧ 0 < vt.mb.length ∧ AsciiLibC libc vt.ms

/-- A C library in a UTF-8 locale, for sequences of one and two bytes: a byte
below 128 is a character of its own (NUL returns 0), a lead byte 0xC2..0xDF
alone is an incomplete sequence, followed by a continuation byte 0x80..0xBF it
is a character of two bytes, and anything else is an invalid sequence. -/
def utf8locale : LibC :=
  { MB_LEN_MAX := 16
    mbrtowc := fun ps s =>
      match s with
      | [] => { ret := SIZE_MAX - 1, wc := 0, ps := ps }
      | [b] =>
        if b = 0 then { ret := 0, wc := 0, ps := ps }
        else if b < 128 then { ret := 1, wc := b, ps := ps }
        else if 194 ≤ b ∧ b ≤ 223 then { ret := SIZE_MAX - 1, wc := 0, ps := ps }
        else { ret := SIZE_MAX, wc := 0, ps := ps }
      | b :: b2 :: _ =>
        if b = 0 then { ret := 0, wc := 0, ps := ps }
        else if b < 128 then { ret := 1, wc := b, ps := ps }
        else if 194 ≤ b ∧ b ≤ 223 ∧ 128 ≤ b2 ∧ b2 ≤ 191 then
          { ret := 2, wc := (b - 192) * 64 + (b2 - 128), ps := ps }
        else { ret := SIZE_MAX, wc := 0, ps := ps } }

/-- A fresh 2 x 2 instance after `ESC ( 0`: the DEC special graphics set is
designated to G0, the charset in use. -/
def graphics22 : Option TMT :=
  (tmt_open 2 2 none).bind fun vt => tmt_write clocale vt [27, 40, 48] 3

/-- A fresh 2 x 2 instance in a UTF-8 locale after the byte 0xC3: the lead
byte of a two-byte character is the decoder carry. -/
def carry22 : Option TMT :=
  (tmt_open 2 2 none).bind fun vt => tmt_write utf8locale vt [195] 1

/-- The instance `graphics22` with the cursor moved to (1, 0) by
`ESC [ 2 ; 1 H`. -/
def graphics22_bottom : Option TMT :=
  graphics22.bind fun vt => tmt_write clocale vt [27, 91, 50, 59, 49, 72] 6

/-- The instance `carry22` with the cursor moved to (1, 0) by
`ESC [ 2 ; 1 H`. -/
def carry22_bottom : Option TMT :=
  carry22.bind fun vt => tmt_write utf8locale vt [27, 91, 50, 59, 49, 72] 6

/-- The fields of the parser that `resetparser` sets. -/
def pstate (vt : TMT) : State × Nat × Nat × List Nat × Bool × Bool × Nat :=
  (vt.state, vt.arg, vt.npar, vt.pars, vt.ignored, vt.q, vt.ntitle)

/-- The sizes of the title buffer and of the decoder buffer. -/
def bufs (vt : TMT) : Nat × Nat := (vt.title.length, vt.mb.length)

/-- The parser invariant of an instance: in the state `S_NUL` the parser is as
`resetparser` leaves it, and the title buffer and the decoder buffer have the
sizes of their declarations. -/
def ParserOK (vt : TMT) : Prop :=
  (vt.state = S_NUL → Ground vt) ∧ bufs vt = (TITLE_MAX + 1, BUF_MAX + 1)

/-- The instance with the messages `o` put before its log of messages. -/
def addout (o : List tmt_msg_t) (vt : TMT) : TMT := { vt with out := o ++ vt.out }

/-- The column `j` is a tab stop: the tab line holds `'*'` there. -/
def IsTab (vt : TMT) (j : Nat) : Prop := (cellAt vt.tabs j).c = 42

/-- The tab stops are the defaults of `tmt_resize`: a column of the screen is
a tab stop exactly when it is divisible by `TAB` or is the last column. -/
def DefaultTabs (vt : TMT) : Prop :=
  ∀ j, j < vt.screen.ncol → (IsTab vt j ↔ (j % TAB = 0 ∨ j = vt.screen.ncol - 1))

/-- The lines of `freelines`: those with index in `[lo, hi)` are freed and
their pointers set to NULL. -/
def freerows (lo hi : Nat) : Nat → List TMTLINE → List TMTLINE
  | _, [] => []
  | i, l :: rest => (if lo ≤ i ∧ i < hi then nullline else l) :: freerows lo hi (i + 1) rest

/-- The call `freelines(vt, s, n, false)`. -/
def freelines (vt : TMT) (s n : Nat) : TMT :=
  { vt with screen := { vt.screen with lines := freerows s (addz s n) 0 vt.screen.lines } }

/-- The function `tmt_resize` with allocation failure.  The allocations of a
call are counted in the order in which the function makes them: 0 is the
`realloc` of the line-pointer array, `1 + i` the `allocline` of line `i`, and
`nline + 1` the `allocline` of the tab line; `fail k` says that allocation `k`
fails.  A failed `realloc` leaves its block as it is.  The function returns at
the first failure: after the array with the lines from `nline` on freed; after
line `k` with `screen.ncol` already set, the lines before `k` reallocated,
`screen.nline` and the cursor as they were; after the tab line with the new
dimensions and scroll region set, the tab line NULL, the cursor as it was and
the line-pointer array freed (the empty list here).  An entry that `realloc`
adds to the array is indeterminate (`nullline` here) until the loop assigns it.
Without a failure the call is `tmt_resize`. -/
def tmt_resize_alloc (fail : Nat → Bool) (vt : TMT) (nline ncol : Nat) : TMT × Bool :=
  if nline < 2 ∨ ncol < 2 then (vt, false)
  else
    let vt0 : TMT :=
      if nline < vt.screen.nline then freelines vt nline (vt.screen.nline - nline) else vt
    if fail 0 then (vt0, false)
    else
      let pc := vt0.screen.ncol
      let arr := (List.range nline).map fun i => vt0.screen.lines.getD i nullline
      let vt1 : TMT := { vt0 with screen := { vt0.screen with ncol := ncol, lines := arr } }
      match (List.range nline).find? (fun i => fail (1 + i)) with
      | some k =>
        ({ vt1 with
            dirty := vt1.dirty || decide (0 < k)
            screen := { vt1.screen with
              lines := (List.range nline).map fun i =>
                if i < k then
                  if i ≥ vt0.screen.nline then allocline vt1 nullline ncol 0
                  else allocline vt1 (arr.getD i nullline) ncol pc
                else if i = k ∧ i ≥ vt0.screen.nline then nullline
                else arr.getD i nullline } }, false)
      | none =>
        if fail (nline + 1) then
          ({ vt1 with
              dirty := true
              screen := { nline := nline, ncol := ncol, lines := [] }
              minline := 0
              maxline := nline - 1
              tabs := nullline }, false)
        else tmt_resize vt nline ncol

/-- The screen and the dirty flag of an instance. -/
def mark (vt : TMT) : TMTSCREEN × Bool := (vt.screen, vt.dirty)

/-- From `vt` to `vt'` the dirty flag ends set, or neither the screen (its
dimensions, its lines and their cells and flags) nor the dirty flag changed. -/
def Marks (vt vt' : TMT) : Prop := vt'.dirty = true ∨ mark vt' = mark vt

/-! ## Theorems -/

/-! ### Geometry: the fields that only `margin` and `tmt_resize` change -/

@[simp] theorem geo_CB (vt : TMT) (m : tmt_msg_t) : geo (CB vt m) = geo vt := rfl

@[simp] theorem geo_clearline_at (vt : TMT) (i s e : Nat) :
    geo (clearline_at vt i s e) = geo vt := rfl

@[simp] theorem geo_clearline_tabs (vt : TMT) (s e : Nat) :
    geo (clearline_tabs vt s e) = geo vt := rfl

@[simp] theorem geo_clearlines (vt : TMT) (r n : Nat) : geo (clearlines vt r n) = geo vt := rfl

@[simp] theorem geo_dirtylines (vt : TMT) (s e : Nat) : geo (dirtylines vt s e) = geo vt := rfl

@[simp] theorem geo_setchars (vt : TMT) (i : Nat) (cs : List TMTCHAR) :
    geo (setchars vt i cs) = geo vt := rfl

@[simp] theorem geo_ed (vt : TMT) : geo (ed vt) = geo vt := by
  unfold ed; split_ifs <;> rfl

@[simp] theorem geo_el (vt : TMT) : geo (el vt) = geo vt := by
  unfold el; split_ifs <;> rfl

@[simp] theorem geo_FGBG (vt : TMT) (p : Nat) (c : tmt_color_t) : geo (FGBG vt p c) = geo vt := by
  unfold FGBG; split_ifs <;> rfl

@[simp] theorem geo_sgr_step (vt : TMT) (p : Nat) : geo (sgr_step vt p) = geo vt := by
  simp only [sgr_step, apply_ite geo, geo_FGBG, ite_self]
  simp only [geo, ite_self]

theorem geo_sgr_fold (l : List Nat) (vt : TMT) :
    geo (l.foldl (fun v i => sgr_step v (P0 v i)) vt) = geo vt := by
  induction l generalizing vt with
  | nil => rfl
  | cons a l ih => simp only [List.foldl, ih, geo_sgr_step]

@[simp] theorem geo_sgr (vt : TMT) : geo (sgr vt) = geo vt := geo_sgr_fold _ vt

@[simp] theorem geo_dsr (vt : TMT) : geo (dsr vt) = geo vt := rfl

@[simp] theorem geo_resetparser (vt : TMT) : geo (resetparser vt) = geo vt := rfl

@[simp] theorem geo_consumearg (vt : TMT) : geo (consumearg vt) = geo vt := by
  unfold consumearg; split_ifs <;> rfl

@[simp] theorem geo_fixcursor (vt : TMT) : geo (fixcursor vt) = geo vt := rfl

@[simp] theorem geo_sm (vt : TMT) : geo (sm vt) = geo vt := by
  unfold sm; split_ifs <;> rfl

@[simp] theorem geo_rm (vt : TMT) : geo (rm vt) = geo vt := by
  unfold rm; split_ifs <;> rfl

@[simp] theorem geo_title (vt : TMT) : geo (title vt) = geo vt := by
  unfold title; simp only; split_ifs <;> rfl

@[simp] theorem geo_cr (vt : TMT) : geo (cr vt) = geo vt := by
  unfold cr; simp only; split_ifs <;> rfl

@[simp] theorem geo_xtversion (vt : TMT) : geo (xtversion vt) = geo vt := rfl

@[simp] theorem geo_advance (vt : TMT) : geo (advance vt) = geo vt := by
  unfold advance; simp only; split_ifs <;> rfl

@[simp] theorem geo_notify (vt : TMT) (u m : Bool) : geo (notify vt u m) = geo vt := by
  unfold notify; cases u <;> cases m <;> rfl

@[simp] theorem geo_tmt_reset (vt : TMT) : geo (tmt_reset vt) = geo vt := rfl

@[simp] theorem geo_setrow (vt : TMT) (r : Nat) : geo (setrow vt r) = geo vt := rfl

@[simp] theorem geo_setcol (vt : TMT) (c : Nat) : geo (setcol vt c) = geo vt := rfl

@[simp] theorem geo_savecurs (vt : TMT) : geo (savecurs vt) = geo vt := rfl

@[simp] theorem geo_restorecurs (vt : TMT) : geo (restorecurs vt) = geo vt := rfl

@[simp] theorem geo_setstate (vt : TMT) (s : State) : geo (setstate vt s) = geo vt := rfl

@[simp] theorem geo_setcharset (vt : TMT) (v : Nat) : geo (setcharset vt v) = geo vt := rfl

@[simp] theorem geo_setxlate0 (vt : TMT) (v : Nat) : geo (setxlate0 vt v) = geo vt := rfl

@[simp] theorem geo_setxlate1 (vt : TMT) (v : Nat) : geo (setxlate1 vt v) = geo vt := rfl

@[simp] theorem geo_setq (vt : TMT) : geo (setq vt) = geo vt := rfl

@[simp] theorem geo_act_ignore (vt : TMT) : geo (act_ignore vt) = geo vt := rfl

@[simp] theorem geo_act_digit (vt : TMT) (i : Nat) : geo (act_digit vt i) = geo vt := rfl

@[simp] theorem geo_act_bs (vt : TMT) : geo (act_bs vt) = geo vt := by
  unfold act_bs; split_ifs <;> rfl

@[simp] theorem geo_act_ht (vt : TMT) : geo (act_ht vt) = geo vt := rfl

@[simp] theorem geo_act_cbt (vt : TMT) : geo (act_cbt vt) = geo vt := rfl

@[simp] theorem geo_act_da (vt : TMT) : geo (act_da vt) = geo vt := by
  unfold act_da; split_ifs <;> rfl

@[simp] theorem geo_act_tbc (vt : TMT) : geo (act_tbc vt) = geo vt := by
  unfold act_tbc; split_ifs <;> rfl

@[simp] theorem geo_act_dsr (vt : TMT) : geo (act_dsr vt) = geo vt := by
  unfold act_dsr; split_ifs <;> rfl

theorem geo_scrup {vt vt' : TMT} {r n : Nat} (h : scrup vt r n = some vt') : geo vt' = geo vt := by
  unfold scrup scrup_body at h
  split at h
  · simp only [Option.bind_eq_some, Option.some.injEq] at h
    obtain ⟨buf, _, l1, _, l2, _, h⟩ := h
    subst h; rfl
  · simp only [Option.some.injEq] at h
    subst h; rfl

theorem geo_scrdn {vt vt' : TMT} {r n : Nat} (h : scrdn vt r n = some vt') : geo vt' = geo vt := by
  unfold scrdn scrdn_body at h
  split at h
  · simp only [Option.bind_eq_some, Option.some.injEq] at h
    obtain ⟨buf, _, l1, _, l2, _, h⟩ := h
    subst h; rfl
  · simp only [Option.some.injEq] at h
    subst h; rfl

theorem geo_ich {vt vt' : TMT} (h : ich vt = some vt') : geo vt' = geo vt := by
  unfold ich at h
  simp only [Option.bind_eq_some, Option.some.injEq] at h
  obtain ⟨cs, _, h⟩ := h
  subst h; rfl

theorem geo_dch {vt vt' : TMT} (h : dch vt = some vt') : geo vt' = geo vt := by
  unfold dch at h
  split_ifs at h
  · simp only [Option.some.injEq] at h; subst h; rfl
  · simp only [Option.bind_eq_some, Option.some.injEq] at h
    obtain ⟨cs, _, h⟩ := h
    subst h; rfl

theorem geo_reverse_nl {vt vt' : TMT} (h : reverse_nl vt = some vt') : geo vt' = geo vt := by
  unfold reverse_nl at h
  simp only at h
  split_ifs at h
  · exact (geo_scrdn h).trans rfl
  · simp only [Option.some.injEq] at h; subst h; rfl
  · simp only [Option.some.injEq] at h; subst h; rfl

theorem geo_nl {vt vt' : TMT} (h : nl vt = some vt') : geo vt' = geo vt := by
  unfold nl at h
  split_ifs at h
  · simp only [Option.bind_eq_some, Option.some.injEq] at h
    obtain ⟨v1, h1, h⟩ := h
    subst h
    exact (geo_scrup h1).trans rfl
  · simp only [Option.bind_eq_some, Option.some.injEq] at h
    obtain ⟨v1, h1, h⟩ := h
    subst h; subst h1; rfl
  · exact geo_scrup h
  · simp only [Option.some.injEq] at h; subst h; rfl
  · simp only [Option.some.injEq] at h; subst h; rfl

theorem geo_settab {vt vt' : TMT} (h : settab vt = some vt') : geo vt' = geo vt := by
  unfold settab at h
  split_ifs at h
  simp only [Option.some.injEq] at h; subst h; rfl

@[simp] theorem geo_putcell (vt : TMT) (w : Nat) : geo (putcell vt w) = geo vt := rfl

theorem geo_storechar {vt vt' : TMT} {w : Nat} (h : storechar vt w = some vt') :
    geo vt' = geo vt := by
  unfold storechar at h
  split_ifs at h
  simp only [Option.some.injEq] at h
  subst h
  rw [geo_advance, geo_putcell]

theorem geo_writecharatcurs {vt vt' : TMT} {w : Nat} (h : writecharatcurs vt w = some vt') :
    geo vt' = geo vt := by
  unfold writecharatcurs at h
  simp only [Option.bind_eq_some] at h
  obtain ⟨v1, h1, h⟩ := h
  have g1 : geo v1 = geo vt := by
    split_ifs at h1
    · exact geo_scrup h1
    · simp only [Option.some.injEq] at h1; subst h1; rfl
  rw [geo_storechar h, ← g1]; rfl

theorem geo_rep_loop (w : Nat) (k : Nat) : ∀ {vt vt' : TMT}, rep_loop w k vt = some vt' →
    geo vt' = geo vt := by
  induction k with
  | zero => intro vt vt' h; simp only [rep_loop, Option.some.injEq] at h; subst h; rfl
  | succ k ih =>
    intro vt vt' h
    simp only [rep_loop, Option.bind_eq_some] at h
    obtain ⟨v1, h1, h⟩ := h
    rw [ih h, geo_writecharatcurs h1]

theorem geo_rep {vt vt' : TMT} (h : rep vt = some vt') : geo vt' = geo vt := by
  unfold rep at h
  simp only at h
  split_ifs at h
  · simp only [Option.some.injEq] at h; subst h; rfl
  · exact geo_rep_loop _ _ h

/-! ### The region invariant and the cursor bounds -/

theorem RegionOK_iff (vt : TMT) : RegionOK vt ↔
    1 ≤ vt.screen.nline ∧ 1 ≤ vt.screen.ncol ∧ vt.minline < vt.maxline ∧
      vt.maxline < vt.screen.nline := Iff.rfl

theorem RegionOK_of_geo {vt vt' : TMT} (h : geo vt' = geo vt) (hr : RegionOK vt) :
    RegionOK vt' := by
  unfold RegionOK at *
  rw [h]; exact hr

theorem CursorOK_of_geo {vt vt' : TMT} (h : geo vt' = geo vt) (hc : vt'.curs = vt.curs)
    (hr : CursorOK vt) : CursorOK vt' := by
  simp only [geo, Prod.mk.injEq] at h
  obtain ⟨h1, h2, h3, h4⟩ := h
  unfold CursorOK at *
  rw [h1, h2, hc]; exact hr

theorem RegionOK_margin (vt : TMT) (top bot : Nat) (hr : RegionOK vt) :
    RegionOK (margin vt top bot) := by
  unfold margin
  split_ifs with h1 h2
  · exact hr
  · exact hr
  · rw [RegionOK_iff] at *
    simp only
    omega

theorem CursorOK_fixcursor (vt : TMT) (hr : RegionOK vt) : CursorOK (fixcursor vt) := by
  rw [RegionOK_iff] at hr
  unfold CursorOK fixcursor MIN
  simp only
  constructor <;> split_ifs <;> omega

set_option maxHeartbeats 1600000 in
/-- Every action of `handlechar` keeps the region invariant. -/
theorem rules_RegionOK : ∀ ru ∈ rules, ∀ (vt : TMT) (i : Nat) (vt' : TMT),
    RegionOK vt → ru.A vt i = some vt' → RegionOK vt' := by
  intro ru hru
  simp only [rules, List.mem_cons, List.mem_singleton, List.not_mem_nil, or_false] at hru
  rcases hru with rfl | rfl | rfl | rfl | rfl | rfl | rfl | rfl | rfl | rfl | rfl | rfl | rfl | rfl | rfl | rfl | rfl | rfl | rfl | rfl | rfl | rfl | rfl | rfl | rfl | rfl | rfl | rfl | rfl | rfl | rfl | rfl | rfl | rfl | rfl | rfl | rfl | rfl | rfl | rfl | rfl | rfl | rfl | rfl | rfl | rfl | rfl | rfl | rfl | rfl | rfl | rfl | rfl | rfl | rfl | rfl | rfl | rfl | rfl | rfl | rfl | rfl | rfl | rfl | rfl | rfl
  all_goals intro vt i vt' hr h
  all_goals simp only at h
  all_goals first
    | (simp only [Option.some.injEq] at h; subst h
       first
        | (simp only [RegionOK, geo_CB, geo_cr, geo_savecurs, geo_restorecurs, geo_tmt_reset,
                geo_consumearg, geo_setrow, geo_setcol, geo_ed, geo_el, geo_clearline_at,
                geo_sgr, geo_sm, geo_rm, geo_xtversion, geo_title, geo_setstate, geo_setcharset,
                geo_setxlate0, geo_setxlate1, geo_setq, geo_act_ignore, geo_act_digit, geo_act_bs,
                geo_act_ht, geo_act_cbt, geo_act_da, geo_act_tbc, geo_act_dsr] at hr ⊢
           with_reducible exact hr)
        | with_reducible exact RegionOK_margin _ _ _ hr)
    | with_reducible exact RegionOK_of_geo (geo_nl h) hr
    | with_reducible exact RegionOK_of_geo (geo_reverse_nl h) hr
    | with_reducible exact RegionOK_of_geo (geo_settab h) hr
    | with_reducible exact RegionOK_of_geo (geo_scrup h) hr
    | with_reducible exact RegionOK_of_geo (geo_scrdn h) hr
    | with_reducible exact RegionOK_of_geo (geo_dch h) hr
    | with_reducible exact RegionOK_of_geo (geo_ich h) hr
    | with_reducible exact RegionOK_of_geo (geo_rep h) hr

/-- The lines `ON` of `handlechar` change neither the geometry nor the cursor. -/
theorem rules_ON_frame : ∀ ru ∈ rules, ru.isDO = false → ∀ (vt : TMT) (i : Nat) (vt' : TMT),
    ru.A vt i = some vt' → geo vt' = geo vt ∧ vt'.curs = vt.curs := by
  intro ru hru
  simp only [rules, List.mem_cons, List.mem_singleton, List.not_mem_nil, or_false] at hru
  rcases hru with rfl | rfl | rfl | rfl | rfl | rfl | rfl | rfl | rfl | rfl | rfl | rfl | rfl | rfl | rfl | rfl | rfl | rfl | rfl | rfl | rfl | rfl | rfl | rfl | rfl | rfl | rfl | rfl | rfl | rfl | rfl | rfl | rfl | rfl | rfl | rfl | rfl | rfl | rfl | rfl | rfl | rfl | rfl | rfl | rfl | rfl | rfl | rfl | rfl | rfl | rfl | rfl | rfl | rfl | rfl | rfl | rfl | rfl | rfl | rfl | rfl | rfl | rfl | rfl | rfl | rfl
  all_goals intro hdo vt i vt' h
  all_goals first
    | (exact absurd hdo (by decide))
    | (simp only [Option.some.injEq] at h; subst h
       first
        | exact ⟨rfl, rfl⟩
        | (constructor
           · simp only [geo_setstate, geo_consumearg]
           · unfold consumearg; split_ifs <;> rfl))

theorem curs_scrup {vt vt' : TMT} {r n : Nat} (h : scrup vt r n = some vt') :
    vt'.curs = vt.curs := by
  unfold scrup scrup_body at h
  split at h
  · simp only [Option.bind_eq_some, Option.some.injEq] at h
    obtain ⟨buf, _, l1, _, l2, _, h⟩ := h
    subst h; rfl
  · simp only [Option.some.injEq] at h
    subst h; rfl

theorem CursorOK_advance (vt : TMT) (hr : RegionOK vt) (hc : CursorOK vt) :
    CursorOK (advance vt) := by
  rw [RegionOK_iff] at hr
  unfold CursorOK at *
  unfold advance
  simp only
  split_ifs <;> simp only at * <;> omega

theorem writecharatcurs_inv {vt vt' : TMT} {w : Nat} (hr : RegionOK vt) (hc : CursorOK vt)
    (h : writecharatcurs vt w = some vt') : RegionOK vt' ∧ CursorOK vt' := by
  refine ⟨RegionOK_of_geo (geo_writecharatcurs h) hr, ?_⟩
  unfold writecharatcurs at h
  simp only [Option.bind_eq_some] at h
  obtain ⟨v1, h1, h⟩ := h
  have g1 : geo v1 = geo vt ∧ v1.curs = vt.curs := by
    split_ifs at h1
    · exact ⟨geo_scrup h1, curs_scrup h1⟩
    · simp only [Option.some.injEq] at h1; subst h1; exact ⟨rfl, rfl⟩
  unfold storechar at h
  split_ifs at h
  simp only [Option.some.injEq] at h
  subst h
  apply CursorOK_advance
  · exact RegionOK_of_geo (g1.1.trans rfl) hr |> RegionOK_of_geo rfl
  · exact @CursorOK_of_geo (vt) _ (g1.1.trans rfl) g1.2 hc

theorem DO_inv {vt vt' : TMT} {A : TMT → Option TMT}
    (hA : ∀ v v', RegionOK v → A v = some v' → RegionOK v')
    (hr : RegionOK vt) (h : DO vt A = some vt') : RegionOK vt' ∧ CursorOK vt' := by
  unfold DO at h
  simp only [Option.bind_eq_some, Option.some.injEq] at h
  obtain ⟨v2, h2, h⟩ := h
  have hr1 : RegionOK (consumearg vt) := RegionOK_of_geo (geo_consumearg vt) hr
  have hr2 : RegionOK v2 := by
    split_ifs at h2
    · simp only [Option.some.injEq] at h2; subst h2; exact hr1
    · exact hA _ _ hr1 h2
  subst h
  exact ⟨RegionOK_of_geo rfl hr2, @CursorOK_of_geo (fixcursor v2) _ rfl rfl
    (CursorOK_fixcursor v2 hr2)⟩

theorem handlechar_inv {vt vt' : TMT} {i : Nat} {b : Bool} (hr : RegionOK vt) (hc : CursorOK vt)
    (h : handlechar vt i = some (vt', b)) : RegionOK vt' ∧ CursorOK vt' := by
  unfold handlechar at h
  split at h
  · rename_i ru hf
    have hmem : ru ∈ rules := List.mem_of_find?_eq_some hf
    simp only [Option.map_eq_some', Prod.mk.injEq] at h
    obtain ⟨v1, h1, h2, _⟩ := h
    subst h2
    unfold Rule.run at h1
    split_ifs at h1 with hdo
    · exact DO_inv (fun v v' hv hA => rules_RegionOK ru hmem v i v' hv hA) hr h1
    · have hf2 := rules_ON_frame ru hmem (by simpa using hdo) vt i v1 h1
      exact ⟨RegionOK_of_geo hf2.1 hr, CursorOK_of_geo hf2.1 hf2.2 hc⟩
  · split_ifs at h
    · simp only [Option.some.injEq, Prod.mk.injEq] at h
      obtain ⟨h, _⟩ := h
      subst h
      exact ⟨RegionOK_of_geo rfl hr, @CursorOK_of_geo (vt) _ rfl rfl hc⟩
    · simp only [Option.some.injEq, Prod.mk.injEq] at h
      obtain ⟨h, _⟩ := h
      subst h
      exact ⟨RegionOK_of_geo rfl hr, @CursorOK_of_geo (vt) _ rfl rfl hc⟩

theorem writemb_inv {libc : LibC} {vt vt' : TMT} (hr : RegionOK vt) (hc : CursorOK vt)
    (h : writemb libc vt = some vt') : RegionOK vt' ∧ CursorOK vt' := by
  unfold writemb at h
  exact @writecharatcurs_inv (getmbchar libc vt).1 _ _ (RegionOK_of_geo rfl hr)
    (@CursorOK_of_geo (vt) _ rfl rfl hc) h

theorem tmt_write_byte_inv {libc : LibC} {vt vt' : TMT} {b : Nat} (hr : RegionOK vt)
    (hc : CursorOK vt) (h : tmt_write_byte libc vt b = some vt') :
    RegionOK vt' ∧ CursorOK vt' := by
  unfold tmt_write_byte at h
  simp only [Option.bind_eq_some] at h
  obtain ⟨⟨v1, b1⟩, h1, h⟩ := h
  obtain ⟨hr1, hc1⟩ := handlechar_inv hr hc h1
  simp only at h
  split_ifs at h
  · simp only [Option.some.injEq] at h; subst h
    exact ⟨RegionOK_of_geo rfl hr1, @CursorOK_of_geo (v1) _ rfl rfl hc1⟩
  · exact writecharatcurs_inv hr1 hc1 h
  · exact writemb_inv hr1 hc1 h
  all_goals
    simp only [Option.bind_eq_some] at h
    obtain ⟨v2, h2, h⟩ := h
    have i2 : RegionOK v2 ∧ CursorOK v2 := by
      first
        | exact writemb_inv hr1 hc1 h2
        | (simp only [Option.some.injEq] at h2; subst h2
           exact ⟨RegionOK_of_geo rfl hr1, @CursorOK_of_geo (v1) _ rfl rfl hc1⟩)
    first
      | exact writemb_inv i2.1 i2.2 h
      | (split_ifs at h
         · exact writemb_inv i2.1 i2.2 h
         · simp only [Option.some.injEq] at h; subst h; exact i2)
theorem tmt_write_loop_inv {libc : LibC} (bs : List Nat) : ∀ {vt vt' : TMT}, RegionOK vt →
    CursorOK vt → tmt_write_loop libc vt bs = some vt' → RegionOK vt' ∧ CursorOK vt' := by
  induction bs with
  | nil =>
    intro vt vt' hr hc h
    simp only [tmt_write_loop, Option.some.injEq] at h
    subst h; exact ⟨hr, hc⟩
  | cons b bs ih =>
    intro vt vt' hr hc h
    simp only [tmt_write_loop, Option.bind_eq_some] at h
    obtain ⟨v1, h1, h⟩ := h
    obtain ⟨hr1, hc1⟩ := tmt_write_byte_inv hr hc h1
    exact ih hr1 hc1 h

theorem curs_notify (vt : TMT) (u m : Bool) : (notify vt u m).curs = vt.curs := by
  unfold notify; cases u <;> cases m <;> rfl

theorem tmt_write_inv {libc : LibC} {vt vt' : TMT} {s : List Nat} {n : Nat} (hr : RegionOK vt)
    (hc : CursorOK vt) (h : tmt_write libc vt s n = some vt') : RegionOK vt' ∧ CursorOK vt' := by
  unfold tmt_write at h
  simp only [Option.map_eq_some'] at h
  obtain ⟨v1, h1, h⟩ := h
  obtain ⟨hr1, hc1⟩ := tmt_write_loop_inv _ hr hc h1
  subst h
  exact ⟨RegionOK_of_geo (geo_notify _ _ _) hr1,
    CursorOK_of_geo (geo_notify _ _ _) (curs_notify _ _ _) hc1⟩

theorem tmt_resize_ok (vt : TMT) {nline ncol : Nat} (h1 : 2 ≤ nline) (h2 : 2 ≤ ncol) :
    RegionOK (tmt_resize vt nline ncol).1 ∧ CursorOK (tmt_resize vt nline ncol).1 := by
  have hn : ¬ (nline < 2 ∨ ncol < 2) := by omega
  unfold tmt_resize
  simp only [hn, if_false]
  have hreg : ∀ v : TMT, geo v = (nline, ncol, 0, nline - 1) → RegionOK v := by
    intro v hv
    unfold RegionOK RegionP
    rw [hv]
    simp only
    omega
  constructor
  · apply RegionOK_of_geo (geo_notify _ _ _)
    apply RegionOK_of_geo (geo_dirtylines _ _ _)
    apply RegionOK_of_geo (geo_fixcursor _)
    exact hreg _ rfl
  · apply CursorOK_of_geo (geo_notify _ _ _) (curs_notify _ _ _)
    refine @CursorOK_of_geo (fixcursor _) _ (geo_dirtylines _ _ _) rfl ?_
    apply CursorOK_fixcursor
    exact hreg _ rfl

theorem tmt_resize_inv (vt : TMT) (nline ncol : Nat) (hr : RegionOK vt) (hc : CursorOK vt) :
    RegionOK (tmt_resize vt nline ncol).1 ∧ CursorOK (tmt_resize vt nline ncol).1 := by
  by_cases hn : nline < 2 ∨ ncol < 2
  · unfold tmt_resize
    simp only [hn, if_true]
    exact ⟨hr, hc⟩
  · exact tmt_resize_ok vt (by omega) (by omega)

theorem tmt_reset_inv (vt : TMT) (hr : RegionOK vt) (hc : CursorOK vt) :
    RegionOK (tmt_reset vt) ∧ CursorOK (tmt_reset vt) := by
  refine ⟨RegionOK_of_geo (geo_tmt_reset vt) hr, ?_⟩
  rw [RegionOK_iff] at hr
  have h1 : (tmt_reset vt).curs = { r := 0, c := vt.curs.c } := rfl
  have h2 : (tmt_reset vt).screen.nline = vt.screen.nline := rfl
  have h3 : (tmt_reset vt).screen.ncol = vt.screen.ncol := rfl
  unfold CursorOK at *
  rw [h1, h2, h3]
  simp only
  omega

theorem tmt_open_inv {nline ncol : Nat} {acs : Option (List Nat)} {vt : TMT}
    (h : tmt_open nline ncol acs = some vt) : RegionOK vt ∧ CursorOK vt := by
  unfold tmt_open at h
  split_ifs at h with h0
  simp only at h
  by_cases hn : nline < 2 ∨ ncol < 2
  · exfalso
    unfold tmt_resize at h
    simp only [hn, if_true] at h
    exact Option.noConfusion h
  · have hk := tmt_resize_ok { calloc_TMT with acschars := acs.getD default_acschars }
      (show 2 ≤ nline by omega) (show 2 ≤ ncol by omega)
    have hb : (tmt_resize { calloc_TMT with acschars := acs.getD default_acschars }
        nline ncol).2 = true := by
      unfold tmt_resize
      simp only [hn, if_false]
    generalize tmt_resize { calloc_TMT with acschars := acs.getD default_acschars }
      nline ncol = res at h hk hb
    obtain ⟨v, b⟩ := res
    simp only at hb
    subst hb
    simp only [Option.some.injEq] at h
    subst h
    exact hk

theorem Reachable_inv {libc : LibC} {vt : TMT} (h : Reachable libc vt) :
    RegionOK vt ∧ CursorOK vt := by
  induction h with
  | opened nline ncol acs vt h => exact tmt_open_inv h
  | write vt s n vt' _ h ih => exact tmt_write_inv ih.1 ih.2 h
  | resize vt nline ncol _ ih => exact tmt_resize_inv vt nline ncol ih.1 ih.2
  | reset vt _ ih => exact tmt_reset_inv vt ih.1 ih.2
  | clean vt _ ih =>
    exact ⟨RegionOK_of_geo rfl ih.1, @CursorOK_of_geo (vt) _ rfl rfl ih.2⟩
  | decode vt v _ ih =>
    exact ⟨RegionOK_of_geo rfl ih.1, @CursorOK_of_geo (vt) _ rfl rfl ih.2⟩

theorem fresh22_open : tmt_open 2 2 none = some fresh22 := by decide

/-- C1 (amended): in every state reachable from `tmt_open` by `tmt_write`
calls that return (any bytes, any chunking), `tmt_resize` calls that succeed or
are refused by the size check, and `tmt_reset` calls, the cursor satisfies
`curs.r < nline` and `curs.c < ncol`; and a `tmt_resize` call made in such a
state that is refused by the size check or fails on the reallocation of the
line-pointer array returns false with the cursor within these bounds. -/
theorem C1_cursor_in_bounds (libc : LibC) (vt : TMT) (h : Reachable libc vt) :
    (vt.curs.r < vt.screen.nline ∧ vt.curs.c < vt.screen.ncol) ∧
    ∀ (fail : Nat → Bool) (nline ncol : Nat), nline < 2 ∨ ncol < 2 ∨ fail 0 = true →
      (tmt_resize_alloc fail vt nline ncol).2 = false ∧
      (tmt_resize_alloc fail vt nline ncol).1.curs.r <
        (tmt_resize_alloc fail vt nline ncol).1.screen.nline ∧
      (tmt_resize_alloc fail vt nline ncol).1.curs.c <
        (tmt_resize_alloc fail vt nline ncol).1.screen.ncol := by
  have hc := (Reachable_inv h).2
  refine ⟨hc, ?_⟩
  intro fail nline ncol hf
  unfold tmt_resize_alloc
  by_cases hn : nline < 2 ∨ ncol < 2
  · simp only [hn, if_true]
    exact ⟨trivial, hc⟩
  · have h0 : fail 0 = true := by
      rcases hf with hf | hf | hf
      · exact absurd (Or.inl hf) hn
      · exact absurd (Or.inr hf) hn
      · exact hf
    simp only [hn, if_false, h0, if_true]
    split_ifs
    · exact ⟨trivial, hc⟩
    · exact ⟨trivial, hc⟩

theorem C1_cursor_in_bounds_witness :
    Reachable clocale (tmt_reset fresh22) ∧
      ((tmt_reset fresh22).curs.r < (tmt_reset fresh22).screen.nline ∧
        (tmt_reset fresh22).curs.c < (tmt_reset fresh22).screen.ncol) ∧
      ∀ (fail : Nat → Bool) (nline ncol : Nat), nline < 2 ∨ ncol < 2 ∨ fail 0 = true →
        (tmt_resize_alloc fail (tmt_reset fresh22) nline ncol).2 = false ∧
        (tmt_resize_alloc fail (tmt_reset fresh22) nline ncol).1.curs.r <
          (tmt_resize_alloc fail (tmt_reset fresh22) nline ncol).1.screen.nline ∧
        (tmt_resize_alloc fail (tmt_reset fresh22) nline ncol).1.curs.c <
          (tmt_resize_alloc fail (tmt_reset fresh22) nline ncol).1.screen.ncol :=
  ⟨Reachable.reset _ (Reachable.opened 2 2 none _ fresh22_open),
   C1_cursor_in_bounds clocale (tmt_reset fresh22)
     (Reachable.reset _ (Reachable.opened 2 2 none _ fresh22_open))⟩


/-! ### Cells of cleared and marked lines -/

theorem clearcells_length (a : TMTATTRS) (s e n : Nat) (l : List TMTCHAR) :
    ∀ k, (clearcells a s e n k l).length = l.length := by
  induction l with
  | nil => intro k; rfl
  | cons ch rest ih => intro k; simp only [clearcells, List.length_cons, ih]

theorem clearcells_getElem? (a : TMTATTRS) (s e n : Nat) (l : List TMTCHAR) :
    ∀ k j, (clearcells a s e n k l)[j]? =
      l[j]?.map fun ch => if s ≤ k + j ∧ k + j < e ∧ k + j < n then { c := 32, a := a } else ch := by
  induction l with
  | nil => intro k j; simp [clearcells]
  | cons ch rest ih =>
    intro k j
    cases j with
    | zero => simp [clearcells]
    | succ j =>
      simp only [clearcells, List.getElem?_cons_succ, ih]
      have : k + 1 + j = k + (j + 1) := by omega
      rw [this]

theorem dirtyrows_length (s e : Nat) (ls : List TMTLINE) :
    ∀ k, (dirtyrows s e k ls).length = ls.length := by
  induction ls with
  | nil => intro k; rfl
  | cons l rest ih => intro k; simp only [dirtyrows, List.length_cons, ih]

theorem dirtyrows_getElem? (s e : Nat) (ls : List TMTLINE) :
    ∀ k i, (dirtyrows s e k ls)[i]? =
      ls[i]?.map fun l => if s ≤ k + i ∧ k + i < e then { l with dirty := true } else l := by
  induction ls with
  | nil => intro k i; simp [dirtyrows]
  | cons l rest ih =>
    intro k i
    cases i with
    | zero => simp [dirtyrows]
    | succ i =>
      simp only [dirtyrows, List.getElem?_cons_succ, ih]
      have : k + 1 + i = k + (i + 1) := by omega
      rw [this]

theorem clearrows_length (vt : TMT) (lo hi : Nat) (ls : List TMTLINE) :
    ∀ k, (clearrows vt lo hi k ls).length = ls.length := by
  induction ls with
  | nil => intro k; rfl
  | cons l rest ih => intro k; simp only [clearrows, List.length_cons, ih]

theorem clearrows_getElem? (vt : TMT) (lo hi : Nat) (ls : List TMTLINE) :
    ∀ k i, (clearrows vt lo hi k ls)[i]? =
      ls[i]?.map fun l =>
        if lo ≤ k + i ∧ k + i < hi then clearline vt l 0 vt.screen.ncol else l := by
  induction ls with
  | nil => intro k i; simp [clearrows]
  | cons l rest ih =>
    intro k i
    cases i with
    | zero => simp [clearrows]
    | succ i =>
      simp only [clearrows, List.getElem?_cons_succ, ih]
      have : k + 1 + i = k + (i + 1) := by omega
      rw [this]

/-! ### Resize -/

theorem tmt_resize_lines (vt : TMT) {nline ncol : Nat} (h1 : 2 ≤ nline) (h2 : 2 ≤ ncol) :
    (tmt_resize vt nline ncol).1.screen =
      { nline := nline, ncol := ncol,
        lines := dirtyrows 0 nline 0 ((List.range nline).map fun i =>
          if i ≥ vt.screen.nline then
            allocline { vt with screen := { vt.screen with ncol := ncol } } nullline ncol 0
          else
            allocline { vt with screen := { vt.screen with ncol := ncol } } (lineAt vt i) ncol
              vt.screen.ncol) } := by
  have hn : ¬ (nline < 2 ∨ ncol < 2) := by omega
  unfold tmt_resize
  simp only [hn, if_false]
  rfl

theorem allocline_chars_getElem? (vt : TMT) (o : TMTLINE) (n pc j : Nat) :
    (allocline vt o n pc).chars[j]? =
      (o.chars.take n ++ List.replicate (n - o.chars.length) zerochar)[j]?.map fun ch =>
        if pc ≤ j ∧ j < n ∧ j < vt.screen.ncol then { c := 32, a := vt.attrs } else ch := by
  unfold allocline clearline
  simp only [clearcells_getElem?, Nat.zero_add]

theorem allocline_chars_length (vt : TMT) (o : TMTLINE) (n pc : Nat) :
    (allocline vt o n pc).chars.length = n := by
  unfold allocline clearline
  simp only [clearcells_length, List.length_append, List.length_take, List.length_replicate]
  omega

theorem tmt_resize_ScreenOK (vt : TMT) {nline ncol : Nat} (h1 : 2 ≤ nline) (h2 : 2 ≤ ncol) :
    ScreenOK (tmt_resize vt nline ncol).1 := by
  unfold ScreenOK
  rw [tmt_resize_lines vt h1 h2]
  simp only [dirtyrows_length, List.length_map, List.length_range, true_and]
  intro l hl
  obtain ⟨i, hi⟩ := List.getElem?_of_mem hl
  rw [dirtyrows_getElem?, List.getElem?_map] at hi
  cases hr : (List.range nline)[i]? with
  | none => rw [hr] at hi; simp at hi
  | some k =>
    rw [hr] at hi
    simp only [Option.map_some', Option.some.injEq] at hi
    subst hi
    split_ifs <;> simp only [allocline_chars_length]

theorem lineAt_mem {vt : TMT} {i : Nat} (hi : i < vt.screen.lines.length) :
    lineAt vt i ∈ vt.screen.lines := by
  unfold lineAt
  rw [List.getD_eq_getElem _ _ hi]
  apply List.getElem_mem

theorem lineAt_length {vt : TMT} (hs : ScreenOK vt) {i : Nat} (hi : i < vt.screen.nline) :
    (lineAt vt i).chars.length = vt.screen.ncol :=
  hs.2 _ (lineAt_mem (by rw [hs.1]; exact hi))

set_option maxRecDepth 100000 in
/-- C2: on a screen of 4 lines and 2 columns, `ESC [ 1 ; 2 r` sets the scroll
region to the lines 0..1 and `ESC [ 4 ; 1 H` puts the cursor on line 3, below
the region; `ESC [ M` then calls `scrup(vt, 3, 1)`, where `maxline - r` wraps,
`n` stays 1 and the `memmove` count `maxline - n - r + 1` wraps to a count far
beyond the `nline` line pointers: the write leaves the line array. -/
theorem C2_delete_line_below_region_out_of_bounds :
    ((tmt_open 4 2 none).bind fun vt =>
        tmt_write clocale vt [27, 91, 49, 59, 50, 114, 27, 91, 52, 59, 49, 72] 12).map
      (fun vt => (vt.curs, vt.minline, vt.maxline, vt.screen.nline)) =
      some (⟨3, 0⟩, 0, 1, 4) ∧
    ((tmt_open 4 2 none).bind fun vt =>
        tmt_write clocale vt
          [27, 91, 49, 59, 50, 114, 27, 91, 52, 59, 49, 72, 27, 91, 77] 15) = none := by
  decide

set_option maxRecDepth 100000 in
/-- C4: after `A` is written to a fresh 2 x 2 instance the cursor is at
(0, 1); `tmt_reset` then blanks every cell with the default attributes but
leaves the cursor at (0, 1), not at (0, 0): its `memset` clears `curs.r` only. -/
theorem C4_reset_keeps_cursor_column :
    ((tmt_open 2 2 none).bind fun vt => tmt_write clocale vt [65] 1).map
      (fun vt => (vt.curs, (tmt_reset vt).curs, (tmt_reset vt).screen.lines)) =
      some (⟨0, 1⟩, ⟨0, 1⟩,
        [⟨true, [⟨32, defattrs⟩, ⟨32, defattrs⟩]⟩, ⟨true, [⟨32, defattrs⟩, ⟨32, defattrs⟩]⟩]) := by
  decide

set_option maxRecDepth 100000 in
/-- C5: right after `tmt_open(2, 2)` the current attributes are the zero bytes
of `calloc`, whose colours are the enumerator of value 0 and not
`TMT_COLOR_DEFAULT`; the first character written, `A`, is stored with them. -/
theorem C5_open_attrs_not_default :
    (tmt_open 2 2 none).map (fun vt => vt.attrs) = some zeroattrs ∧
    ((tmt_open 2 2 none).bind fun vt => tmt_write clocale vt [65] 1).map
      (fun vt => cell vt 0 0) = some ⟨65, zeroattrs⟩ ∧
    zeroattrs.fg ≠ TMT_COLOR_DEFAULT ∧ zeroattrs.bg ≠ TMT_COLOR_DEFAULT := by
  decide

/-! ### The callback log -/

theorem Inline_refl (a : List tmt_msg_t) : Inline a a :=
  ⟨[], (List.append_nil a).symm, fun _ h => absurd h (List.not_mem_nil _)⟩

theorem Inline_of_eq {a b : List tmt_msg_t} (h : b = a) : Inline a b := by
  subst h; exact Inline_refl _

theorem Inline_trans {a b c : List tmt_msg_t} (h1 : Inline a b) (h2 : Inline b c) :
    Inline a c := by
  obtain ⟨l1, e1, p1⟩ := h1
  obtain ⟨l2, e2, p2⟩ := h2
  refine ⟨l1 ++ l2, by rw [e2, e1, List.append_assoc], ?_⟩
  intro m hm
  rcases List.mem_append.mp hm with h | h
  · exact p1 m h
  · exact p2 m h

theorem Inline_CB (vt : TMT) (m : tmt_msg_t) (hm : isEndMsg m = false) :
    Inline vt.out (CB vt m).out :=
  ⟨[m], rfl, fun x hx => by rw [List.mem_singleton.mp hx]; exact hm⟩

@[simp] theorem out_clearline_at (vt : TMT) (i s e : Nat) :
    (clearline_at vt i s e).out = vt.out := rfl

@[simp] theorem out_clearline_tabs (vt : TMT) (s e : Nat) :
    (clearline_tabs vt s e).out = vt.out := rfl

@[simp] theorem out_clearlines (vt : TMT) (r n : Nat) : (clearlines vt r n).out = vt.out := rfl

@[simp] theorem out_dirtylines (vt : TMT) (s e : Nat) : (dirtylines vt s e).out = vt.out := rfl

@[simp] theorem out_ed (vt : TMT) : (ed vt).out = vt.out := by
  unfold ed; split_ifs <;> rfl

@[simp] theorem out_el (vt : TMT) : (el vt).out = vt.out := by
  unfold el; split_ifs <;> rfl

theorem out_FGBG (vt : TMT) (p : Nat) (c : tmt_color_t) : (FGBG vt p c).out = vt.out := by
  unfold FGBG; split_ifs <;> rfl

theorem out_sgr_step (vt : TMT) (p : Nat) : (sgr_step vt p).out = vt.out := by
  simp only [sgr_step, apply_ite TMT.out, out_FGBG, ite_self]

theorem out_sgr_fold (l : List Nat) (vt : TMT) :
    (l.foldl (fun v i => sgr_step v (P0 v i)) vt).out = vt.out := by
  induction l generalizing vt with
  | nil => rfl
  | cons a l ih => simp only [List.foldl, ih, out_sgr_step]

@[simp] theorem out_sgr (vt : TMT) : (sgr vt).out = vt.out := out_sgr_fold _ vt

@[simp] theorem out_resetparser (vt : TMT) : (resetparser vt).out = vt.out := rfl

@[simp] theorem out_consumearg (vt : TMT) : (consumearg vt).out = vt.out := by
  unfold consumearg; split_ifs <;> rfl

@[simp] theorem out_fixcursor (vt : TMT) : (fixcursor vt).out = vt.out := rfl

@[simp] theorem out_cr (vt : TMT) : (cr vt).out = vt.out := by
  unfold cr; simp only; split_ifs <;> rfl

@[simp] theorem out_margin (vt : TMT) (t b : Nat) : (margin vt t b).out = vt.out := by
  unfold margin; split_ifs <;> rfl

@[simp] theorem out_advance (vt : TMT) : (advance vt).out = vt.out := by
  unfold advance; simp only; split_ifs <;> rfl

@[simp] theorem out_setrow (vt : TMT) (r : Nat) : (setrow vt r).out = vt.out := rfl

@[simp] theorem out_setcol (vt : TMT) (c : Nat) : (setcol vt c).out = vt.out := rfl

@[simp] theorem out_savecurs (vt : TMT) : (savecurs vt).out = vt.out := rfl

@[simp] theorem out_restorecurs (vt : TMT) : (restorecurs vt).out = vt.out := rfl

@[simp] theorem out_setstate (vt : TMT) (s : State) : (setstate vt s).out = vt.out := rfl

@[simp] theorem out_setcharset (vt : TMT) (v : Nat) : (setcharset vt v).out = vt.out := rfl

@[simp] theorem out_setxlate0 (vt : TMT) (v : Nat) : (setxlate0 vt v).out = vt.out := rfl

@[simp] theorem out_setxlate1 (vt : TMT) (v : Nat) : (setxlate1 vt v).out = vt.out := rfl

@[simp] theorem out_setq (vt : TMT) : (setq vt).out = vt.out := rfl

@[simp] theorem out_act_ignore (vt : TMT) : (act_ignore vt).out = vt.out := rfl

@[simp] theorem out_act_digit (vt : TMT) (i : Nat) : (act_digit vt i).out = vt.out := rfl

@[simp] theorem out_act_bs (vt : TMT) : (act_bs vt).out = vt.out := by
  unfold act_bs; split_ifs <;> rfl

@[simp] theorem out_act_ht (vt : TMT) : (act_ht vt).out = vt.out := rfl

@[simp] theorem out_act_cbt (vt : TMT) : (act_cbt vt).out = vt.out := rfl

@[simp] theorem out_act_tbc (vt : TMT) : (act_tbc vt).out = vt.out := by
  unfold act_tbc; split_ifs <;> rfl

theorem Inline_dsr (vt : TMT) : Inline vt.out (dsr vt).out := Inline_CB vt _ rfl

theorem Inline_act_dsr (vt : TMT) : Inline vt.out (act_dsr vt).out := by
  unfold act_dsr; split_ifs
  · exact Inline_dsr vt
  · exact Inline_refl _

theorem Inline_act_da (vt : TMT) : Inline vt.out (act_da vt).out := by
  unfold act_da; split_ifs
  · exact Inline_refl _
  · exact Inline_CB vt _ rfl

theorem Inline_sm (vt : TMT) : Inline vt.out (sm vt).out := by
  unfold sm; split_ifs
  · exact Inline_CB vt _ rfl
  · exact ⟨[_], rfl, fun x hx => by rw [List.mem_singleton.mp hx]; rfl⟩

theorem Inline_rm (vt : TMT) : Inline vt.out (rm vt).out := by
  unfold rm; split_ifs
  · exact Inline_CB vt _ rfl
  · exact ⟨[_], rfl, fun x hx => by rw [List.mem_singleton.mp hx]; rfl⟩

theorem Inline_title (vt : TMT) : Inline vt.out (title vt).out := by
  unfold title; simp only; split_ifs
  · exact ⟨[_], rfl, fun x hx => by rw [List.mem_singleton.mp hx]; rfl⟩
  · exact Inline_refl _
  · exact Inline_refl _

theorem Inline_xtversion (vt : TMT) : Inline vt.out (xtversion vt).out :=
  ⟨[_], rfl, fun x hx => by rw [List.mem_singleton.mp hx]; rfl⟩

theorem out_scrup {vt vt' : TMT} {r n : Nat} (h : scrup vt r n = some vt') :
    vt'.out = vt.out := by
  unfold scrup scrup_body at h
  split at h
  · simp only [Option.bind_eq_some, Option.some.injEq] at h
    obtain ⟨buf, _, l1, _, l2, _, h⟩ := h
    subst h; rfl
  · simp only [Option.some.injEq] at h
    subst h; rfl

theorem out_scrdn {vt vt' : TMT} {r n : Nat} (h : scrdn vt r n = some vt') :
    vt'.out = vt.out := by
  unfold scrdn scrdn_body at h
  split at h
  · simp only [Option.bind_eq_some, Option.some.injEq] at h
    obtain ⟨buf, _, l1, _, l2, _, h⟩ := h
    subst h; rfl
  · simp only [Option.some.injEq] at h
    subst h; rfl

theorem out_ich {vt vt' : TMT} (h : ich vt = some vt') : vt'.out = vt.out := by
  unfold ich at h
  simp only [Option.bind_eq_some, Option.some.injEq] at h
  obtain ⟨cs, _, h⟩ := h
  subst h; rfl

theorem out_dch {vt vt' : TMT} (h : dch vt = some vt') : vt'.out = vt.out := by
  unfold dch at h
  split_ifs at h
  · simp only [Option.some.injEq] at h; subst h; rfl
  · simp only [Option.bind_eq_some, Option.some.injEq] at h
    obtain ⟨cs, _, h⟩ := h
    subst h; rfl

theorem out_reverse_nl {vt vt' : TMT} (h : reverse_nl vt = some vt') : vt'.out = vt.out := by
  unfold reverse_nl at h
  simp only at h
  split_ifs at h
  · exact (out_scrdn h).trans rfl
  · simp only [Option.some.injEq] at h; subst h; rfl
  · simp only [Option.some.injEq] at h; subst h; rfl

theorem out_nl {vt vt' : TMT} (h : nl vt = some vt') : vt'.out = vt.out := by
  unfold nl at h
  split_ifs at h
  · simp only [Option.bind_eq_some, Option.some.injEq] at h
    obtain ⟨v1, h1, h⟩ := h
    subst h
    exact (out_scrup h1).trans rfl
  · simp only [Option.bind_eq_some, Option.some.injEq] at h
    obtain ⟨v1, h1, h⟩ := h
    subst h; subst h1; rfl
  · exact out_scrup h
  · simp only [Option.some.injEq] at h; subst h; rfl
  · simp only [Option.some.injEq] at h; subst h; rfl

theorem out_settab {vt vt' : TMT} (h : settab vt = some vt') : vt'.out = vt.out := by
  unfold settab at h
  split_ifs at h
  simp only [Option.some.injEq] at h; subst h; rfl

theorem out_storechar {vt vt' : TMT} {w : Nat} (h : storechar vt w = some vt') :
    vt'.out = vt.out := by
  unfold storechar at h
  split_ifs at h
  simp only [Option.some.injEq] at h
  subst h
  rw [out_advance]; rfl

theorem out_writecharatcurs {vt vt' : TMT} {w : Nat} (h : writecharatcurs vt w = some vt') :
    vt'.out = vt.out := by
  unfold writecharatcurs at h
  simp only [Option.bind_eq_some] at h
  obtain ⟨v1, h1, h⟩ := h
  have g1 : v1.out = vt.out := by
    split_ifs at h1
    · exact out_scrup h1
    · simp only [Option.some.injEq] at h1; subst h1; rfl
  rw [out_storechar h, ← g1]

theorem out_rep_loop (w : Nat) (k : Nat) : ∀ {vt vt' : TMT}, rep_loop w k vt = some vt' →
    vt'.out = vt.out := by
  induction k with
  | zero => intro vt vt' h; simp only [rep_loop, Option.some.injEq] at h; subst h; rfl
  | succ k ih =>
    intro vt vt' h
    simp only [rep_loop, Option.bind_eq_some] at h
    obtain ⟨v1, h1, h⟩ := h
    rw [ih h, out_writecharatcurs h1]

theorem out_rep {vt vt' : TMT} (h : rep vt = some vt') : vt'.out = vt.out := by
  unfold rep at h
  simp only at h
  split_ifs at h
  · simp only [Option.some.injEq] at h; subst h; rfl
  · exact out_rep_loop _ _ h

theorem out_tmt_reset (vt : TMT) :
    (tmt_reset vt).out =
      vt.out ++ [TMT_MSG_CURSOR [116], TMT_MSG_UPDATE, TMT_MSG_MOVED ⟨0, vt.curs.c⟩] := by
  show ((vt.out ++ [TMT_MSG_CURSOR [116]]) ++ [TMT_MSG_UPDATE]) ++
    [TMT_MSG_MOVED ⟨0, vt.curs.c⟩] = _
  simp only [List.append_assoc, List.singleton_append, List.cons_append, List.nil_append]

set_option maxHeartbeats 1600000 in
/-- Every action of `handlechar` but the full reset appends only messages
other than `UPDATE` and `MOVED` to the log. -/
theorem rules_Inline : ∀ ru ∈ rules, ∀ (vt : TMT) (i : Nat) (vt' : TMT),
    ru.A vt i = some vt' →
      Inline vt.out vt'.out ∨
        (ru.S = S_ESC ∧ ru.C = [99] ∧ ru.isDO = true ∧ ∃ l, vt'.out = vt.out ++ l) := by
  intro ru hru
  simp only [rules, List.mem_cons, List.mem_singleton, List.not_mem_nil, or_false] at hru
  rcases hru with rfl | rfl | rfl | rfl | rfl | rfl | rfl | rfl | rfl | rfl | rfl | rfl | rfl | rfl | rfl | rfl | rfl | rfl | rfl | rfl | rfl | rfl | rfl | rfl | rfl | rfl | rfl | rfl | rfl | rfl | rfl | rfl | rfl | rfl | rfl | rfl | rfl | rfl | rfl | rfl | rfl | rfl | rfl | rfl | rfl | rfl | rfl | rfl | rfl | rfl | rfl | rfl | rfl | rfl | rfl | rfl | rfl | rfl | rfl | rfl | rfl | rfl | rfl | rfl | rfl | rfl
  all_goals intro vt i vt' h
  all_goals simp only at h
  all_goals first
    | (simp only [Option.some.injEq] at h; subst h
       first
        | (left; apply Inline_of_eq
           simp only [out_cr, out_savecurs, out_restorecurs,
                out_consumearg, out_setrow, out_setcol, out_ed, out_el, out_clearline_at,
                out_sgr, out_setstate, out_setcharset, out_margin,
                out_setxlate0, out_setxlate1, out_setq, out_act_ignore, out_act_digit, out_act_bs,
                out_act_ht, out_act_cbt, out_act_tbc])
        | (left; (with_reducible refine Inline_CB _ _ ?_); rfl)
        | (left; with_reducible exact Inline_act_dsr _)
        | (left; with_reducible exact Inline_act_da _)
        | (left; with_reducible exact Inline_sm _)
        | (left; with_reducible exact Inline_rm _)
        | (left; with_reducible exact Inline_title _)
        | (left; with_reducible exact Inline_xtversion _)
        | (right; exact ⟨rfl, rfl, rfl, ⟨_, out_tmt_reset _⟩⟩))
    | (left; with_reducible exact Inline_of_eq (out_nl h))
    | (left; with_reducible exact Inline_of_eq (out_reverse_nl h))
    | (left; with_reducible exact Inline_of_eq (out_settab h))
    | (left; with_reducible exact Inline_of_eq (out_scrup h))
    | (left; with_reducible exact Inline_of_eq (out_scrdn h))
    | (left; with_reducible exact Inline_of_eq (out_dch h))
    | (left; with_reducible exact Inline_of_eq (out_ich h))
    | (left; with_reducible exact Inline_of_eq (out_rep h))

theorem consumearg_ignored (vt : TMT) : (consumearg vt).ignored = vt.ignored := by
  unfold consumearg; split_ifs <;> rfl

theorem find_rule_esc_nul (vt : TMT) (hs : vt.state = S_ESC) :
    (rules.find? fun ru => ru.guard vt 0).map (fun ru => ru.C) = some [27] := by
  simp only [Rule.guard, hs]
  rfl

theorem strchr_singleton {c i : Nat} (h : strchr [c] i = true) : i = 0 ∨ i = c := by
  unfold strchr at h
  simp only [Bool.or_eq_true, beq_iff_eq, List.contains_cons, List.contains_nil,
    Bool.or_false] at h
  exact h

theorem Inline_ext {a b : List tmt_msg_t} (h : Inline a b) : ∃ l, b = a ++ l := by
  obtain ⟨l, hl, _⟩ := h
  exact ⟨l, hl⟩

theorem ext_trans {a b c : List tmt_msg_t} (h1 : ∃ l, b = a ++ l) (h2 : ∃ l, c = b ++ l) :
    ∃ l, c = a ++ l := by
  obtain ⟨l1, e1⟩ := h1
  obtain ⟨l2, e2⟩ := h2
  exact ⟨l1 ++ l2, by rw [e2, e1, List.append_assoc]⟩

theorem handlechar_Inline {vt vt' : TMT} {i : Nat} {b : Bool}
    (h : handlechar vt i = some (vt', b)) :
    (∃ l, vt'.out = vt.out ++ l) ∧
      (¬ (vt.state = S_ESC ∧ i = 99 ∧ vt.ignored = false) → Inline vt.out vt'.out) := by
  unfold handlechar at h
  split at h
  · rename_i ru hf
    have hmem : ru ∈ rules := List.mem_of_find?_eq_some hf
    have hg := List.find?_some hf
    simp only [Rule.guard, Bool.and_eq_true, decide_eq_true_eq] at hg
    simp only [Option.map_eq_some', Prod.mk.injEq] at h
    obtain ⟨v1, h1, h2, _⟩ := h
    subst h2
    unfold Rule.run at h1
    split_ifs at h1 with hdo
    · unfold DO at h1
      simp only [Option.bind_eq_some, Option.some.injEq] at h1
      obtain ⟨v2, h2, h1⟩ := h1
      subst h1
      have h3 : (∃ l, v2.out = vt.out ++ l) ∧
          (¬ (vt.state = S_ESC ∧ i = 99 ∧ vt.ignored = false) → Inline vt.out v2.out) := by
        split_ifs at h2 with hig
        · simp only [Option.some.injEq] at h2; subst h2
          exact ⟨Inline_ext (Inline_of_eq (out_consumearg vt)),
            fun _ => Inline_of_eq (out_consumearg vt)⟩
        · rcases rules_Inline ru hmem _ i v2 h2 with hl | ⟨hS, hC, _, hx⟩
          · have hh := Inline_trans (Inline_of_eq (out_consumearg vt)) hl
            exact ⟨Inline_ext hh, fun _ => hh⟩
          · refine ⟨ext_trans (Inline_ext (Inline_of_eq (out_consumearg vt))) hx, ?_⟩
            intro hno
            exfalso
            have hst : vt.state = S_ESC := by rw [← hg.1, hS]
            rw [hC] at hg
            rcases strchr_singleton hg.2 with h0 | h99
            · subst h0
              have hfr := find_rule_esc_nul vt hst
              rw [hf] at hfr
              simp only [Option.map_some', Option.some.injEq] at hfr
              rw [hC] at hfr
              exact absurd hfr (by decide)
            · rw [consumearg_ignored] at hig
              exact hno ⟨hst, h99, by simpa using hig⟩
      exact ⟨ext_trans h3.1 ⟨[], (List.append_nil _).symm⟩,
        fun hno => Inline_trans (h3.2 hno) (Inline_of_eq rfl)⟩
    · rcases rules_Inline ru hmem vt i v1 h1 with hl | ⟨_, _, hD, _⟩
      · exact ⟨Inline_ext hl, fun _ => hl⟩
      · exact absurd hD hdo
  · split_ifs at h
    · simp only [Option.some.injEq, Prod.mk.injEq] at h
      obtain ⟨h, _⟩ := h
      subst h
      exact ⟨⟨[], (List.append_nil _).symm⟩, fun _ => Inline_of_eq rfl⟩
    · simp only [Option.some.injEq, Prod.mk.injEq] at h
      obtain ⟨h, _⟩ := h
      subst h
      exact ⟨⟨[], (List.append_nil _).symm⟩, fun _ => Inline_of_eq rfl⟩

theorem out_writemb {libc : LibC} {vt vt' : TMT} (h : writemb libc vt = some vt') :
    vt'.out = vt.out := by
  unfold writemb at h
  exact (out_writecharatcurs h).trans rfl

theorem out_after_handlechar {libc : LibC} {v1 vt' : TMT} {b : Nat} {b1 : Bool}
    (h : (if b1 = true then some { v1 with hang := 0 }
      else if v1.acs = true then writecharatcurs v1 (tacs v1 b)
      else if v1.nmb ≥ BUF_MAX then writemb libc v1
      else
        (if testmbchar libc v1 = SIZE_MAX then writemb libc v1
         else if testmbchar libc v1 = SIZE_MAX - 1 then
           some (pushmb v1 b)
         else some v1).bind fun vt2 =>
        if testmbchar libc vt2 ≤ libc.MB_LEN_MAX then writemb libc vt2 else some vt2) =
      some vt') : vt'.out = v1.out := by
  split_ifs at h
  · simp only [Option.some.injEq] at h; subst h; rfl
  · exact out_writecharatcurs h
  · exact out_writemb h
  all_goals
    simp only [Option.bind_eq_some] at h
    obtain ⟨v2, h2, h⟩ := h
    have i2 : v2.out = v1.out := by
      first
        | exact out_writemb h2
        | (simp only [Option.some.injEq] at h2; subst h2; rfl)
    first
      | exact (out_writemb h).trans i2
      | (split_ifs at h
         · exact (out_writemb h).trans i2
         · simp only [Option.some.injEq] at h; subst h; exact i2)

theorem tmt_write_byte_Inline {libc : LibC} {vt vt' : TMT} {b : Nat}
    (h : tmt_write_byte libc vt b = some vt') :
    (∃ l, vt'.out = vt.out ++ l) ∧
      (¬ (vt.state = S_ESC ∧ b = 99 ∧ vt.ignored = false) → Inline vt.out vt'.out) := by
  unfold tmt_write_byte at h
  simp only [Option.bind_eq_some] at h
  obtain ⟨⟨v1, b1⟩, h1, h⟩ := h
  have hi := handlechar_Inline h1
  simp only at h
  have ho := out_after_handlechar h
  exact ⟨ext_trans hi.1 ⟨[], by rw [ho, List.append_nil]⟩,
    fun hno => Inline_trans (hi.2 hno) (Inline_of_eq ho)⟩

theorem tmt_write_loop_ext {libc : LibC} (bs : List Nat) : ∀ {vt vt' : TMT},
    tmt_write_loop libc vt bs = some vt' → ∃ l, vt'.out = vt.out ++ l := by
  induction bs with
  | nil =>
    intro vt vt' h
    simp only [tmt_write_loop, Option.some.injEq] at h
    subst h; exact ⟨[], (List.append_nil _).symm⟩
  | cons b bs ih =>
    intro vt vt' h
    simp only [tmt_write_loop, Option.bind_eq_some] at h
    obtain ⟨v1, h1, h⟩ := h
    exact ext_trans (tmt_write_byte_Inline h1).1 (ih h)

theorem tmt_write_loop_Inline {libc : LibC} (bs : List Nat) : ∀ {vt vt' : TMT},
    tmt_write_loop libc vt bs = some vt' → reset_runs libc vt bs = false →
    Inline vt.out vt'.out := by
  induction bs with
  | nil =>
    intro vt vt' h _
    simp only [tmt_write_loop, Option.some.injEq] at h
    subst h; exact Inline_refl _
  | cons b bs ih =>
    intro vt vt' h hr
    simp only [tmt_write_loop, Option.bind_eq_some] at h
    obtain ⟨v1, h1, h⟩ := h
    have hno : ¬ (vt.state = S_ESC ∧ b = 99 ∧ vt.ignored = false) := by
      rintro ⟨ha, hb, hc⟩
      simp [reset_runs, ha, hb, hc] at hr
    have hr2 : reset_runs libc v1 bs = false := by
      simp only [reset_runs, h1, Bool.or_eq_false_iff] at hr
      exact hr.2
    exact Inline_trans ((tmt_write_byte_Inline h1).2 hno) (ih h hr2)

theorem notify_out (vt : TMT) (u m : Bool) :
    (notify vt u m).out =
      vt.out ++ (if u = true then [TMT_MSG_UPDATE] else []) ++
        (if m = true then [TMT_MSG_MOVED vt.curs] else []) := by
  unfold notify CB
  cases u <;> cases m <;> simp

theorem notify_dirty (vt : TMT) (u m : Bool) : (notify vt u m).dirty = vt.dirty := by
  unfold notify; cases u <;> cases m <;> rfl

theorem tmt_write_loop_append (libc : LibC) (xs ys : List Nat) : ∀ vt : TMT,
    tmt_write_loop libc vt (xs ++ ys) =
      (tmt_write_loop libc vt xs).bind fun v => tmt_write_loop libc v ys := by
  induction xs with
  | nil => intro vt; rfl
  | cons x xs ih =>
    intro vt
    simp only [List.cons_append, tmt_write_loop]
    cases tmt_write_byte libc vt x with
    | none => rfl
    | some v => simp only [Option.some_bind]; exact ih v

/-! ### Every change of the screen sets the dirty flag -/

theorem Marks_refl (vt : TMT) : Marks vt vt := Or.inr rfl

theorem Marks_of_eq {vt vt' : TMT} (h : mark vt' = mark vt) : Marks vt vt' := Or.inr h

theorem Marks_of_dirty {vt vt' : TMT} (h : vt'.dirty = true) : Marks vt vt' := Or.inl h

theorem Marks_trans {a b c : TMT} (h1 : Marks a b) (h2 : Marks b c) : Marks a c := by
  rcases h2 with h2 | h2
  · exact Or.inl h2
  · rcases h1 with h1 | h1
    · left
      have e : c.dirty = b.dirty := congrArg Prod.snd h2
      rw [e]; exact h1
    · exact Or.inr (h2.trans h1)

theorem Marks_change {vt vt' : TMT} (h : Marks vt vt') :
    (vt'.screen ≠ vt.screen → vt'.dirty = true) ∧ (vt.dirty = true → vt'.dirty = true) := by
  rcases h with h | h
  · exact ⟨fun _ => h, fun _ => h⟩
  · have e1 : vt'.screen = vt.screen := congrArg Prod.fst h
    have e2 : vt'.dirty = vt.dirty := congrArg Prod.snd h
    exact ⟨fun hn => absurd e1 hn, fun hd => e2.trans hd⟩

@[simp] theorem mark_CB (vt : TMT) (m : tmt_msg_t) : mark (CB vt m) = mark vt := rfl

@[simp] theorem mark_dsr (vt : TMT) : mark (dsr vt) = mark vt := rfl

@[simp] theorem mark_act_dsr (vt : TMT) : mark (act_dsr vt) = mark vt := by
  unfold act_dsr; split_ifs <;> rfl

@[simp] theorem mark_act_da (vt : TMT) : mark (act_da vt) = mark vt := by
  unfold act_da; split_ifs <;> rfl

@[simp] theorem mark_sm (vt : TMT) : mark (sm vt) = mark vt := by
  unfold sm; split_ifs <;> rfl

@[simp] theorem mark_rm (vt : TMT) : mark (rm vt) = mark vt := by
  unfold rm; split_ifs <;> rfl

@[simp] theorem mark_title (vt : TMT) : mark (title vt) = mark vt := by
  unfold title; simp only; split_ifs <;> rfl

@[simp] theorem mark_xtversion (vt : TMT) : mark (xtversion vt) = mark vt := rfl

theorem mark_FGBG (vt : TMT) (p : Nat) (c : tmt_color_t) : mark (FGBG vt p c) = mark vt := by
  unfold FGBG; split_ifs <;> rfl

theorem mark_sgr_step (vt : TMT) (p : Nat) : mark (sgr_step vt p) = mark vt := by
  simp only [sgr_step, apply_ite mark, mark_FGBG, ite_self]
  simp only [mark, ite_self]

theorem mark_sgr_fold (l : List Nat) (vt : TMT) :
    mark (l.foldl (fun v i => sgr_step v (P0 v i)) vt) = mark vt := by
  induction l generalizing vt with
  | nil => rfl
  | cons a l ih => simp only [List.foldl, ih, mark_sgr_step]

@[simp] theorem mark_sgr (vt : TMT) : mark (sgr vt) = mark vt := mark_sgr_fold _ vt

@[simp] theorem mark_resetparser (vt : TMT) : mark (resetparser vt) = mark vt := rfl

@[simp] theorem mark_consumearg (vt : TMT) : mark (consumearg vt) = mark vt := by
  unfold consumearg; split_ifs <;> rfl

@[simp] theorem mark_fixcursor (vt : TMT) : mark (fixcursor vt) = mark vt := rfl

@[simp] theorem mark_cr (vt : TMT) : mark (cr vt) = mark vt := by
  unfold cr; simp only; split_ifs <;> rfl

@[simp] theorem mark_margin (vt : TMT) (t b : Nat) : mark (margin vt t b) = mark vt := by
  unfold margin; split_ifs <;> rfl

@[simp] theorem mark_advance (vt : TMT) : mark (advance vt) = mark vt := by
  unfold advance; simp only; split_ifs <;> rfl

@[simp] theorem mark_setrow (vt : TMT) (r : Nat) : mark (setrow vt r) = mark vt := rfl

@[simp] theorem mark_setcol (vt : TMT) (c : Nat) : mark (setcol vt c) = mark vt := rfl

@[simp] theorem mark_restorecurs (vt : TMT) : mark (restorecurs vt) = mark vt := rfl

@[simp] theorem mark_setstate (vt : TMT) (s : State) : mark (setstate vt s) = mark vt := rfl

@[simp] theorem mark_setcharset (vt : TMT) (v : Nat) : mark (setcharset vt v) = mark vt := rfl

@[simp] theorem mark_setxlate0 (vt : TMT) (v : Nat) : mark (setxlate0 vt v) = mark vt := rfl

@[simp] theorem mark_setxlate1 (vt : TMT) (v : Nat) : mark (setxlate1 vt v) = mark vt := rfl

@[simp] theorem mark_setq (vt : TMT) : mark (setq vt) = mark vt := rfl

@[simp] theorem mark_act_ignore (vt : TMT) : mark (act_ignore vt) = mark vt := rfl

@[simp] theorem mark_act_digit (vt : TMT) (i : Nat) : mark (act_digit vt i) = mark vt := rfl

@[simp] theorem mark_act_bs (vt : TMT) : mark (act_bs vt) = mark vt := by
  unfold act_bs; split_ifs <;> rfl

@[simp] theorem mark_act_ht (vt : TMT) : mark (act_ht vt) = mark vt := rfl

@[simp] theorem mark_act_cbt (vt : TMT) : mark (act_cbt vt) = mark vt := rfl

theorem mark_settab {vt vt' : TMT} (h : settab vt = some vt') : mark vt' = mark vt := by
  unfold settab at h
  split_ifs at h
  simp only [Option.some.injEq] at h; subst h; rfl

@[simp] theorem mark_savecurs (vt : TMT) : mark (savecurs vt) = mark vt := rfl


theorem clearrows_empty (vt : TMT) {lo hi : Nat} (h : hi ≤ lo) (ls : List TMTLINE) :
    ∀ i, clearrows vt lo hi i ls = ls := by
  induction ls with
  | nil => intro i; rfl
  | cons l rest ih =>
    intro i
    simp only [clearrows, ih]
    rw [if_neg (by omega)]

theorem Marks_clearline_at (vt : TMT) (i s e : Nat) : Marks vt (clearline_at vt i s e) :=
  Or.inl rfl

theorem Marks_clearline_tabs (vt : TMT) (s e : Nat) : Marks vt (clearline_tabs vt s e) :=
  Or.inl rfl

theorem Marks_dirtylines (vt : TMT) (s e : Nat) : Marks vt (dirtylines vt s e) := Or.inl rfl

theorem Marks_clearlines (vt : TMT) (r n : Nat) : Marks vt (clearlines vt r n) := by
  by_cases h : r < MIN (addz r n) vt.screen.nline
  · left
    show (vt.dirty || decide (r < MIN (addz r n) vt.screen.nline)) = true
    simp only [h, decide_True, Bool.or_true]
  · right
    unfold clearlines mark
    simp only [h, decide_False, Bool.or_false, clearrows_empty vt (Nat.le_of_not_lt h)]

theorem dirty_clearlines {vt : TMT} (h : vt.dirty = true) (r n : Nat) :
    (clearlines vt r n).dirty = true := by
  show (vt.dirty || decide (r < MIN (addz r n) vt.screen.nline)) = true
  rw [h]; rfl

theorem Marks_ed (vt : TMT) : Marks vt (ed vt) := by
  unfold ed
  split_ifs
  · exact Or.inl (dirty_clearlines rfl _ _)
  · exact Or.inl (dirty_clearlines rfl _ _)
  · exact Marks_clearlines vt _ _
  · exact Marks_refl vt

theorem Marks_el (vt : TMT) : Marks vt (el vt) := by
  unfold el
  split_ifs
  · exact Or.inl rfl
  · exact Or.inl rfl
  · exact Or.inl rfl
  · exact Marks_refl vt

theorem Marks_act_tbc (vt : TMT) : Marks vt (act_tbc vt) := by
  unfold act_tbc
  split_ifs
  · exact Or.inl rfl
  · exact Marks_refl vt

theorem Marks_scrup {vt vt' : TMT} {r n : Nat} (h : scrup vt r n = some vt') : Marks vt vt' := by
  unfold scrup scrup_body at h
  split at h
  · simp only [Option.bind_eq_some, Option.some.injEq] at h
    obtain ⟨buf, _, l1, _, l2, _, h⟩ := h
    subst h; exact Or.inl rfl
  · simp only [Option.some.injEq] at h
    subst h; exact Marks_refl _

theorem Marks_scrdn {vt vt' : TMT} {r n : Nat} (h : scrdn vt r n = some vt') : Marks vt vt' := by
  unfold scrdn scrdn_body at h
  split at h
  · simp only [Option.bind_eq_some, Option.some.injEq] at h
    obtain ⟨buf, _, l1, _, l2, _, h⟩ := h
    subst h; exact Or.inl rfl
  · simp only [Option.some.injEq] at h
    subst h; exact Marks_refl _

theorem Marks_ich {vt vt' : TMT} (h : ich vt = some vt') : Marks vt vt' := by
  unfold ich at h
  simp only [Option.bind_eq_some, Option.some.injEq] at h
  obtain ⟨cs, _, h⟩ := h
  subst h; exact Or.inl rfl

theorem Marks_dch {vt vt' : TMT} (h : dch vt = some vt') : Marks vt vt' := by
  unfold dch at h
  split_ifs at h
  · simp only [Option.some.injEq] at h; subst h; exact Marks_refl _
  · simp only [Option.bind_eq_some, Option.some.injEq] at h
    obtain ⟨cs, _, h⟩ := h
    subst h; exact Or.inl rfl

theorem Marks_hang (vt : TMT) (k : Nat) : Marks vt { vt with hang := k } := Or.inr rfl

theorem Marks_reverse_nl {vt vt' : TMT} (h : reverse_nl vt = some vt') : Marks vt vt' := by
  unfold reverse_nl at h
  simp only at h
  split_ifs at h
  · exact Marks_trans (Marks_hang vt 0) (Marks_scrdn h)
  · simp only [Option.some.injEq] at h; subst h; exact Or.inr rfl
  · simp only [Option.some.injEq] at h; subst h; exact Or.inr rfl

theorem Marks_nl {vt vt' : TMT} (h : nl vt = some vt') : Marks vt vt' := by
  unfold nl at h
  split_ifs at h
  · simp only [Option.bind_eq_some, Option.some.injEq] at h
    obtain ⟨v1, h1, h⟩ := h
    subst h
    exact Marks_trans (Marks_scrup h1) (Marks_hang v1 0)
  · simp only [Option.bind_eq_some, Option.some.injEq] at h
    obtain ⟨v1, h1, h⟩ := h
    subst h; subst h1; exact Or.inr rfl
  · exact Marks_scrup h
  · simp only [Option.some.injEq] at h; subst h; exact Or.inr rfl
  · simp only [Option.some.injEq] at h; subst h; exact Or.inr rfl

theorem Marks_settab {vt vt' : TMT} (h : settab vt = some vt') : Marks vt vt' := by
  unfold settab at h
  split_ifs at h
  simp only [Option.some.injEq] at h; subst h; exact Or.inr rfl

/-- A character stored sets the dirty flag. -/
theorem dirty_storechar {vt vt' : TMT} {w : Nat} (h : storechar vt w = some vt') :
    vt'.dirty = true := by
  unfold storechar at h
  split_ifs at h
  simp only [Option.some.injEq] at h
  subst h
  have e : (advance (putcell vt (translate vt w))).dirty = (putcell vt (translate vt w)).dirty :=
    congrArg Prod.snd (mark_advance _)
  rw [e]; rfl

theorem dirty_writecharatcurs {vt vt' : TMT} {w : Nat} (h : writecharatcurs vt w = some vt') :
    vt'.dirty = true := by
  unfold writecharatcurs at h
  simp only [Option.bind_eq_some] at h
  obtain ⟨v1, _, h⟩ := h
  exact dirty_storechar h

theorem Marks_rep_loop (w : Nat) (k : Nat) : ∀ {vt vt' : TMT}, rep_loop w k vt = some vt' →
    Marks vt vt' := by
  induction k with
  | zero => intro vt vt' h; simp only [rep_loop, Option.some.injEq] at h; subst h; exact Marks_refl _
  | succ k ih =>
    intro vt vt' h
    simp only [rep_loop, Option.bind_eq_some] at h
    obtain ⟨v1, h1, h⟩ := h
    exact Marks_trans (Or.inl (dirty_writecharatcurs h1)) (ih h)

theorem Marks_rep {vt vt' : TMT} (h : rep vt = some vt') : Marks vt vt' := by
  unfold rep at h
  simp only at h
  split_ifs at h
  · simp only [Option.some.injEq] at h; subst h; exact Marks_refl _
  · exact Marks_rep_loop _ _ h

theorem mark_notify (vt : TMT) (u m : Bool) : mark (notify vt u m) = mark vt := by
  unfold notify; cases u <;> cases m <;> rfl

theorem Marks_tmt_reset (vt : TMT) : Marks vt (tmt_reset vt) := by
  unfold tmt_reset
  simp only
  refine Marks_trans ?_ (Marks_of_eq (mark_notify _ _ _))
  refine Marks_trans ?_ (Marks_of_eq (mark_CB _ _))
  exact Marks_trans (Or.inr rfl) (Marks_clearlines _ _ _)

set_option maxHeartbeats 1600000 in
/-- Every action of `handlechar` sets the dirty flag when it changes the
screen, and never clears the flag. -/
theorem rules_Marks : ∀ ru ∈ rules, ∀ (vt : TMT) (i : Nat) (vt' : TMT),
    ru.A vt i = some vt' → Marks vt vt' := by
  intro ru hru
  simp only [rules, List.mem_cons, List.mem_singleton, List.not_mem_nil, or_false] at hru
  rcases hru with rfl | rfl | rfl | rfl | rfl | rfl | rfl | rfl | rfl | rfl | rfl | rfl | rfl | rfl | rfl | rfl | rfl | rfl | rfl | rfl | rfl | rfl | rfl | rfl | rfl | rfl | rfl | rfl | rfl | rfl | rfl | rfl | rfl | rfl | rfl | rfl | rfl | rfl | rfl | rfl | rfl | rfl | rfl | rfl | rfl | rfl | rfl | rfl | rfl | rfl | rfl | rfl | rfl | rfl | rfl | rfl | rfl | rfl | rfl | rfl | rfl | rfl | rfl | rfl | rfl | rfl
  all_goals intro vt i vt' h
  all_goals simp only at h
  all_goals first
    | (simp only [Option.some.injEq] at h; subst h
       first
        | (apply Marks_of_eq
           simp only [mark_CB, mark_cr, mark_savecurs, mark_restorecurs,
                mark_consumearg, mark_setrow, mark_setcol,
                mark_sgr, mark_setstate, mark_setcharset, mark_margin,
                mark_setxlate0, mark_setxlate1, mark_setq, mark_act_ignore, mark_act_digit,
                mark_act_bs, mark_act_ht, mark_act_cbt, mark_act_dsr,
                mark_act_da, mark_sm, mark_rm, mark_title, mark_xtversion])
        | with_reducible exact Marks_ed _
        | with_reducible exact Marks_el _
        | with_reducible exact Marks_clearline_at _ _ _ _
        | with_reducible exact Marks_act_tbc _
        | with_reducible exact Marks_tmt_reset _)
    | with_reducible exact Marks_nl h
    | with_reducible exact Marks_reverse_nl h
    | with_reducible exact Marks_settab h
    | with_reducible exact Marks_scrup h
    | with_reducible exact Marks_scrdn h
    | with_reducible exact Marks_dch h
    | with_reducible exact Marks_ich h
    | with_reducible exact Marks_rep h

theorem Marks_DO {vt vt' : TMT} {ru : Rule} {i : Nat} (hm : ru ∈ rules)
    (h : DO vt (fun v => ru.A v i) = some vt') : Marks vt vt' := by
  unfold DO at h
  have hc : Marks vt (consumearg vt) := Marks_of_eq (mark_consumearg vt)
  by_cases hi : (consumearg vt).ignored
  · rw [if_pos hi] at h
    simp only [Option.some_bind, Option.some.injEq] at h
    subst h
    exact Marks_trans hc (Or.inr rfl)
  · rw [if_neg hi] at h
    beta_reduce at h
    cases hx : ru.A (consumearg vt) i with
    | none => rw [hx] at h; exact absurd h (by simp)
    | some v2 =>
      rw [hx] at h
      simp only [Option.some_bind, Option.some.injEq] at h
      subst h
      exact Marks_trans hc (Marks_trans (rules_Marks ru hm _ _ _ hx) (Or.inr rfl))

theorem handlechar_Marks {vt vt' : TMT} {i : Nat} {r : Bool}
    (h : handlechar vt i = some (vt', r)) : Marks vt vt' := by
  unfold handlechar at h
  cases hf : rules.find? (fun ru => ru.guard vt i) with
  | some ru =>
    rw [hf] at h
    have hm : ru ∈ rules := List.mem_of_find?_eq_some hf
    simp only [Option.map_eq_some', Prod.mk.injEq] at h
    obtain ⟨v1, h1, e1, _⟩ := h
    subst e1
    unfold Rule.run at h1
    cases hdo : ru.isDO with
    | true =>
      rw [hdo] at h1
      simp only [if_true] at h1
      exact Marks_DO hm h1
    | false =>
      rw [hdo] at h1
      simp only [Bool.false_eq_true, if_false] at h1
      exact rules_Marks ru hm vt i v1 h1
  | none =>
    rw [hf] at h
    simp only at h
    split_ifs at h
    · simp only [Option.some.injEq, Prod.mk.injEq] at h
      obtain ⟨e1, _⟩ := h
      subst e1; exact Or.inr rfl
    · simp only [Option.some.injEq, Prod.mk.injEq] at h
      obtain ⟨e1, _⟩ := h
      subst e1; exact Or.inr rfl

theorem Marks_writemb {libc : LibC} {vt vt' : TMT} (h : writemb libc vt = some vt') :
    Marks vt vt' := by
  unfold writemb at h
  exact Or.inl (dirty_writecharatcurs h)

theorem Marks_after_handlechar {libc : LibC} {v1 vt' : TMT} {b : Nat} {b1 : Bool}
    (h : (if b1 = true then some { v1 with hang := 0 }
      else if v1.acs = true then writecharatcurs v1 (tacs v1 b)
      else if v1.nmb ≥ BUF_MAX then writemb libc v1
      else
        (if testmbchar libc v1 = SIZE_MAX then writemb libc v1
         else if testmbchar libc v1 = SIZE_MAX - 1 then
           some (pushmb v1 b)
         else some v1).bind fun vt2 =>
        if testmbchar libc vt2 ≤ libc.MB_LEN_MAX then writemb libc vt2 else some vt2) =
      some vt') : Marks v1 vt' := by
  split_ifs at h
  · simp only [Option.some.injEq] at h; subst h; exact Or.inr rfl
  · exact Or.inl (dirty_writecharatcurs h)
  · exact Marks_writemb h
  all_goals
    simp only [Option.bind_eq_some] at h
    obtain ⟨v2, h2, h⟩ := h
    have i2 : Marks v1 v2 := by
      first
        | exact Marks_writemb h2
        | (simp only [Option.some.injEq] at h2; subst h2; exact Or.inr rfl)
    first
      | exact Marks_trans i2 (Marks_writemb h)
      | (split_ifs at h
         · exact Marks_trans i2 (Marks_writemb h)
         · simp only [Option.some.injEq] at h; subst h; exact i2)

theorem tmt_write_byte_Marks {libc : LibC} {vt vt' : TMT} {b : Nat}
    (h : tmt_write_byte libc vt b = some vt') : Marks vt vt' := by
  unfold tmt_write_byte at h
  simp only [Option.bind_eq_some] at h
  obtain ⟨⟨v1, b1⟩, h1, h⟩ := h
  simp only at h
  exact Marks_trans (handlechar_Marks h1) (@Marks_after_handlechar libc _ _ _ _ h)

theorem tmt_write_loop_Marks {libc : LibC} (s : List Nat) : ∀ {vt vt' : TMT},
    tmt_write_loop libc vt s = some vt' → Marks vt vt' := by
  induction s with
  | nil =>
    intro vt vt' h
    simp only [tmt_write_loop, Option.some.injEq] at h
    subst h; exact Marks_refl _
  | cons b bs ih =>
    intro vt vt' h
    simp only [tmt_write_loop, Option.bind_eq_some] at h
    obtain ⟨v1, h1, h2⟩ := h
    exact Marks_trans (tmt_write_byte_Marks h1) (ih h2)

/-- A call of `tmt_write` that changes the screen leaves the dirty flag set,
and no call clears the flag. -/
theorem tmt_write_Marks {libc : LibC} {vt vt' : TMT} {s : List Nat} {n : Nat}
    (h : tmt_write libc vt s n = some vt') : Marks vt vt' := by
  unfold tmt_write at h
  simp only [Option.map_eq_some'] at h
  obtain ⟨v1, h1, e⟩ := h
  subst e
  exact Marks_trans (tmt_write_loop_Marks _ h1) (Marks_of_eq (mark_notify _ _ _))

/-- C3 (amended): the messages of a `tmt_write` call that returns are the
inline messages of its bytes, then one `UPDATE` if and only if the dirty flag
of the instance is set when the call ends, then one `MOVED` if and only if the
cursor differs from the cursor before the call; when no full reset (`ESC c`)
runs during the call the inline messages hold neither `UPDATE` nor `MOVED`.
The dirty flag is set when the call ends whenever the screen after the call
differs from the screen before it, whenever the screen differed from it after
some of the bytes of the call, and whenever the flag was set before the
call. -/
theorem C3_end_of_write_notifications (libc : LibC) (vt : TMT) (s : List Nat) (n : Nat)
    (vt' : TMT) (h : tmt_write libc vt s n = some vt') :
    (∃ inl, vt'.out = vt.out ++ inl ++ (if vt'.dirty = true then [TMT_MSG_UPDATE] else []) ++
        (if vt'.curs ≠ vt.curs then [TMT_MSG_MOVED vt'.curs] else []) ∧
      (reset_runs libc vt (input_bytes s n) = false → ∀ m ∈ inl, isEndMsg m = false)) ∧
    (vt'.screen ≠ vt.screen → vt'.dirty = true) ∧
    (∀ pre rest v1, input_bytes s n = pre ++ rest → tmt_write_loop libc vt pre = some v1 →
      v1.screen ≠ vt.screen → vt'.dirty = true) ∧
    (vt.dirty = true → vt'.dirty = true) := by
  have hm := Marks_change (tmt_write_Marks h)
  refine ⟨?_, hm.1, ?_, hm.2⟩
  · unfold tmt_write at h
    simp only [Option.map_eq_some'] at h
    obtain ⟨v1, h1, h⟩ := h
    have hex : ∃ inl, v1.out = vt.out ++ inl ∧
        (reset_runs libc vt (input_bytes s n) = false → ∀ m ∈ inl, isEndMsg m = false) := by
      by_cases hr : reset_runs libc vt (input_bytes s n) = false
      · obtain ⟨l, hl, hp⟩ := tmt_write_loop_Inline _ h1 hr
        exact ⟨l, hl, fun _ => hp⟩
      · obtain ⟨l, hl⟩ := tmt_write_loop_ext _ h1
        exact ⟨l, hl, fun hc => absurd hc hr⟩
    obtain ⟨inl, hinl, hp⟩ := hex
    refine ⟨inl, ?_, hp⟩
    subst h
    rw [notify_out, notify_dirty, curs_notify, hinl]
    congr 1
    by_cases hcu : v1.curs = vt.curs
    · have : ¬ vt.curs ≠ v1.curs := fun hh => hh hcu.symm
      simp [hcu]
    · have : vt.curs ≠ v1.curs := fun hh => hcu hh.symm
      simp [hcu, this]
  · intro pre rest v1 hsplit hpre hne
    unfold tmt_write at h
    simp only [Option.map_eq_some'] at h
    obtain ⟨v2, h2, e⟩ := h
    subst e
    rw [hsplit, tmt_write_loop_append, hpre, Option.some_bind] at h2
    have d1 : v1.dirty = true := (Marks_change (tmt_write_loop_Marks pre hpre)).1 hne
    have d2 : v2.dirty = true := (Marks_change (tmt_write_loop_Marks rest h2)).2 d1
    rw [notify_dirty]
    exact d2

set_option maxRecDepth 100000 in
/-- C3, the claim as stated fails: on a fresh 2 x 2 instance a write of the
byte BEL changes no cell, no line and nothing else of the instance, yet it
emits `UPDATE` (the dirty flag is still set from `tmt_open`); and a write of
`ESC c` emits two `UPDATE`s in one call. -/
theorem C3_update_without_change :
    tmt_write clocale fresh22 [7] 1 = some fresh22_belled ∧
    fresh22_belled.screen = fresh22.screen ∧
    (tmt_write clocale fresh22 [27, 99] 2).map (fun v => v.out.drop fresh22.out.length) =
      some [TMT_MSG_CURSOR [116], TMT_MSG_UPDATE, TMT_MSG_MOVED ⟨0, 0⟩, TMT_MSG_UPDATE] := by
  decide

set_option maxRecDepth 100000 in
theorem C3_end_of_write_notifications_witness :
    ∃ vt', tmt_write clocale (tmt_clean fresh22) [65] 1 = some vt' ∧
      vt'.screen ≠ (tmt_clean fresh22).screen ∧
      ((∃ inl, vt'.out = (tmt_clean fresh22).out ++ inl ++
            (if vt'.dirty = true then [TMT_MSG_UPDATE] else []) ++
            (if vt'.curs ≠ (tmt_clean fresh22).curs then [TMT_MSG_MOVED vt'.curs] else []) ∧
          (reset_runs clocale (tmt_clean fresh22) (input_bytes [65] 1) = false →
            ∀ m ∈ inl, isEndMsg m = false)) ∧
        (vt'.screen ≠ (tmt_clean fresh22).screen → vt'.dirty = true) ∧
        (∀ pre rest v1, input_bytes [65] 1 = pre ++ rest →
          tmt_write_loop clocale (tmt_clean fresh22) pre = some v1 →
          v1.screen ≠ (tmt_clean fresh22).screen → vt'.dirty = true) ∧
        ((tmt_clean fresh22).dirty = true → vt'.dirty = true)) := by
  cases hw : tmt_write clocale (tmt_clean fresh22) [65] 1 with
  | none => exact absurd hw (by decide)
  | some vt' =>
    have hs : (tmt_write clocale (tmt_clean fresh22) [65] 1).map
        (fun v => decide (v.screen ≠ (tmt_clean fresh22).screen)) = some true := by decide
    rw [hw] at hs
    simp only [Option.map_some', Option.some.injEq, decide_eq_true_eq] at hs
    exact ⟨vt', rfl, hs, C3_end_of_write_notifications clocale (tmt_clean fresh22) [65] 1 vt' hw⟩

/-- C17: in every state reachable from `tmt_open` by `tmt_write` calls that
return (any bytes, `CSI t ; b r` with any parameters included), `tmt_resize`
calls and `tmt_reset` calls, the scroll region satisfies
`minline < maxline ≤ nline - 1`. -/
theorem C17_scroll_region_invariant (libc : LibC) (vt : TMT) (h : Reachable libc vt) :
    vt.minline < vt.maxline ∧ vt.maxline ≤ vt.screen.nline - 1 := by
  have hr := (RegionOK_iff vt).mp (Reachable_inv h).1
  omega

set_option maxRecDepth 100000 in
theorem C17_scroll_region_invariant_witness :
    (∃ vt, tmt_write clocale fresh22 [27, 91, 57, 59, 57, 114] 6 = some vt ∧
      Reachable clocale vt ∧ vt.minline < vt.maxline ∧ vt.maxline ≤ vt.screen.nline - 1) := by
  cases hw : tmt_write clocale fresh22 [27, 91, 57, 59, 57, 114] 6 with
  | none => exact absurd hw (by decide)
  | some vt =>
    have hrch : Reachable clocale vt :=
      Reachable.write fresh22 _ _ vt (Reachable.opened 2 2 none _ fresh22_open) hw
    exact ⟨vt, rfl, hrch, C17_scroll_region_invariant clocale vt hrch⟩

set_option maxRecDepth 100000 in
/-- C16: on a 2 x 3 screen `abc` fills line 0 and `ESC [ 1 ; 3 H` puts the
cursor on its last column, (0, 2); `ESC [ 1 K` then blanks the cells 0 and 1
only: the cursor cell (0, 2) keeps `c`, because the end of the cleared range
is `MIN(c + 1, ncol - 1)`. -/
theorem C16_erase_to_cursor_misses_last_column :
    ((tmt_open 2 3 none).bind fun vt =>
        tmt_write clocale vt [97, 98, 99, 27, 91, 49, 59, 51, 72, 27, 91, 49, 75] 13).map
      (fun vt => (vt.curs, (lineAt vt 0).chars.map fun ch => ch.c)) =
      some (⟨0, 2⟩, [32, 32, 99]) := by
  decide

set_option maxRecDepth 100000 in
/-- C19: a write of the single byte 0x00 with the length 1 to a fresh
instance emits `BELL`: `strchr("\x07", 0)` finds the terminator of the
string, so the line `DO(S_NUL, "\x07", CB(vt, TMT_MSG_BELL, NULL))` runs. -/
theorem C19_nul_byte_rings_bell :
    (tmt_write clocale fresh22 [0] 1).map (fun v => v.out.drop fresh22.out.length) =
      some [TMT_MSG_BELL, TMT_MSG_UPDATE] ∧
    (tmt_write clocale fresh22 [7] 1).map (fun v => v.out.drop fresh22.out.length) =
      some [TMT_MSG_BELL, TMT_MSG_UPDATE] := by
  decide

set_option maxRecDepth 100000 in
/-- C20: on a 3 x 2 screen with the full scroll region (lines 0..2),
`ESC [ 3 ; 1 H` puts the cursor on line 2, the last line of the region, and `x`
is written there; `ESC [ M` (delete one line at the cursor) then changes
nothing, line 2 still holds `x`: `scrup` cuts the count to `maxline - r`,
which is 0. -/
theorem C20_delete_line_on_last_region_row :
    ((tmt_open 3 2 none).bind fun vt =>
        tmt_write clocale vt [27, 91, 51, 59, 49, 72, 120, 27, 91, 77] 10).map
      (fun vt => (vt.curs.r, vt.minline, vt.maxline,
        vt.screen.lines.map fun l => l.chars.map fun ch => ch.c)) =
      some (2, 0, 2, [[32, 32], [32, 32], [120, 32]]) := by
  decide

/-! ### Printable text -/

theorem handlechar_printable {vt : TMT} {b : Nat} (hs : vt.state = S_NUL) (h1 : 32 ≤ b)
    (h2 : b ≤ 126) : handlechar vt b = some (resetparser vt, false) := by
  have hf : (rules.find? fun ru => ru.guard vt b) = none := by
    simp only [Rule.guard, hs]
    have e0 : b ≠ 0 := by omega
    have e7 : b ≠ 7 := by omega
    have e8 : b ≠ 8 := by omega
    have e9 : b ≠ 9 := by omega
    have e10 : b ≠ 10 := by omega
    have e13 : b ≠ 13 := by omega
    have e14 : b ≠ 14 := by omega
    have e15 : b ≠ 15 := by omega
    have e27 : b ≠ 27 := by omega
    have b0 : (b == 0) = false := by rw [beq_eq_false_iff_ne]; exact e0
    simp [rules, List.find?, strchr, b0, e7, e8, e9, e10, e13, e14, e15, e27]
  unfold handlechar
  rw [hf]
  simp [hs]

theorem lookup_none_of_lt {l : List (Nat × Nat)} {b : Nat} (h : ∀ p ∈ l, b < p.1) :
    l.lookup b = none := by
  induction l with
  | nil => rfl
  | cons p l ih =>
    obtain ⟨k, v⟩ := p
    have hk : b < k := h (k, v) (List.mem_cons_self _ _)
    have hne : (b == k) = false := by
      rw [beq_eq_false_iff_ne]; omega
    simp only [List.lookup, hne]
    exact ih fun q hq => h q (List.mem_cons_of_mem _ hq)

theorem unicode_to_acs_ascii (vt : TMT) {b : Nat} (h : b ≤ 126) : unicode_to_acs vt b = b := by
  have h1 : unicode_acs_index.lookup b = none :=
    lookup_none_of_lt fun p hp => by
      have : 126 < p.1 := by revert p; decide
      omega
  have h2 : unicode_dec_code.lookup b = none :=
    lookup_none_of_lt fun p hp => by
      have : 126 < p.1 := by revert p; decide
      omega
  unfold unicode_to_acs
  rw [h1, h2]

theorem translate_ascii {vt : TMT} {b : Nat} (hx : xlate vt = 0) (h : b ≤ 126) :
    translate vt b = b := by
  unfold translate
  simp only [hx, ne_eq, not_true_eq_false, if_false, unicode_to_acs_ascii vt h, ite_self]

theorem CLINE_eq {vt : TMT} (h : vt.curs.r < vt.screen.nline) : CLINE vt = vt.curs.r := by
  unfold CLINE MIN
  split_ifs <;> omega

theorem testmbchar_empty (libc : LibC) {v : TMT} (h : v.nmb = 0) :
    testmbchar libc v = SIZE_MAX - 1 := by
  unfold testmbchar
  rw [if_neg (by rw [h]; exact fun hh => hh rfl)]

theorem take_one_set_zero {l : List Nat} (b : Nat) (h : 0 < l.length) :
    (l.set 0 b).take 1 = [b] := by
  cases l with
  | nil => exact absurd h (by decide)
  | cons x xs => rfl

theorem testmbchar_pushmb (libc : LibC) {v : TMT} (b : Nat) (h : v.nmb = 0)
    (hl : 0 < v.mb.length) : testmbchar libc (pushmb v b) = (libc.mbrtowc v.ms [b]).ret := by
  unfold testmbchar pushmb
  simp only [h, Nat.zero_add, ne_eq, one_ne_zero, not_false_eq_true, if_true,
    take_one_set_zero b hl]

theorem getmbchar_pushmb (libc : LibC) {v : TMT} (b : Nat) (h : v.nmb = 0)
    (hl : 0 < v.mb.length) (hret : (libc.mbrtowc v.ms [b]).ret = 1)
    (hwc : (libc.mbrtowc v.ms [b]).wc = b) (hps : (libc.mbrtowc v.ms [b]).ps = v.ms) :
    getmbchar libc (pushmb v b) = ({ v with mb := v.mb.set 0 b, nmb := 0 }, b) := by
  unfold getmbchar pushmb
  simp only [h, Nat.zero_add, take_one_set_zero b hl, hret, hwc, hps]
  have e1 : ¬ (1 = SIZE_MAX ∨ 1 = SIZE_MAX - 1) := by decide
  rw [if_neg e1]

theorem writecharatcurs_nohang {v : TMT} (w : Nat) (h : v.hang ≠ 2) :
    writecharatcurs v w = storechar { v with hang := 0 } w := by
  unfold writecharatcurs
  rw [if_neg h]
  rfl

theorem storechar_ok {v : TMT} (w : Nat) (hs : ScreenOK v) (hc : CursorOK v) :
    storechar v w = some (advance (putcell v (translate v w))) := by
  have h1 : CLINE v = v.curs.r := CLINE_eq hc.1
  have h2 : CLINE v < v.screen.lines.length := by rw [h1, hs.1]; exact hc.1
  have h3 : v.curs.c < (lineAt v (CLINE v)).chars.length := by
    rw [h1, lineAt_length hs hc.1]; exact hc.2
  unfold storechar
  rw [if_pos ⟨h2, h3⟩]

theorem typed_step {libc : LibC} {vt : TMT} {b : Nat} (ht : TextReady libc vt)
    (hs : ScreenOK vt) (hc : CursorOK vt) (hh : vt.hang ≠ 2) (h1 : 32 ≤ b) (h2 : b ≤ 126) :
    tmt_write_byte libc vt b = some (typed vt b) := by
  obtain ⟨hst, hacs, hnmb, hx, hmb, hml, hdec⟩ := ht
  obtain ⟨hret, hwc, hps⟩ := hdec b h1 h2
  have e1 : (resetparser vt).acs = false := hacs
  have e2 : (resetparser vt).nmb = 0 := hnmb
  have e3 := testmbchar_empty libc e2
  have e4 : ¬ (SIZE_MAX - 1 = SIZE_MAX) := by decide
  have e5 : ¬ ((resetparser vt).nmb ≥ BUF_MAX) := by rw [e2]; decide
  have e6 : testmbchar libc (pushmb (resetparser vt) b) = 1 := by
    rw [testmbchar_pushmb libc b e2 hmb]; exact hret
  have e7 := getmbchar_pushmb libc (v := resetparser vt) b e2 hmb hret hwc hps
  unfold tmt_write_byte
  rw [handlechar_printable hst h1 h2]
  simp only [Option.some_bind, Bool.false_eq_true, if_false, e1, e5, e3, e4, if_true, e6, hml]
  unfold writemb
  rw [e7]
  simp only
  rw [writecharatcurs_nohang _ (by exact hh)]
  rw [storechar_ok _ (by exact hs) (by exact hc)]
  rw [translate_ascii (by exact hx) h2]
  rfl

theorem advance_eq (v : TMT) :
    advance v = { v with curs := (advance v).curs, hang := (advance v).hang } := by
  unfold advance; simp only; split_ifs <;> rfl

theorem typed_eq (vt : TMT) (b : Nat) :
    typed vt b =
      { putcell { resetparser vt with mb := vt.mb.set 0 b, nmb := 0, hang := 0 } b with
        curs := (typed vt b).curs, hang := (typed vt b).hang } := by
  unfold typed
  exact advance_eq _

theorem typed_TextReady {libc : LibC} {vt : TMT} (b : Nat) (ht : TextReady libc vt) :
    TextReady libc (typed vt b) := by
  obtain ⟨hst, hacs, hnmb, hx, hmb, hdec⟩ := ht
  have h1 : (typed vt b).state = S_NUL := by rw [typed_eq]; rfl
  have h2 : (typed vt b).acs = vt.acs := by rw [typed_eq]; rfl
  have h3 : (typed vt b).nmb = 0 := by rw [typed_eq]; rfl
  have h4 : xlate (typed vt b) = xlate vt := by rw [typed_eq]; rfl
  have h5 : (typed vt b).mb = vt.mb.set 0 b := by rw [typed_eq]; rfl
  have h6 : (typed vt b).ms = vt.ms := by rw [typed_eq]; rfl
  refine ⟨h1, by rw [h2]; exact hacs, h3, by rw [h4]; exact hx, ?_, by rw [h6]; exact hdec⟩
  rw [h5, List.length_set]; exact hmb

theorem typed_geo (vt : TMT) (b : Nat) : geo (typed vt b) = geo vt := by
  unfold typed; rw [geo_advance, geo_putcell]; rfl

theorem typed_attrs (vt : TMT) (b : Nat) : (typed vt b).attrs = vt.attrs := by
  rw [typed_eq]; rfl

theorem typed_ignored (vt : TMT) (b : Nat) : (typed vt b).ignored = false := by
  rw [typed_eq]; rfl

theorem typed_lines (vt : TMT) (b : Nat) :
    (typed vt b).screen.lines =
      vt.screen.lines.set (CLINE vt)
        { dirty := true,
          chars := (lineAt vt (CLINE vt)).chars.set vt.curs.c { c := b, a := vt.attrs } } := by
  rw [typed_eq]; rfl

theorem typed_ScreenOK {vt : TMT} (b : Nat) (hs : ScreenOK vt) (hc : CursorOK vt) :
    ScreenOK (typed vt b) := by
  have hg := typed_geo vt b
  simp only [geo, Prod.mk.injEq] at hg
  unfold ScreenOK
  rw [typed_lines, hg.1, hg.2.1, List.length_set]
  refine ⟨hs.1, ?_⟩
  intro l hl
  rcases List.mem_or_eq_of_mem_set hl with h | h
  · exact hs.2 l h
  · subst h
    simp only [List.length_set]
    rw [CLINE_eq hc.1]
    exact lineAt_length hs hc.1

/-- The cursor and the hang after a printable byte, below the last column. -/
theorem typed_curs_inrow {vt : TMT} (b : Nat) (h : vt.curs.c < vt.screen.ncol - 1) :
    (typed vt b).curs = ⟨vt.curs.r, vt.curs.c + 1⟩ ∧ (typed vt b).hang = 0 := by
  unfold typed advance
  have h1 : (putcell { resetparser vt with mb := vt.mb.set 0 b, nmb := 0, hang := 0 } b).curs.c <
      (putcell { resetparser vt with mb := vt.mb.set 0 b, nmb := 0, hang := 0 } b).screen.ncol - 1 :=
    h
  simp only [h1, if_true]
  have h2 : ¬ ((0 : Nat) ≠ 0 ∧ vt.curs.r > vt.maxline) := fun hh => hh.1 rfl
  rw [if_neg (by exact h2)]
  exact ⟨rfl, rfl⟩

/-- The cursor and the hang after a printable byte on the last column, above
the last line of the scroll region: the cursor hangs onto the next line. -/
theorem typed_curs_wrap {vt : TMT} (b : Nat) (h : ¬ vt.curs.c < vt.screen.ncol - 1)
    (hr : vt.curs.r < vt.maxline) (hm : vt.curs.r + 1 < SIZE_MOD) :
    (typed vt b).curs = ⟨vt.curs.r + 1, 0⟩ ∧ (typed vt b).hang = 1 := by
  have hadd : addz vt.curs.r 1 = vt.curs.r + 1 := by
    unfold addz; apply Nat.mod_eq_of_lt; omega
  unfold typed advance
  have h1 : ¬ (putcell { resetparser vt with mb := vt.mb.set 0 b, nmb := 0, hang := 0 } b).curs.c <
      (putcell { resetparser vt with mb := vt.mb.set 0 b, nmb := 0, hang := 0 } b).screen.ncol - 1 :=
    h
  simp only [h1, if_false]
  have h2 : ¬ ((1 : Nat) ≠ 0 ∧ addz vt.curs.r 1 > vt.maxline) := by
    rw [hadd]; omega
  rw [if_neg (by exact h2)]
  exact ⟨by rw [← hadd]; rfl, rfl⟩

/-- The cursor and the hang after a printable byte on the last column, on or
below the last line of the scroll region: the cursor goes to that line and
hangs past the bottom. -/
theorem typed_curs_bottom {vt : TMT} (b : Nat) (h : ¬ vt.curs.c < vt.screen.ncol - 1)
    (hr : vt.maxline ≤ vt.curs.r) (hm : vt.curs.r + 1 < SIZE_MOD) :
    (typed vt b).curs = ⟨vt.maxline, 0⟩ ∧ (typed vt b).hang = 2 := by
  have hadd : addz vt.curs.r 1 = vt.curs.r + 1 := by
    unfold addz; apply Nat.mod_eq_of_lt; omega
  unfold typed advance
  have h1 : ¬ (putcell { resetparser vt with mb := vt.mb.set 0 b, nmb := 0, hang := 0 } b).curs.c <
      (putcell { resetparser vt with mb := vt.mb.set 0 b, nmb := 0, hang := 0 } b).screen.ncol - 1 :=
    h
  simp only [h1, if_false]
  have h2 : ((1 : Nat) ≠ 0 ∧ addz vt.curs.r 1 > vt.maxline) := by
    rw [hadd]; omega
  rw [if_pos (by exact h2)]
  exact ⟨rfl, rfl⟩

theorem getD_set_line (ls : List TMTLINE) (k i : Nat) (x : TMTLINE) (hk : k < ls.length) :
    (ls.set k x).getD i nullline = if i = k then x else ls.getD i nullline := by
  simp only [List.getD_eq_getElem?_getD, List.getElem?_set]
  by_cases h : k = i
  · subst h; simp [hk]
  · have h' : ¬ i = k := fun e => h e.symm
    simp [h, h']

theorem getD_set_char (cs : List TMTCHAR) (k j : Nat) (x : TMTCHAR) (hk : k < cs.length) :
    (cs.set k x).getD j zerochar = if j = k then x else cs.getD j zerochar := by
  simp only [List.getD_eq_getElem?_getD, List.getElem?_set]
  by_cases h : k = j
  · subst h; simp [hk]
  · have h' : ¬ j = k := fun e => h e.symm
    simp [h, h']

/-- The cells after a printable byte: the cell under the cursor holds the byte
with the current attributes, every other cell is as before. -/
theorem typed_cell {vt : TMT} (b : Nat) (hs : ScreenOK vt) (hc : CursorOK vt) (i j : Nat) :
    cell (typed vt b) i j =
      if i = vt.curs.r ∧ j = vt.curs.c then { c := b, a := vt.attrs } else cell vt i j := by
  have hl : vt.curs.r < vt.screen.lines.length := by rw [hs.1]; exact hc.1
  have hcl : vt.curs.c < (lineAt vt vt.curs.r).chars.length := by
    rw [lineAt_length hs hc.1]; exact hc.2
  unfold cell cellAt
  unfold lineAt
  rw [typed_lines, CLINE_eq hc.1, getD_set_line _ _ _ _ hl]
  by_cases hi : i = vt.curs.r
  · subst hi
    simp only [if_true, true_and]
    rw [getD_set_char _ _ _ _ hcl]
    rfl
  · simp only [hi, if_false, false_and]

/-- Printable bytes written inside one line, short of its last column: they
are stored from the cursor on with the current attributes, the cursor ends
behind them, and no other cell changes. -/
theorem typed_row {libc : LibC} (cs : List Nat) : ∀ vt : TMT, TextReady libc vt → ScreenOK vt →
    CursorOK vt → vt.hang ≠ 2 → (∀ b ∈ cs, 32 ≤ b ∧ b ≤ 126) →
    vt.curs.c + cs.length ≤ vt.screen.ncol - 1 →
    ∃ vt', tmt_write_loop libc vt cs = some vt' ∧ TextReady libc vt' ∧ ScreenOK vt' ∧
      geo vt' = geo vt ∧ vt'.attrs = vt.attrs ∧
      vt'.curs = ⟨vt.curs.r, vt.curs.c + cs.length⟩ ∧ vt'.hang ≠ 2 ∧
      ∀ i j, cell vt' i j =
        if i = vt.curs.r ∧ vt.curs.c ≤ j ∧ j < vt.curs.c + cs.length then
          { c := cs.getD (j - vt.curs.c) 0, a := vt.attrs }
        else cell vt i j := by
  induction cs with
  | nil =>
    intro vt ht hs hc hh _ _
    refine ⟨vt, rfl, ht, hs, rfl, rfl, rfl, hh, ?_⟩
    intro i j
    have : ¬ (i = vt.curs.r ∧ vt.curs.c ≤ j ∧ j < vt.curs.c + ([] : List Nat).length) := by
      simp only [List.length_nil]; omega
    rw [if_neg this]
  | cons b cs ih =>
    intro vt ht hs hc hh hp hlen
    simp only [List.length_cons] at hlen
    have hb := hp b (List.mem_cons_self _ _)
    have hin : vt.curs.c < vt.screen.ncol - 1 := by omega
    obtain ⟨hcu, hhg⟩ := typed_curs_inrow b hin
    have hg1 := typed_geo vt b
    have hs1 := typed_ScreenOK b hs hc
    have hc1 : CursorOK (typed vt b) := by
      have hg := hg1
      simp only [geo, Prod.mk.injEq] at hg
      unfold CursorOK at *
      rw [hcu, hg.1, hg.2.1]
      simp only
      omega
    have hlen1 : (typed vt b).curs.c + cs.length ≤ (typed vt b).screen.ncol - 1 := by
      have hg := hg1
      simp only [geo, Prod.mk.injEq] at hg
      rw [hcu, hg.2.1]
      simp only
      omega
    obtain ⟨vt', hl, ht', hs', hg', ha', hcu', hh', hcell⟩ :=
      ih (typed vt b) (typed_TextReady b ht) hs1 hc1 (by rw [hhg]; decide)
        (fun x hx => hp x (List.mem_cons_of_mem _ hx)) hlen1
    refine ⟨vt', ?_, ht', hs', hg'.trans hg1, ha'.trans (typed_attrs vt b), ?_, hh', ?_⟩
    · simp only [tmt_write_loop, typed_step ht hs hc hh hb.1 hb.2, Option.some_bind]
      exact hl
    · rw [hcu', hcu]
      simp only [List.length_cons, TMTPOINT.mk.injEq, true_and]
      omega
    · intro i j
      rw [hcell, typed_cell b hs hc, hcu, typed_attrs]
      simp only [List.length_cons]
      by_cases hi : i = vt.curs.r
      · by_cases hj : j = vt.curs.c
        · subst hi; subst hj
          have e1 : ¬ (vt.curs.c + 1 ≤ vt.curs.c ∧ vt.curs.c < vt.curs.c + 1 + cs.length) := by
            omega
          have e2 : vt.curs.c ≤ vt.curs.c ∧ vt.curs.c < vt.curs.c + (cs.length + 1) := by omega
          simp only [true_and, e1, if_false, e2, and_self, if_true, Nat.sub_self,
            List.getD_cons_zero]
        · by_cases hr : vt.curs.c + 1 ≤ j ∧ j < vt.curs.c + 1 + cs.length
          · have e2 : vt.curs.c ≤ j ∧ j < vt.curs.c + (cs.length + 1) := by omega
            have e3 : j - vt.curs.c = (j - (vt.curs.c + 1)) + 1 := by omega
            simp only [hi, true_and, hr, and_self, if_true, e2, e3, List.getD_cons_succ]
          · have e2 : ¬ (vt.curs.c ≤ j ∧ j < vt.curs.c + (cs.length + 1)) := by omega
            simp only [hi, true_and, hr, if_false, hj, e2]
      · simp only [hi, false_and, if_false]

theorem getD_concat (init : List Nat) (last j : Nat) :
    (init ++ [last]).getD j 0 =
      if j < init.length then init.getD j 0 else if j = init.length then last else 0 := by
  simp only [List.getD_eq_getElem?_getD]
  by_cases h : j < init.length
  · rw [List.getElem?_append_left h, if_pos h]
  · rw [List.getElem?_append_right (by omega), if_neg h]
    by_cases h2 : j = init.length
    · subst h2; simp
    · rw [if_neg h2]
      have : j - init.length = (j - init.length - 1) + 1 := by omega
      rw [this]; simp

/-- A full line of printable bytes written from column 0: the line holds the
bytes; above the last line of the scroll region the cursor hangs onto the
next line (`hang = 1`), otherwise it goes to the last line of the region and
hangs past the bottom (`hang = 2`). -/
theorem typed_fullrow {libc : LibC} (cs : List Nat) (vt : TMT) (ht : TextReady libc vt)
    (hs : ScreenOK vt) (hc : CursorOK vt) (hd : DimsOK vt) (hh : vt.hang ≠ 2)
    (hp : ∀ b ∈ cs, 32 ≤ b ∧ b ≤ 126) (hc0 : vt.curs.c = 0)
    (hlen : cs.length = vt.screen.ncol) :
    ∃ vt', tmt_write_loop libc vt cs = some vt' ∧ TextReady libc vt' ∧ ScreenOK vt' ∧
      geo vt' = geo vt ∧ vt'.attrs = vt.attrs ∧ vt'.ignored = false ∧
      (vt.curs.r < vt.maxline → vt'.curs = ⟨vt.curs.r + 1, 0⟩ ∧ vt'.hang = 1) ∧
      (vt.maxline ≤ vt.curs.r → vt'.curs = ⟨vt.maxline, 0⟩ ∧ vt'.hang = 2) ∧
      ∀ i j, cell vt' i j =
        if i = vt.curs.r ∧ j < vt.screen.ncol then { c := cs.getD j 0, a := vt.attrs }
        else cell vt i j := by
  have hncol : 0 < vt.screen.ncol := by have := hc.2; omega
  rcases List.eq_nil_or_concat cs with hnil | ⟨init, last, hcs⟩
  · subst hnil; simp only [List.length_nil] at hlen; omega
  rw [List.concat_eq_append] at hcs
  subst hcs
  replace hlen : init.length + 1 = vt.screen.ncol := by simpa using hlen
  have hpi : ∀ b ∈ init, 32 ≤ b ∧ b ≤ 126 := fun b hb => hp b (List.mem_append_left _ hb)
  have hpl : 32 ≤ last ∧ last ≤ 126 := hp last (List.mem_append_right _ (List.mem_singleton_self _))
  obtain ⟨v0, hl0, ht0, hs0, hg0, ha0, hcu0, hh0, hcell0⟩ :=
    typed_row init vt ht hs hc hh hpi (by rw [hc0]; omega)
  have hg0' := hg0
  simp only [geo, Prod.mk.injEq] at hg0'
  have hc0' : CursorOK v0 := by
    unfold CursorOK
    rw [hcu0, hg0'.1, hg0'.2.1]
    simp only
    exact ⟨hc.1, by omega⟩
  have hlast : ¬ v0.curs.c < v0.screen.ncol - 1 := by
    rw [hcu0, hg0'.2.1]; simp only; omega
  have hgt := typed_geo v0 last
  refine ⟨typed v0 last, ?_, typed_TextReady last ht0, typed_ScreenOK last hs0 hc0',
    hgt.trans hg0, (typed_attrs v0 last).trans ha0, typed_ignored v0 last, ?_, ?_, ?_⟩
  · rw [tmt_write_loop_append, hl0]
    simp only [Option.some_bind, tmt_write_loop,
      typed_step ht0 hs0 hc0' hh0 hpl.1 hpl.2]
  · intro hr
    have h1 : v0.curs.r < v0.maxline := by rw [hcu0, hg0'.2.2.2]; exact hr
    have h2 : v0.curs.r + 1 < SIZE_MOD := by
      rw [hcu0]; simp only
      have := hd.1; have := hc.1; omega
    have := typed_curs_wrap last hlast h1 h2
    rw [hcu0] at this
    exact this
  · intro hr
    have h1 : v0.maxline ≤ v0.curs.r := by rw [hcu0, hg0'.2.2.2]; exact hr
    have h2 : v0.curs.r + 1 < SIZE_MOD := by
      rw [hcu0]; simp only
      have := hd.1; have := hc.1; omega
    have := typed_curs_bottom last hlast h1 h2
    rw [hg0'.2.2.2] at this
    exact this
  · intro i j
    rw [typed_cell last hs0 hc0', hcell0, hcu0, ha0, hc0, getD_concat]
    simp only [Nat.zero_le, Nat.zero_add, true_and, Nat.sub_zero]
    by_cases hi : i = vt.curs.r
    · by_cases hj : j = init.length
      · have e1 : j < vt.screen.ncol := by omega
        have e2 : ¬ j < init.length := by omega
        simp only [hi, hj, and_self, if_true, e2, if_false, ← hlen, Nat.lt_succ_self,
          Nat.lt_irrefl]
      · by_cases hj2 : j < init.length
        · have e1 : j < vt.screen.ncol := by omega
          simp only [hi, hj, and_false, if_false, hj2, true_and, if_true, e1]
        · have e1 : ¬ j < vt.screen.ncol := by omega
          simp only [hi, hj, and_false, if_false, hj2, e1]
    · simp only [hi, false_and, if_false]

/-! ### Writing at the right margin -/

theorem input_bytes_length (s : List Nat) : input_bytes s s.length = s := by
  unfold input_bytes
  cases s with
  | nil => rfl
  | cons x xs =>
    rw [if_pos (by simp)]
    exact List.take_length _

theorem notify_eq (v : TMT) (u m : Bool) : notify v u m = { v with out := (notify v u m).out } := by
  unfold notify CB; cases u <;> cases m <;> rfl

theorem tmt_write_of_loop {libc : LibC} {vt v : TMT} {s : List Nat}
    (h : tmt_write_loop libc vt s = some v) :
    tmt_write libc vt s s.length =
      some { v with out := (notify v v.dirty (decide (vt.curs ≠ v.curs))).out } := by
  unfold tmt_write
  rw [input_bytes_length, h, Option.map_some', ← notify_eq]

theorem clocale_ascii (ms : Nat) : AsciiLibC clocale ms := by
  refine ⟨by decide, ?_⟩
  intro b h1 h2
  have e0 : ¬ b = 0 := by omega
  have e1 : b < 128 := by omega
  simp only [clocale, e0, if_false, e1, if_true, and_self]

theorem fresh22_TextReady : TextReady clocale fresh22 :=
  ⟨by decide, by decide, by decide, by decide, by decide, clocale_ascii _⟩

theorem fresh22_ScreenOK : ScreenOK fresh22 := tmt_resize_ScreenOK _ (by decide) (by decide)

theorem fresh22_DimsOK : DimsOK fresh22 := by unfold DimsOK; decide

theorem fresh22_CursorOK : CursorOK fresh22 := by unfold CursorOK; decide

theorem cell_out (v : TMT) (o : List tmt_msg_t) (i j : Nat) :
    cell { v with out := o } i j = cell v i j := rfl

theorem below42_eq : ∃ vt, below42 = some vt := by
  cases h : below42 with
  | none => exact absurd h (by decide)
  | some vt => exact ⟨vt, rfl⟩

/-- C8 (amended): with a valid scroll region, at least two columns, the cursor
at (r, 0) on a line r above the last line of the region (`r < maxline`), no
hang, the parser in ground state, an empty decoder carry and no charset or
ACS translation, a write of `ncol` printable ASCII bytes followed by one more
printable ASCII byte `ch` stores the `ncol` bytes in line r, stores `ch` in
cell (r + 1, 0), leaves the cursor at (r + 1, 1) and changes no other cell. -/
theorem C8_deferred_wrap (libc : LibC) (vt : TMT) (cs : List Nat) (ch : Nat)
    (ht : TextReady libc vt) (hs : ScreenOK vt) (hc : CursorOK vt) (hd : DimsOK vt)
    (hg : RegionOK vt) (hh : vt.hang = 0) (hc0 : vt.curs.c = 0) (hr : vt.curs.r < vt.maxline)
    (hn : 2 ≤ vt.screen.ncol) (hp : ∀ b ∈ cs, 32 ≤ b ∧ b ≤ 126)
    (hlen : cs.length = vt.screen.ncol) (h1 : 32 ≤ ch) (h2 : ch ≤ 126) :
    ∃ vt', tmt_write libc vt (cs ++ [ch]) (cs ++ [ch]).length = some vt' ∧
      vt'.curs = ⟨vt.curs.r + 1, 1⟩ ∧
      (∀ j, j < vt.screen.ncol → cell vt' vt.curs.r j = { c := cs.getD j 0, a := vt.attrs }) ∧
      cell vt' (vt.curs.r + 1) 0 = { c := ch, a := vt.attrs } ∧
      ∀ i j, i ≠ vt.curs.r → ¬ (i = vt.curs.r + 1 ∧ j = 0) → cell vt' i j = cell vt i j := by
  obtain ⟨v1, hl, ht1, hs1, hg1, ha1, _, hw1, _, hcell1⟩ :=
    typed_fullrow cs vt ht hs hc hd (by rw [hh]; decide) hp hc0 hlen
  obtain ⟨hcur1, hhang1⟩ := hw1 hr
  have hg1' := hg1
  simp only [geo, Prod.mk.injEq] at hg1'
  have hmax : vt.maxline < vt.screen.nline := hg.2.2.2
  have hc1 : CursorOK v1 := by
    unfold CursorOK
    rw [hcur1, hg1'.1, hg1'.2.1]
    simp only
    exact ⟨by omega, by omega⟩
  have hin : v1.curs.c < v1.screen.ncol - 1 := by
    rw [hcur1, hg1'.2.1]; simp only; omega
  have hloop : tmt_write_loop libc vt (cs ++ [ch]) = some (typed v1 ch) := by
    rw [tmt_write_loop_append, hl]
    simp only [Option.some_bind, tmt_write_loop,
      typed_step ht1 hs1 hc1 (by rw [hhang1]; decide) h1 h2]
  have hcur2 := (typed_curs_inrow ch hin).1
  rw [hcur1] at hcur2
  have hcell2 : ∀ i j, cell (typed v1 ch) i j =
      if i = vt.curs.r + 1 ∧ j = 0 then { c := ch, a := vt.attrs }
      else if i = vt.curs.r ∧ j < vt.screen.ncol then { c := cs.getD j 0, a := vt.attrs }
      else cell vt i j := by
    intro i j
    rw [typed_cell ch hs1 hc1, hcell1, hcur1, ha1]
  refine ⟨_, tmt_write_of_loop hloop, hcur2, ?_, ?_, ?_⟩
  · intro j hj
    rw [cell_out, hcell2]
    have e : ¬ (vt.curs.r = vt.curs.r + 1 ∧ j = 0) := by omega
    rw [if_neg e, if_pos ⟨rfl, hj⟩]
  · rw [cell_out, hcell2, if_pos ⟨rfl, rfl⟩]
  · intro i j hi hij
    rw [cell_out, hcell2, if_neg hij, if_neg (fun h => hi h.1)]

theorem C8_deferred_wrap_witness :
    ∃ vt', tmt_write clocale fresh22 ([97, 98] ++ [99]) ([97, 98] ++ [99]).length = some vt' ∧
      vt'.curs = ⟨fresh22.curs.r + 1, 1⟩ ∧
      (∀ j, j < fresh22.screen.ncol →
        cell vt' fresh22.curs.r j = { c := [97, 98].getD j 0, a := fresh22.attrs }) ∧
      cell vt' (fresh22.curs.r + 1) 0 = { c := 99, a := fresh22.attrs } ∧
      ∀ i j, i ≠ fresh22.curs.r → ¬ (i = fresh22.curs.r + 1 ∧ j = 0) →
        cell vt' i j = cell fresh22 i j :=
  C8_deferred_wrap clocale fresh22 [97, 98] 99 fresh22_TextReady fresh22_ScreenOK
    fresh22_CursorOK fresh22_DimsOK (by unfold RegionOK RegionP; decide) (by decide) (by decide)
    (by decide) (by decide) (by decide) (by decide) (by decide) (by decide)

set_option maxRecDepth 100000 in
/-- C8, the claim as stated fails on a line below the scroll region: on a
4 x 2 instance with the region on the lines 0..1 and the cursor at (2, 0)
(`r = 2 ≠ maxline = 1`, `r + 1 = 3 < nline = 4`, no hang, ground state),
writing `ab` and then `c` stores `c` in cell (1, 0), on the last line of the
region, leaves cell (3, 0) blank and leaves the cursor at (1, 1), not at
(3, 1). -/
theorem C8_wrap_below_region_scrolls :
    below42.map (fun v => (v.curs, v.hang, v.nmb, v.acs, xlate v)) =
      some (⟨2, 0⟩, 0, 0, false, 0) ∧
    below42.map (fun v => v.state) = some S_NUL ∧
    below42.map geo = some (4, 2, 0, 1) ∧
    (below42.bind fun v => tmt_write clocale v [97, 98, 99] 3).map
        (fun v => (v.curs, (cell v 1 0).c, (cell v 2 0).c, (cell v 2 1).c, (cell v 3 0).c)) =
      some (⟨1, 1⟩, 99, 97, 98, 32) := by
  decide

/-! ### Carriage return -/

theorem consumearg_eq (v : TMT) :
    consumearg v = { v with pars := (consumearg v).pars, npar := (consumearg v).npar, arg := 0 } := by
  unfold consumearg; split_ifs <;> rfl

theorem handlechar_cr {vt : TMT} (hs : vt.state = S_NUL) :
    handlechar vt 13 = (DO vt fun v => some (cr v)).map fun v => (v, true) := by
  unfold handlechar
  simp only [Rule.guard, hs]
  rfl

theorem cr_step {libc : LibC} {v : TMT} (hs : v.state = S_NUL) (hi : v.ignored = false) :
    tmt_write_byte libc v 13 =
      some { resetparser (fixcursor (cr (consumearg v))) with hang := 0 } := by
  unfold tmt_write_byte
  rw [handlechar_cr hs]
  unfold DO
  rw [consumearg_ignored, hi]
  rfl

theorem cr_screen (v : TMT) : (cr v).screen = v.screen := by
  unfold cr; simp only; split_ifs <;> rfl

theorem cr_curs (v : TMT) :
    (cr v).curs =
      if v.hang = 1 ∧ v.curs.r > v.minline ∧ v.curs.r ≤ v.maxline then ⟨v.curs.r - 1, 0⟩
      else ⟨v.curs.r, 0⟩ := by
  unfold cr; simp only
  by_cases h1 : v.hang = 1
  · by_cases h2 : v.curs.r > v.minline ∧ v.curs.r ≤ v.maxline
    · rw [if_pos h1, if_pos h2, if_pos ⟨h1, h2⟩]
    · rw [if_pos h1, if_neg h2, if_neg (fun h => h2 h.2)]
  · rw [if_neg h1, if_neg (fun h => h1 h.1)]

theorem MIN_of_le {a b : Nat} (h : a ≤ b) : MIN a b = a := by
  unfold MIN; split_ifs <;> omega

theorem cell_of_screen {a b : TMT} (h : a.screen = b.screen) (i j : Nat) :
    cell a i j = cell b i j := by
  unfold cell lineAt; rw [h]

theorem above42_eq : ∃ vt, above42 = some vt := by
  cases h : above42 with
  | none => exact absurd h (by decide)
  | some vt => exact ⟨vt, rfl⟩

/-- C10 (amended): with a valid scroll region, the cursor at (r, 0) on a line
r inside the region (`minline ≤ r ≤ maxline`), no hang, the parser in ground
state, an empty decoder carry and no charset or ACS translation, a write of
`ncol` printable ASCII bytes followed by CR (0x0d) leaves the cursor at (r, 0)
and line r holding the `ncol` bytes. -/
theorem C10_carriage_return_after_full_line (libc : LibC) (vt : TMT) (cs : List Nat)
    (ht : TextReady libc vt) (hs : ScreenOK vt) (hc : CursorOK vt) (hd : DimsOK vt)
    (hg : RegionOK vt) (hh : vt.hang = 0) (hc0 : vt.curs.c = 0)
    (hlo : vt.minline ≤ vt.curs.r) (hhi : vt.curs.r ≤ vt.maxline)
    (hp : ∀ b ∈ cs, 32 ≤ b ∧ b ≤ 126) (hlen : cs.length = vt.screen.ncol) :
    ∃ vt', tmt_write libc vt (cs ++ [13]) (cs ++ [13]).length = some vt' ∧
      vt'.curs = ⟨vt.curs.r, 0⟩ ∧
      ∀ j, j < vt.screen.ncol → cell vt' vt.curs.r j = { c := cs.getD j 0, a := vt.attrs } := by
  obtain ⟨v1, hl, ht1, hs1, hg1, ha1, hi1, hw1, hw2, hcell1⟩ :=
    typed_fullrow cs vt ht hs hc hd (by rw [hh]; decide) hp hc0 hlen
  have hg1' := hg1
  simp only [geo, Prod.mk.injEq] at hg1'
  have hmax : vt.maxline < vt.screen.nline := hg.2.2.2
  have hloop : tmt_write_loop libc vt (cs ++ [13]) =
      some { resetparser (fixcursor (cr (consumearg v1))) with hang := 0 } := by
    rw [tmt_write_loop_append, hl]
    simp only [Option.some_bind, tmt_write_loop, cr_step ht1.1 hi1]
  refine ⟨_, tmt_write_of_loop hloop, ?_, ?_⟩
  · show (fixcursor (cr (consumearg v1))).curs = _
    have e1 : (cr (consumearg v1)).curs =
        if v1.hang = 1 ∧ v1.curs.r > v1.minline ∧ v1.curs.r ≤ v1.maxline then
          ⟨v1.curs.r - 1, 0⟩ else ⟨v1.curs.r, 0⟩ := by
      rw [cr_curs, consumearg_eq]
    have e2 : (cr (consumearg v1)).screen = v1.screen := by
      rw [cr_screen, consumearg_eq]
    have e3 : (cr (consumearg v1)).curs = ⟨vt.curs.r, 0⟩ := by
      rw [e1, hg1'.2.2.1, hg1'.2.2.2]
      by_cases hlt : vt.curs.r < vt.maxline
      · obtain ⟨hcu, hha⟩ := hw1 hlt
        rw [hcu, hha]
        simp only
        rw [if_pos ⟨trivial, by omega, by omega⟩, Nat.add_sub_cancel]
      · obtain ⟨hcu, hha⟩ := hw2 (by omega)
        have e4 : vt.maxline = vt.curs.r := by omega
        rw [hcu, hha, if_neg (fun h => absurd h.1 (by decide)), e4]
    unfold fixcursor
    simp only [e3, e2, hg1'.1, hg1'.2.1]
    have := hc.1
    rw [MIN_of_le (by omega), MIN_of_le (Nat.zero_le _)]
  · intro j hj
    have e2 : (cr (consumearg v1)).screen = v1.screen := by
      rw [cr_screen, consumearg_eq]
    exact (cell_of_screen (b := v1) e2 _ _).trans (by rw [hcell1, if_pos ⟨rfl, hj⟩])

theorem C10_carriage_return_after_full_line_witness :
    ∃ vt', tmt_write clocale fresh22 ([97, 98] ++ [13]) ([97, 98] ++ [13]).length = some vt' ∧
      vt'.curs = ⟨fresh22.curs.r, 0⟩ ∧
      ∀ j, j < fresh22.screen.ncol →
        cell vt' fresh22.curs.r j = { c := [97, 98].getD j 0, a := fresh22.attrs } :=
  C10_carriage_return_after_full_line clocale fresh22 [97, 98] fresh22_TextReady
    fresh22_ScreenOK fresh22_CursorOK fresh22_DimsOK (by unfold RegionOK RegionP; decide)
    (by decide) (by decide) (by decide) (by decide) (by decide) (by decide)

set_option maxRecDepth 100000 in
/-- C10, the claim as stated fails. On a line above the scroll region: on a
4 x 2 instance with the region on the lines 1..2 and the cursor at (0, 0)
(no hang, ground state), writing `ab` and then CR leaves the cursor at
(1, 0), not at (0, 0). With a charset translation active: on a fresh 2 x 2
instance after `ESC ( 0` (cursor (0, 0), no hang, ground state), writing `ab`
and then CR leaves line 0 holding `:` and `T`, not `a` and `b`. With a
decoder carry: in a UTF-8 locale, on a fresh 2 x 2 instance after the lead
byte 0xC3 (cursor (0, 0), no hang, ground state), writing `ab` and then CR
leaves line 0 holding U+FFFD and a blank. -/
theorem C10_return_after_full_line_fails :
    (above42.map (fun v => (v.curs, v.hang, v.nmb, v.acs, xlate v)) =
        some (⟨0, 0⟩, 0, 0, false, 0) ∧
      above42.map (fun v => v.state) = some S_NUL ∧
      above42.map geo = some (4, 2, 1, 2) ∧
      (above42.bind fun v => tmt_write clocale v [97, 98, 13] 3).map (fun v => v.curs) =
        some ⟨1, 0⟩) ∧
    (graphics22.map (fun v => (v.curs, v.hang, v.nmb, xlate v)) = some (⟨0, 0⟩, 0, 0, 1) ∧
      graphics22.map (fun v => v.state) = some S_NUL ∧
      graphics22.map geo = some (2, 2, 0, 1) ∧
      (graphics22.bind fun v => tmt_write clocale v [97, 98, 13] 3).map
          (fun v => (v.curs, (cell v 0 0).c, (cell v 0 1).c)) = some (⟨0, 0⟩, 58, 84)) ∧
    (carry22.map (fun v => (v.curs, v.hang, v.nmb, xlate v)) = some (⟨0, 0⟩, 0, 1, 0) ∧
      carry22.map (fun v => v.state) = some S_NUL ∧
      carry22.map geo = some (2, 2, 0, 1) ∧
      (carry22.bind fun v => tmt_write utf8locale v [97, 98, 13] 3).map
          (fun v => (v.curs, (cell v 0 0).c, (cell v 0 1).c)) = some (⟨0, 0⟩, 65533, 32)) := by
  refine ⟨⟨?_, ?_, ?_, ?_⟩, ⟨?_, ?_, ?_, ?_⟩, ⟨?_, ?_, ?_, ?_⟩⟩ <;> decide

/-! ### Scrolling the region up by one line -/

theorem subz_of_le {a b : Nat} (h : b ≤ a) (ha : a < SIZE_MOD) : subz a b = a - b := by
  have hb : b < SIZE_MOD := by omega
  unfold subz
  rw [Nat.mod_eq_of_lt ha, Nat.mod_eq_of_lt hb, if_pos h]

theorem addz_of_lt {a b : Nat} (h : a + b < SIZE_MOD) : addz a b = a + b := by
  unfold addz
  exact Nat.mod_eq_of_lt h

theorem nptr_of_lt {k : Nat} (h : k * 8 < SIZE_MOD) : nptr k = k := by
  unfold nptr mulz
  rw [Nat.mod_eq_of_lt h, Nat.mul_div_cancel k (by decide)]

theorem slice_getElem? {α : Type} {xs s : List α} {off n : Nat} (h : slice xs off n = some s) :
    s.length = n ∧ ∀ i, s[i]? = if i < n then xs[off + i]? else none := by
  unfold slice at h
  split_ifs at h with hle
  simp only [Option.some.injEq] at h
  subst h
  refine ⟨by simp only [List.length_take, List.length_drop]; omega, ?_⟩
  intro i
  by_cases hi : i < n
  · rw [if_pos hi, List.getElem?_take_of_lt hi, List.getElem?_drop]
  · rw [if_neg hi, List.getElem?_eq_none]
    simp only [List.length_take, List.length_drop]; omega

theorem blit_getElem? {α : Type} {xs ys src : List α} {off : Nat} (h : blit xs off src = some ys) :
    ys.length = xs.length ∧
      ∀ i, ys[i]? = if i < off then xs[i]? else if i < off + src.length then src[i - off]?
        else xs[i]? := by
  unfold blit at h
  split_ifs at h with hle
  simp only [Option.some.injEq] at h
  subst h
  refine ⟨by simp only [List.length_append, List.length_take, List.length_drop]; omega, ?_⟩
  intro i
  have hto : (xs.take off).length = off := by simp only [List.length_take]; omega
  by_cases h1 : i < off
  · rw [if_pos h1, List.append_assoc, List.getElem?_append_left (by rw [hto]; exact h1),
      List.getElem?_take_of_lt h1]
  · rw [if_neg h1, List.append_assoc, List.getElem?_append_right (by rw [hto]; omega), hto]
    by_cases h2 : i < off + src.length
    · rw [if_pos h2, List.getElem?_append_left (by omega)]
    · rw [if_neg h2, List.getElem?_append_right (by omega), List.getElem?_drop]
      congr 1; omega

theorem slice_some {α : Type} (xs : List α) {off n : Nat} (h : off + n ≤ xs.length) :
    slice xs off n = some ((xs.drop off).take n) := by
  unfold slice; rw [if_pos h]

theorem blit_some {α : Type} (xs src : List α) {off : Nat} (h : off + src.length ≤ xs.length) :
    blit xs off src = some (xs.take off ++ src ++ xs.drop (off + src.length)) := by
  unfold blit; rw [if_pos h]

theorem scrup_one {vt : TMT} (hg : RegionOK vt) (hs : ScreenOK vt)
    (hmem : vt.screen.nline * 8 < SIZE_MOD) :
    ∃ ls, scrup vt SCR_DEF 1 =
        some { vt with dirty := true, screen := { vt.screen with lines := ls } } ∧
      ls.length = vt.screen.nline ∧
      ∀ i, ls[i]? =
        if vt.minline ≤ i ∧ i < vt.maxline then
          vt.screen.lines[i + 1]?.map fun l => { l with dirty := true }
        else if i = vt.maxline then
          vt.screen.lines[vt.minline]?.map fun l => clearline vt l 0 vt.screen.ncol
        else vt.screen.lines[i]? := by
  have hm : vt.minline < vt.maxline := hg.2.2.1
  have hM : vt.maxline < vt.screen.nline := hg.2.2.2
  have hlen := hs.1
  have hMod : vt.maxline < SIZE_MOD := by omega
  have e1 : scr_row vt SCR_DEF = vt.minline := by unfold scr_row; rw [if_pos rfl]
  have e2 : scr_count vt vt.minline 1 = 1 := by
    unfold scr_count
    rw [subz_of_le (Nat.le_of_lt hm) hMod]
    unfold MIN; split_ifs <;> omega
  have e3 : nptr 1 = 1 := nptr_of_lt (by decide)
  have e4 : subz vt.maxline 1 = vt.maxline - 1 := subz_of_le (by omega) hMod
  have e5 : subz (vt.maxline - 1) vt.minline = vt.maxline - 1 - vt.minline :=
    subz_of_le (by omega) (by omega)
  have e6 : addz (vt.maxline - 1 - vt.minline) 1 = vt.maxline - vt.minline := by
    rw [addz_of_lt (by omega)]; omega
  have e7 : nptr (vt.maxline - vt.minline) = vt.maxline - vt.minline := nptr_of_lt (by omega)
  have e8 : addz (vt.maxline - 1) 1 = vt.maxline := by rw [addz_of_lt (by omega)]; omega
  have e9 : addz vt.maxline 1 = vt.maxline + 1 := addz_of_lt (by omega)
  obtain ⟨buf, hb⟩ : ∃ buf, slice vt.screen.lines vt.minline 1 = some buf :=
    ⟨_, slice_some _ (by omega)⟩
  obtain ⟨sl, hsl⟩ : ∃ sl, slice vt.screen.lines (vt.minline + 1) (vt.maxline - vt.minline) =
      some sl := ⟨_, slice_some _ (by omega)⟩
  obtain ⟨hbl, hbg⟩ := slice_getElem? hb
  obtain ⟨hsll, hslg⟩ := slice_getElem? hsl
  obtain ⟨l1, hb1⟩ : ∃ l1, blit vt.screen.lines vt.minline sl = some l1 :=
    ⟨_, blit_some _ _ (by rw [hsll]; omega)⟩
  obtain ⟨hl1, hg1⟩ := blit_getElem? hb1
  obtain ⟨l2, hb2⟩ : ∃ l2, blit l1 vt.maxline buf = some l2 :=
    ⟨_, blit_some _ _ (by rw [hl1, hbl]; omega)⟩
  obtain ⟨hl2, hg2⟩ := blit_getElem? hb2
  have hhi : MIN (vt.maxline + 1) vt.screen.nline = vt.maxline + 1 := by
    unfold MIN; split_ifs <;> omega
  refine ⟨dirtyrows vt.minline (vt.maxline + 1) 0
    (clearrows { vt with screen := { vt.screen with lines := l2 } } vt.maxline
      (MIN (vt.maxline + 1) vt.screen.nline) 0 l2), ?_, ?_, ?_⟩
  · unfold scrup
    rw [e1, e2]
    unfold scrup_body
    rw [if_pos ⟨by decide, by decide⟩, e3, e4, e5, e6, e7, e8, e9, hb]
    unfold memmove
    rw [hsl]
    simp only [Option.some_bind]
    rw [hb1]
    simp only [Option.some_bind]
    rw [hb2]
    simp only [Option.some_bind]
    unfold dirtylines clearlines
    rw [e9]
  · simp only [dirtyrows_length, clearrows_length]
    rw [hl2, hl1, hlen]
  · intro i
    rw [dirtyrows_getElem?, clearrows_getElem?, hg2, hg1, hslg, hbg, hbl, hsll, hhi]
    simp only [Nat.zero_add]
    by_cases h1 : i < vt.minline
    · have a1 : ¬ (vt.minline ≤ i ∧ i < vt.maxline) := by omega
      have a2 : ¬ i = vt.maxline := by omega
      have a3 : i < vt.maxline := by omega
      have a4 : ¬ (vt.maxline ≤ i ∧ i < vt.maxline + 1) := by omega
      have a5 : ¬ (vt.minline ≤ i ∧ i < vt.maxline + 1) := by omega
      rw [if_neg a1, if_neg a2, if_pos a3, if_pos h1]
      cases vt.screen.lines[i]? with
      | none => rfl
      | some l =>
        simp only [Option.map_some']
        rw [if_neg a4, if_neg a5]
    · by_cases h2 : i < vt.maxline
      · have a1 : vt.minline ≤ i ∧ i < vt.maxline := ⟨by omega, h2⟩
        have a2 : i < vt.minline + (vt.maxline - vt.minline) := by omega
        have a3 : i - vt.minline < vt.maxline - vt.minline := by omega
        have a4 : ¬ (vt.maxline ≤ i ∧ i < vt.maxline + 1) := by omega
        have a5 : vt.minline ≤ i ∧ i < vt.maxline + 1 := by omega
        have a6 : vt.minline + 1 + (i - vt.minline) = i + 1 := by omega
        rw [if_pos a1, if_pos h2, if_neg h1, if_pos a2, if_pos a3, a6]
        cases vt.screen.lines[i + 1]? with
        | none => rfl
        | some l =>
          simp only [Option.map_some']
          rw [if_neg a4, if_pos a5]
      · by_cases h3 : i = vt.maxline
        · have a1 : ¬ (vt.minline ≤ i ∧ i < vt.maxline) := by omega
          have a2 : i < vt.maxline + 1 := by omega
          have a3 : i - vt.maxline < 1 := by omega
          have a4 : vt.maxline ≤ i ∧ i < vt.maxline + 1 := by omega
          have a5 : vt.minline ≤ i ∧ i < vt.maxline + 1 := by omega
          have a6 : vt.minline + (i - vt.maxline) = vt.minline := by omega
          rw [if_neg a1, if_pos h3, if_neg h2, if_pos a2, if_pos a3, a6]
          cases vt.screen.lines[vt.minline]? with
          | none => rfl
          | some l =>
            simp only [Option.map_some']
            rw [if_pos a4, if_pos a5]
            rfl
        · have a1 : ¬ (vt.minline ≤ i ∧ i < vt.maxline) := by omega
          have a2 : ¬ i < vt.maxline + 1 := by omega
          have a3 : ¬ i < vt.minline + (vt.maxline - vt.minline) := by omega
          have a4 : ¬ (vt.maxline ≤ i ∧ i < vt.maxline + 1) := by omega
          have a5 : ¬ (vt.minline ≤ i ∧ i < vt.maxline + 1) := by omega
          rw [if_neg a1, if_neg h3, if_neg h2, if_neg a2, if_neg h1, if_neg a3]
          cases vt.screen.lines[i]? with
          | none => rfl
          | some l =>
            simp only [Option.map_some']
            rw [if_neg a4, if_neg a5]

theorem printable_step {libc : LibC} {vt : TMT} {b : Nat} (ht : TextReady libc vt)
    (h1 : 32 ≤ b) (h2 : b ≤ 126) :
    tmt_write_byte libc vt b =
      writecharatcurs { resetparser vt with mb := vt.mb.set 0 b, nmb := 0 } b := by
  obtain ⟨hst, hacs, hnmb, hx, hmb, hml, hdec⟩ := ht
  obtain ⟨hret, hwc, hps⟩ := hdec b h1 h2
  have e1 : (resetparser vt).acs = false := hacs
  have e2 : (resetparser vt).nmb = 0 := hnmb
  have e3 := testmbchar_empty libc e2
  have e4 : ¬ (SIZE_MAX - 1 = SIZE_MAX) := by decide
  have e5 : ¬ ((resetparser vt).nmb ≥ BUF_MAX) := by rw [e2]; decide
  have e6 : testmbchar libc (pushmb (resetparser vt) b) = 1 := by
    rw [testmbchar_pushmb libc b e2 hmb]; exact hret
  have e7 := getmbchar_pushmb libc (v := resetparser vt) b e2 hmb hret hwc hps
  unfold tmt_write_byte
  rw [handlechar_printable hst h1 h2]
  simp only [Option.some_bind, Bool.false_eq_true, if_false, e1, e5, e3, e4, if_true, e6, hml]
  unfold writemb
  rw [e7]
  simp only [e1]
  rfl

theorem chars_map_getD (o : Option TMTLINE) (f : TMTLINE → TMTLINE)
    (hf : ∀ l, (f l).chars = l.chars) :
    ((o.map f).getD nullline).chars = (o.getD nullline).chars := by
  cases o with
  | none => rfl
  | some l => exact hf l

/-- The cells after the scroll region moves up by one line: each line of the
region but the last takes the cells of the line below it, the last line of
the region is blank, the other lines keep their cells. -/
theorem scrup_one_cell {vt : TMT} (hg : RegionOK vt) (hs : ScreenOK vt)
    (hmem : vt.screen.nline * 8 < SIZE_MOD) :
    ∃ ls, scrup vt SCR_DEF 1 =
        some { vt with dirty := true, screen := { vt.screen with lines := ls } } ∧
      ScreenOK { vt with dirty := true, screen := { vt.screen with lines := ls } } ∧
      ∀ i j, cell { vt with dirty := true, screen := { vt.screen with lines := ls } } i j =
        if vt.minline ≤ i ∧ i < vt.maxline then cell vt (i + 1) j
        else if i = vt.maxline then
          (if j < vt.screen.ncol then { c := 32, a := vt.attrs } else zerochar)
        else cell vt i j := by
  obtain ⟨ls, h1, h2, h3⟩ := scrup_one hg hs hmem
  have hm : vt.minline < vt.maxline := hg.2.2.1
  have hM : vt.maxline < vt.screen.nline := hg.2.2.2
  have hmin : (lineAt vt vt.minline).chars.length = vt.screen.ncol :=
    lineAt_length hs (by omega)
  refine ⟨ls, h1, ⟨h2, ?_⟩, ?_⟩
  · intro l hl
    show l.chars.length = vt.screen.ncol
    obtain ⟨i, hi⟩ := List.mem_iff_getElem?.mp hl
    rw [h3] at hi
    split_ifs at hi with c1 c2
    · cases hx : vt.screen.lines[i + 1]? with
      | none => rw [hx] at hi; exact absurd hi (by simp)
      | some x =>
        rw [hx] at hi
        simp only [Option.map_some', Option.some.injEq] at hi
        subst hi
        exact hs.2 x (List.mem_iff_getElem?.mpr ⟨_, hx⟩)
    · cases hx : vt.screen.lines[vt.minline]? with
      | none => rw [hx] at hi; exact absurd hi (by simp)
      | some x =>
        rw [hx] at hi
        simp only [Option.map_some', Option.some.injEq] at hi
        subst hi
        show (clearcells _ _ _ _ _ _).length = _
        rw [clearcells_length]
        exact hs.2 x (List.mem_iff_getElem?.mpr ⟨_, hx⟩)
    · exact hs.2 l (List.mem_iff_getElem?.mpr ⟨_, hi⟩)
  · intro i j
    simp only [cell, cellAt, lineAt, List.getD_eq_getElem?_getD]
    rw [h3]
    by_cases c1 : vt.minline ≤ i ∧ i < vt.maxline
    · rw [if_pos c1, if_pos c1,
        chars_map_getD _ (fun l => { dirty := true, chars := l.chars }) (fun _ => rfl)]
    · rw [if_neg c1, if_neg c1]
      by_cases c2 : i = vt.maxline
      · rw [if_pos c2, if_pos c2]
        have hlt : vt.minline < vt.screen.lines.length := by rw [hs.1]; omega
        rw [List.getElem?_eq_getElem hlt]
        simp only [Option.map_some', Option.getD_some]
        show (clearcells vt.attrs 0 vt.screen.ncol vt.screen.ncol 0 _)[j]?.getD zerochar = _
        have hlen : (vt.screen.lines[vt.minline]).chars.length = vt.screen.ncol :=
          hs.2 _ (List.getElem_mem _)
        rw [clearcells_getElem?]
        by_cases c3 : j < vt.screen.ncol
        · rw [if_pos c3, List.getElem?_eq_getElem (by rw [hlen]; exact c3)]
          simp only [Option.map_some', Option.getD_some, Nat.zero_add, Nat.zero_le, true_and,
            c3, and_self, if_true]
        · rw [if_neg c3, List.getElem?_eq_none (by rw [hlen]; omega)]
          rfl
      · rw [if_neg c2, if_neg c2]

/-- C11 (amended): with a valid scroll region `[minline, maxline]`, the cursor
at (maxline, 0), no hang, the parser in ground state, an empty decoder carry
and no charset or ACS translation, a write of `ncol` printable ASCII bytes
followed by one printable ASCII byte `ch` scrolls the
region up by one line: each line i with `minline ≤ i < maxline` ends with the
former cells of line i + 1 (line `maxline - 1` holding the `ncol` bytes just
written), line `maxline` holds `ch` at column 0 followed by blanks, the lines
outside the region are unchanged, and the cursor is at (maxline, 1). -/
theorem C11_wrap_at_region_bottom (libc : LibC) (vt : TMT) (cs : List Nat) (ch : Nat)
    (ht : TextReady libc vt) (hs : ScreenOK vt) (hc : CursorOK vt) (hd : DimsOK vt)
    (hg : RegionOK vt) (hmem : vt.screen.nline * 8 < SIZE_MOD) (hn : 2 ≤ vt.screen.ncol)
    (hh : vt.hang = 0) (hr : vt.curs.r = vt.maxline) (hc0 : vt.curs.c = 0)
    (hp : ∀ b ∈ cs, 32 ≤ b ∧ b ≤ 126) (hlen : cs.length = vt.screen.ncol)
    (h1 : 32 ≤ ch) (h2 : ch ≤ 126) :
    ∃ vt', tmt_write libc vt (cs ++ [ch]) (cs ++ [ch]).length = some vt' ∧
      vt'.curs = ⟨vt.maxline, 1⟩ ∧
      (∀ i j, vt.minline ≤ i → i + 1 < vt.maxline → cell vt' i j = cell vt (i + 1) j) ∧
      (∀ j, j < vt.screen.ncol →
        cell vt' (vt.maxline - 1) j = { c := cs.getD j 0, a := vt.attrs }) ∧
      cell vt' vt.maxline 0 = { c := ch, a := vt.attrs } ∧
      (∀ j, 0 < j → j < vt.screen.ncol → cell vt' vt.maxline j = { c := 32, a := vt.attrs }) ∧
      ∀ i j, i < vt.minline ∨ vt.maxline < i → cell vt' i j = cell vt i j := by
  obtain ⟨v1, hl, ht1, hs1, hg1, ha1, _, _, hw2, hcell1⟩ :=
    typed_fullrow cs vt ht hs hc hd (by rw [hh]; decide) hp hc0 hlen
  obtain ⟨hcur1, hhang1⟩ := hw2 (by rw [hr])
  have hg1' := hg1
  simp only [geo, Prod.mk.injEq] at hg1'
  obtain ⟨en, ec, emin, emax⟩ := hg1'
  have hm : vt.minline < vt.maxline := hg.2.2.1
  have hM : vt.maxline < vt.screen.nline := hg.2.2.2
  have hgv1 : RegionOK v1 := by unfold RegionOK; rw [hg1]; exact hg
  obtain ⟨ls, hscr, hsV, hcellV⟩ :=
    @scrup_one_cell { resetparser v1 with mb := v1.mb.set 0 ch, nmb := 0 } hgv1 hs1
      (by show v1.screen.nline * 8 < SIZE_MOD; rw [en]; exact hmem)
  have hsV' : ScreenOK { v1 with dirty := true, screen := { v1.screen with lines := ls } } := hsV
  have hcV : CursorOK { v1 with dirty := true, screen := { v1.screen with lines := ls } } := by
    show v1.curs.r < v1.screen.nline ∧ v1.curs.c < v1.screen.ncol
    rw [hcur1, en, ec]
    exact ⟨hM, by show 0 < vt.screen.ncol; omega⟩
  have hcellV' : ∀ i j,
      cell { v1 with dirty := true, screen := { v1.screen with lines := ls } } i j =
        if v1.minline ≤ i ∧ i < v1.maxline then cell v1 (i + 1) j
        else if i = v1.maxline then
          (if j < v1.screen.ncol then { c := 32, a := v1.attrs } else zerochar)
        else cell v1 i j := hcellV
  have hstep : tmt_write_byte libc v1 ch =
      some (typed { v1 with dirty := true, screen := { v1.screen with lines := ls } } ch) := by
    rw [printable_step ht1 h1 h2]
    unfold writecharatcurs
    rw [if_pos (by exact hhang1), hscr]
    simp only [Option.some_bind]
    rw [storechar_ok _ (by exact hsV) (by exact hcV), translate_ascii (by exact ht1.2.2.2.1) h2]
    rfl
  have hloop : tmt_write_loop libc vt (cs ++ [ch]) =
      some (typed { v1 with dirty := true, screen := { v1.screen with lines := ls } } ch) := by
    rw [tmt_write_loop_append, hl]
    simp only [Option.some_bind, tmt_write_loop, hstep]
  have hin : v1.curs.c < v1.screen.ncol - 1 := by
    rw [hcur1, ec]; show 0 < vt.screen.ncol - 1; omega
  have hcurF : (typed { v1 with dirty := true, screen := { v1.screen with lines := ls } } ch).curs =
      ⟨vt.maxline, 1⟩ := by
    refine (typed_curs_inrow ch (by exact hin)).1.trans ?_
    show (⟨v1.curs.r, v1.curs.c + 1⟩ : TMTPOINT) = _
    rw [hcur1]
  have hcellF : ∀ i j,
      cell (typed { v1 with dirty := true, screen := { v1.screen with lines := ls } } ch) i j =
        if i = vt.maxline ∧ j = 0 then { c := ch, a := vt.attrs }
        else if vt.minline ≤ i ∧ i < vt.maxline then
          (if i + 1 = vt.maxline ∧ j < vt.screen.ncol then { c := cs.getD j 0, a := vt.attrs }
           else cell vt (i + 1) j)
        else if i = vt.maxline then
          (if j < vt.screen.ncol then { c := 32, a := vt.attrs } else zerochar)
        else if i = vt.maxline ∧ j < vt.screen.ncol then { c := cs.getD j 0, a := vt.attrs }
        else cell vt i j := by
    intro i j
    rw [typed_cell ch hsV' hcV, hcellV', hcell1, hcell1, emin, emax, ec, hr]
    show (if i = v1.curs.r ∧ j = v1.curs.c then ({ c := ch, a := v1.attrs } : TMTCHAR) else _) = _
    rw [hcur1, ha1]
  refine ⟨_, tmt_write_of_loop hloop, hcurF, ?_, ?_, ?_, ?_, ?_⟩
  · intro i j hi1 hi2
    rw [cell_out, hcellF, if_neg (by omega), if_pos ⟨hi1, by omega⟩, if_neg (by omega)]
  · intro j hj
    rw [cell_out, hcellF, if_neg (by omega), if_pos ⟨by omega, by omega⟩,
      if_pos ⟨by omega, hj⟩]
  · rw [cell_out, hcellF, if_pos ⟨rfl, rfl⟩]
  · intro j hj1 hj2
    rw [cell_out, hcellF, if_neg (by omega), if_neg (by omega), if_pos rfl, if_pos hj2]
  · intro i j hi
    rw [cell_out, hcellF, if_neg (by omega), if_neg (by omega), if_neg (by omega),
      if_neg (by omega)]

theorem C11_wrap_at_region_bottom_witness :
    ∃ vt', tmt_write clocale (setrow fresh22 1) ([97, 98] ++ [99]) ([97, 98] ++ [99]).length =
        some vt' ∧
      vt'.curs = ⟨(setrow fresh22 1).maxline, 1⟩ ∧
      (∀ i j, (setrow fresh22 1).minline ≤ i → i + 1 < (setrow fresh22 1).maxline →
        cell vt' i j = cell (setrow fresh22 1) (i + 1) j) ∧
      (∀ j, j < (setrow fresh22 1).screen.ncol →
        cell vt' ((setrow fresh22 1).maxline - 1) j =
          { c := [97, 98].getD j 0, a := (setrow fresh22 1).attrs }) ∧
      cell vt' (setrow fresh22 1).maxline 0 = { c := 99, a := (setrow fresh22 1).attrs } ∧
      (∀ j, 0 < j → j < (setrow fresh22 1).screen.ncol →
        cell vt' (setrow fresh22 1).maxline j = { c := 32, a := (setrow fresh22 1).attrs }) ∧
      ∀ i j, i < (setrow fresh22 1).minline ∨ (setrow fresh22 1).maxline < i →
        cell vt' i j = cell (setrow fresh22 1) i j :=
  C11_wrap_at_region_bottom clocale (setrow fresh22 1) [97, 98] 99
    ⟨by decide, by decide, by decide, by decide, by decide, clocale_ascii _⟩
    fresh22_ScreenOK (by unfold CursorOK; decide) (by unfold DimsOK; decide)
    (by unfold RegionOK RegionP; decide) (by decide) (by decide) (by decide) (by decide)
    (by decide) (by decide) (by decide) (by decide) (by decide)

/-! ### Reading a control sequence -/

theorem tmt_write_byte_handled {libc : LibC} {vt vt1 : TMT} {i : Nat}
    (h : handlechar vt i = some (vt1, true)) :
    tmt_write_byte libc vt i = some { vt1 with hang := 0 } := by
  unfold tmt_write_byte
  rw [h]
  rfl

theorem handlechar_esc {vt : TMT} (hs : vt.state = S_NUL) :
    handlechar vt 27 = some (setstate vt S_ESC, true) := by
  unfold handlechar
  simp only [Rule.guard, hs]
  rfl

theorem handlechar_csi {vt : TMT} (hs : vt.state = S_ESC) :
    handlechar vt 91 = some (setstate vt S_ARG, true) := by
  unfold handlechar
  simp only [Rule.guard, hs]
  rfl

theorem handlechar_semi {vt : TMT} (hs : vt.state = S_ARG) :
    handlechar vt 59 = some (consumearg vt, true) := by
  unfold handlechar
  simp only [Rule.guard, hs]
  rfl

theorem handlechar_digit {vt : TMT} {d : Nat} (hs : vt.state = S_ARG) (h1 : 48 ≤ d)
    (h2 : d ≤ 57) : handlechar vt d = some (act_digit vt d, true) := by
  have hd : d = 48 ∨ d = 49 ∨ d = 50 ∨ d = 51 ∨ d = 52 ∨ d = 53 ∨ d = 54 ∨ d = 55 ∨ d = 56 ∨
      d = 57 := by omega
  unfold handlechar
  simp only [Rule.guard, hs]
  rcases hd with h | h | h | h | h | h | h | h | h | h <;> subst h <;> rfl

theorem csi_start {libc : LibC} {vt : TMT} (hg : Ground vt) :
    tmt_write_loop libc vt [27, 91] = some (csi_state vt [] 0) := by
  obtain ⟨hs, ha, hn, hp, _⟩ := hg
  have h1 := @tmt_write_byte_handled libc _ _ _ (handlechar_esc hs)
  have h2 := @tmt_write_byte_handled libc _ _ _
    (@handlechar_csi { setstate vt S_ESC with hang := 0 } rfl)
  have e : ({ setstate ({ setstate vt S_ESC with hang := 0 }) S_ARG with hang := 0 } : TMT) =
      csi_state vt [] 0 := by
    unfold csi_state parsOf setstate
    cases vt
    simp only at hp ha hn
    subst hp ha hn
    rfl
  unfold tmt_write_loop
  rw [h1, Option.some_bind]
  unfold tmt_write_loop
  rw [h2, Option.some_bind, e]
  rfl

theorem csi_digit {libc : LibC} (vt : TMT) (vals : List Nat) (x : Nat) {d : Nat}
    (h1 : 48 ≤ d) (h2 : d ≤ 57) :
    tmt_write_byte libc (csi_state vt vals x) d =
      some (csi_state vt vals (addz (mulz x 10) (atoi d))) := by
  rw [tmt_write_byte_handled (@handlechar_digit (csi_state vt vals x) _ rfl h1 h2)]
  rfl

theorem parsOf_set (vals : List Nat) (x : Nat) (h : vals.length < PAR_MAX) :
    (parsOf vals).set vals.length x = parsOf (vals ++ [x]) := by
  unfold parsOf
  have e : PAR_MAX - vals.length = (PAR_MAX - (vals ++ [x]).length) + 1 := by
    simp only [List.length_append, List.length_singleton]; omega
  rw [e, List.replicate_succ, List.set_append_right _ _ (Nat.le_refl _), Nat.sub_self,
    List.set_cons_zero, List.append_assoc]
  rfl

theorem csi_semi {libc : LibC} (vt : TMT) (vals : List Nat) (x : Nat)
    (h : vals.length < PAR_MAX) :
    tmt_write_byte libc (csi_state vt vals x) 59 = some (csi_state vt (vals ++ [x]) 0) := by
  rw [tmt_write_byte_handled (@handlechar_semi (csi_state vt vals x) rfl)]
  unfold consumearg
  rw [if_pos (by exact h)]
  unfold csi_state
  simp only [parsOf_set vals x h, List.length_append, List.length_singleton]

theorem csi_digits {libc : LibC} (vt : TMT) (vals : List Nat) (ds : List Nat) :
    ∀ x, IsNumeral ds →
      tmt_write_loop libc (csi_state vt vals x) ds =
        some (csi_state vt vals (ds.foldl (fun acc d => addz (mulz acc 10) (atoi d)) x)) := by
  induction ds with
  | nil => intro x _; rfl
  | cons d ds ih =>
    intro x hd
    have h1 := hd d (List.mem_cons_self _ _)
    unfold tmt_write_loop
    rw [csi_digit vt vals x h1.1 h1.2, Option.some_bind,
      ih _ (fun e he => hd e (List.mem_cons_of_mem _ he))]
    rfl

theorem numval_append (ds : List Nat) (d : Nat) :
    numval (ds ++ [d]) = numval ds * 10 + (d - 48) := by
  unfold numval
  rw [List.foldl_append]
  rfl

theorem foldl_numval (ds : List Nat) :
    IsNumeral ds → numval ds < SIZE_MOD →
      ds.foldl (fun acc d => addz (mulz acc 10) (atoi d)) 0 = numval ds := by
  induction ds using List.reverseRecOn with
  | nil => intro _ _; rfl
  | append_singleton ds d ih =>
    intro hd hv
    have h1 := hd d (List.mem_append_right _ (List.mem_singleton_self _))
    rw [numval_append] at hv
    have h2 : numval ds < SIZE_MOD := by omega
    rw [List.foldl_append, ih (fun e he => hd e (List.mem_append_left _ he)) h2, numval_append]
    simp only [List.foldl_cons, List.foldl_nil]
    have h3 : atoi d = d - 48 := by unfold atoi; rw [if_pos h1]
    unfold addz mulz
    have h4 : numval ds * 10 % SIZE_MOD = numval ds * 10 := Nat.mod_eq_of_lt (by omega)
    rw [h3, h4, Nat.mod_eq_of_lt hv]

theorem csi_numeral {libc : LibC} (vt : TMT) (vals : List Nat) (ds : List Nat)
    (hd : IsNumeral ds) (hv : numval ds < SIZE_MOD) :
    tmt_write_loop libc (csi_state vt vals 0) ds = some (csi_state vt vals (numval ds)) := by
  rw [csi_digits vt vals ds 0 hd, foldl_numval ds hd hv]

theorem csi_params_loop {libc : LibC} (vt : TMT) (rest : List (List Nat)) :
    ∀ (p : List Nat) (vals : List Nat), vals.length + rest.length < PAR_MAX →
      (∀ q ∈ p :: rest, IsNumeral q ∧ numval q < SIZE_MOD) →
      ∃ x, tmt_write_loop libc (csi_state vt vals 0) (csi_params (p :: rest)) =
          some (csi_state vt (vals ++ ((p :: rest).map numval).dropLast) x) ∧
        ((p :: rest).map numval).dropLast ++ [x] = (p :: rest).map numval := by
  induction rest with
  | nil =>
    intro p vals _ hq
    have h := hq p (List.mem_singleton_self _)
    refine ⟨numval p, ?_, rfl⟩
    simp only [csi_params, List.map_cons, List.map_nil, List.dropLast_single, List.append_nil]
    exact csi_numeral vt vals p h.1 h.2
  | cons q rest ih =>
    intro p vals hl hq
    have h := hq p (List.mem_cons_self _ _)
    simp only [List.length_cons] at hl
    obtain ⟨x, hx1, hx2⟩ := ih q (vals ++ [numval p])
      (by simp only [List.length_append, List.length_singleton]; omega)
      (fun e he => hq e (List.mem_cons_of_mem _ he))
    refine ⟨x, ?_, ?_⟩
    · have e : csi_params (p :: q :: rest) = p ++ ([59] ++ csi_params (q :: rest)) := rfl
      rw [e, tmt_write_loop_append, csi_numeral vt vals p h.1 h.2, Option.some_bind,
        tmt_write_loop_append]
      have e2 : tmt_write_loop libc (csi_state vt vals (numval p)) [59] =
          some (csi_state vt (vals ++ [numval p]) 0) := by
        unfold tmt_write_loop
        rw [csi_semi vt vals (numval p) (by omega), Option.some_bind]
        rfl
      rw [e2, Option.some_bind, hx1]
      simp only [List.map_cons, List.dropLast_cons₂, List.append_assoc, List.singleton_append]
    · simp only [List.map_cons, List.dropLast_cons₂, List.cons_append] at hx2 ⊢
      rw [hx2]

theorem consumearg_csi (vt : TMT) (vals : List Nat) (x : Nat) (h : vals.length < PAR_MAX) :
    consumearg (csi_state vt vals x) = csi_state vt (vals ++ [x]) 0 := by
  unfold consumearg
  rw [if_pos (by exact h)]
  unfold csi_state
  simp only [parsOf_set vals x h, List.length_append, List.length_singleton]

theorem csi_final {libc : LibC} (vt : TMT) (hi : vt.ignored = false) (vals : List Nat) (x : Nat)
    (h : vals.length < PAR_MAX) (F : Nat) (A : TMT → Option TMT)
    (hF : ∀ w : TMT, w.state = S_ARG → handlechar w F = (DO w A).map fun v => (v, true)) :
    tmt_write_byte libc (csi_state vt vals x) F =
      (A (csi_state vt (vals ++ [x]) 0)).map fun w =>
        { resetparser (fixcursor w) with hang := 0 } := by
  unfold tmt_write_byte
  rw [hF _ rfl]
  unfold DO
  rw [consumearg_csi vt vals x h]
  have e : (csi_state vt (vals ++ [x]) 0).ignored = false := hi
  rw [e]
  simp only [Bool.false_eq_true, if_false]
  cases A (csi_state vt (vals ++ [x]) 0) with
  | none => rfl
  | some w => rfl

/-- A control sequence `ESC [ p1 ; ... ; pk F` read in ground state, where
`F` is a final byte that `handlechar` dispatches with `DO` to the action `A`:
the action runs on the parser holding the values of the `k ≤ 8` parameters,
then `fixcursor` and `resetparser` run. -/
theorem csi_run {libc : LibC} {vt : TMT} (hg : Ground vt) (ps : List (List Nat))
    (hne : ps ≠ []) (hk : ps.length ≤ PAR_MAX)
    (hnum : ∀ p ∈ ps, IsNumeral p ∧ numval p < SIZE_MOD) (F : Nat) (A : TMT → Option TMT)
    (hF : ∀ w : TMT, w.state = S_ARG → handlechar w F = (DO w A).map fun v => (v, true)) :
    tmt_write_loop libc vt (csi_bytes ps F) =
      (A (csi_state vt (ps.map numval) 0)).map fun w =>
        { resetparser (fixcursor w) with hang := 0 } := by
  cases ps with
  | nil => exact absurd rfl hne
  | cons p rest =>
    simp only [List.length_cons] at hk
    obtain ⟨x, hx1, hx2⟩ := @csi_params_loop libc vt rest p []
      (by simp only [List.length_nil]; omega) hnum
    have hlen : (((p :: rest).map numval).dropLast).length < PAR_MAX := by
      simp only [List.length_dropLast, List.length_map, List.length_cons]; omega
    unfold csi_bytes
    rw [tmt_write_loop_append, tmt_write_loop_append, csi_start hg, Option.some_bind, hx1,
      Option.some_bind, List.nil_append]
    unfold tmt_write_loop
    rw [csi_final vt hg.2.2.2.2.1 _ x hlen F A hF, hx2]
    cases A (csi_state vt ((p :: rest).map numval) 0) with
    | none => rfl
    | some w => rfl

/-! ### The cursor position report -/

theorem toDigitsCore_length (fuel : Nat) : ∀ (k n : Nat) (ds : List Char), n < 10 ^ k →
    (Nat.toDigitsCore 10 fuel n ds).length ≤ ds.length + max k 1 := by
  induction fuel with
  | zero => intro k n ds _; simp only [Nat.toDigitsCore]; omega
  | succ fuel ih =>
    intro k n ds hn
    simp only [Nat.toDigitsCore]
    split_ifs with h0
    · simp only [List.length_cons]; omega
    · have hk : 2 ≤ k := by
        by_contra hlt
        have hk1 : k = 0 ∨ k = 1 := by omega
        rcases hk1 with rfl | rfl
        · simp only [pow_zero] at hn; omega
        · simp only [pow_one] at hn; omega
      have hdiv : n / 10 < 10 ^ (k - 1) := by
        have e : 10 ^ k = 10 ^ (k - 1) * 10 := by
          rw [← pow_succ]; congr 1; omega
        rw [e] at hn
        exact Nat.div_lt_of_lt_mul (by rw [Nat.mul_comm]; exact hn)
      have := ih (k - 1) (n / 10) (Nat.digitChar (n % 10) :: ds) hdiv
      simp only [List.length_cons] at this
      omega

theorem decimal_length {n : Nat} (h : n < 9223372036854775808) : (decimal n).length ≤ 19 := by
  unfold decimal Nat.toDigits
  rw [List.length_map]
  have := toDigitsCore_length (n + 1) 19 n [] (by norm_num; omega)
  simpa using this

theorem fmt_zd_small {n : Nat} (h : n < 9223372036854775808) : fmt_zd n = decimal n := by
  unfold fmt_zd decimal
  rw [if_pos h]

theorem handlechar_cup {w : TMT} (hs : w.state = S_ARG) :
    handlechar w 72 =
      (DO w fun v => some (setcol (setrow v (subz (P1 v 0) 1)) (subz (P1 v 1) 1))).map
        fun v => (v, true) := by
  unfold handlechar
  simp only [Rule.guard, hs]
  rfl

theorem handlechar_dsr {w : TMT} (hs : w.state = S_ARG) :
    handlechar w 110 = (DO w fun v => some (act_dsr v)).map fun v => (v, true) := by
  unfold handlechar
  simp only [Rule.guard, hs]
  rfl

theorem MIN_le_right (a b : Nat) : MIN a b ≤ b := by
  unfold MIN; split_ifs <;> omega

theorem MIN_eq_min (a b : Nat) : MIN a b = min a b := by
  unfold MIN; split_ifs <;> omega

theorem P1_csi (vt : TMT) (x y : Nat) (rest : List Nat) :
    P1 (csi_state vt (x :: y :: rest) 0) 0 = (if 1 ≤ x then x else 1) ∧
    P1 (csi_state vt (x :: y :: rest) 0) 1 = (if 1 ≤ y then y else 1) := by
  unfold P1 csi_state parsOf
  simp only [List.cons_append, List.getD_cons_zero, List.getD_cons_succ, ne_eq]
  constructor <;> split_ifs <;> omega

theorem notify_tail (vt : TMT) (u m : Bool) :
    ∃ tail, (notify vt u m).out = vt.out ++ tail ∧ ∀ x ∈ tail, isEndMsg x = true := by
  refine ⟨(if u = true then [TMT_MSG_UPDATE] else []) ++
    (if m = true then [TMT_MSG_MOVED vt.curs] else []), ?_, ?_⟩
  · rw [notify_out, List.append_assoc]
  · intro x hx
    cases u <;> cases m <;> simp at hx <;> (try rcases hx with rfl | rfl) <;> rfl

theorem dsr_payload {r c : Nat} (hr : r + 1 < 9223372036854775808)
    (hc : c + 1 < 9223372036854775808) :
    ([27, 91] ++ fmt_zd (addz r 1) ++ [59] ++ fmt_zd (addz c 1) ++ [82]).take (BUF_MAX - 1) =
      [27, 91] ++ decimal (r + 1) ++ [59] ++ decimal (c + 1) ++ [82] := by
  have e1 : addz r 1 = r + 1 := addz_of_lt (by unfold SIZE_MOD; omega)
  have e2 : addz c 1 = c + 1 := addz_of_lt (by unfold SIZE_MOD; omega)
  rw [e1, e2, fmt_zd_small hr, fmt_zd_small hc]
  apply List.take_of_length_le
  have := decimal_length hr
  have := decimal_length hc
  simp only [List.length_append, List.length_cons, List.length_nil, BUF_MAX]
  omega

theorem cup_run {libc : LibC} {vt : TMT} (hg : Ground vt) (a b : List Nat) (ha : IsNumeral a)
    (hb : IsNumeral b) (hva : numval a < SIZE_MOD) (hvb : numval b < SIZE_MOD) :
    ∃ v2, tmt_write_loop libc vt (csi_bytes [a, b] 72) = some v2 ∧ Ground v2 ∧
      v2.curs = ⟨min ((if 1 ≤ numval a then numval a else 1) - 1) (vt.screen.nline - 1),
        min ((if 1 ≤ numval b then numval b else 1) - 1) (vt.screen.ncol - 1)⟩ ∧
      v2.out = vt.out ∧ v2.screen = vt.screen := by
  have hnum : ∀ p ∈ [a, b], IsNumeral p ∧ numval p < SIZE_MOD := by
    intro p hp
    simp only [List.mem_cons, List.mem_singleton, List.not_mem_nil, or_false] at hp
    rcases hp with rfl | rfl
    · exact ⟨ha, hva⟩
    · exact ⟨hb, hvb⟩
  have h := @csi_run libc _ hg [a, b] (by simp)
    (by simp only [List.length_cons, List.length_nil, PAR_MAX]; omega) hnum 72 _
    (fun w hs => handlechar_cup hs)
  obtain ⟨p0, p1⟩ := P1_csi vt (numval a) (numval b) []
  have e0 : subz (if 1 ≤ numval a then numval a else 1) 1 =
      (if 1 ≤ numval a then numval a else 1) - 1 :=
    subz_of_le (by split_ifs <;> omega) (by split_ifs <;> first | exact hva | decide)
  have e1 : subz (if 1 ≤ numval b then numval b else 1) 1 =
      (if 1 ≤ numval b then numval b else 1) - 1 :=
    subz_of_le (by split_ifs <;> omega) (by split_ifs <;> first | exact hvb | decide)
  refine ⟨_, h, ⟨rfl, rfl, rfl, rfl, rfl, rfl, rfl⟩, ?_, rfl, rfl⟩
  show (⟨MIN (subz (P1 (csi_state vt [numval a, numval b] 0) 0) 1) (vt.screen.nline - 1),
    MIN (subz (P1 (csi_state vt [numval a, numval b] 0) 1) 1) (vt.screen.ncol - 1)⟩ : TMTPOINT) = _
  rw [p0, p1, e0, e1, MIN_eq_min, MIN_eq_min]

theorem dsr_run {libc : LibC} {vt : TMT} (hg : Ground vt)
    (hr : vt.curs.r ≤ vt.screen.nline - 1) (hc : vt.curs.c ≤ vt.screen.ncol - 1)
    (hnl : vt.screen.nline < 9223372036854775808) (hnc : vt.screen.ncol < 9223372036854775808) :
    ∃ v3, tmt_write_loop libc vt (csi_bytes [[54]] 110) = some v3 ∧ v3.curs = vt.curs ∧
      v3.dirty = vt.dirty ∧
      v3.out = vt.out ++ [TMT_MSG_ANSWER
        ([27, 91] ++ decimal (vt.curs.r + 1) ++ [59] ++ decimal (vt.curs.c + 1) ++ [82])] := by
  have hnum : ∀ p ∈ [[54]], IsNumeral p ∧ numval p < SIZE_MOD := by
    intro p hp
    simp only [List.mem_singleton] at hp
    subst hp
    exact ⟨by intro d hd; simp only [List.mem_singleton] at hd; omega, by decide⟩
  have h := @csi_run libc _ hg [[54]] (by simp) (by decide) hnum 110 _
    (fun w hs => handlechar_dsr hs)
  have e6 : act_dsr (csi_state vt ([[54]].map numval) 0) =
      dsr (csi_state vt ([[54]].map numval) 0) := by
    unfold act_dsr
    rw [if_pos (by rfl)]
  rw [e6] at h
  refine ⟨_, h, ?_, rfl, ?_⟩
  · show (⟨MIN vt.curs.r (vt.screen.nline - 1), MIN vt.curs.c (vt.screen.ncol - 1)⟩ : TMTPOINT) = _
    rw [MIN_eq_min, MIN_eq_min, Nat.min_eq_left hr, Nat.min_eq_left hc]
  · have e := dsr_payload (r := vt.curs.r) (c := vt.curs.c) (by omega) (by omega)
    rw [← e]
    rfl

/-- C12: in ground state, for decimal numerals `a` and `b` denoting values
below 2^64, writing `ESC [ a ; b H` followed by `ESC [ 6 n` leaves the cursor
at `(min(a' - 1, nline - 1), min(b' - 1, ncol - 1))`, where `x' = x` if
`x ≥ 1` and `x' = 1` if `x = 0`, and emits exactly one `ANSWER` message, whose
payload is `ESC [ R ; C R` with `R` and `C` the decimal renderings of the
cursor row + 1 and the cursor column + 1; the only other messages of the call
are the `UPDATE` and `MOVED` at its end. -/
theorem C12_cursor_position_report (libc : LibC) (vt : TMT) (a b : List Nat) (hg : Ground vt)
    (ha : IsNumeral a) (hb : IsNumeral b) (hva : numval a < SIZE_MOD)
    (hvb : numval b < SIZE_MOD) (hnl : vt.screen.nline < 9223372036854775808)
    (hnc : vt.screen.ncol < 9223372036854775808) :
    ∃ vt', tmt_write libc vt (csi_bytes [a, b] 72 ++ csi_bytes [[54]] 110)
        (csi_bytes [a, b] 72 ++ csi_bytes [[54]] 110).length = some vt' ∧
      vt'.curs = ⟨min ((if 1 ≤ numval a then numval a else 1) - 1) (vt.screen.nline - 1),
        min ((if 1 ≤ numval b then numval b else 1) - 1) (vt.screen.ncol - 1)⟩ ∧
      ∃ tail, vt'.out = vt.out ++ TMT_MSG_ANSWER ([27, 91] ++ decimal (vt'.curs.r + 1) ++ [59] ++
          decimal (vt'.curs.c + 1) ++ [82]) :: tail ∧
        ∀ m ∈ tail, isEndMsg m = true := by
  obtain ⟨v2, h2, hg2, hc2, ho2, hs2⟩ := @cup_run libc _ hg a b ha hb hva hvb
  have hr2 : v2.curs.r ≤ v2.screen.nline - 1 := by
    rw [hc2, hs2]; exact Nat.min_le_right _ _
  have hcc2 : v2.curs.c ≤ v2.screen.ncol - 1 := by
    rw [hc2, hs2]; exact Nat.min_le_right _ _
  obtain ⟨v3, h3, hc3, _, ho3⟩ := @dsr_run libc _ hg2 hr2 hcc2 (by rw [hs2]; exact hnl)
    (by rw [hs2]; exact hnc)
  have hloop : tmt_write_loop libc vt (csi_bytes [a, b] 72 ++ csi_bytes [[54]] 110) = some v3 := by
    rw [tmt_write_loop_append, h2, Option.some_bind, h3]
  obtain ⟨tail, ht1, ht2⟩ := notify_tail v3 v3.dirty (decide (vt.curs ≠ v3.curs))
  refine ⟨_, tmt_write_of_loop hloop, by rw [← hc2, ← hc3], tail, ?_, ht2⟩
  show (notify v3 v3.dirty (decide (vt.curs ≠ v3.curs))).out =
    vt.out ++ TMT_MSG_ANSWER ([27, 91] ++ decimal (v3.curs.r + 1) ++ [59] ++
      decimal (v3.curs.c + 1) ++ [82]) :: tail
  rw [ht1, ho3, ho2, hc3, List.append_assoc]
  rfl

theorem C12_cursor_position_report_witness :
    ∃ vt', tmt_write clocale fresh22 (csi_bytes [[53], [49, 48]] 72 ++ csi_bytes [[54]] 110)
        (csi_bytes [[53], [49, 48]] 72 ++ csi_bytes [[54]] 110).length = some vt' ∧
      vt'.curs = ⟨min ((if 1 ≤ numval [53] then numval [53] else 1) - 1)
          (fresh22.screen.nline - 1),
        min ((if 1 ≤ numval [49, 48] then numval [49, 48] else 1) - 1)
          (fresh22.screen.ncol - 1)⟩ ∧
      ∃ tail, vt'.out = fresh22.out ++ TMT_MSG_ANSWER ([27, 91] ++ decimal (vt'.curs.r + 1) ++
          [59] ++ decimal (vt'.curs.c + 1) ++ [82]) :: tail ∧
        ∀ m ∈ tail, isEndMsg m = true :=
  C12_cursor_position_report clocale fresh22 [53] [49, 48] (by unfold Ground; decide)
    (by unfold IsNumeral; decide) (by unfold IsNumeral; decide) (by decide) (by decide)
    (by decide) (by decide)

/-! ### Select graphic rendition -/

theorem sgr_step_attrs (v : TMT) (p : Nat) : (sgr_step v p).attrs = sgr_spec v.attrs p := by
  by_cases hp : p < 50
  · interval_cases p <;> rfl
  · have r1 : ¬ (30 ≤ p ∧ p ≤ 37) := by omega
    have r2 : ¬ (40 ≤ p ∧ p ≤ 47) := by omega
    have n0 : ¬ p = 0 := by omega
    have n1 : ¬ p = 1 := by omega
    have n22 : ¬ p = 22 := by omega
    have n2 : ¬ p = 2 := by omega
    have n23 : ¬ p = 23 := by omega
    have n4 : ¬ p = 4 := by omega
    have n24 : ¬ p = 24 := by omega
    have n5 : ¬ p = 5 := by omega
    have n25 : ¬ p = 25 := by omega
    have n7 : ¬ p = 7 := by omega
    have n27 : ¬ p = 27 := by omega
    have n8 : ¬ p = 8 := by omega
    have n28 : ¬ p = 28 := by omega
    have n10 : ¬ p = 10 := by omega
    have n11 : ¬ p = 11 := by omega
    have n30 : ¬ p = 30 := by omega
    have n40 : ¬ p = 40 := by omega
    have n31 : ¬ p = 31 := by omega
    have n41 : ¬ p = 41 := by omega
    have n32 : ¬ p = 32 := by omega
    have n42 : ¬ p = 42 := by omega
    have n33 : ¬ p = 33 := by omega
    have n43 : ¬ p = 43 := by omega
    have n34 : ¬ p = 34 := by omega
    have n44 : ¬ p = 44 := by omega
    have n35 : ¬ p = 35 := by omega
    have n45 : ¬ p = 45 := by omega
    have n36 : ¬ p = 36 := by omega
    have n46 : ¬ p = 46 := by omega
    have n37 : ¬ p = 37 := by omega
    have n47 : ¬ p = 47 := by omega
    have n39 : ¬ p = 39 := by omega
    have n49 : ¬ p = 49 := by omega
    unfold sgr_step sgr_spec
    simp only [n0, n1, n22, n2, n23, n4, n24, n5, n25, n7, n27, n8, n28, n10, n11, n30, n40, n31, n41, n32, n42, n33, n43, n34, n44, n35, n45, n36, n46, n37, n47, n39, n49, r1, r2, or_self, if_false]

theorem sgr_step_frame (v : TMT) (p : Nat) :
    (sgr_step v p).pars = v.pars ∧ (sgr_step v p).curs = v.curs ∧
      (sgr_step v p).screen = v.screen ∧ (sgr_step v p).out = v.out ∧
      (sgr_step v p).dirty = v.dirty := by
  by_cases hp : p < 50
  · interval_cases p <;> exact ⟨rfl, rfl, rfl, rfl, rfl⟩
  · have r1 : ¬ (30 ≤ p ∧ p ≤ 37) := by omega
    have r2 : ¬ (40 ≤ p ∧ p ≤ 47) := by omega
    have n0 : ¬ p = 0 := by omega
    have n1 : ¬ p = 1 := by omega
    have n22 : ¬ p = 22 := by omega
    have n2 : ¬ p = 2 := by omega
    have n23 : ¬ p = 23 := by omega
    have n4 : ¬ p = 4 := by omega
    have n24 : ¬ p = 24 := by omega
    have n5 : ¬ p = 5 := by omega
    have n25 : ¬ p = 25 := by omega
    have n7 : ¬ p = 7 := by omega
    have n27 : ¬ p = 27 := by omega
    have n8 : ¬ p = 8 := by omega
    have n28 : ¬ p = 28 := by omega
    have n10 : ¬ p = 10 := by omega
    have n11 : ¬ p = 11 := by omega
    have n30 : ¬ p = 30 := by omega
    have n40 : ¬ p = 40 := by omega
    have n31 : ¬ p = 31 := by omega
    have n41 : ¬ p = 41 := by omega
    have n32 : ¬ p = 32 := by omega
    have n42 : ¬ p = 42 := by omega
    have n33 : ¬ p = 33 := by omega
    have n43 : ¬ p = 43 := by omega
    have n34 : ¬ p = 34 := by omega
    have n44 : ¬ p = 44 := by omega
    have n35 : ¬ p = 35 := by omega
    have n45 : ¬ p = 45 := by omega
    have n36 : ¬ p = 36 := by omega
    have n46 : ¬ p = 46 := by omega
    have n37 : ¬ p = 37 := by omega
    have n47 : ¬ p = 47 := by omega
    have n39 : ¬ p = 39 := by omega
    have n49 : ¬ p = 49 := by omega
    unfold sgr_step
    simp only [n0, n1, n22, n2, n23, n4, n24, n5, n25, n7, n27, n8, n28, n10, n11, n30, n40, n31, n41, n32, n42, n33, n43, n34, n44, n35, n45, n36, n46, n37, n47, n39, n49, or_self, if_false, and_self]

theorem sgr_fold_frame (vals : List Nat) : ∀ v : TMT,
    (vals.foldl sgr_step v).attrs = vals.foldl sgr_spec v.attrs ∧
      (vals.foldl sgr_step v).curs = v.curs ∧ (vals.foldl sgr_step v).screen = v.screen ∧
      (vals.foldl sgr_step v).out = v.out ∧ (vals.foldl sgr_step v).dirty = v.dirty := by
  induction vals with
  | nil => intro v; exact ⟨rfl, rfl, rfl, rfl, rfl⟩
  | cons x vals ih =>
    intro v
    obtain ⟨h1, h2, h3, h4, h5⟩ := ih (sgr_step v x)
    obtain ⟨_, g2, g3, g4, g5⟩ := sgr_step_frame v x
    simp only [List.foldl_cons]
    exact ⟨by rw [h1, sgr_step_attrs], h2.trans g2, h3.trans g3, h4.trans g4, h5.trans g5⟩

theorem sgr_range_fold (vals : List Nat) : ∀ (pre suf : List Nat) (v : TMT),
    v.pars = pre ++ vals ++ suf →
      (List.range' pre.length vals.length).foldl (fun v i => sgr_step v (P0 v i)) v =
        vals.foldl sgr_step v := by
  induction vals with
  | nil => intro pre suf v _; rfl
  | cons x vals ih =>
    intro pre suf v hv
    have hp : P0 v pre.length = x := by
      unfold P0
      rw [hv, List.append_assoc, List.getD_eq_getElem?_getD,
        List.getElem?_append_right (Nat.le_refl _), Nat.sub_self]
      simp only [List.cons_append, List.getElem?_cons_zero, Option.getD_some]
    have hv2 : (sgr_step v x).pars = (pre ++ [x]) ++ vals ++ suf := by
      rw [(sgr_step_frame v x).1, hv]
      simp only [List.append_assoc, List.singleton_append]
    have := ih (pre ++ [x]) suf (sgr_step v x) hv2
    simp only [List.length_append, List.length_singleton] at this
    simp only [List.length_cons, List.range'_succ, List.foldl_cons, hp]
    exact this

theorem sgr_csi (vt : TMT) (vals : List Nat) :
    sgr (csi_state vt vals 0) = vals.foldl sgr_step (csi_state vt vals 0) := by
  have h := sgr_range_fold vals [] (List.replicate (PAR_MAX - vals.length) 0)
    (csi_state vt vals 0) rfl
  unfold sgr
  rw [List.range_eq_range']
  exact h

theorem handlechar_sgr {w : TMT} (hs : w.state = S_ARG) :
    handlechar w 109 = (DO w fun v => some (sgr v)).map fun v => (v, true) := by
  unfold handlechar
  simp only [Rule.guard, hs]
  rfl

/-- C13 (amended): in ground state, `ESC [ p1 ; ... ; pk m` with `1 ≤ k ≤ 8`
decimal parameters of values below 2^64 leaves the current attributes equal to the left-to-right fold of
`sgr_spec` (the specification's effect of one parameter, which changes only
the field it names) over the parameter values, and changes neither the cursor
nor the screen. -/
theorem C13_sgr_is_fold (libc : LibC) (vt : TMT) (ps : List (List Nat)) (hg : Ground vt)
    (hc : CursorOK vt) (hne : ps ≠ []) (hk : ps.length ≤ PAR_MAX)
    (hnum : ∀ p ∈ ps, IsNumeral p ∧ numval p < SIZE_MOD) :
    ∃ vt', tmt_write libc vt (csi_bytes ps 109) (csi_bytes ps 109).length = some vt' ∧
      vt'.attrs = (ps.map numval).foldl sgr_spec vt.attrs ∧ vt'.curs = vt.curs ∧
      vt'.screen = vt.screen ∧ ∀ i j, cell vt' i j = cell vt i j := by
  have h := @csi_run libc _ hg ps hne hk hnum 109 _ (fun w hs => handlechar_sgr hs)
  rw [sgr_csi] at h
  obtain ⟨f1, f2, f3, _, _⟩ := sgr_fold_frame (ps.map numval) (csi_state vt (ps.map numval) 0)
  have hscr : ({ resetparser (fixcursor
      ((ps.map numval).foldl sgr_step (csi_state vt (ps.map numval) 0))) with hang := 0 } :
        TMT).screen = vt.screen := f3
  refine ⟨_, tmt_write_of_loop h, f1, ?_, hscr, fun i j => cell_of_screen hscr i j⟩
  show (⟨MIN ((ps.map numval).foldl sgr_step (csi_state vt (ps.map numval) 0)).curs.r
      (((ps.map numval).foldl sgr_step (csi_state vt (ps.map numval) 0)).screen.nline - 1),
    MIN ((ps.map numval).foldl sgr_step (csi_state vt (ps.map numval) 0)).curs.c
      (((ps.map numval).foldl sgr_step (csi_state vt (ps.map numval) 0)).screen.ncol - 1)⟩ :
        TMTPOINT) = vt.curs
  rw [f2, f3]
  show (⟨MIN vt.curs.r (vt.screen.nline - 1), MIN vt.curs.c (vt.screen.ncol - 1)⟩ : TMTPOINT) =
    vt.curs
  have := hc.1
  have := hc.2
  rw [MIN_of_le (by omega), MIN_of_le (by omega)]

theorem C13_sgr_is_fold_witness :
    ∃ vt', tmt_write clocale fresh22 (csi_bytes [[49], [51, 49]] 109)
        (csi_bytes [[49], [51, 49]] 109).length = some vt' ∧
      vt'.attrs = ([[49], [51, 49]].map numval).foldl sgr_spec fresh22.attrs ∧
      vt'.curs = fresh22.curs ∧ vt'.screen = fresh22.screen ∧
      ∀ i j, cell vt' i j = cell fresh22 i j :=
  C13_sgr_is_fold clocale fresh22 [[49], [51, 49]] (by unfold Ground; decide) fresh22_CursorOK
    (by decide) (by decide) (by unfold IsNumeral; decide)

/-! ### The saved cursor and attributes -/

@[simp] theorem saved_CB (vt : TMT) (m : tmt_msg_t) : saved (CB vt m) = saved vt := rfl

@[simp] theorem saved_dsr (vt : TMT) : saved (dsr vt) = saved vt := rfl

@[simp] theorem saved_act_dsr (vt : TMT) : saved (act_dsr vt) = saved vt := by
  unfold act_dsr; split_ifs <;> rfl

@[simp] theorem saved_act_da (vt : TMT) : saved (act_da vt) = saved vt := by
  unfold act_da; split_ifs <;> rfl

@[simp] theorem saved_sm (vt : TMT) : saved (sm vt) = saved vt := by
  unfold sm; split_ifs <;> rfl

@[simp] theorem saved_rm (vt : TMT) : saved (rm vt) = saved vt := by
  unfold rm; split_ifs <;> rfl

@[simp] theorem saved_title (vt : TMT) : saved (title vt) = saved vt := by
  unfold title; simp only; split_ifs <;> rfl

@[simp] theorem saved_xtversion (vt : TMT) : saved (xtversion vt) = saved vt := rfl

@[simp] theorem saved_clearline_at (vt : TMT) (i s e : Nat) :
    saved (clearline_at vt i s e) = saved vt := rfl

@[simp] theorem saved_clearline_tabs (vt : TMT) (s e : Nat) :
    saved (clearline_tabs vt s e) = saved vt := rfl

@[simp] theorem saved_clearlines (vt : TMT) (r n : Nat) : saved (clearlines vt r n) = saved vt := rfl

@[simp] theorem saved_dirtylines (vt : TMT) (s e : Nat) : saved (dirtylines vt s e) = saved vt := rfl

@[simp] theorem saved_ed (vt : TMT) : saved (ed vt) = saved vt := by
  unfold ed; split_ifs <;> rfl

@[simp] theorem saved_el (vt : TMT) : saved (el vt) = saved vt := by
  unfold el; split_ifs <;> rfl

theorem saved_FGBG (vt : TMT) (p : Nat) (c : tmt_color_t) : saved (FGBG vt p c) = saved vt := by
  unfold FGBG; split_ifs <;> rfl

theorem saved_sgr_step (vt : TMT) (p : Nat) : saved (sgr_step vt p) = saved vt := by
  simp only [sgr_step, apply_ite saved, saved_FGBG, ite_self]
  simp only [saved, ite_self]

theorem saved_sgr_fold (l : List Nat) (vt : TMT) :
    saved (l.foldl (fun v i => sgr_step v (P0 v i)) vt) = saved vt := by
  induction l generalizing vt with
  | nil => rfl
  | cons a l ih => simp only [List.foldl, ih, saved_sgr_step]

@[simp] theorem saved_sgr (vt : TMT) : saved (sgr vt) = saved vt := saved_sgr_fold _ vt

@[simp] theorem saved_resetparser (vt : TMT) : saved (resetparser vt) = saved vt := rfl

@[simp] theorem saved_consumearg (vt : TMT) : saved (consumearg vt) = saved vt := by
  unfold consumearg; split_ifs <;> rfl

@[simp] theorem saved_fixcursor (vt : TMT) : saved (fixcursor vt) = saved vt := rfl

@[simp] theorem saved_cr (vt : TMT) : saved (cr vt) = saved vt := by
  unfold cr; simp only; split_ifs <;> rfl

@[simp] theorem saved_margin (vt : TMT) (t b : Nat) : saved (margin vt t b) = saved vt := by
  unfold margin; split_ifs <;> rfl

@[simp] theorem saved_advance (vt : TMT) : saved (advance vt) = saved vt := by
  unfold advance; simp only; split_ifs <;> rfl

@[simp] theorem saved_setrow (vt : TMT) (r : Nat) : saved (setrow vt r) = saved vt := rfl

@[simp] theorem saved_setcol (vt : TMT) (c : Nat) : saved (setcol vt c) = saved vt := rfl

@[simp] theorem saved_restorecurs (vt : TMT) : saved (restorecurs vt) = saved vt := rfl

@[simp] theorem saved_setstate (vt : TMT) (s : State) : saved (setstate vt s) = saved vt := rfl

@[simp] theorem saved_setcharset (vt : TMT) (v : Nat) : saved (setcharset vt v) = saved vt := rfl

@[simp] theorem saved_setxlate0 (vt : TMT) (v : Nat) : saved (setxlate0 vt v) = saved vt := rfl

@[simp] theorem saved_setxlate1 (vt : TMT) (v : Nat) : saved (setxlate1 vt v) = saved vt := rfl

@[simp] theorem saved_setq (vt : TMT) : saved (setq vt) = saved vt := rfl

@[simp] theorem saved_act_ignore (vt : TMT) : saved (act_ignore vt) = saved vt := rfl

@[simp] theorem saved_act_digit (vt : TMT) (i : Nat) : saved (act_digit vt i) = saved vt := rfl

@[simp] theorem saved_act_bs (vt : TMT) : saved (act_bs vt) = saved vt := by
  unfold act_bs; split_ifs <;> rfl

@[simp] theorem saved_act_ht (vt : TMT) : saved (act_ht vt) = saved vt := rfl

@[simp] theorem saved_act_cbt (vt : TMT) : saved (act_cbt vt) = saved vt := rfl

@[simp] theorem saved_act_tbc (vt : TMT) : saved (act_tbc vt) = saved vt := by
  unfold act_tbc; split_ifs <;> rfl

theorem saved_scrup {vt vt' : TMT} {r n : Nat} (h : scrup vt r n = some vt') :
    saved vt' = saved vt := by
  unfold scrup scrup_body at h
  split at h
  · simp only [Option.bind_eq_some, Option.some.injEq] at h
    obtain ⟨buf, _, l1, _, l2, _, h⟩ := h
    subst h; rfl
  · simp only [Option.some.injEq] at h
    subst h; rfl

theorem saved_scrdn {vt vt' : TMT} {r n : Nat} (h : scrdn vt r n = some vt') :
    saved vt' = saved vt := by
  unfold scrdn scrdn_body at h
  split at h
  · simp only [Option.bind_eq_some, Option.some.injEq] at h
    obtain ⟨buf, _, l1, _, l2, _, h⟩ := h
    subst h; rfl
  · simp only [Option.some.injEq] at h
    subst h; rfl

theorem saved_ich {vt vt' : TMT} (h : ich vt = some vt') : saved vt' = saved vt := by
  unfold ich at h
  simp only [Option.bind_eq_some, Option.some.injEq] at h
  obtain ⟨cs, _, h⟩ := h
  subst h; rfl

theorem saved_dch {vt vt' : TMT} (h : dch vt = some vt') : saved vt' = saved vt := by
  unfold dch at h
  split_ifs at h
  · simp only [Option.some.injEq] at h; subst h; rfl
  · simp only [Option.bind_eq_some, Option.some.injEq] at h
    obtain ⟨cs, _, h⟩ := h
    subst h; rfl

theorem saved_reverse_nl {vt vt' : TMT} (h : reverse_nl vt = some vt') : saved vt' = saved vt := by
  unfold reverse_nl at h
  simp only at h
  split_ifs at h
  · exact (saved_scrdn h).trans rfl
  · simp only [Option.some.injEq] at h; subst h; rfl
  · simp only [Option.some.injEq] at h; subst h; rfl

theorem saved_nl {vt vt' : TMT} (h : nl vt = some vt') : saved vt' = saved vt := by
  unfold nl at h
  split_ifs at h
  · simp only [Option.bind_eq_some, Option.some.injEq] at h
    obtain ⟨v1, h1, h⟩ := h
    subst h
    exact (saved_scrup h1).trans rfl
  · simp only [Option.bind_eq_some, Option.some.injEq] at h
    obtain ⟨v1, h1, h⟩ := h
    subst h; subst h1; rfl
  · exact saved_scrup h
  · simp only [Option.some.injEq] at h; subst h; rfl
  · simp only [Option.some.injEq] at h; subst h; rfl

theorem saved_settab {vt vt' : TMT} (h : settab vt = some vt') : saved vt' = saved vt := by
  unfold settab at h
  split_ifs at h
  simp only [Option.some.injEq] at h; subst h; rfl

theorem saved_storechar {vt vt' : TMT} {w : Nat} (h : storechar vt w = some vt') :
    saved vt' = saved vt := by
  unfold storechar at h
  split_ifs at h
  simp only [Option.some.injEq] at h
  subst h
  rw [saved_advance]; rfl

theorem saved_writecharatcurs {vt vt' : TMT} {w : Nat} (h : writecharatcurs vt w = some vt') :
    saved vt' = saved vt := by
  unfold writecharatcurs at h
  simp only [Option.bind_eq_some] at h
  obtain ⟨v1, h1, h⟩ := h
  have g1 : saved v1 = saved vt := by
    split_ifs at h1
    · exact saved_scrup h1
    · simp only [Option.some.injEq] at h1; subst h1; rfl
  rw [saved_storechar h, ← g1]
  rfl

theorem saved_rep_loop (w : Nat) (k : Nat) : ∀ {vt vt' : TMT}, rep_loop w k vt = some vt' →
    saved vt' = saved vt := by
  induction k with
  | zero => intro vt vt' h; simp only [rep_loop, Option.some.injEq] at h; subst h; rfl
  | succ k ih =>
    intro vt vt' h
    simp only [rep_loop, Option.bind_eq_some] at h
    obtain ⟨v1, h1, h⟩ := h
    rw [ih h, saved_writecharatcurs h1]

theorem saved_rep {vt vt' : TMT} (h : rep vt = some vt') : saved vt' = saved vt := by
  unfold rep at h
  simp only at h
  split_ifs at h
  · simp only [Option.some.injEq] at h; subst h; rfl
  · exact saved_rep_loop _ _ h

theorem dims_of_geo {vt vt' : TMT} (h : geo vt' = geo vt) : dims vt' = dims vt := by
  simp only [geo, Prod.mk.injEq] at h
  unfold dims
  rw [h.1, h.2.1]

theorem dims_margin (vt : TMT) (t b : Nat) : dims (margin vt t b) = dims vt := by
  unfold margin; split_ifs <;> rfl

set_option maxHeartbeats 1600000 in
/-- Every action of `handlechar` but the two saves and the full reset keeps
the saved cursor and the saved attributes. -/
theorem rules_saved : ∀ ru ∈ rules, ∀ (vt : TMT) (i : Nat) (vt' : TMT),
    ru.A vt i = some vt' →
      saved vt' = saved vt ∨
        (ru.isDO = true ∧ ((ru.S = S_ESC ∧ ru.C = [55]) ∨ (ru.S = S_ESC ∧ ru.C = [99]) ∨
          (ru.S = S_ARG ∧ ru.C = [115]))) := by
  intro ru hru
  simp only [rules, List.mem_cons, List.mem_singleton, List.not_mem_nil, or_false] at hru
  rcases hru with rfl | rfl | rfl | rfl | rfl | rfl | rfl | rfl | rfl | rfl | rfl | rfl | rfl | rfl | rfl | rfl | rfl | rfl | rfl | rfl | rfl | rfl | rfl | rfl | rfl | rfl | rfl | rfl | rfl | rfl | rfl | rfl | rfl | rfl | rfl | rfl | rfl | rfl | rfl | rfl | rfl | rfl | rfl | rfl | rfl | rfl | rfl | rfl | rfl | rfl | rfl | rfl | rfl | rfl | rfl | rfl | rfl | rfl | rfl | rfl | rfl | rfl | rfl | rfl | rfl | rfl
  all_goals intro vt i vt' h
  all_goals simp only at h
  all_goals first
    | (simp only [Option.some.injEq] at h; subst h
       first
        | (left
           simp only [saved_CB, saved_cr, saved_restorecurs,
                saved_consumearg, saved_setrow, saved_setcol, saved_ed, saved_el,
                saved_clearline_at, saved_sgr, saved_setstate, saved_setcharset, saved_margin,
                saved_setxlate0, saved_setxlate1, saved_setq, saved_act_ignore, saved_act_digit,
                saved_act_bs, saved_act_ht, saved_act_cbt, saved_act_tbc, saved_act_dsr,
                saved_act_da, saved_sm, saved_rm, saved_title, saved_xtversion])
        | (right; exact ⟨rfl, Or.inl ⟨rfl, rfl⟩⟩)
        | (right; exact ⟨rfl, Or.inr (Or.inl ⟨rfl, rfl⟩)⟩)
        | (right; exact ⟨rfl, Or.inr (Or.inr ⟨rfl, rfl⟩)⟩))
    | (left; with_reducible exact saved_nl h)
    | (left; with_reducible exact saved_reverse_nl h)
    | (left; with_reducible exact saved_settab h)
    | (left; with_reducible exact saved_scrup h)
    | (left; with_reducible exact saved_scrdn h)
    | (left; with_reducible exact saved_dch h)
    | (left; with_reducible exact saved_ich h)
    | (left; with_reducible exact saved_rep h)

set_option maxHeartbeats 1600000 in
/-- Every action of `handlechar` keeps the dimensions of the screen. -/
theorem rules_dims : ∀ ru ∈ rules, ∀ (vt : TMT) (i : Nat) (vt' : TMT),
    ru.A vt i = some vt' → dims vt' = dims vt := by
  intro ru hru
  simp only [rules, List.mem_cons, List.mem_singleton, List.not_mem_nil, or_false] at hru
  rcases hru with rfl | rfl | rfl | rfl | rfl | rfl | rfl | rfl | rfl | rfl | rfl | rfl | rfl | rfl | rfl | rfl | rfl | rfl | rfl | rfl | rfl | rfl | rfl | rfl | rfl | rfl | rfl | rfl | rfl | rfl | rfl | rfl | rfl | rfl | rfl | rfl | rfl | rfl | rfl | rfl | rfl | rfl | rfl | rfl | rfl | rfl | rfl | rfl | rfl | rfl | rfl | rfl | rfl | rfl | rfl | rfl | rfl | rfl | rfl | rfl | rfl | rfl | rfl | rfl | rfl | rfl
  all_goals intro vt i vt' h
  all_goals simp only at h
  all_goals first
    | (simp only [Option.some.injEq] at h; subst h
       first
        | (apply dims_of_geo
           simp only [geo_CB, geo_cr, geo_savecurs, geo_restorecurs, geo_tmt_reset,
                geo_consumearg, geo_setrow, geo_setcol, geo_ed, geo_el, geo_clearline_at,
                geo_sgr, geo_sm, geo_rm, geo_xtversion, geo_title, geo_setstate, geo_setcharset,
                geo_setxlate0, geo_setxlate1, geo_setq, geo_act_ignore, geo_act_digit, geo_act_bs,
                geo_act_ht, geo_act_cbt, geo_act_da, geo_act_tbc, geo_act_dsr])
        | with_reducible exact dims_margin _ _ _)
    | with_reducible exact dims_of_geo (geo_nl h)
    | with_reducible exact dims_of_geo (geo_reverse_nl h)
    | with_reducible exact dims_of_geo (geo_settab h)
    | with_reducible exact dims_of_geo (geo_scrup h)
    | with_reducible exact dims_of_geo (geo_scrdn h)
    | with_reducible exact dims_of_geo (geo_dch h)
    | with_reducible exact dims_of_geo (geo_ich h)
    | with_reducible exact dims_of_geo (geo_rep h)

theorem find_rule_arg_nul (vt : TMT) (hs : vt.state = S_ARG) :
    (rules.find? fun ru => ru.guard vt 0).map (fun ru => ru.C) = some [27] := by
  simp only [Rule.guard, hs]
  rfl

theorem handlechar_keep {vt vt' : TMT} {i : Nat} {b : Bool}
    (h : handlechar vt i = some (vt', b)) :
    dims vt' = dims vt ∧
      (¬ (vt.ignored = false ∧ ((vt.state = S_ESC ∧ (i = 55 ∨ i = 99)) ∨
          (vt.state = S_ARG ∧ i = 115))) → saved vt' = saved vt) := by
  unfold handlechar at h
  split at h
  · rename_i ru hf
    have hmem : ru ∈ rules := List.mem_of_find?_eq_some hf
    have hg := List.find?_some hf
    simp only [Rule.guard, Bool.and_eq_true, decide_eq_true_eq] at hg
    simp only [Option.map_eq_some', Prod.mk.injEq] at h
    obtain ⟨v1, h1, h2, _⟩ := h
    subst h2
    unfold Rule.run at h1
    split_ifs at h1 with hdo
    · unfold DO at h1
      simp only [Option.bind_eq_some, Option.some.injEq] at h1
      obtain ⟨v2, h2, h1⟩ := h1
      subst h1
      have hd0 : dims (consumearg vt) = dims vt := dims_of_geo (geo_consumearg vt)
      have h3 : dims v2 = dims vt ∧
          (¬ (vt.ignored = false ∧ ((vt.state = S_ESC ∧ (i = 55 ∨ i = 99)) ∨
            (vt.state = S_ARG ∧ i = 115))) → saved v2 = saved vt) := by
        split_ifs at h2 with hig
        · simp only [Option.some.injEq] at h2; subst h2
          exact ⟨hd0, fun _ => saved_consumearg vt⟩
        · refine ⟨(rules_dims ru hmem _ i v2 h2).trans hd0, ?_⟩
          intro hno
          rcases rules_saved ru hmem _ i v2 h2 with hl | ⟨_, hx⟩
          · exact hl.trans (saved_consumearg vt)
          · exfalso
            rw [consumearg_ignored] at hig
            have hig' : vt.ignored = false := by simpa using hig
            rcases hx with ⟨hS, hC⟩ | ⟨hS, hC⟩ | ⟨hS, hC⟩
            · have hst : vt.state = S_ESC := by rw [← hg.1, hS]
              rw [hC] at hg
              rcases strchr_singleton hg.2 with h0 | h55
              · subst h0
                have hfr := find_rule_esc_nul vt hst
                rw [hf] at hfr
                simp only [Option.map_some', Option.some.injEq] at hfr
                rw [hC] at hfr
                exact absurd hfr (by decide)
              · exact hno ⟨hig', Or.inl ⟨hst, Or.inl h55⟩⟩
            · have hst : vt.state = S_ESC := by rw [← hg.1, hS]
              rw [hC] at hg
              rcases strchr_singleton hg.2 with h0 | h99
              · subst h0
                have hfr := find_rule_esc_nul vt hst
                rw [hf] at hfr
                simp only [Option.map_some', Option.some.injEq] at hfr
                rw [hC] at hfr
                exact absurd hfr (by decide)
              · exact hno ⟨hig', Or.inl ⟨hst, Or.inr h99⟩⟩
            · have hst : vt.state = S_ARG := by rw [← hg.1, hS]
              rw [hC] at hg
              rcases strchr_singleton hg.2 with h0 | h115
              · subst h0
                have hfr := find_rule_arg_nul vt hst
                rw [hf] at hfr
                simp only [Option.map_some', Option.some.injEq] at hfr
                rw [hC] at hfr
                exact absurd hfr (by decide)
              · exact hno ⟨hig', Or.inr ⟨hst, h115⟩⟩
      exact ⟨h3.1, h3.2⟩
    · refine ⟨rules_dims ru hmem vt i v1 h1, fun _ => ?_⟩
      rcases rules_saved ru hmem vt i v1 h1 with hl | ⟨hD, _⟩
      · exact hl
      · exact absurd hD hdo
  · split_ifs at h
    · simp only [Option.some.injEq, Prod.mk.injEq] at h
      obtain ⟨h, _⟩ := h
      subst h
      exact ⟨rfl, fun _ => rfl⟩
    · simp only [Option.some.injEq, Prod.mk.injEq] at h
      obtain ⟨h, _⟩ := h
      subst h
      exact ⟨rfl, fun _ => rfl⟩

theorem saved_writemb {libc : LibC} {vt vt' : TMT} (h : writemb libc vt = some vt') :
    saved vt' = saved vt := by
  unfold writemb at h
  exact (saved_writecharatcurs h).trans rfl

theorem dims_writecharatcurs {vt vt' : TMT} {w : Nat} (h : writecharatcurs vt w = some vt') :
    dims vt' = dims vt := dims_of_geo (geo_writecharatcurs h)

theorem dims_writemb {libc : LibC} {vt vt' : TMT} (h : writemb libc vt = some vt') :
    dims vt' = dims vt := by
  unfold writemb at h
  exact (dims_writecharatcurs h).trans rfl

theorem keep_after_handlechar {libc : LibC} {v1 vt' : TMT} {b : Nat} {b1 : Bool}
    (h : (if b1 = true then some { v1 with hang := 0 }
      else if v1.acs = true then writecharatcurs v1 (tacs v1 b)
      else if v1.nmb ≥ BUF_MAX then writemb libc v1
      else
        (if testmbchar libc v1 = SIZE_MAX then writemb libc v1
         else if testmbchar libc v1 = SIZE_MAX - 1 then
           some (pushmb v1 b)
         else some v1).bind fun vt2 =>
        if testmbchar libc vt2 ≤ libc.MB_LEN_MAX then writemb libc vt2 else some vt2) =
      some vt') : saved vt' = saved v1 ∧ dims vt' = dims v1 := by
  split_ifs at h
  · simp only [Option.some.injEq] at h; subst h; exact ⟨rfl, rfl⟩
  · exact ⟨saved_writecharatcurs h, dims_writecharatcurs h⟩
  · exact ⟨saved_writemb h, dims_writemb h⟩
  all_goals
    simp only [Option.bind_eq_some] at h
    obtain ⟨v2, h2, h⟩ := h
    have i2 : saved v2 = saved v1 ∧ dims v2 = dims v1 := by
      first
        | exact ⟨saved_writemb h2, dims_writemb h2⟩
        | (simp only [Option.some.injEq] at h2; subst h2; exact ⟨rfl, rfl⟩)
    first
      | exact ⟨(saved_writemb h).trans i2.1, (dims_writemb h).trans i2.2⟩
      | (split_ifs at h
         · exact ⟨(saved_writemb h).trans i2.1, (dims_writemb h).trans i2.2⟩
         · simp only [Option.some.injEq] at h; subst h; exact i2)

theorem tmt_write_byte_keep {libc : LibC} {vt vt' : TMT} {b : Nat}
    (h : tmt_write_byte libc vt b = some vt') :
    dims vt' = dims vt ∧
      (¬ (vt.ignored = false ∧ ((vt.state = S_ESC ∧ (b = 55 ∨ b = 99)) ∨
          (vt.state = S_ARG ∧ b = 115))) → saved vt' = saved vt) := by
  unfold tmt_write_byte at h
  simp only [Option.bind_eq_some] at h
  obtain ⟨⟨v1, b1⟩, h1, h⟩ := h
  have hi := handlechar_keep h1
  simp only at h
  have ho := keep_after_handlechar h
  exact ⟨ho.2.trans hi.1, fun hno => ho.1.trans (hi.2 hno)⟩

theorem tmt_write_loop_keep {libc : LibC} (bs : List Nat) : ∀ {vt vt' : TMT},
    tmt_write_loop libc vt bs = some vt' →
      dims vt' = dims vt ∧ (save_runs libc vt bs = false → saved vt' = saved vt) := by
  induction bs with
  | nil =>
    intro vt vt' h
    simp only [tmt_write_loop, Option.some.injEq] at h
    subst h; exact ⟨rfl, fun _ => rfl⟩
  | cons b bs ih =>
    intro vt vt' h
    simp only [tmt_write_loop, Option.bind_eq_some] at h
    obtain ⟨v1, h1, h⟩ := h
    obtain ⟨d1, s1⟩ := tmt_write_byte_keep h1
    obtain ⟨d2, s2⟩ := ih h
    refine ⟨d2.trans d1, fun hr => ?_⟩
    have hno : ¬ (vt.ignored = false ∧ ((vt.state = S_ESC ∧ (b = 55 ∨ b = 99)) ∨
        (vt.state = S_ARG ∧ b = 115))) := by
      rintro ⟨ha, hb⟩
      simp only [save_runs, ha, Bool.not_false, Bool.true_and, Bool.or_eq_false_iff,
        Bool.and_eq_false_imp, decide_eq_true_eq, decide_eq_false_iff_not, not_or] at hr
      rcases hb with ⟨hb1, hb2⟩ | ⟨hb1, hb2⟩
      · have hx := hr.1.1 hb1
        rcases hb2 with e | e
        · exact hx.1 e
        · exact hx.2 e
      · exact hr.1.2 hb1 hb2
    have hr2 : save_runs libc v1 bs = false := by
      simp only [save_runs, h1, Bool.or_eq_false_iff] at hr
      exact hr.2
    exact (s2 hr2).trans (s1 hno)

/-! ### Saving and restoring the cursor -/

theorem handlechar_esc7 {w : TMT} (hs : w.state = S_ESC) :
    handlechar w 55 = (DO w fun v => some (savecurs v)).map fun v => (v, true) := by
  unfold handlechar
  simp only [Rule.guard, hs]
  rfl

theorem handlechar_esc8 {w : TMT} (hs : w.state = S_ESC) :
    handlechar w 56 = (DO w fun v => some (restorecurs v)).map fun v => (v, true) := by
  unfold handlechar
  simp only [Rule.guard, hs]
  rfl

theorem handlechar_csi_s {w : TMT} (hs : w.state = S_ARG) :
    handlechar w 115 = (DO w fun v => some (savecurs v)).map fun v => (v, true) := by
  unfold handlechar
  simp only [Rule.guard, hs]
  rfl

theorem handlechar_csi_u {w : TMT} (hs : w.state = S_ARG) :
    handlechar w 117 = (DO w fun v => some (restorecurs v)).map fun v => (v, true) := by
  unfold handlechar
  simp only [Rule.guard, hs]
  rfl

theorem do_step {libc : LibC} {w : TMT} {F : Nat} {A : TMT → Option TMT}
    (hi : w.ignored = false) (hF : handlechar w F = (DO w A).map fun v => (v, true)) :
    tmt_write_byte libc w F =
      (A (consumearg w)).map fun v => { resetparser (fixcursor v) with hang := 0 } := by
  unfold tmt_write_byte
  rw [hF]
  unfold DO
  rw [consumearg_ignored, hi]
  simp only [Bool.false_eq_true, if_false]
  cases A (consumearg w) with
  | none => rfl
  | some v => rfl

/-- An escape sequence `ESC F` read in ground state, where `F` is a final
byte that `handlechar` dispatches with `DO` to the action `A`. -/
theorem esc_run {libc : LibC} {vt : TMT} (hg : Ground vt) (F : Nat) (A : TMT → Option TMT)
    (hF : ∀ w : TMT, w.state = S_ESC → handlechar w F = (DO w A).map fun v => (v, true)) :
    tmt_write_loop libc vt [27, F] =
      (A (consumearg { setstate vt S_ESC with hang := 0 })).map fun w =>
        { resetparser (fixcursor w) with hang := 0 } := by
  obtain ⟨hs, _, _, _, hi, _⟩ := hg
  have h1 := @tmt_write_byte_handled libc _ _ _ (handlechar_esc hs)
  have h2 := @do_step libc { setstate vt S_ESC with hang := 0 } F A hi (hF _ rfl)
  unfold tmt_write_loop
  rw [h1, Option.some_bind]
  unfold tmt_write_loop
  rw [h2]
  cases A (consumearg { setstate vt S_ESC with hang := 0 }) with
  | none => rfl
  | some w => rfl

theorem consumearg_fields (v : TMT) :
    (consumearg v).curs = v.curs ∧ (consumearg v).attrs = v.attrs ∧
      (consumearg v).screen = v.screen ∧ (consumearg v).oldcurs = v.oldcurs ∧
      (consumearg v).oldattrs = v.oldattrs := by
  unfold consumearg; split_ifs <;> exact ⟨rfl, rfl, rfl, rfl, rfl⟩

theorem save_run {libc : LibC} {vt : TMT} (hg : Ground vt) {sv : List Nat}
    (hsv : sv = [27, 55] ∨ sv = csi_bytes [[]] 115) :
    ∃ v1, tmt_write_loop libc vt sv = some v1 ∧ saved v1 = (vt.curs, vt.attrs) ∧
      dims v1 = dims vt := by
  rcases hsv with rfl | rfl
  · have h := @esc_run libc _ hg 55 _ (fun w hs => handlechar_esc7 hs)
    obtain ⟨c1, c2, c3, _, _⟩ := consumearg_fields { setstate vt S_ESC with hang := 0 }
    refine ⟨_, h, ?_, ?_⟩
    · show ((consumearg { setstate vt S_ESC with hang := 0 }).curs,
        (consumearg { setstate vt S_ESC with hang := 0 }).attrs) = _
      rw [c1, c2]
      rfl
    · show ((consumearg { setstate vt S_ESC with hang := 0 }).screen.nline,
        (consumearg { setstate vt S_ESC with hang := 0 }).screen.ncol) = _
      rw [c3]
      rfl
  · have h := @csi_run libc _ hg [[]] (by simp) (by decide)
      (by intro p hp; simp only [List.mem_singleton] at hp; subst hp
          exact ⟨fun d hd => absurd hd (List.not_mem_nil _), by decide⟩)
      115 _ (fun w hs => handlechar_csi_s hs)
    exact ⟨_, h, rfl, rfl⟩

theorem restore_run {libc : LibC} {vt : TMT} (hg : Ground vt) {rs : List Nat}
    (hrs : rs = [27, 56] ∨ rs = csi_bytes [[]] 117) :
    ∃ v3, tmt_write_loop libc vt rs = some v3 ∧
      v3.curs = ⟨MIN vt.oldcurs.r (vt.screen.nline - 1), MIN vt.oldcurs.c (vt.screen.ncol - 1)⟩ ∧
      v3.attrs = vt.oldattrs := by
  rcases hrs with rfl | rfl
  · have h := @esc_run libc _ hg 56 _ (fun w hs => handlechar_esc8 hs)
    obtain ⟨_, _, c3, c4, c5⟩ := consumearg_fields { setstate vt S_ESC with hang := 0 }
    refine ⟨_, h, ?_, ?_⟩
    · show (⟨MIN (consumearg { setstate vt S_ESC with hang := 0 }).oldcurs.r
          ((consumearg { setstate vt S_ESC with hang := 0 }).screen.nline - 1),
        MIN (consumearg { setstate vt S_ESC with hang := 0 }).oldcurs.c
          ((consumearg { setstate vt S_ESC with hang := 0 }).screen.ncol - 1)⟩ : TMTPOINT) = _
      rw [c3, c4]
      rfl
    · show (consumearg { setstate vt S_ESC with hang := 0 }).oldattrs = _
      rw [c5]
      rfl
  · have h := @csi_run libc _ hg [[]] (by simp) (by decide)
      (by intro p hp; simp only [List.mem_singleton] at hp; subst hp
          exact ⟨fun d hd => absurd hd (List.not_mem_nil _), by decide⟩)
      117 _ (fun w hs => handlechar_csi_u hs)
    exact ⟨_, h, rfl, rfl⟩

/-- C14: let the parser be in ground state at a state `vt` that a reachable
instance `v0` reaches by processing any input `pre` (which may hold earlier
saves). Processing a save (`ESC 7` or `CSI s`), then any input `mid` that
performs no further save and no full reset and ends in ground state, then a
restore (`ESC 8` or `CSI u`) leaves the cursor and the current attributes
equal to their values at `vt`, the moment of the (last) save. -/
theorem C14_save_restore_round_trip (libc : LibC) (v0 vt v2 : TMT) (pre sv mid rs : List Nat)
    (hr : Reachable libc v0) (hpre : tmt_write_loop libc v0 pre = some vt) (hg : Ground vt)
    (hsv : sv = [27, 55] ∨ sv = csi_bytes [[]] 115)
    (hrs : rs = [27, 56] ∨ rs = csi_bytes [[]] 117)
    (hmid : tmt_write_loop libc vt (sv ++ mid) = some v2)
    (hno : ∀ v1, tmt_write_loop libc vt sv = some v1 → save_runs libc v1 mid = false)
    (hg2 : Ground v2) :
    ∃ vt', tmt_write libc v0 (pre ++ (sv ++ mid ++ rs)) (pre ++ (sv ++ mid ++ rs)).length =
        some vt' ∧
      vt'.curs = vt.curs ∧ vt'.attrs = vt.attrs := by
  obtain ⟨hr0, hc0⟩ := Reachable_inv hr
  obtain ⟨_, hc⟩ := tmt_write_loop_inv _ hr0 hc0 hpre
  obtain ⟨v1, h1, hs1, hd1⟩ := @save_run libc _ hg _ hsv
  rw [tmt_write_loop_append, h1, Option.some_bind] at hmid
  obtain ⟨hd2, hs2⟩ := tmt_write_loop_keep mid hmid
  have hs2' := (hs2 (hno v1 h1)).trans hs1
  have hd2' := hd2.trans hd1
  simp only [saved, Prod.mk.injEq] at hs2'
  simp only [dims, Prod.mk.injEq] at hd2'
  obtain ⟨v3, h3, hc3, ha3⟩ := @restore_run libc _ hg2 _ hrs
  have hloop : tmt_write_loop libc v0 (pre ++ (sv ++ mid ++ rs)) = some v3 := by
    rw [tmt_write_loop_append, hpre, Option.some_bind, tmt_write_loop_append,
      tmt_write_loop_append, h1, Option.some_bind, hmid, Option.some_bind, h3]
  refine ⟨_, tmt_write_of_loop hloop, ?_, ?_⟩
  · show v3.curs = vt.curs
    rw [hc3, hs2'.1, hd2'.1, hd2'.2]
    have := hc.1
    have := hc.2
    rw [MIN_of_le (by omega), MIN_of_le (by omega)]
  · show v3.attrs = vt.attrs
    rw [ha3, hs2'.2]

set_option maxRecDepth 100000 in
theorem C14_save_restore_round_trip_witness :
    ∃ vt, tmt_write_loop clocale fresh22 [27, 55, 65] = some vt ∧
      ∃ vt', tmt_write clocale fresh22 ([27, 55, 65] ++ ([27, 55] ++ [13] ++ [27, 56]))
          ([27, 55, 65] ++ ([27, 55] ++ [13] ++ [27, 56])).length = some vt' ∧
        vt'.curs = vt.curs ∧ vt'.attrs = vt.attrs := by
  cases hpre : tmt_write_loop clocale fresh22 [27, 55, 65] with
  | none => exact absurd hpre (by decide)
  | some vt =>
    have hg : Ground vt := by
      have h : (tmt_write_loop clocale fresh22 [27, 55, 65]).all (fun v => decide (Ground v)) =
          true := by decide
      rw [hpre] at h
      simpa using h
    cases hmid : tmt_write_loop clocale vt ([27, 55] ++ [13]) with
    | none =>
      have h : ((tmt_write_loop clocale fresh22 [27, 55, 65]).bind fun v =>
          tmt_write_loop clocale v ([27, 55] ++ [13])).isSome = true := by decide
      rw [hpre, Option.some_bind, hmid] at h
      exact absurd h (by decide)
    | some v2 =>
      have hg2 : Ground v2 := by
        have h : ((tmt_write_loop clocale fresh22 [27, 55, 65]).bind fun v =>
            tmt_write_loop clocale v ([27, 55] ++ [13])).all (fun v => decide (Ground v)) =
              true := by decide
        rw [hpre, Option.some_bind, hmid] at h
        simpa using h
      have hno : ∀ v1, tmt_write_loop clocale vt [27, 55] = some v1 →
          save_runs clocale v1 [13] = false := by
        intro v1 h1
        have h : ((tmt_write_loop clocale fresh22 [27, 55, 65]).bind fun v =>
            tmt_write_loop clocale v [27, 55]).all (fun v => !save_runs clocale v [13]) =
              true := by decide
        rw [hpre, Option.some_bind, h1] at h
        simpa using h
      exact ⟨vt, rfl, C14_save_restore_round_trip clocale fresh22 vt v2 [27, 55, 65] [27, 55]
        [13] [27, 56] (Reachable.opened 2 2 none _ fresh22_open) hpre hg (Or.inl rfl)
        (Or.inl rfl) hmid hno hg2⟩

/-! ### Erase in display -/

theorem cell_clearline_at {v : TMT} (hs : ScreenOK v) (i0 s e : Nat) (h0 : i0 < v.screen.nline)
    (i j : Nat) :
    cell (clearline_at v i0 s e) i j =
      if i = i0 ∧ s ≤ j ∧ j < e ∧ j < v.screen.ncol then { c := 32, a := v.attrs }
      else cell v i j := by
  have hl : i0 < v.screen.lines.length := by rw [hs.1]; exact h0
  have hlen : (lineAt v i0).chars.length = v.screen.ncol := lineAt_length hs h0
  unfold cell cellAt
  show (((v.screen.lines.set i0 (clearline v (lineAt v i0) s e)).getD i nullline).chars).getD j
    zerochar = _
  rw [getD_set_line _ _ _ _ hl]
  by_cases hi : i = i0
  · subst hi
    rw [if_pos rfl]
    show (clearcells v.attrs s e v.screen.ncol 0 (lineAt v i).chars).getD j zerochar = _
    rw [List.getD_eq_getElem?_getD, clearcells_getElem?, Nat.zero_add]
    by_cases hj : j < v.screen.ncol
    · rw [List.getElem?_eq_getElem (by rw [hlen]; exact hj)]
      simp only [Option.map_some', Option.getD_some, true_and]
      by_cases hc : s ≤ j ∧ j < e ∧ j < v.screen.ncol
      · rw [if_pos hc, if_pos hc]
      · rw [if_neg hc, if_neg hc, List.getD_eq_getElem?_getD,
          List.getElem?_eq_getElem (by rw [hlen]; exact hj)]
        rfl
    · rw [List.getElem?_eq_none (by rw [hlen]; omega)]
      have hc : ¬ (i = i ∧ s ≤ j ∧ j < e ∧ j < v.screen.ncol) := fun h => hj h.2.2.2
      rw [if_neg hc, List.getD_eq_getElem?_getD, List.getElem?_eq_none (by rw [hlen]; omega)]
      rfl
  · rw [if_neg hi, if_neg (fun h => hi h.1)]
    rfl

theorem ScreenOK_clearline_at {v : TMT} (hs : ScreenOK v) (i0 s e : Nat)
    (h0 : i0 < v.screen.nline) : ScreenOK (clearline_at v i0 s e) := by
  refine ⟨?_, ?_⟩
  · show (v.screen.lines.set i0 _).length = v.screen.nline
    rw [List.length_set]; exact hs.1
  · intro l hl
    show l.chars.length = v.screen.ncol
    rcases List.mem_or_eq_of_mem_set hl with h | h
    · exact hs.2 l h
    · subst h
      show (clearcells _ _ _ _ _ _).length = _
      rw [clearcells_length]
      exact lineAt_length hs h0

theorem cell_clearlines {v : TMT} (hs : ScreenOK v) (lo n : Nat) (i j : Nat) :
    cell (clearlines v lo n) i j =
      if lo ≤ i ∧ i < MIN (addz lo n) v.screen.nline ∧ j < v.screen.ncol then
        { c := 32, a := v.attrs }
      else cell v i j := by
  unfold cell cellAt lineAt
  show (((clearrows v lo (MIN (addz lo n) v.screen.nline) 0 v.screen.lines).getD i
    nullline).chars).getD j zerochar = _
  simp only [List.getD_eq_getElem?_getD]
  rw [clearrows_getElem?, Nat.zero_add]
  by_cases hi : i < v.screen.lines.length
  · have hlen : (v.screen.lines[i]).chars.length = v.screen.ncol := hs.2 _ (List.getElem_mem _)
    rw [List.getElem?_eq_getElem hi]
    simp only [Option.map_some', Option.getD_some]
    by_cases hc : lo ≤ i ∧ i < MIN (addz lo n) v.screen.nline
    · rw [if_pos hc]
      show (clearcells v.attrs 0 v.screen.ncol v.screen.ncol 0 _)[j]?.getD zerochar = _
      rw [clearcells_getElem?, Nat.zero_add]
      by_cases hj : j < v.screen.ncol
      · rw [List.getElem?_eq_getElem (by rw [hlen]; exact hj), if_pos ⟨hc.1, hc.2, hj⟩]
        simp only [Option.map_some', Option.getD_some, Nat.zero_le, true_and, hj, and_self,
          if_true]
      · rw [List.getElem?_eq_none (by rw [hlen]; omega), if_neg (fun h => hj h.2.2)]
        rfl
    · rw [if_neg hc, if_neg (fun h => hc ⟨h.1, h.2.1⟩)]
  · have hc : ¬ (lo ≤ i ∧ i < MIN (addz lo n) v.screen.nline ∧ j < v.screen.ncol) := by
      intro h
      have := MIN_le_right (addz lo n) v.screen.nline
      rw [hs.1] at hi
      omega
    have hn : v.screen.lines[i]? = none := List.getElem?_eq_none (by omega)
    rw [hn, if_neg hc]
    rfl

theorem handlechar_ed {w : TMT} (hs : w.state = S_ARG) :
    handlechar w 74 = (DO w fun v => some (ed v)).map fun v => (v, true) := by
  unfold handlechar
  simp only [Rule.guard, hs]
  rfl

theorem curs_ed (v : TMT) : (ed v).curs = v.curs := by
  unfold ed; split_ifs <;> rfl

theorem ed_run {libc : LibC} {vt : TMT} (hg : Ground vt) (hc : CursorOK vt) (k : Nat)
    (hk : k ≤ 9) :
    ∃ v1, tmt_write_loop libc vt (csi_bytes [[48 + k]] 74) = some v1 ∧ v1.curs = vt.curs ∧
      ∀ i j, cell v1 i j = cell (ed (csi_state vt [k] 0)) i j := by
  have hnum : ∀ p ∈ [[48 + k]], IsNumeral p ∧ numval p < SIZE_MOD := by
    intro p hp
    simp only [List.mem_singleton] at hp
    subst hp
    refine ⟨by intro d hd; simp only [List.mem_singleton] at hd; omega, ?_⟩
    show 0 * 10 + (48 + k - 48) < SIZE_MOD
    unfold SIZE_MOD; omega
  have h := @csi_run libc _ hg [[48 + k]] (by simp)
    (by simp only [List.length_cons, List.length_nil, PAR_MAX]; omega) hnum 74 _
    (fun w hs => handlechar_ed hs)
  have e : [[48 + k]].map numval = [k] := by
    show [0 * 10 + (48 + k - 48)] = [k]
    congr 1; omega
  rw [e] at h
  refine ⟨_, h, ?_, fun i j => rfl⟩
  show (⟨MIN (ed (csi_state vt [k] 0)).curs.r ((ed (csi_state vt [k] 0)).screen.nline - 1),
    MIN (ed (csi_state vt [k] 0)).curs.c ((ed (csi_state vt [k] 0)).screen.ncol - 1)⟩ :
      TMTPOINT) = vt.curs
  have hgeo := geo_ed (csi_state vt [k] 0)
  simp only [geo, Prod.mk.injEq] at hgeo
  rw [curs_ed, hgeo.1, hgeo.2.1]
  show (⟨MIN vt.curs.r (vt.screen.nline - 1), MIN vt.curs.c (vt.screen.ncol - 1)⟩ : TMTPOINT) =
    vt.curs
  have := hc.1
  have := hc.2
  rw [MIN_of_le (by omega), MIN_of_le (by omega)]

theorem P0_csi_one (vt : TMT) (k : Nat) : P0 (csi_state vt [k] 0) 0 = k := rfl

theorem ed0_cell {vt : TMT} (hs : ScreenOK vt) (hc : CursorOK vt) (hd : DimsOK vt) (i j : Nat) :
    cell (ed (csi_state vt [0] 0)) i j =
      if vt.curs.r + 1 ≤ i ∧ i < vt.screen.nline ∧ j < vt.screen.ncol then
        { c := 32, a := vt.attrs }
      else if i = vt.curs.r ∧ vt.curs.c ≤ j ∧ j < vt.screen.ncol ∧ j < vt.screen.ncol then
        { c := 32, a := vt.attrs }
      else cell vt i j := by
  have hsW : ScreenOK (csi_state vt [0] 0) := hs
  have hr := hc.1
  have hn := hd.1
  have e1 : CLINE (csi_state vt [0] 0) = vt.curs.r := @CLINE_eq (csi_state vt [0] 0) hr
  have e2 : addz vt.curs.r 1 = vt.curs.r + 1 := addz_of_lt (by omega)
  have e3 : subz vt.screen.nline (vt.curs.r + 1) = vt.screen.nline - (vt.curs.r + 1) :=
    subz_of_le (by omega) hn
  have e4 : addz (vt.curs.r + 1) (vt.screen.nline - (vt.curs.r + 1)) = vt.screen.nline := by
    rw [addz_of_lt (by omega)]; omega
  have e5 : MIN vt.screen.nline vt.screen.nline = vt.screen.nline := MIN_of_le (Nat.le_refl _)
  have e : ed (csi_state vt [0] 0) =
      clearlines (clearline_at (csi_state vt [0] 0) vt.curs.r vt.curs.c vt.screen.ncol)
        (vt.curs.r + 1) (vt.screen.nline - (vt.curs.r + 1)) := by
    unfold ed
    rw [P0_csi_one, if_pos rfl, e1]
    show clearlines _ (addz vt.curs.r 1) (subz vt.screen.nline (addz vt.curs.r 1)) = _
    rw [e2, e3]
    rfl
  rw [e, cell_clearlines (ScreenOK_clearline_at hsW _ _ _ hr),
    cell_clearline_at hsW _ _ _ hr]
  show (if vt.curs.r + 1 ≤ i ∧
      i < MIN (addz (vt.curs.r + 1) (vt.screen.nline - (vt.curs.r + 1))) vt.screen.nline ∧
      j < vt.screen.ncol then ({ c := 32, a := vt.attrs } : TMTCHAR)
    else if i = vt.curs.r ∧ vt.curs.c ≤ j ∧ j < vt.screen.ncol ∧ j < vt.screen.ncol then
      { c := 32, a := vt.attrs }
    else cell vt i j) = _
  rw [e4, e5]

theorem ed1_cell {vt : TMT} (hs : ScreenOK vt) (hc : CursorOK vt) (hd : DimsOK vt) (i j : Nat) :
    cell (ed (csi_state vt [1] 0)) i j =
      if 0 ≤ i ∧ i < vt.curs.r ∧ j < vt.screen.ncol then { c := 32, a := vt.attrs }
      else if i = vt.curs.r ∧ 0 ≤ j ∧ j < vt.curs.c ∧ j < vt.screen.ncol then
        { c := 32, a := vt.attrs }
      else cell vt i j := by
  have hsW : ScreenOK (csi_state vt [1] 0) := hs
  have hr := hc.1
  have hn := hd.1
  have e1 : CLINE (csi_state vt [1] 0) = vt.curs.r := @CLINE_eq (csi_state vt [1] 0) hr
  have e3 : subz vt.curs.r 0 = vt.curs.r := subz_of_le (Nat.zero_le _) (by omega)
  have e4 : addz 0 vt.curs.r = vt.curs.r := by rw [addz_of_lt (by omega)]; omega
  have e5 : MIN vt.curs.r vt.screen.nline = vt.curs.r := MIN_of_le (by omega)
  have e : ed (csi_state vt [1] 0) =
      clearlines (clearline_at (csi_state vt [1] 0) vt.curs.r 0 vt.curs.c) 0 vt.curs.r := by
    unfold ed
    rw [P0_csi_one, if_neg (by decide : ¬ (1 : Nat) = 0), if_pos rfl, e1]
    show clearlines _ 0 (subz vt.curs.r 0) = _
    rw [e3]
    rfl
  rw [e, cell_clearlines (ScreenOK_clearline_at hsW _ _ _ hr),
    cell_clearline_at hsW _ _ _ hr]
  show (if 0 ≤ i ∧ i < MIN (addz 0 vt.curs.r) vt.screen.nline ∧ j < vt.screen.ncol then
      ({ c := 32, a := vt.attrs } : TMTCHAR)
    else if i = vt.curs.r ∧ 0 ≤ j ∧ j < vt.curs.c ∧ j < vt.screen.ncol then
      { c := 32, a := vt.attrs }
    else cell vt i j) = _
  rw [e4, e5]

theorem ed2_cell {vt : TMT} (hs : ScreenOK vt) (hd : DimsOK vt) (i j : Nat) :
    cell (ed (csi_state vt [2] 0)) i j =
      if 0 ≤ i ∧ i < vt.screen.nline ∧ j < vt.screen.ncol then { c := 32, a := vt.attrs }
      else cell vt i j := by
  have hsW : ScreenOK (csi_state vt [2] 0) := hs
  have hn := hd.1
  have e3 : subz vt.screen.nline 0 = vt.screen.nline := subz_of_le (Nat.zero_le _) hn
  have e4 : addz 0 vt.screen.nline = vt.screen.nline := by rw [addz_of_lt (by omega)]; omega
  have e5 : MIN vt.screen.nline vt.screen.nline = vt.screen.nline := MIN_of_le (Nat.le_refl _)
  have e : ed (csi_state vt [2] 0) = clearlines (csi_state vt [2] 0) 0 vt.screen.nline := by
    unfold ed
    rw [P0_csi_one, if_neg (by decide : ¬ (2 : Nat) = 0), if_neg (by decide : ¬ (2 : Nat) = 1),
      if_pos rfl]
    show clearlines _ 0 (subz vt.screen.nline 0) = _
    rw [e3]
  rw [e, cell_clearlines hsW]
  show (if 0 ≤ i ∧ i < MIN (addz 0 vt.screen.nline) vt.screen.nline ∧ j < vt.screen.ncol then
      ({ c := 32, a := vt.attrs } : TMTCHAR)
    else cell vt i j) = _
  rw [e4, e5]

/-- C15: in ground state, on a screen of `nline` lines of `ncol` cells with the
cursor at (r, c): after `ESC [ 0 J` every cell at or after the cursor (line r
columns `≥ c`, and all lines `> r`) is a blank with the current attributes and
every cell before the cursor is unchanged; after `ESC [ 1 J` every cell
strictly before the cursor (all lines `< r`, and line r columns `< c`) is such
a blank and every other cell is unchanged; after `ESC [ 2 J` every cell of the
screen is such a blank. In all three cases the cursor does not move. -/
theorem C15_erase_in_display (libc : LibC) (vt : TMT) (hg : Ground vt) (hs : ScreenOK vt)
    (hc : CursorOK vt) (hd : DimsOK vt) :
    (∃ vt', tmt_write libc vt (csi_bytes [[48]] 74) (csi_bytes [[48]] 74).length = some vt' ∧
      vt'.curs = vt.curs ∧
      ∀ i j, i < vt.screen.nline → j < vt.screen.ncol →
        cell vt' i j =
          if (i = vt.curs.r ∧ vt.curs.c ≤ j) ∨ vt.curs.r < i then { c := 32, a := vt.attrs }
          else cell vt i j) ∧
    (∃ vt', tmt_write libc vt (csi_bytes [[49]] 74) (csi_bytes [[49]] 74).length = some vt' ∧
      vt'.curs = vt.curs ∧
      ∀ i j, i < vt.screen.nline → j < vt.screen.ncol →
        cell vt' i j =
          if i < vt.curs.r ∨ (i = vt.curs.r ∧ j < vt.curs.c) then { c := 32, a := vt.attrs }
          else cell vt i j) ∧
    (∃ vt', tmt_write libc vt (csi_bytes [[50]] 74) (csi_bytes [[50]] 74).length = some vt' ∧
      vt'.curs = vt.curs ∧
      ∀ i j, i < vt.screen.nline → j < vt.screen.ncol →
        cell vt' i j = { c := 32, a := vt.attrs }) := by
  obtain ⟨v0, h0, c0, g0⟩ := @ed_run libc _ hg hc 0 (by decide)
  obtain ⟨v1, h1, c1, g1⟩ := @ed_run libc _ hg hc 1 (by decide)
  obtain ⟨v2, h2, c2, g2⟩ := @ed_run libc _ hg hc 2 (by decide)
  refine ⟨⟨_, tmt_write_of_loop h0, c0, ?_⟩, ⟨_, tmt_write_of_loop h1, c1, ?_⟩,
    ⟨_, tmt_write_of_loop h2, c2, ?_⟩⟩
  · intro i j hi hj
    rw [cell_out, g0, ed0_cell hs hc hd]
    by_cases a1 : vt.curs.r + 1 ≤ i
    · rw [if_pos ⟨a1, hi, hj⟩, if_pos (Or.inr (by omega))]
    · rw [if_neg (fun h => a1 h.1)]
      by_cases a2 : i = vt.curs.r ∧ vt.curs.c ≤ j
      · rw [if_pos ⟨a2.1, a2.2, hj, hj⟩, if_pos (Or.inl a2)]
      · rw [if_neg (fun h => a2 ⟨h.1, h.2.1⟩),
          if_neg (fun h => h.elim a2 (fun h' => a1 (by omega)))]
  · intro i j hi hj
    rw [cell_out, g1, ed1_cell hs hc hd]
    by_cases a1 : i < vt.curs.r
    · rw [if_pos ⟨Nat.zero_le _, a1, hj⟩, if_pos (Or.inl a1)]
    · rw [if_neg (fun h => a1 h.2.1)]
      by_cases a2 : i = vt.curs.r ∧ j < vt.curs.c
      · rw [if_pos ⟨a2.1, Nat.zero_le _, a2.2, hj⟩, if_pos (Or.inr a2)]
      · rw [if_neg (fun h => a2 ⟨h.1, h.2.2.1⟩), if_neg (fun h => h.elim a1 a2)]
  · intro i j hi hj
    rw [cell_out, g2, ed2_cell hs hd, if_pos ⟨Nat.zero_le _, hi, hj⟩]

theorem C15_erase_in_display_witness :
    (∃ vt', tmt_write clocale fresh22 (csi_bytes [[48]] 74) (csi_bytes [[48]] 74).length =
        some vt' ∧
      vt'.curs = fresh22.curs ∧
      ∀ i j, i < fresh22.screen.nline → j < fresh22.screen.ncol →
        cell vt' i j =
          if (i = fresh22.curs.r ∧ fresh22.curs.c ≤ j) ∨ fresh22.curs.r < i then
            { c := 32, a := fresh22.attrs }
          else cell fresh22 i j) ∧
    (∃ vt', tmt_write clocale fresh22 (csi_bytes [[49]] 74) (csi_bytes [[49]] 74).length =
        some vt' ∧
      vt'.curs = fresh22.curs ∧
      ∀ i j, i < fresh22.screen.nline → j < fresh22.screen.ncol →
        cell vt' i j =
          if i < fresh22.curs.r ∨ (i = fresh22.curs.r ∧ j < fresh22.curs.c) then
            { c := 32, a := fresh22.attrs }
          else cell fresh22 i j) ∧
    (∃ vt', tmt_write clocale fresh22 (csi_bytes [[50]] 74) (csi_bytes [[50]] 74).length =
        some vt' ∧
      vt'.curs = fresh22.curs ∧
      ∀ i j, i < fresh22.screen.nline → j < fresh22.screen.ncol →
        cell vt' i j = { c := 32, a := fresh22.attrs }) :=
  C15_erase_in_display clocale fresh22 (by unfold Ground; decide) fresh22_ScreenOK
    fresh22_CursorOK fresh22_DimsOK

/-! ### The title sequence -/

theorem handlechar_osc {vt : TMT} (hs : vt.state = S_ESC) :
    handlechar vt 93 = some (setstate vt S_TITLE_ARG, true) := by
  unfold handlechar
  simp only [Rule.guard, hs]
  rfl

theorem handlechar_osc_digit {vt : TMT} {d : Nat} (hs : vt.state = S_TITLE_ARG) (h1 : 48 ≤ d)
    (h2 : d ≤ 50) : handlechar vt d = some (act_digit vt d, true) := by
  have hd : d = 48 ∨ d = 49 ∨ d = 50 := by omega
  unfold handlechar
  simp only [Rule.guard, hs]
  rcases hd with h | h | h <;> subst h <;> rfl

theorem handlechar_osc_semi {vt : TMT} (hs : vt.state = S_TITLE_ARG) :
    handlechar vt 59 = some (setstate (consumearg vt) S_TITLE, true) := by
  unfold handlechar
  simp only [Rule.guard, hs]
  rfl

theorem handlechar_bel {w : TMT} (hs : w.state = S_TITLE) :
    handlechar w 7 = (DO w fun v => some (title v)).map fun v => (v, true) := by
  unfold handlechar
  simp only [Rule.guard, hs]
  rfl

theorem handlechar_title_byte {vt : TMT} {b : Nat} (hs : vt.state = S_TITLE) (h1 : 32 ≤ b)
    (h2 : b ≤ 126) (hn : vt.ntitle < TITLE_MAX) :
    handlechar vt b =
      some ({ vt with title := vt.title.set vt.ntitle b, ntitle := vt.ntitle + 1 }, true) := by
  have hf : (rules.find? fun ru => ru.guard vt b) = none := by
    simp only [Rule.guard, hs]
    have e0 : b ≠ 0 := by omega
    have e7 : b ≠ 7 := by omega
    have b0 : (b == 0) = false := by rw [beq_eq_false_iff_ne]; exact e0
    simp [rules, List.find?, strchr, b0, e7]
  have hsc : schar b ≥ 32 := by
    unfold schar
    rw [if_pos (by omega)]
    exact_mod_cast h1
  unfold handlechar
  rw [hf]
  simp only
  rw [if_pos ⟨hs, hsc, hn⟩]

/-- The parser after `ESC ] p ;` with the digit `p = 48 + k`: the title bytes
are read next. -/
theorem osc_start {libc : LibC} {vt : TMT} (hg : Ground vt) (k : Nat) (hk : k ≤ 2) :
    tmt_write_loop libc vt [27, 93, 48 + k, 59] =
      some { vt with state := S_TITLE, hang := 0, pars := parsOf [k], npar := 1, arg := 0 } := by
  obtain ⟨hs, ha, hn, hp, _⟩ := hg
  have h1 := @tmt_write_byte_handled libc _ _ _ (handlechar_esc hs)
  have h2 := @tmt_write_byte_handled libc _ _ _
    (@handlechar_osc { setstate vt S_ESC with hang := 0 } rfl)
  have h3 := @tmt_write_byte_handled libc _ _ _
    (@handlechar_osc_digit
      { setstate ({ setstate vt S_ESC with hang := 0 }) S_TITLE_ARG with hang := 0 } (48 + k) rfl
      (by omega) (by omega))
  have h4 := @tmt_write_byte_handled libc _ _ _
    (@handlechar_osc_semi
      ({ act_digit ({ setstate ({ setstate vt S_ESC with hang := 0 }) S_TITLE_ARG with
        hang := 0 }) (48 + k) with hang := 0 }) rfl)
  have earg : addz (mulz 0 10) (atoi (48 + k)) = k := by
    have e1 : atoi (48 + k) = k := by
      unfold atoi; rw [if_pos (by omega)]; omega
    rw [e1]
    unfold addz mulz
    rw [Nat.zero_mul, Nat.zero_mod, Nat.zero_add, Nat.mod_eq_of_lt (by unfold SIZE_MOD; omega)]
  have e : ({ setstate (consumearg ({ act_digit ({ setstate ({ setstate vt S_ESC with hang := 0 })
      S_TITLE_ARG with hang := 0 }) (48 + k) with hang := 0 })) S_TITLE with hang := 0 } : TMT) =
      { vt with state := S_TITLE, hang := 0, pars := parsOf [k], npar := 1, arg := 0 } := by
    unfold consumearg act_digit setstate
    cases vt
    simp only at hp ha hn
    subst hp ha hn
    simp only [earg]
    rw [if_pos (by decide)]
    rfl
  unfold tmt_write_loop
  rw [h1, Option.some_bind]
  unfold tmt_write_loop
  rw [h2, Option.some_bind]
  unfold tmt_write_loop
  rw [h3, Option.some_bind]
  unfold tmt_write_loop
  rw [h4, Option.some_bind, e]
  rfl

theorem title_byte {libc : LibC} {v : TMT} {b : Nat} (hs : v.state = S_TITLE) (h1 : 32 ≤ b)
    (h2 : b ≤ 126) (hn : v.ntitle < TITLE_MAX) :
    tmt_write_byte libc v b =
      some { v with title := v.title.set v.ntitle b, ntitle := v.ntitle + 1, hang := 0 } :=
  tmt_write_byte_handled (handlechar_title_byte hs h1 h2 hn)

theorem set_take_drop (l : List Nat) (b : Nat) (t : List Nat) : ∀ n, n < l.length →
    (l.set n b).take (n + 1) ++ t ++ (l.set n b).drop (n + 1 + t.length) =
      l.take n ++ b :: t ++ l.drop (n + (t.length + 1)) := by
  induction l with
  | nil => intro n h; exact absurd h (Nat.not_lt_zero _)
  | cons x xs ih =>
    intro n h
    cases n with
    | zero =>
      simp only [List.set_cons_zero, Nat.zero_add, List.take_succ_cons, List.take_zero,
        List.singleton_append, List.cons_append, List.nil_append]
      have e : 1 + t.length = t.length + 1 := by omega
      rw [e, List.drop_succ_cons, List.drop_succ_cons]
    | succ n =>
      simp only [List.length_cons] at h
      have e1 : n + 1 + 1 + t.length = (n + 1 + t.length) + 1 := by omega
      have e2 : n + 1 + (t.length + 1) = (n + (t.length + 1)) + 1 := by omega
      rw [List.set_cons_succ, List.take_succ_cons, List.take_succ_cons, e1, e2,
        List.drop_succ_cons, List.drop_succ_cons, List.cons_append, List.cons_append,
        List.cons_append, ih n (by omega)]
      rfl

theorem title_acc {libc : LibC} (t : List Nat) : ∀ (v : TMT), v.state = S_TITLE →
    v.ntitle + t.length ≤ TITLE_MAX → v.title.length = TITLE_MAX + 1 →
    (∀ b ∈ t, 32 ≤ b ∧ b ≤ 126) →
    ∃ v', tmt_write_loop libc v t = some v' ∧ v'.state = S_TITLE ∧
      v'.title = v.title.take v.ntitle ++ t ++ v.title.drop (v.ntitle + t.length) ∧
      v'.ntitle = v.ntitle + t.length ∧ v'.ignored = v.ignored ∧ v'.npar = v.npar ∧
      v'.pars = v.pars ∧ v'.out = v.out ∧ v'.curs = v.curs ∧ v'.screen = v.screen ∧
      v'.dirty = v.dirty := by
  induction t with
  | nil =>
    intro v hs _ _ _
    refine ⟨v, rfl, hs, ?_, rfl, rfl, rfl, rfl, rfl, rfl, rfl, rfl⟩
    simp only [List.append_nil, List.length_nil, Nat.add_zero, List.take_append_drop]
  | cons b t ih =>
    intro v hs hlen hbuf hp
    simp only [List.length_cons] at hlen
    have hb := hp b (List.mem_cons_self _ _)
    have hn : v.ntitle < TITLE_MAX := by omega
    obtain ⟨v', hl, hs', ht', hn', hi', hnp', hpa', ho', hc', hsc', hd'⟩ :=
      ih { v with title := v.title.set v.ntitle b, ntitle := v.ntitle + 1, hang := 0 } hs
        (by show v.ntitle + 1 + t.length ≤ TITLE_MAX; omega)
        (by show (v.title.set v.ntitle b).length = TITLE_MAX + 1
            rw [List.length_set]; exact hbuf)
        (fun e he => hp e (List.mem_cons_of_mem _ he))
    refine ⟨v', ?_, hs', ?_, ?_, hi', hnp', hpa', ho', hc', hsc', hd'⟩
    · unfold tmt_write_loop
      rw [title_byte hs hb.1 hb.2 hn, Option.some_bind]
      exact hl
    · rw [ht']
      show (v.title.set v.ntitle b).take (v.ntitle + 1) ++ t ++
        (v.title.set v.ntitle b).drop (v.ntitle + 1 + t.length) = _
      have hlt : v.ntitle < v.title.length := by rw [hbuf]; omega
      rw [set_take_drop _ _ _ _ hlt]
      rfl
    · rw [hn']
      show v.ntitle + 1 + t.length = v.ntitle + (t.length + 1)
      omega

theorem cstring_prefix (t rest : List Nat) (ht : ∀ b ∈ t, 32 ≤ b ∧ b ≤ 126) :
    cstring (t ++ 0 :: rest) = t := by
  unfold cstring
  induction t with
  | nil => simp [List.takeWhile]
  | cons b t ih =>
    have hb := ht b (List.mem_cons_self _ _)
    have hne : b ≠ 0 := by omega
    simp only [List.cons_append, List.takeWhile_cons, ne_eq, hne, not_false_eq_true,
      decide_True, if_true]
    rw [ih (fun e he => ht e (List.mem_cons_of_mem _ he))]

theorem title_final {libc : LibC} {v : TMT} {k : Nat} (hs : v.state = S_TITLE)
    (hi : v.ignored = false) (hn : v.npar = 1) (hp : v.pars = parsOf [k]) :
    ∃ v', tmt_write_byte libc v 7 = some v' ∧ Ground v' ∧
      v'.out = (if k = 0 ∨ k = 2 then
        v.out ++ [TMT_MSG_TITLE (cstring (v.title.set v.ntitle 0))] else v.out) ∧
      v'.curs = ⟨MIN v.curs.r (v.screen.nline - 1), MIN v.curs.c (v.screen.ncol - 1)⟩ ∧
      v'.screen = v.screen ∧ v'.dirty = v.dirty := by
  have h := @do_step libc _ _ _ hi (handlechar_bel hs)
  have ec : consumearg v = { v with pars := v.pars.set 1 v.arg, npar := 2, arg := 0 } := by
    unfold consumearg
    rw [if_pos (by rw [hn]; decide), hn]
  have ep : P0 ({ { v with pars := v.pars.set 1 v.arg, npar := 2, arg := 0 } with
      title := v.title.set v.ntitle 0 } : TMT) 0 = k := by
    show (v.pars.set 1 v.arg).getD 0 0 = k
    rw [hp]
    rfl
  rw [ec] at h
  simp only [Option.map_some'] at h
  refine ⟨_, h, ⟨rfl, rfl, rfl, rfl, rfl, rfl, rfl⟩, ?_, ?_, ?_, ?_⟩
  · unfold title
    simp only [ge_iff_le, Nat.one_le_ofNat, if_true, ep]
    split_ifs <;> rfl
  · unfold title
    simp only [ge_iff_le, Nat.one_le_ofNat, if_true, ep]
    split_ifs <;> rfl
  · unfold title
    simp only [ge_iff_le, Nat.one_le_ofNat, if_true, ep]
    split_ifs <;> rfl
  · unfold title
    simp only [ge_iff_le, Nat.one_le_ofNat, if_true, ep]
    split_ifs <;> rfl

theorem set_at_length (t d : List Nat) (h : d ≠ []) :
    (t ++ d).set t.length 0 = t ++ 0 :: d.tail := by
  induction t with
  | nil =>
    cases d with
    | nil => exact absurd rfl h
    | cons x xs => rfl
  | cons b t ih =>
    simp only [List.cons_append, List.length_cons, List.set_cons_succ, ih]

theorem title_run {libc : LibC} {vt : TMT} (hg : Ground vt) (hc : CursorOK vt)
    (hbuf : vt.title.length = TITLE_MAX + 1) (t : List Nat) (ht : ∀ b ∈ t, 32 ≤ b ∧ b ≤ 126)
    (hlen : t.length ≤ TITLE_MAX) (k : Nat) (hk : k ≤ 2) :
    ∃ v', tmt_write_loop libc vt ([27, 93, 48 + k, 59] ++ t ++ [7]) = some v' ∧ Ground v' ∧
      v'.out = (if k = 0 ∨ k = 2 then vt.out ++ [TMT_MSG_TITLE t] else vt.out) ∧
      v'.curs = vt.curs ∧ v'.screen = vt.screen ∧ v'.dirty = vt.dirty := by
  have hnt : vt.ntitle = 0 := hg.2.2.2.2.2.2
  obtain ⟨v1, hl1, hs1, ht1, hn1, hi1, hnp1, hpa1, ho1, hc1, hsc1, hd1⟩ :=
    @title_acc libc t
      { vt with state := S_TITLE, hang := 0, pars := parsOf [k], npar := 1, arg := 0 } rfl
      (by show vt.ntitle + t.length ≤ TITLE_MAX; rw [hnt]; omega) hbuf ht
  obtain ⟨v2, hl2, hg2, ho2, hc2, hsc2, hd2⟩ :=
    @title_final libc _ k hs1 (hi1.trans hg.2.2.2.2.1) hnp1 hpa1
  have htitle : cstring (v1.title.set v1.ntitle 0) = t := by
    rw [ht1, hn1]
    show cstring ((vt.title.take vt.ntitle ++ t ++ vt.title.drop (vt.ntitle + t.length)).set
      (vt.ntitle + t.length) 0) = t
    rw [hnt, List.take_zero, List.nil_append, Nat.zero_add,
      set_at_length t _ (by
        intro hnil
        have := congrArg List.length hnil
        simp only [List.length_drop, List.length_nil, hbuf] at this
        omega)]
    exact cstring_prefix t _ ht
  refine ⟨v2, ?_, hg2, ?_, ?_, hsc2.trans hsc1, hd2.trans hd1⟩
  · rw [tmt_write_loop_append, tmt_write_loop_append, osc_start hg k hk, Option.some_bind, hl1,
      Option.some_bind]
    unfold tmt_write_loop
    rw [hl2, Option.some_bind]
    rfl
  · rw [ho2, htitle, ho1]
  · rw [hc2, hc1, hsc1]
    show (⟨MIN vt.curs.r (vt.screen.nline - 1), MIN vt.curs.c (vt.screen.ncol - 1)⟩ : TMTPOINT) =
      vt.curs
    have := hc.1
    have := hc.2
    rw [MIN_of_le (by omega), MIN_of_le (by omega)]

/-- C18: in ground state, for a string `t` of 0 to 128 bytes in the range
0x20..0x7E, writing `ESC ] p ; t BEL` emits exactly one `TITLE` message, with
the payload `t`, when `p` is the digit 0 or 2, and no `TITLE` message when `p`
is the digit 1 (the only other messages of the call are the `UPDATE` and
`MOVED` at its end); in both cases the screen and the cursor are unchanged
and the parser is back in ground state. -/
theorem C18_title_notification (libc : LibC) (vt : TMT) (t : List Nat) (hg : Ground vt)
    (hc : CursorOK vt) (hbuf : vt.title.length = TITLE_MAX + 1)
    (ht : ∀ b ∈ t, 32 ≤ b ∧ b ≤ 126) (hlen : t.length ≤ 128) :
    (∀ p, p = 48 ∨ p = 50 →
      ∃ vt', tmt_write libc vt ([27, 93, p, 59] ++ t ++ [7])
          ([27, 93, p, 59] ++ t ++ [7]).length = some vt' ∧
        (∃ tail, vt'.out = vt.out ++ TMT_MSG_TITLE t :: tail ∧ ∀ m ∈ tail, isEndMsg m = true) ∧
        vt'.screen = vt.screen ∧ vt'.curs = vt.curs ∧ Ground vt') ∧
    (∃ vt', tmt_write libc vt ([27, 93, 49, 59] ++ t ++ [7])
        ([27, 93, 49, 59] ++ t ++ [7]).length = some vt' ∧
      (∃ tail, vt'.out = vt.out ++ tail ∧ ∀ m ∈ tail, isEndMsg m = true) ∧
      vt'.screen = vt.screen ∧ vt'.curs = vt.curs ∧ Ground vt') := by
  constructor
  · intro p hp
    have hk : ∃ k, p = 48 + k ∧ (k = 0 ∨ k = 2) := by
      rcases hp with rfl | rfl
      · exact ⟨0, rfl, Or.inl rfl⟩
      · exact ⟨2, rfl, Or.inr rfl⟩
    obtain ⟨k, rfl, hk02⟩ := hk
    obtain ⟨v', hl, hg', ho', hc', hs', _⟩ :=
      @title_run libc _ hg hc hbuf t ht hlen k (by omega)
    rw [if_pos hk02] at ho'
    obtain ⟨tail, ht1, ht2⟩ := notify_tail v' v'.dirty (decide (vt.curs ≠ v'.curs))
    refine ⟨_, tmt_write_of_loop hl, ⟨tail, ?_, ht2⟩, hs', hc', hg'⟩
    show (notify v' v'.dirty (decide (vt.curs ≠ v'.curs))).out = _
    rw [ht1, ho', List.append_assoc]
    rfl
  · obtain ⟨v', hl, hg', ho', hc', hs', _⟩ :=
      @title_run libc _ hg hc hbuf t ht hlen 1 (by omega)
    rw [if_neg (by omega)] at ho'
    obtain ⟨tail, ht1, ht2⟩ := notify_tail v' v'.dirty (decide (vt.curs ≠ v'.curs))
    refine ⟨_, tmt_write_of_loop hl, ⟨tail, ?_, ht2⟩, hs', hc', hg'⟩
    show (notify v' v'.dirty (decide (vt.curs ≠ v'.curs))).out = _
    rw [ht1, ho']

set_option maxRecDepth 100000 in
theorem C18_title_notification_witness :
    (∀ p, p = 48 ∨ p = 50 →
      ∃ vt', tmt_write clocale fresh22 ([27, 93, p, 59] ++ [104, 105] ++ [7])
          ([27, 93, p, 59] ++ [104, 105] ++ [7]).length = some vt' ∧
        (∃ tail, vt'.out = fresh22.out ++ TMT_MSG_TITLE [104, 105] :: tail ∧
          ∀ m ∈ tail, isEndMsg m = true) ∧
        vt'.screen = fresh22.screen ∧ vt'.curs = fresh22.curs ∧ Ground vt') ∧
    (∃ vt', tmt_write clocale fresh22 ([27, 93, 49, 59] ++ [104, 105] ++ [7])
        ([27, 93, 49, 59] ++ [104, 105] ++ [7]).length = some vt' ∧
      (∃ tail, vt'.out = fresh22.out ++ tail ∧ ∀ m ∈ tail, isEndMsg m = true) ∧
      vt'.screen = fresh22.screen ∧ vt'.curs = fresh22.curs ∧ Ground vt') :=
  C18_title_notification clocale fresh22 [104, 105] (by unfold Ground; decide) fresh22_CursorOK
    (by decide) (by decide) (by decide)

/-! ### The cursor under printable text, with any translation -/

theorem printable_step_plain {libc : LibC} {vt : TMT} {b : Nat} (hi : InputReady libc vt)
    (hacs : vt.acs = false) (h1 : 32 ≤ b) (h2 : b ≤ 126) :
    tmt_write_byte libc vt b =
      writecharatcurs { resetparser vt with mb := vt.mb.set 0 b, nmb := 0 } b := by
  obtain ⟨hst, hnmb, hmb, hml, hdec⟩ := hi
  obtain ⟨hret, hwc, hps⟩ := hdec b h1 h2
  have e1 : (resetparser vt).acs = false := hacs
  have e2 : (resetparser vt).nmb = 0 := hnmb
  have e3 := testmbchar_empty libc e2
  have e4 : ¬ (SIZE_MAX - 1 = SIZE_MAX) := by decide
  have e5 : ¬ ((resetparser vt).nmb ≥ BUF_MAX) := by rw [e2]; decide
  have e6 : testmbchar libc (pushmb (resetparser vt) b) = 1 := by
    rw [testmbchar_pushmb libc b e2 hmb]; exact hret
  have e7 := getmbchar_pushmb libc (v := resetparser vt) b e2 hmb hret hwc hps
  unfold tmt_write_byte
  rw [handlechar_printable hst h1 h2]
  simp only [Option.some_bind, Bool.false_eq_true, if_false, e1, e5, e3, e4, if_true, e6, hml]
  unfold writemb
  rw [e7]
  simp only [e1]
  rfl

theorem printable_step_acs {libc : LibC} {vt : TMT} {b : Nat} (hst : vt.state = S_NUL)
    (hacs : vt.acs = true) (h1 : 32 ≤ b) (h2 : b ≤ 126) :
    tmt_write_byte libc vt b = writecharatcurs (resetparser vt) (tacs (resetparser vt) b) := by
  have e1 : (resetparser vt).acs = true := hacs
  unfold tmt_write_byte
  rw [handlechar_printable hst h1 h2]
  simp only [Option.some_bind, Bool.false_eq_true, if_false, e1, if_true]

theorem ScreenOK_putcell {v : TMT} (w : Nat) (hs : ScreenOK v) (hc : CursorOK v) :
    ScreenOK (putcell v w) := by
  refine ⟨?_, ?_⟩
  · show (v.screen.lines.set _ _).length = v.screen.nline
    rw [List.length_set]; exact hs.1
  · intro l hl
    show l.chars.length = v.screen.ncol
    rcases List.mem_or_eq_of_mem_set hl with h | h
    · exact hs.2 l h
    · subst h
      show ((lineAt v (CLINE v)).chars.set _ _).length = _
      rw [List.length_set, CLINE_eq hc.1]
      exact lineAt_length hs hc.1

theorem advance_curs {v : TMT} (h0 : v.hang = 0) :
    (v.curs.c < v.screen.ncol - 1 →
      (advance v).curs = ⟨v.curs.r, v.curs.c + 1⟩ ∧ (advance v).hang = 0) ∧
    (¬ v.curs.c < v.screen.ncol - 1 → v.curs.r + 1 < SIZE_MOD →
      (v.curs.r < v.maxline → (advance v).curs = ⟨v.curs.r + 1, 0⟩ ∧ (advance v).hang = 1) ∧
      (v.maxline ≤ v.curs.r → (advance v).curs = ⟨v.maxline, 0⟩ ∧ (advance v).hang = 2)) := by
  constructor
  · intro h
    unfold advance
    simp only [h, if_true, h0]
    rw [if_neg (fun hh => hh.1 rfl)]
    exact ⟨rfl, rfl⟩
  · intro h hm
    have hadd : addz v.curs.r 1 = v.curs.r + 1 := addz_of_lt hm
    unfold advance
    simp only [h, if_false, hadd]
    constructor
    · intro hr
      rw [if_neg (by intro hh; have := hh.2; omega)]
      exact ⟨rfl, rfl⟩
    · intro hr
      rw [if_pos ⟨by decide, by omega⟩]
      exact ⟨rfl, rfl⟩

/-- A printable byte outside a hang past the bottom stores one cell under the
cursor and advances the cursor, whatever translation is active. -/
theorem gen_step {libc : LibC} {vt : TMT} {b : Nat} (hi : InputReady libc vt)
    (hs : ScreenOK vt) (hc : CursorOK vt) (hh : vt.hang ≠ 2) (h1 : 32 ≤ b) (h2 : b ≤ 126) :
    ∃ X w, tmt_write_byte libc vt b = some (advance (putcell X w)) ∧ X.hang = 0 ∧
      X.curs = vt.curs ∧ X.screen = vt.screen ∧ X.minline = vt.minline ∧
      X.maxline = vt.maxline ∧ InputReady libc X := by
  obtain ⟨hst, hnmb, hmb, hdec⟩ := hi
  cases hacs : vt.acs with
  | true =>
    refine ⟨{ resetparser vt with hang := 0 },
      translate { resetparser vt with hang := 0 } (tacs (resetparser vt) b), ?_, rfl, rfl, rfl,
      rfl, rfl, ⟨rfl, hnmb, hmb, hdec⟩⟩
    rw [printable_step_acs hst hacs h1 h2, writecharatcurs_nohang _ (by exact hh),
      storechar_ok _ (by exact hs) (by exact hc)]
  | false =>
    refine ⟨{ resetparser vt with mb := vt.mb.set 0 b, nmb := 0, hang := 0 },
      translate { resetparser vt with mb := vt.mb.set 0 b, nmb := 0, hang := 0 } b, ?_, rfl,
      rfl, rfl, rfl, rfl, ⟨rfl, rfl, ?_, hdec⟩⟩
    · rw [printable_step_plain ⟨hst, hnmb, hmb, hdec⟩ hacs h1 h2,
        writecharatcurs_nohang _ (by exact hh), storechar_ok _ (by exact hs) (by exact hc)]
    · show 0 < (vt.mb.set 0 b).length
      rw [List.length_set]; exact hmb

theorem adv_put_fields (X : TMT) (w : Nat) :
    (advance (putcell X w)).state = X.state ∧ (advance (putcell X w)).nmb = X.nmb ∧
      (advance (putcell X w)).mb = X.mb ∧ (advance (putcell X w)).ms = X.ms ∧
      (advance (putcell X w)).screen = (putcell X w).screen ∧
      geo (advance (putcell X w)) = geo X := by
  refine ⟨?_, ?_, ?_, ?_, ?_, ?_⟩
  · rw [advance_eq]; rfl
  · rw [advance_eq]; rfl
  · rw [advance_eq]; rfl
  · rw [advance_eq]; rfl
  · rw [advance_eq]
  · rw [geo_advance]; rfl

theorem gen_step_curs {libc : LibC} {vt : TMT} {b : Nat} (hi : InputReady libc vt)
    (hs : ScreenOK vt) (hc : CursorOK vt) (hh : vt.hang ≠ 2) (h1 : 32 ≤ b) (h2 : b ≤ 126) :
    ∃ v', tmt_write_byte libc vt b = some v' ∧ InputReady libc v' ∧ ScreenOK v' ∧
      geo v' = geo vt ∧
      (vt.curs.c < vt.screen.ncol - 1 →
        v'.curs = ⟨vt.curs.r, vt.curs.c + 1⟩ ∧ v'.hang = 0) ∧
      (¬ vt.curs.c < vt.screen.ncol - 1 → vt.curs.r + 1 < SIZE_MOD →
        (vt.curs.r < vt.maxline → v'.curs = ⟨vt.curs.r + 1, 0⟩ ∧ v'.hang = 1) ∧
        (vt.maxline ≤ vt.curs.r → v'.curs = ⟨vt.maxline, 0⟩ ∧ v'.hang = 2)) := by
  obtain ⟨X, w, hstep, hX0, hXc, hXs, hXmin, hXmax, hXi⟩ := gen_step hi hs hc hh h1 h2
  obtain ⟨f1, f2, f3, f4, f5, f6⟩ := adv_put_fields X w
  have hsX : ScreenOK X := by unfold ScreenOK; rw [hXs]; exact hs
  have hcX : CursorOK X := by unfold CursorOK; rw [hXs, hXc]; exact hc
  have hgX : geo X = geo vt := by unfold geo; rw [hXs, hXmin, hXmax]
  have hadv := advance_curs (v := putcell X w) hX0
  have e1 : (putcell X w).curs = vt.curs := hXc
  have e2 : (putcell X w).screen.ncol = vt.screen.ncol := by
    show X.screen.ncol = _; rw [hXs]
  have e3 : (putcell X w).maxline = vt.maxline := hXmax
  rw [e1, e2, e3] at hadv
  refine ⟨_, hstep, ?_, ?_, f6.trans hgX, hadv.1, hadv.2⟩
  · obtain ⟨i1, i2, i3, i4⟩ := hXi
    exact ⟨f1.trans i1, f2.trans i2, by rw [f3]; exact i3, by rw [f4]; exact i4⟩
  · have := ScreenOK_putcell w hsX hcX
    unfold ScreenOK at this ⊢
    rw [f5]; exact this

theorem gen_row {libc : LibC} (cs : List Nat) : ∀ vt : TMT, InputReady libc vt → ScreenOK vt →
    CursorOK vt → vt.hang ≠ 2 → (∀ b ∈ cs, 32 ≤ b ∧ b ≤ 126) →
    vt.curs.c + cs.length ≤ vt.screen.ncol - 1 →
    ∃ vt', tmt_write_loop libc vt cs = some vt' ∧ InputReady libc vt' ∧ ScreenOK vt' ∧
      geo vt' = geo vt ∧ vt'.curs = ⟨vt.curs.r, vt.curs.c + cs.length⟩ ∧ vt'.hang ≠ 2 := by
  induction cs with
  | nil =>
    intro vt hi hs hc hh _ _
    exact ⟨vt, rfl, hi, hs, rfl, rfl, hh⟩
  | cons b cs ih =>
    intro vt hi hs hc hh hp hlen
    simp only [List.length_cons] at hlen
    have hb := hp b (List.mem_cons_self _ _)
    have hin : vt.curs.c < vt.screen.ncol - 1 := by omega
    obtain ⟨v1, hstep, hi1, hs1, hg1, hin1, _⟩ := gen_step_curs hi hs hc hh hb.1 hb.2
    obtain ⟨hcu, hhg⟩ := hin1 hin
    have hg := hg1
    simp only [geo, Prod.mk.injEq] at hg
    have hc1 : CursorOK v1 := by
      unfold CursorOK at *
      rw [hcu, hg.1, hg.2.1]
      simp only
      omega
    have hlen1 : v1.curs.c + cs.length ≤ v1.screen.ncol - 1 := by
      rw [hcu, hg.2.1]
      simp only
      omega
    obtain ⟨vt', hl, hi', hs', hg', hcu', hh'⟩ :=
      ih v1 hi1 hs1 hc1 (by rw [hhg]; decide)
        (fun x hx => hp x (List.mem_cons_of_mem _ hx)) hlen1
    refine ⟨vt', ?_, hi', hs', hg'.trans hg1, ?_, hh'⟩
    · simp only [tmt_write_loop, hstep, Option.some_bind]
      exact hl
    · rw [hcu', hcu]
      simp only [List.length_cons, TMTPOINT.mk.injEq, true_and]
      omega

theorem gen_fullrow {libc : LibC} (cs : List Nat) (vt : TMT) (hi : InputReady libc vt)
    (hs : ScreenOK vt) (hc : CursorOK vt) (hd : DimsOK vt) (hh : vt.hang ≠ 2)
    (hp : ∀ b ∈ cs, 32 ≤ b ∧ b ≤ 126) (hc0 : vt.curs.c = 0)
    (hlen : cs.length = vt.screen.ncol) :
    ∃ vt', tmt_write_loop libc vt cs = some vt' ∧
      (vt.curs.r < vt.maxline → vt'.curs = ⟨vt.curs.r + 1, 0⟩ ∧ vt'.hang = 1) ∧
      (vt.maxline ≤ vt.curs.r → vt'.curs = ⟨vt.maxline, 0⟩ ∧ vt'.hang = 2) := by
  have hncol : 0 < vt.screen.ncol := by have := hc.2; omega
  rcases List.eq_nil_or_concat cs with hnil | ⟨init, last, hcs⟩
  · subst hnil; simp only [List.length_nil] at hlen; omega
  rw [List.concat_eq_append] at hcs
  subst hcs
  replace hlen : init.length + 1 = vt.screen.ncol := by simpa using hlen
  have hpi : ∀ b ∈ init, 32 ≤ b ∧ b ≤ 126 := fun b hb => hp b (List.mem_append_left _ hb)
  have hpl : 32 ≤ last ∧ last ≤ 126 := hp last (List.mem_append_right _ (List.mem_singleton_self _))
  obtain ⟨v0, hl0, hi0, hs0, hg0, hcu0, hh0⟩ :=
    gen_row init vt hi hs hc hh hpi (by rw [hc0]; omega)
  have hg0' := hg0
  simp only [geo, Prod.mk.injEq] at hg0'
  have hc0' : CursorOK v0 := by
    unfold CursorOK
    rw [hcu0, hg0'.1, hg0'.2.1]
    simp only
    exact ⟨hc.1, by omega⟩
  obtain ⟨v1, hstep, _, _, _, _, hwrap⟩ := gen_step_curs hi0 hs0 hc0' hh0 hpl.1 hpl.2
  have hlast : ¬ v0.curs.c < v0.screen.ncol - 1 := by
    rw [hcu0, hg0'.2.1]; simp only; omega
  have hmod : v0.curs.r + 1 < SIZE_MOD := by
    rw [hcu0]; simp only
    have := hd.1; have := hc.1; omega
  obtain ⟨w1, w2⟩ := hwrap hlast hmod
  rw [hcu0, hg0'.2.2.2] at w1 w2
  refine ⟨v1, ?_, w1, w2⟩
  rw [tmt_write_loop_append, hl0]
  simp only [Option.some_bind, tmt_write_loop, hstep]

/-- C9 (amended): from the cursor at (r, 0) with r above the last line of the
scroll region, no hang, the parser in ground state and an empty decoder
carry, a `tmt_write` of exactly `ncol` printable ASCII bytes leaves `hang = 1`
(`HANG_SAMELINE`) and the cursor that `tmt_cursor` reports is (r + 1, 0),
whatever charset or ACS translation is active. -/
theorem C9_cursor_after_full_line (libc : LibC) (vt : TMT) (cs : List Nat)
    (hi : InputReady libc vt) (hs : ScreenOK vt) (hc : CursorOK vt) (hd : DimsOK vt)
    (hh : vt.hang = 0) (hc0 : vt.curs.c = 0) (hr : vt.curs.r < vt.maxline)
    (hp : ∀ b ∈ cs, 32 ≤ b ∧ b ≤ 126) (hlen : cs.length = vt.screen.ncol) :
    ∃ vt', tmt_write libc vt cs cs.length = some vt' ∧ vt'.hang = 1 ∧
      tmt_cursor vt' = ⟨vt.curs.r + 1, 0⟩ := by
  obtain ⟨v, hl, h1, _⟩ := gen_fullrow cs vt hi hs hc hd (by rw [hh]; decide) hp hc0 hlen
  exact ⟨_, tmt_write_of_loop hl, (h1 hr).2, (h1 hr).1⟩

theorem C9_cursor_after_full_line_witness :
    ∃ vt', tmt_write clocale fresh22 [97, 98] 2 = some vt' ∧ vt'.hang = 1 ∧
      tmt_cursor vt' = ⟨0 + 1, 0⟩ :=
  C9_cursor_after_full_line clocale fresh22 [97, 98]
    ⟨by decide, by decide, by decide, clocale_ascii _⟩ fresh22_ScreenOK
    fresh22_CursorOK fresh22_DimsOK (by decide) (by decide) (by decide) (by decide) (by decide)

set_option maxRecDepth 100000 in
/-- C9, the claim as stated fails. A fresh 2 x 2 instance has the cursor at
(0, 0), no hang, the parser in ground state and line 0 is not the last line
of the scroll region (0..1); after a write of the 2 printable bytes `ab` the
hang is 1 and the cursor reported is (1, 0), not (0, 1). With a decoder
carry: in a UTF-8 locale, on a fresh 2 x 2 instance after the lead byte 0xC3
(cursor (0, 0), no hang, ground state), after a write of `ab` the hang is 0
and the cursor reported is (0, 1). -/
theorem C9_cursor_after_full_line_fails :
    (fresh22.curs = ⟨0, 0⟩ ∧ fresh22.hang = 0 ∧ fresh22.state = S_NUL ∧
      fresh22.maxline = 1 ∧ fresh22.screen.ncol = 2 ∧
      (tmt_write clocale fresh22 [97, 98] 2).map (fun v => (v.hang, tmt_cursor v)) =
        some (1, ⟨1, 0⟩)) ∧
    (carry22.map (fun v => (v.curs, v.hang, v.nmb)) = some (⟨0, 0⟩, 0, 1) ∧
      carry22.map (fun v => v.state) = some S_NUL ∧
      carry22.map geo = some (2, 2, 0, 1) ∧
      (carry22.bind fun v => tmt_write utf8locale v [97, 98] 2).map
          (fun v => (v.hang, tmt_cursor v)) = some (0, ⟨0, 1⟩)) := by
  refine ⟨⟨?_, ?_, ?_, ?_, ?_, ?_⟩, ⟨?_, ?_, ?_, ?_⟩⟩ <;> decide

set_option maxRecDepth 100000 in
/-- C11, the claim as stated fails. With a charset translation active: on a
fresh 2 x 2 instance after `ESC ( 0` with the cursor at (1, 0), the last line
of the scroll region 0..1 (no hang, ground state), writing `ab` and then `c`
leaves line 0 holding `:` and `T`, not `a` and `b`, and line 1 holding `F` at
column 0, not `c`. With a decoder carry: in a UTF-8 locale, on a fresh 2 x 2
instance after the lead byte 0xC3 with the cursor at (1, 0) (no hang, ground
state), writing `ab` and then `c` scrolls nothing and leaves line 1 holding
U+FFFD and `c` and the cursor at (1, 0). -/
theorem C11_wrap_at_region_bottom_fails :
    (graphics22_bottom.map (fun v => (v.curs, v.hang, v.nmb, xlate v)) =
        some (⟨1, 0⟩, 0, 0, 1) ∧
      graphics22_bottom.map (fun v => v.state) = some S_NUL ∧
      graphics22_bottom.map geo = some (2, 2, 0, 1) ∧
      (graphics22_bottom.bind fun v => tmt_write clocale v [97, 98, 99] 3).map
          (fun v => (v.curs, (cell v 0 0).c, (cell v 0 1).c, (cell v 1 0).c)) =
        some (⟨1, 1⟩, 58, 84, 70)) ∧
    (carry22_bottom.map (fun v => (v.curs, v.hang, v.nmb, xlate v)) =
        some (⟨1, 0⟩, 0, 1, 0) ∧
      carry22_bottom.map (fun v => v.state) = some S_NUL ∧
      carry22_bottom.map geo = some (2, 2, 0, 1) ∧
      (carry22_bottom.bind fun v => tmt_write utf8locale v [97, 98, 99] 3).map
          (fun v => (v.curs, (cell v 0 0).c, (cell v 1 0).c, (cell v 1 1).c)) =
        some (⟨1, 0⟩, 32, 65533, 99)) := by
  refine ⟨⟨?_, ?_, ?_, ?_⟩, ⟨?_, ?_, ?_, ?_⟩⟩ <;> decide

/-! ### The parser invariant -/

@[simp] theorem bufs_CB (vt : TMT) (m : tmt_msg_t) : bufs (CB vt m) = bufs vt := rfl

@[simp] theorem bufs_dsr (vt : TMT) : bufs (dsr vt) = bufs vt := rfl

@[simp] theorem bufs_act_dsr (vt : TMT) : bufs (act_dsr vt) = bufs vt := by
  unfold act_dsr; split_ifs <;> rfl

@[simp] theorem bufs_act_da (vt : TMT) : bufs (act_da vt) = bufs vt := by
  unfold act_da; split_ifs <;> rfl

@[simp] theorem bufs_sm (vt : TMT) : bufs (sm vt) = bufs vt := by
  unfold sm; split_ifs <;> rfl

@[simp] theorem bufs_rm (vt : TMT) : bufs (rm vt) = bufs vt := by
  unfold rm; split_ifs <;> rfl

@[simp] theorem bufs_title (vt : TMT) : bufs (title vt) = bufs vt := by
  unfold title bufs; simp only; split_ifs <;> simp only [CB, List.length_set]

@[simp] theorem bufs_xtversion (vt : TMT) : bufs (xtversion vt) = bufs vt := rfl

@[simp] theorem bufs_clearline_at (vt : TMT) (i s e : Nat) :
    bufs (clearline_at vt i s e) = bufs vt := rfl

@[simp] theorem bufs_clearline_tabs (vt : TMT) (s e : Nat) :
    bufs (clearline_tabs vt s e) = bufs vt := rfl

@[simp] theorem bufs_clearlines (vt : TMT) (r n : Nat) : bufs (clearlines vt r n) = bufs vt := rfl

@[simp] theorem bufs_dirtylines (vt : TMT) (s e : Nat) : bufs (dirtylines vt s e) = bufs vt := rfl

@[simp] theorem bufs_ed (vt : TMT) : bufs (ed vt) = bufs vt := by
  unfold ed; split_ifs <;> rfl

@[simp] theorem bufs_el (vt : TMT) : bufs (el vt) = bufs vt := by
  unfold el; split_ifs <;> rfl

theorem bufs_FGBG (vt : TMT) (p : Nat) (c : tmt_color_t) : bufs (FGBG vt p c) = bufs vt := by
  unfold FGBG; split_ifs <;> rfl

theorem bufs_sgr_step (vt : TMT) (p : Nat) : bufs (sgr_step vt p) = bufs vt := by
  simp only [sgr_step, apply_ite bufs, bufs_FGBG, ite_self]
  simp only [bufs, ite_self]

theorem bufs_sgr_fold (l : List Nat) (vt : TMT) :
    bufs (l.foldl (fun v i => sgr_step v (P0 v i)) vt) = bufs vt := by
  induction l generalizing vt with
  | nil => rfl
  | cons a l ih => simp only [List.foldl, ih, bufs_sgr_step]

@[simp] theorem bufs_sgr (vt : TMT) : bufs (sgr vt) = bufs vt := bufs_sgr_fold _ vt

@[simp] theorem bufs_resetparser (vt : TMT) : bufs (resetparser vt) = bufs vt := rfl

@[simp] theorem bufs_consumearg (vt : TMT) : bufs (consumearg vt) = bufs vt := by
  unfold consumearg; split_ifs <;> rfl

@[simp] theorem bufs_fixcursor (vt : TMT) : bufs (fixcursor vt) = bufs vt := rfl

@[simp] theorem bufs_cr (vt : TMT) : bufs (cr vt) = bufs vt := by
  unfold cr; simp only; split_ifs <;> rfl

@[simp] theorem bufs_margin (vt : TMT) (t b : Nat) : bufs (margin vt t b) = bufs vt := by
  unfold margin; split_ifs <;> rfl

@[simp] theorem bufs_advance (vt : TMT) : bufs (advance vt) = bufs vt := by
  unfold advance; simp only; split_ifs <;> rfl

@[simp] theorem bufs_setrow (vt : TMT) (r : Nat) : bufs (setrow vt r) = bufs vt := rfl

@[simp] theorem bufs_setcol (vt : TMT) (c : Nat) : bufs (setcol vt c) = bufs vt := rfl

@[simp] theorem bufs_restorecurs (vt : TMT) : bufs (restorecurs vt) = bufs vt := rfl

@[simp] theorem bufs_setstate (vt : TMT) (s : State) : bufs (setstate vt s) = bufs vt := rfl

@[simp] theorem bufs_setcharset (vt : TMT) (v : Nat) : bufs (setcharset vt v) = bufs vt := rfl

@[simp] theorem bufs_setxlate0 (vt : TMT) (v : Nat) : bufs (setxlate0 vt v) = bufs vt := rfl

@[simp] theorem bufs_setxlate1 (vt : TMT) (v : Nat) : bufs (setxlate1 vt v) = bufs vt := rfl

@[simp] theorem bufs_setq (vt : TMT) : bufs (setq vt) = bufs vt := rfl

@[simp] theorem bufs_act_ignore (vt : TMT) : bufs (act_ignore vt) = bufs vt := rfl

@[simp] theorem bufs_act_digit (vt : TMT) (i : Nat) : bufs (act_digit vt i) = bufs vt := rfl

@[simp] theorem bufs_act_bs (vt : TMT) : bufs (act_bs vt) = bufs vt := by
  unfold act_bs; split_ifs <;> rfl

@[simp] theorem bufs_act_ht (vt : TMT) : bufs (act_ht vt) = bufs vt := rfl

@[simp] theorem bufs_act_cbt (vt : TMT) : bufs (act_cbt vt) = bufs vt := rfl

@[simp] theorem bufs_act_tbc (vt : TMT) : bufs (act_tbc vt) = bufs vt := by
  unfold act_tbc; split_ifs <;> rfl

theorem bufs_scrup {vt vt' : TMT} {r n : Nat} (h : scrup vt r n = some vt') :
    bufs vt' = bufs vt := by
  unfold scrup scrup_body at h
  split at h
  · simp only [Option.bind_eq_some, Option.some.injEq] at h
    obtain ⟨buf, _, l1, _, l2, _, h⟩ := h
    subst h; rfl
  · simp only [Option.some.injEq] at h
    subst h; rfl

theorem bufs_scrdn {vt vt' : TMT} {r n : Nat} (h : scrdn vt r n = some vt') :
    bufs vt' = bufs vt := by
  unfold scrdn scrdn_body at h
  split at h
  · simp only [Option.bind_eq_some, Option.some.injEq] at h
    obtain ⟨buf, _, l1, _, l2, _, h⟩ := h
    subst h; rfl
  · simp only [Option.some.injEq] at h
    subst h; rfl

theorem bufs_ich {vt vt' : TMT} (h : ich vt = some vt') : bufs vt' = bufs vt := by
  unfold ich at h
  simp only [Option.bind_eq_some, Option.some.injEq] at h
  obtain ⟨cs, _, h⟩ := h
  subst h; rfl

theorem bufs_dch {vt vt' : TMT} (h : dch vt = some vt') : bufs vt' = bufs vt := by
  unfold dch at h
  split_ifs at h
  · simp only [Option.some.injEq] at h; subst h; rfl
  · simp only [Option.bind_eq_some, Option.some.injEq] at h
    obtain ⟨cs, _, h⟩ := h
    subst h; rfl

theorem bufs_reverse_nl {vt vt' : TMT} (h : reverse_nl vt = some vt') : bufs vt' = bufs vt := by
  unfold reverse_nl at h
  simp only at h
  split_ifs at h
  · exact (bufs_scrdn h).trans rfl
  · simp only [Option.some.injEq] at h; subst h; rfl
  · simp only [Option.some.injEq] at h; subst h; rfl

theorem bufs_nl {vt vt' : TMT} (h : nl vt = some vt') : bufs vt' = bufs vt := by
  unfold nl at h
  split_ifs at h
  · simp only [Option.bind_eq_some, Option.some.injEq] at h
    obtain ⟨v1, h1, h⟩ := h
    subst h
    exact (bufs_scrup h1).trans rfl
  · simp only [Option.bind_eq_some, Option.some.injEq] at h
    obtain ⟨v1, h1, h⟩ := h
    subst h; subst h1; rfl
  · exact bufs_scrup h
  · simp only [Option.some.injEq] at h; subst h; rfl
  · simp only [Option.some.injEq] at h; subst h; rfl

theorem bufs_settab {vt vt' : TMT} (h : settab vt = some vt') : bufs vt' = bufs vt := by
  unfold settab at h
  split_ifs at h
  simp only [Option.some.injEq] at h; subst h; rfl

theorem bufs_storechar {vt vt' : TMT} {w : Nat} (h : storechar vt w = some vt') :
    bufs vt' = bufs vt := by
  unfold storechar at h
  split_ifs at h
  simp only [Option.some.injEq] at h
  subst h
  rw [bufs_advance]; rfl

theorem bufs_writecharatcurs {vt vt' : TMT} {w : Nat} (h : writecharatcurs vt w = some vt') :
    bufs vt' = bufs vt := by
  unfold writecharatcurs at h
  simp only [Option.bind_eq_some] at h
  obtain ⟨v1, h1, h⟩ := h
  have g1 : bufs v1 = bufs vt := by
    split_ifs at h1
    · exact bufs_scrup h1
    · simp only [Option.some.injEq] at h1; subst h1; rfl
  rw [bufs_storechar h, ← g1]
  rfl

theorem bufs_rep_loop (w : Nat) (k : Nat) : ∀ {vt vt' : TMT}, rep_loop w k vt = some vt' →
    bufs vt' = bufs vt := by
  induction k with
  | zero => intro vt vt' h; simp only [rep_loop, Option.some.injEq] at h; subst h; rfl
  | succ k ih =>
    intro vt vt' h
    simp only [rep_loop, Option.bind_eq_some] at h
    obtain ⟨v1, h1, h⟩ := h
    rw [ih h, bufs_writecharatcurs h1]

theorem bufs_rep {vt vt' : TMT} (h : rep vt = some vt') : bufs vt' = bufs vt := by
  unfold rep at h
  simp only at h
  split_ifs at h
  · simp only [Option.some.injEq] at h; subst h; rfl
  · exact bufs_rep_loop _ _ h

@[simp] theorem bufs_savecurs (vt : TMT) : bufs (savecurs vt) = bufs vt := rfl

@[simp] theorem bufs_tmt_reset (vt : TMT) : bufs (tmt_reset vt) = bufs vt := rfl

@[simp] theorem pstate_clearlines (vt : TMT) (r n : Nat) : pstate (clearlines vt r n) = pstate vt := rfl

@[simp] theorem pstate_dirtylines (vt : TMT) (s e : Nat) : pstate (dirtylines vt s e) = pstate vt := rfl

@[simp] theorem pstate_advance (vt : TMT) : pstate (advance vt) = pstate vt := by
  unfold advance; simp only; split_ifs <;> rfl

theorem pstate_scrup {vt vt' : TMT} {r n : Nat} (h : scrup vt r n = some vt') :
    pstate vt' = pstate vt := by
  unfold scrup scrup_body at h
  split at h
  · simp only [Option.bind_eq_some, Option.some.injEq] at h
    obtain ⟨buf, _, l1, _, l2, _, h⟩ := h
    subst h; rfl
  · simp only [Option.some.injEq] at h
    subst h; rfl

theorem pstate_storechar {vt vt' : TMT} {w : Nat} (h : storechar vt w = some vt') :
    pstate vt' = pstate vt := by
  unfold storechar at h
  split_ifs at h
  simp only [Option.some.injEq] at h
  subst h
  rw [pstate_advance]; rfl

theorem pstate_writecharatcurs {vt vt' : TMT} {w : Nat} (h : writecharatcurs vt w = some vt') :
    pstate vt' = pstate vt := by
  unfold writecharatcurs at h
  simp only [Option.bind_eq_some] at h
  obtain ⟨v1, h1, h⟩ := h
  have g1 : pstate v1 = pstate vt := by
    split_ifs at h1
    · exact pstate_scrup h1
    · simp only [Option.some.injEq] at h1; subst h1; rfl
  rw [pstate_storechar h, ← g1]
  rfl

set_option maxHeartbeats 1600000 in
/-- Every action of `handlechar` keeps the sizes of the buffers. -/
theorem rules_bufs : ∀ ru ∈ rules, ∀ (vt : TMT) (i : Nat) (vt' : TMT),
    ru.A vt i = some vt' → bufs vt' = bufs vt := by
  intro ru hru
  simp only [rules, List.mem_cons, List.mem_singleton, List.not_mem_nil, or_false] at hru
  rcases hru with rfl | rfl | rfl | rfl | rfl | rfl | rfl | rfl | rfl | rfl | rfl | rfl | rfl | rfl | rfl | rfl | rfl | rfl | rfl | rfl | rfl | rfl | rfl | rfl | rfl | rfl | rfl | rfl | rfl | rfl | rfl | rfl | rfl | rfl | rfl | rfl | rfl | rfl | rfl | rfl | rfl | rfl | rfl | rfl | rfl | rfl | rfl | rfl | rfl | rfl | rfl | rfl | rfl | rfl | rfl | rfl | rfl | rfl | rfl | rfl | rfl | rfl | rfl | rfl | rfl | rfl
  all_goals intro vt i vt' h
  all_goals simp only at h
  all_goals first
    | (simp only [Option.some.injEq] at h; subst h
       simp only [bufs_CB, bufs_cr, bufs_restorecurs, bufs_savecurs, bufs_tmt_reset,
            bufs_consumearg, bufs_setrow, bufs_setcol, bufs_ed, bufs_el,
            bufs_clearline_at, bufs_sgr, bufs_setstate, bufs_setcharset, bufs_margin,
            bufs_setxlate0, bufs_setxlate1, bufs_setq, bufs_act_ignore, bufs_act_digit,
            bufs_act_bs, bufs_act_ht, bufs_act_cbt, bufs_act_tbc, bufs_act_dsr,
            bufs_act_da, bufs_sm, bufs_rm, bufs_title, bufs_xtversion])
    | with_reducible exact bufs_nl h
    | with_reducible exact bufs_reverse_nl h
    | with_reducible exact bufs_settab h
    | with_reducible exact bufs_scrup h
    | with_reducible exact bufs_scrdn h
    | with_reducible exact bufs_dch h
    | with_reducible exact bufs_ich h
    | with_reducible exact bufs_rep h

theorem state_consumearg (vt : TMT) : (consumearg vt).state = vt.state := by
  unfold consumearg; split_ifs <;> rfl

/-- The lines `ON` of `handlechar` never leave the parser in the state
`S_NUL`. -/
theorem rules_ON_state : ∀ ru ∈ rules, ru.isDO = false → ∀ (vt : TMT) (i : Nat) (vt' : TMT),
    ru.S = vt.state → ru.A vt i = some vt' → vt'.state ≠ S_NUL := by
  intro ru hru
  simp only [rules, List.mem_cons, List.mem_singleton, List.not_mem_nil, or_false] at hru
  rcases hru with rfl | rfl | rfl | rfl | rfl | rfl | rfl | rfl | rfl | rfl | rfl | rfl | rfl | rfl | rfl | rfl | rfl | rfl | rfl | rfl | rfl | rfl | rfl | rfl | rfl | rfl | rfl | rfl | rfl | rfl | rfl | rfl | rfl | rfl | rfl | rfl | rfl | rfl | rfl | rfl | rfl | rfl | rfl | rfl | rfl | rfl | rfl | rfl | rfl | rfl | rfl | rfl | rfl | rfl | rfl | rfl | rfl | rfl | rfl | rfl | rfl | rfl | rfl | rfl | rfl | rfl
  all_goals intro hdo vt i vt' hs h
  all_goals first
    | (exact absurd hdo (by decide))
    | (simp only [Option.some.injEq] at h; subst h
       intro hx
       first
        | (simp only [setstate, act_ignore, reduceCtorEq] at hx)
        | (have e : vt.state = S_NUL := by
             first
               | exact hx
               | exact (state_consumearg vt).symm.trans hx
           rw [e] at hs
           exact absurd hs (by decide)))

/-- The parser after `DO` is the one `resetparser` leaves. -/
theorem DO_pstate {vt vt' : TMT} {A : TMT → Option TMT} (h : DO vt A = some vt') :
    pstate vt' = (S_NUL, 0, 0, List.replicate PAR_MAX 0, false, false, 0) := by
  unfold DO at h
  cases hx : (if (consumearg vt).ignored then some (consumearg vt) else A (consumearg vt)) with
  | none => rw [hx] at h; exact absurd h (by simp)
  | some v2 =>
    rw [hx] at h
    simp only [Option.some_bind, Option.some.injEq] at h
    subst h; rfl

theorem Ground_of_pstate {vt : TMT}
    (h : pstate vt = (S_NUL, 0, 0, List.replicate PAR_MAX 0, false, false, 0)) : Ground vt := by
  simp only [pstate, Prod.mk.injEq] at h
  exact h

theorem pstate_of_Ground {vt : TMT} (h : Ground vt) :
    pstate vt = (S_NUL, 0, 0, List.replicate PAR_MAX 0, false, false, 0) := by
  simp only [pstate, Prod.mk.injEq]
  exact h

theorem bufs_consumearg_DO {vt vt' : TMT} {ru : Rule} {i : Nat} (hm : ru ∈ rules)
    (h : DO vt (fun v => ru.A v i) = some vt') : bufs vt' = bufs vt := by
  unfold DO at h
  by_cases hi : (consumearg vt).ignored
  · rw [if_pos hi] at h
    simp only [Option.some_bind, Option.some.injEq] at h
    subst h
    exact bufs_consumearg vt
  · rw [if_neg hi] at h
    beta_reduce at h
    cases hx : ru.A (consumearg vt) i with
    | none => rw [hx] at h; exact absurd h (by simp)
    | some v2 =>
      rw [hx] at h
      simp only [Option.some_bind, Option.some.injEq] at h
      subst h
      exact (rules_bufs ru hm _ _ _ hx).trans (bufs_consumearg vt)

/-- The function `handlechar` keeps the parser invariant; when it returns false
the parser is the one `resetparser` leaves. -/
theorem handlechar_ParserOK {vt vt' : TMT} {i : Nat} {r : Bool} (hp : ParserOK vt)
    (h : handlechar vt i = some (vt', r)) :
    ParserOK vt' ∧ (r = false → Ground vt') := by
  unfold handlechar at h
  cases hf : rules.find? (fun ru => ru.guard vt i) with
  | some ru =>
    rw [hf] at h
    have hm : ru ∈ rules := List.mem_of_find?_eq_some hf
    have hgd := List.find?_some hf
    simp only [Rule.guard, Bool.and_eq_true, decide_eq_true_eq] at hgd
    simp only [Option.map_eq_some', Prod.mk.injEq] at h
    obtain ⟨v1, h1, e1, e2⟩ := h
    subst e1
    refine ⟨?_, fun hr => absurd (e2.trans hr) (by decide)⟩
    unfold Rule.run at h1
    cases hdo : ru.isDO with
    | true =>
      rw [hdo] at h1
      simp only [if_true] at h1
      exact ⟨fun _ => Ground_of_pstate (DO_pstate h1), (bufs_consumearg_DO hm h1).trans hp.2⟩
    | false =>
      rw [hdo] at h1
      simp only [Bool.false_eq_true, if_false] at h1
      exact ⟨fun hs => absurd hs (rules_ON_state ru hm hdo vt i v1 hgd.1 h1),
        (rules_bufs ru hm vt i v1 h1).trans hp.2⟩
  | none =>
    rw [hf] at h
    simp only at h
    split_ifs at h with hc
    · simp only [Option.some.injEq, Prod.mk.injEq] at h
      obtain ⟨e1, e2⟩ := h
      subst e1
      refine ⟨⟨fun hs => ?_, ?_⟩, fun hr => absurd (e2.trans hr) (by decide)⟩
      · have e : vt.state = S_NUL := hs
        rw [hc.1] at e
        exact absurd e (by decide)
      · have := hp.2
        simp only [bufs, Prod.mk.injEq, List.length_set] at this ⊢
        exact this
    · simp only [Option.some.injEq, Prod.mk.injEq] at h
      obtain ⟨e1, e2⟩ := h
      subst e1
      exact ⟨⟨fun _ => Ground_of_pstate rfl, hp.2⟩, fun _ => Ground_of_pstate rfl⟩
theorem pstate_writemb {libc : LibC} {vt vt' : TMT} (h : writemb libc vt = some vt') :
    pstate vt' = pstate vt := by
  unfold writemb at h
  exact (pstate_writecharatcurs h).trans rfl

theorem bufs_writemb {libc : LibC} {vt vt' : TMT} (h : writemb libc vt = some vt') :
    bufs vt' = bufs vt := by
  unfold writemb at h
  exact (bufs_writecharatcurs h).trans rfl

theorem bufs_pushmb (vt : TMT) (b : Nat) : bufs (pushmb vt b) = bufs vt := by
  simp only [bufs, pushmb, List.length_set]

theorem parser_after_handlechar {libc : LibC} {v1 vt' : TMT} {b : Nat} {b1 : Bool}
    (h : (if b1 = true then some { v1 with hang := 0 }
      else if v1.acs = true then writecharatcurs v1 (tacs v1 b)
      else if v1.nmb ≥ BUF_MAX then writemb libc v1
      else
        (if testmbchar libc v1 = SIZE_MAX then writemb libc v1
         else if testmbchar libc v1 = SIZE_MAX - 1 then
           some (pushmb v1 b)
         else some v1).bind fun vt2 =>
        if testmbchar libc vt2 ≤ libc.MB_LEN_MAX then writemb libc vt2 else some vt2) =
      some vt') : pstate vt' = pstate v1 ∧ bufs vt' = bufs v1 := by
  split_ifs at h
  · simp only [Option.some.injEq] at h; subst h; exact ⟨rfl, rfl⟩
  · exact ⟨pstate_writecharatcurs h, bufs_writecharatcurs h⟩
  · exact ⟨pstate_writemb h, bufs_writemb h⟩
  all_goals
    simp only [Option.bind_eq_some] at h
    obtain ⟨v2, h2, h⟩ := h
    have i2 : pstate v2 = pstate v1 ∧ bufs v2 = bufs v1 := by
      first
        | exact ⟨pstate_writemb h2, bufs_writemb h2⟩
        | (simp only [Option.some.injEq] at h2; subst h2; exact ⟨rfl, bufs_pushmb _ _⟩)
        | (simp only [Option.some.injEq] at h2; subst h2; exact ⟨rfl, rfl⟩)
    first
      | exact ⟨(pstate_writemb h).trans i2.1, (bufs_writemb h).trans i2.2⟩
      | (split_ifs at h
         · exact ⟨(pstate_writemb h).trans i2.1, (bufs_writemb h).trans i2.2⟩
         · simp only [Option.some.injEq] at h; subst h; exact i2)

theorem ParserOK_of_eq {vt vt' : TMT} (hp : pstate vt' = pstate vt) (hb : bufs vt' = bufs vt)
    (h : ParserOK vt) : ParserOK vt' := by
  refine ⟨fun hs => ?_, hb.trans h.2⟩
  have e : vt'.state = vt.state := congrArg Prod.fst hp
  exact Ground_of_pstate (hp.trans (pstate_of_Ground (h.1 (e.symm.trans hs))))

/-- One byte of `tmt_write` keeps the parser invariant. -/
theorem tmt_write_byte_ParserOK {libc : LibC} {vt vt' : TMT} {b : Nat} (hp : ParserOK vt)
    (h : tmt_write_byte libc vt b = some vt') : ParserOK vt' := by
  unfold tmt_write_byte at h
  simp only [Option.bind_eq_some] at h
  obtain ⟨⟨v1, b1⟩, h1, h⟩ := h
  have hi := handlechar_ParserOK hp h1
  simp only at h
  have ho := @parser_after_handlechar libc _ _ _ _ h
  exact ParserOK_of_eq ho.1 ho.2 hi.1

theorem tmt_write_loop_ParserOK {libc : LibC} (s : List Nat) : ∀ {vt vt' : TMT},
    ParserOK vt → tmt_write_loop libc vt s = some vt' → ParserOK vt' := by
  induction s with
  | nil =>
    intro vt vt' hp h
    simp only [tmt_write_loop, Option.some.injEq] at h
    subst h; exact hp
  | cons b bs ih =>
    intro vt vt' hp h
    simp only [tmt_write_loop, Option.bind_eq_some] at h
    obtain ⟨v1, h1, h2⟩ := h
    exact ih (tmt_write_byte_ParserOK hp h1) h2

theorem pstate_notify (vt : TMT) (u m : Bool) : pstate (notify vt u m) = pstate vt := by
  unfold notify; cases u <;> cases m <;> rfl

theorem bufs_notify (vt : TMT) (u m : Bool) : bufs (notify vt u m) = bufs vt := by
  unfold notify; cases u <;> cases m <;> rfl

theorem tmt_write_ParserOK {libc : LibC} {vt vt' : TMT} {s : List Nat} {n : Nat}
    (hp : ParserOK vt) (h : tmt_write libc vt s n = some vt') : ParserOK vt' := by
  unfold tmt_write at h
  simp only [Option.map_eq_some'] at h
  obtain ⟨v1, h1, e⟩ := h
  subst e
  exact ParserOK_of_eq (pstate_notify _ _ _) (bufs_notify _ _ _) (tmt_write_loop_ParserOK _ hp h1)

theorem pstate_tmt_resize (vt : TMT) (nline ncol : Nat) :
    pstate (tmt_resize vt nline ncol).1 = pstate vt ∧
      bufs (tmt_resize vt nline ncol).1 = bufs vt := by
  unfold tmt_resize
  split_ifs
  · exact ⟨rfl, rfl⟩
  · simp only
    exact ⟨(pstate_notify _ _ _).trans rfl, (bufs_notify _ _ _).trans rfl⟩

theorem calloc_ParserOK (a : List Nat) : ParserOK { calloc_TMT with acschars := a } := by
  refine ⟨fun _ => ?_, ?_⟩
  · unfold Ground; exact ⟨rfl, rfl, rfl, rfl, rfl, rfl, rfl⟩
  · rfl

theorem tmt_open_ParserOK {nline ncol : Nat} {acs : Option (List Nat)} {vt : TMT}
    (h : tmt_open nline ncol acs = some vt) : ParserOK vt := by
  unfold tmt_open at h
  split_ifs at h with h0
  simp only at h
  have hk := pstate_tmt_resize { calloc_TMT with acschars := acs.getD default_acschars } nline ncol
  have hc := calloc_ParserOK (acs.getD default_acschars)
  split at h
  · rename_i v1 hx
    simp only [Option.some.injEq] at h
    subst h
    have e : (tmt_resize { calloc_TMT with acschars := acs.getD default_acschars } nline ncol).1 = v1 :=
      congrArg Prod.fst hx
    rw [e] at hk
    exact ParserOK_of_eq hk.1 hk.2 hc
  · exact Option.noConfusion h

theorem tmt_reset_ParserOK (vt : TMT) (hp : ParserOK vt) : ParserOK (tmt_reset vt) := by
  refine ⟨fun _ => ?_, (bufs_tmt_reset vt).trans hp.2⟩
  unfold Ground; exact ⟨rfl, rfl, rfl, rfl, rfl, rfl, rfl⟩

/-- Every instance that the interface produces has the parser invariant: between
two sequences the parser is the one `resetparser` leaves. -/
theorem Reachable_ParserOK {libc : LibC} {vt : TMT} (h : Reachable libc vt) : ParserOK vt := by
  induction h with
  | opened nline ncol acs vt h => exact tmt_open_ParserOK h
  | write vt s n vt' _ h ih => exact tmt_write_ParserOK ih h
  | resize vt nline ncol _ ih =>
    exact ParserOK_of_eq (pstate_tmt_resize vt nline ncol).1 (pstate_tmt_resize vt nline ncol).2 ih
  | reset vt _ ih => exact tmt_reset_ParserOK vt ih
  | clean vt _ ih => exact ParserOK_of_eq rfl rfl ih
  | decode vt v _ ih => exact ParserOK_of_eq rfl rfl ih

theorem Reachable_Ground {libc : LibC} {vt : TMT} (h : Reachable libc vt)
    (hs : vt.state = S_NUL) : Ground vt := (Reachable_ParserOK h).1 hs
/-! ### Insert characters, cursor up, cursor left -/

set_option maxRecDepth 100000 in
/-- C21: on a 2 x 4 screen whose line 0 holds `abcd`, `ESC [ @` with the
cursor at (0, 1) leaves `abbd` (no blank is inserted and `d` stays in the last
column), with the cursor at (0, 0) it leaves a blank and `abd`, and
`ESC [ 2 @` with the cursor at (0, 1) leaves `a`, a blank and `cd`: `ich`
moves `ncol - c - n - 1` cells, so the last column never moves, and it calls
`clearline(vt, l, c->c, n)` with the count `n` as the end of the range. -/
theorem C21_insert_characters_misplaced :
    ((tmt_open 2 4 none).bind fun vt =>
        tmt_write clocale vt [97, 98, 99, 100, 27, 91, 49, 59, 50, 72, 27, 91, 64] 13).map
      (fun vt => (vt.curs, (lineAt vt 0).chars.map fun ch => ch.c)) =
      some (⟨0, 1⟩, [97, 98, 98, 100]) ∧
    ((tmt_open 2 4 none).bind fun vt =>
        tmt_write clocale vt [97, 98, 99, 100, 27, 91, 49, 59, 49, 72, 27, 91, 64] 13).map
      (fun vt => (vt.curs, (lineAt vt 0).chars.map fun ch => ch.c)) =
      some (⟨0, 0⟩, [32, 97, 98, 100]) ∧
    ((tmt_open 2 4 none).bind fun vt =>
        tmt_write clocale vt [97, 98, 99, 100, 27, 91, 49, 59, 50, 72, 27, 91, 50, 64] 14).map
      (fun vt => (vt.curs, (lineAt vt 0).chars.map fun ch => ch.c)) =
      some (⟨0, 1⟩, [97, 32, 99, 100]) := by
  refine ⟨?_, ?_, ?_⟩ <;> decide

set_option maxRecDepth 100000 in
/-- C23: on a fresh 3 x 2 screen `ESC [ A` with the cursor at (0, 0) moves the
cursor to the last line, (2, 0), and after `ESC [ 2 ; 1 H` (cursor at (1, 0))
`ESC [ 5 A` moves it to (2, 0) too, while `ESC [ 1 A` from (1, 0) goes to
(0, 0): the difference `c->r - P1(0)` is taken in `size_t`, `MAX(..., 0)`
changes nothing and `fixcursor` clamps the wrapped value to `nline - 1`. -/
theorem C23_cursor_up_wraps_to_bottom :
    ((tmt_open 3 2 none).bind fun vt => tmt_write clocale vt [27, 91, 65] 3).map
      (fun vt => vt.curs) = some ⟨2, 0⟩ ∧
    ((tmt_open 3 2 none).bind fun vt =>
        tmt_write clocale vt [27, 91, 50, 59, 49, 72, 27, 91, 53, 65] 10).map
      (fun vt => vt.curs) = some ⟨2, 0⟩ ∧
    ((tmt_open 3 2 none).bind fun vt =>
        tmt_write clocale vt [27, 91, 50, 59, 49, 72, 27, 91, 49, 65] 10).map
      (fun vt => vt.curs) = some ⟨0, 0⟩ := by
  refine ⟨?_, ?_, ?_⟩ <;> decide

set_option maxRecDepth 100000 in
/-- C24: on a fresh 2 x 4 screen after `ESC [ 1 ; 3 H` (cursor at (0, 2))
`ESC [ 5 D` leaves the cursor at (0, 2), while `ESC [ 2 D` moves it to (0, 0):
when `P1(0)` exceeds the column, `c->c - P1(0)` wraps in `size_t` and
`MIN(c->c - P1(0), c->c)` is the old column. -/
theorem C24_cursor_left_stays_on_underflow :
    ((tmt_open 2 4 none).bind fun vt =>
        tmt_write clocale vt [27, 91, 49, 59, 51, 72, 27, 91, 53, 68] 10).map
      (fun vt => vt.curs) = some ⟨0, 2⟩ ∧
    ((tmt_open 2 4 none).bind fun vt =>
        tmt_write clocale vt [27, 91, 49, 59, 51, 72, 27, 91, 50, 68] 10).map
      (fun vt => vt.curs) = some ⟨0, 0⟩ := by
  refine ⟨?_, ?_⟩ <;> decide
/-! ### The log of messages does not steer the terminal -/

theorem addout_curs (o : List tmt_msg_t) (vt : TMT) : (addout o vt).curs = vt.curs := rfl

theorem addout_oldcurs (o : List tmt_msg_t) (vt : TMT) : (addout o vt).oldcurs = vt.oldcurs := rfl

theorem addout_attrs (o : List tmt_msg_t) (vt : TMT) : (addout o vt).attrs = vt.attrs := rfl

theorem addout_oldattrs (o : List tmt_msg_t) (vt : TMT) : (addout o vt).oldattrs = vt.oldattrs := rfl

theorem addout_hang (o : List tmt_msg_t) (vt : TMT) : (addout o vt).hang = vt.hang := rfl

theorem addout_terminal_name (o : List tmt_msg_t) (vt : TMT) : (addout o vt).terminal_name = vt.terminal_name := rfl

theorem addout_minline (o : List tmt_msg_t) (vt : TMT) : (addout o vt).minline = vt.minline := rfl

theorem addout_maxline (o : List tmt_msg_t) (vt : TMT) : (addout o vt).maxline = vt.maxline := rfl

theorem addout_dirty (o : List tmt_msg_t) (vt : TMT) : (addout o vt).dirty = vt.dirty := rfl

theorem addout_acs (o : List tmt_msg_t) (vt : TMT) : (addout o vt).acs = vt.acs := rfl

theorem addout_ignored (o : List tmt_msg_t) (vt : TMT) : (addout o vt).ignored = vt.ignored := rfl

theorem addout_screen (o : List tmt_msg_t) (vt : TMT) : (addout o vt).screen = vt.screen := rfl

theorem addout_tabs (o : List tmt_msg_t) (vt : TMT) : (addout o vt).tabs = vt.tabs := rfl

theorem addout_acschars (o : List tmt_msg_t) (vt : TMT) : (addout o vt).acschars = vt.acschars := rfl

theorem addout_charset (o : List tmt_msg_t) (vt : TMT) : (addout o vt).charset = vt.charset := rfl

theorem addout_xlate0 (o : List tmt_msg_t) (vt : TMT) : (addout o vt).xlate0 = vt.xlate0 := rfl

theorem addout_xlate1 (o : List tmt_msg_t) (vt : TMT) : (addout o vt).xlate1 = vt.xlate1 := rfl

theorem addout_decode_unicode (o : List tmt_msg_t) (vt : TMT) : (addout o vt).decode_unicode = vt.decode_unicode := rfl

theorem addout_ms (o : List tmt_msg_t) (vt : TMT) : (addout o vt).ms = vt.ms := rfl

theorem addout_nmb (o : List tmt_msg_t) (vt : TMT) : (addout o vt).nmb = vt.nmb := rfl

theorem addout_mb (o : List tmt_msg_t) (vt : TMT) : (addout o vt).mb = vt.mb := rfl

theorem addout_title (o : List tmt_msg_t) (vt : TMT) : (addout o vt).title = vt.title := rfl

theorem addout_ntitle (o : List tmt_msg_t) (vt : TMT) : (addout o vt).ntitle = vt.ntitle := rfl

theorem addout_pars (o : List tmt_msg_t) (vt : TMT) : (addout o vt).pars = vt.pars := rfl

theorem addout_npar (o : List tmt_msg_t) (vt : TMT) : (addout o vt).npar = vt.npar := rfl

theorem addout_arg (o : List tmt_msg_t) (vt : TMT) : (addout o vt).arg = vt.arg := rfl

theorem addout_q (o : List tmt_msg_t) (vt : TMT) : (addout o vt).q = vt.q := rfl

theorem addout_state (o : List tmt_msg_t) (vt : TMT) : (addout o vt).state = vt.state := rfl

theorem addout_P0 (o : List tmt_msg_t) (vt : TMT) (x : Nat) : P0 (addout o vt) x = P0 vt x := rfl

theorem addout_P1 (o : List tmt_msg_t) (vt : TMT) (x : Nat) : P1 (addout o vt) x = P1 vt x := rfl

theorem addout_CLINE (o : List tmt_msg_t) (vt : TMT)  : CLINE (addout o vt) = CLINE vt := rfl

theorem addout_lineAt (o : List tmt_msg_t) (vt : TMT) (i : Nat) : lineAt (addout o vt) i = lineAt vt i := rfl

theorem addout_xlate (o : List tmt_msg_t) (vt : TMT)  : xlate (addout o vt) = xlate vt := rfl

theorem addout_scr_row (o : List tmt_msg_t) (vt : TMT) (r : Nat) : scr_row (addout o vt) r = scr_row vt r := rfl

theorem addout_scr_count (o : List tmt_msg_t) (vt : TMT) (r n : Nat) : scr_count (addout o vt) r n = scr_count vt r n := rfl

theorem addout_ich_count (o : List tmt_msg_t) (vt : TMT)  : ich_count (addout o vt) = ich_count vt := rfl

theorem addout_dch_count (o : List tmt_msg_t) (vt : TMT)  : dch_count (addout o vt) = dch_count vt := rfl

theorem addout_clearline (o : List tmt_msg_t) (vt : TMT) (l : TMTLINE) (s e : Nat) : clearline (addout o vt) l s e = clearline vt l s e := rfl

theorem addout_dec_to_acs (o : List tmt_msg_t) (vt : TMT) (w : Nat) : dec_to_acs (addout o vt) w = dec_to_acs vt w := rfl

theorem addout_unicode_to_acs (o : List tmt_msg_t) (vt : TMT) (w : Nat) : unicode_to_acs (addout o vt) w = unicode_to_acs vt w := rfl

theorem addout_translate (o : List tmt_msg_t) (vt : TMT) (w : Nat) : translate (addout o vt) w = translate vt w := rfl

theorem addout_tacs (o : List tmt_msg_t) (vt : TMT) (c : Nat) : tacs (addout o vt) c = tacs vt c := rfl

theorem pre_CB (o : List tmt_msg_t) (vt : TMT) (m : tmt_msg_t) :
    CB (addout o vt) m = addout o (CB vt m) := by
  simp only [CB, addout, List.append_assoc]

theorem clearrows_addout (o : List tmt_msg_t) (vt : TMT) (lo hi : Nat) (ls : List TMTLINE) :
    ∀ i, clearrows (addout o vt) lo hi i ls = clearrows vt lo hi i ls := by
  induction ls with
  | nil => intro i; rfl
  | cons l rest ih => intro i; simp only [clearrows, ih]; rfl

theorem pre_clearline_at (o : List tmt_msg_t) (vt : TMT) (i s e : Nat) :
    clearline_at (addout o vt) i s e = addout o (clearline_at vt i s e) := rfl

theorem pre_clearline_tabs (o : List tmt_msg_t) (vt : TMT) (s e : Nat) :
    clearline_tabs (addout o vt) s e = addout o (clearline_tabs vt s e) := rfl

theorem pre_clearlines (o : List tmt_msg_t) (vt : TMT) (r n : Nat) :
    clearlines (addout o vt) r n = addout o (clearlines vt r n) := by
  unfold clearlines
  simp only [clearrows_addout]
  rfl

theorem pre_dirtylines (o : List tmt_msg_t) (vt : TMT) (s e : Nat) :
    dirtylines (addout o vt) s e = addout o (dirtylines vt s e) := rfl

theorem pre_ed (o : List tmt_msg_t) (vt : TMT) : ed (addout o vt) = addout o (ed vt) := by
  unfold ed
  simp only [pre_clearline_at, pre_clearlines, addout_curs, addout_screen, addout_hang, addout_minline, addout_maxline, addout_pars,
    addout_npar, addout_q, addout_P0, addout_P1, addout_CLINE, addout_lineAt]
  split_ifs <;> rfl

theorem pre_el (o : List tmt_msg_t) (vt : TMT) : el (addout o vt) = addout o (el vt) := by
  unfold el
  simp only [pre_clearline_at, addout_curs, addout_screen, addout_hang, addout_minline, addout_maxline, addout_pars,
    addout_npar, addout_q, addout_P0, addout_P1, addout_CLINE, addout_lineAt]
  split_ifs <;> rfl

theorem pre_FGBG (o : List tmt_msg_t) (vt : TMT) (p : Nat) (c : tmt_color_t) :
    FGBG (addout o vt) p c = addout o (FGBG vt p c) := by
  unfold FGBG; split_ifs <;> rfl

theorem pre_sgr_step (o : List tmt_msg_t) (vt : TMT) (p : Nat) :
    sgr_step (addout o vt) p = addout o (sgr_step vt p) := by
  simp only [sgr_step, pre_FGBG, apply_ite (addout o)]
  rfl

theorem pre_sgr_fold (o : List tmt_msg_t) (l : List Nat) (vt : TMT) :
    l.foldl (fun v i => sgr_step v (P0 v i)) (addout o vt) =
      addout o (l.foldl (fun v i => sgr_step v (P0 v i)) vt) := by
  induction l generalizing vt with
  | nil => rfl
  | cons a l ih =>
    simp only [List.foldl]
    have e : sgr_step (addout o vt) (P0 (addout o vt) a) = addout o (sgr_step vt (P0 vt a)) :=
      pre_sgr_step o vt _
    rw [e, ih]

theorem pre_sgr (o : List tmt_msg_t) (vt : TMT) : sgr (addout o vt) = addout o (sgr vt) :=
  pre_sgr_fold o _ vt

theorem pre_dsr (o : List tmt_msg_t) (vt : TMT) : dsr (addout o vt) = addout o (dsr vt) :=
  pre_CB o vt _

theorem pre_resetparser (o : List tmt_msg_t) (vt : TMT) :
    resetparser (addout o vt) = addout o (resetparser vt) := rfl

theorem pre_consumearg (o : List tmt_msg_t) (vt : TMT) :
    consumearg (addout o vt) = addout o (consumearg vt) := by
  unfold consumearg
  simp only [addout_curs, addout_screen, addout_hang, addout_minline, addout_maxline, addout_pars,
    addout_npar, addout_q, addout_P0, addout_P1, addout_CLINE, addout_lineAt]
  split_ifs <;> rfl

theorem pre_fixcursor (o : List tmt_msg_t) (vt : TMT) :
    fixcursor (addout o vt) = addout o (fixcursor vt) := rfl

theorem pre_sm (o : List tmt_msg_t) (vt : TMT) : sm (addout o vt) = addout o (sm vt) := by
  unfold sm
  simp only [addout_curs, addout_screen, addout_hang, addout_minline, addout_maxline, addout_pars,
    addout_npar, addout_q, addout_P0, addout_P1, addout_CLINE, addout_lineAt]
  split_ifs
  · exact pre_CB o vt _
  · exact pre_CB o { vt with pars := fillpars vt.npar 0 vt.pars } _

theorem pre_rm (o : List tmt_msg_t) (vt : TMT) : rm (addout o vt) = addout o (rm vt) := by
  unfold rm
  simp only [addout_curs, addout_screen, addout_hang, addout_minline, addout_maxline, addout_pars,
    addout_npar, addout_q, addout_P0, addout_P1, addout_CLINE, addout_lineAt]
  split_ifs
  · exact pre_CB o vt _
  · exact pre_CB o { vt with pars := fillpars vt.npar 0 vt.pars } _

theorem pre_title (o : List tmt_msg_t) (vt : TMT) :
    title (addout o vt) = addout o (title vt) := by
  unfold title
  simp only [addout_curs, addout_screen, addout_hang, addout_minline, addout_maxline, addout_pars,
    addout_npar, addout_q, addout_P0, addout_P1, addout_CLINE, addout_lineAt, P0]
  split_ifs
  · exact pre_CB o { vt with title := vt.title.set vt.ntitle 0 } _
  · rfl
  · rfl

theorem pre_cr (o : List tmt_msg_t) (vt : TMT) : cr (addout o vt) = addout o (cr vt) := by
  unfold cr
  simp only [addout_curs, addout_screen, addout_hang, addout_minline, addout_maxline, addout_pars,
    addout_npar, addout_q, addout_P0, addout_P1, addout_CLINE, addout_lineAt]
  split_ifs <;> rfl

theorem pre_margin (o : List tmt_msg_t) (vt : TMT) (t b : Nat) :
    margin (addout o vt) t b = addout o (margin vt t b) := by
  unfold margin
  simp only [addout_curs, addout_screen, addout_hang, addout_minline, addout_maxline, addout_pars,
    addout_npar, addout_q, addout_P0, addout_P1, addout_CLINE, addout_lineAt]
  split_ifs <;> rfl

theorem pre_xtversion (o : List tmt_msg_t) (vt : TMT) :
    xtversion (addout o vt) = addout o (xtversion vt) := pre_CB o vt _

theorem pre_advance (o : List tmt_msg_t) (vt : TMT) :
    advance (addout o vt) = addout o (advance vt) := by
  unfold advance
  simp only [addout_curs, addout_screen, addout_hang, addout_minline, addout_maxline, addout_pars,
    addout_npar, addout_q, addout_P0, addout_P1, addout_CLINE, addout_lineAt]
  split_ifs <;> rfl

theorem pre_act_bs (o : List tmt_msg_t) (vt : TMT) :
    act_bs (addout o vt) = addout o (act_bs vt) := by
  unfold act_bs
  simp only [addout_curs, addout_screen, addout_hang, addout_minline, addout_maxline, addout_pars,
    addout_npar, addout_q, addout_P0, addout_P1, addout_CLINE, addout_lineAt]
  split_ifs <;> rfl

theorem tabfwd_addout (o : List tmt_msg_t) (vt : TMT) (k : Nat) :
    ∀ c, tabfwd (addout o vt) k c = tabfwd vt k c := by
  induction k with
  | zero => intro c; rfl
  | succ k ih => intro c; simp only [tabfwd, ih]; rfl

theorem tabback_addout (o : List tmt_msg_t) (vt : TMT) (k : Nat) :
    ∀ c, tabback (addout o vt) k c = tabback vt k c := by
  induction k with
  | zero => intro c; rfl
  | succ k ih => intro c; simp only [tabback, ih]; rfl

theorem pre_act_ht (o : List tmt_msg_t) (vt : TMT) :
    act_ht (addout o vt) = addout o (act_ht vt) := by
  unfold act_ht; rw [tabfwd_addout]; rfl

theorem pre_act_cbt (o : List tmt_msg_t) (vt : TMT) :
    act_cbt (addout o vt) = addout o (act_cbt vt) := by
  unfold act_cbt; rw [tabback_addout]; rfl

theorem pre_act_tbc (o : List tmt_msg_t) (vt : TMT) :
    act_tbc (addout o vt) = addout o (act_tbc vt) := by
  unfold act_tbc
  simp only [addout_curs, addout_screen, addout_hang, addout_minline, addout_maxline, addout_pars,
    addout_npar, addout_q, addout_P0, addout_P1, addout_CLINE, addout_lineAt]
  split_ifs <;> rfl

theorem pre_act_dsr (o : List tmt_msg_t) (vt : TMT) :
    act_dsr (addout o vt) = addout o (act_dsr vt) := by
  unfold act_dsr
  simp only [addout_curs, addout_screen, addout_hang, addout_minline, addout_maxline, addout_pars,
    addout_npar, addout_q, addout_P0, addout_P1, addout_CLINE, addout_lineAt]
  split_ifs
  · exact pre_dsr o vt
  · rfl

theorem pre_act_da (o : List tmt_msg_t) (vt : TMT) :
    act_da (addout o vt) = addout o (act_da vt) := by
  unfold act_da
  simp only [addout_curs, addout_screen, addout_hang, addout_minline, addout_maxline, addout_pars,
    addout_npar, addout_q, addout_P0, addout_P1, addout_CLINE, addout_lineAt]
  split_ifs
  · rfl
  · exact pre_CB o vt _
theorem pre_scrup (o : List tmt_msg_t) (vt : TMT) (r n : Nat) :
    scrup (addout o vt) r n = (scrup vt r n).map (addout o) := by
  unfold scrup
  simp only [addout_scr_row, addout_scr_count]
  unfold scrup_body
  simp only [addout_screen, addout_maxline]
  split_ifs
  · cases slice vt.screen.lines (scr_row vt r) (nptr (scr_count vt (scr_row vt r) n)) with
    | none => rfl
    | some buf =>
      simp only [Option.some_bind]
      cases memmove vt.screen.lines (scr_row vt r)
          (scr_row vt r + scr_count vt (scr_row vt r) n)
          (nptr (addz (subz (subz vt.maxline (scr_count vt (scr_row vt r) n)) (scr_row vt r)) 1)) with
      | none => rfl
      | some l1 =>
        simp only [Option.some_bind]
        cases blit l1 (addz (subz vt.maxline (scr_count vt (scr_row vt r) n)) 1) buf with
        | none => rfl
        | some l2 =>
          simp only [Option.some_bind, Option.map_some', Option.some.injEq]
          exact (congrArg (fun v => dirtylines v _ _)
            (pre_clearlines o { vt with screen := { vt.screen with lines := l2 } } _ _)).trans rfl
  · rfl

theorem pre_scrdn (o : List tmt_msg_t) (vt : TMT) (r n : Nat) :
    scrdn (addout o vt) r n = (scrdn vt r n).map (addout o) := by
  unfold scrdn
  simp only [addout_scr_row, addout_scr_count]
  unfold scrdn_body
  simp only [addout_screen, addout_maxline]
  split_ifs
  · cases slice vt.screen.lines (addz (subz vt.maxline (scr_count vt (scr_row vt r) n)) 1)
        (nptr (scr_count vt (scr_row vt r) n)) with
    | none => rfl
    | some buf =>
      simp only [Option.some_bind]
      cases memmove vt.screen.lines (scr_row vt r + scr_count vt (scr_row vt r) n)
          (scr_row vt r)
          (nptr (addz (subz (subz vt.maxline (scr_count vt (scr_row vt r) n)) (scr_row vt r)) 1)) with
      | none => rfl
      | some l1 =>
        simp only [Option.some_bind]
        cases blit l1 (scr_row vt r) buf with
        | none => rfl
        | some l2 =>
          simp only [Option.some_bind, Option.map_some', Option.some.injEq]
          exact (congrArg (fun v => dirtylines v _ _)
            (pre_clearlines o { vt with screen := { vt.screen with lines := l2 } } _ _)).trans rfl
  · rfl

theorem pre_ich (o : List tmt_msg_t) (vt : TMT) :
    ich (addout o vt) = (ich vt).map (addout o) := by
  unfold ich
  simp only [addout_lineAt, addout_CLINE, addout_curs, addout_screen, addout_ich_count]
  cases memmove (lineAt vt (CLINE vt)).chars (vt.curs.c + ich_count vt) vt.curs.c
      (MIN (vt.screen.ncol - 1 - vt.curs.c) (vt.screen.ncol - vt.curs.c - ich_count vt - 1)) with
  | none => rfl
  | some chars => rfl

theorem pre_dch (o : List tmt_msg_t) (vt : TMT) :
    dch (addout o vt) = (dch vt).map (addout o) := by
  unfold dch
  simp only [addout_lineAt, addout_CLINE, addout_curs, addout_screen, addout_dch_count,
    addout_P1]
  split_ifs
  · rfl
  · cases memmove (lineAt vt (CLINE vt)).chars vt.curs.c (vt.curs.c + dch_count vt)
        (vt.screen.ncol - vt.curs.c - dch_count vt) with
    | none => rfl
    | some chars => rfl
  · rfl

theorem pre_reverse_nl (o : List tmt_msg_t) (vt : TMT) :
    reverse_nl (addout o vt) = (reverse_nl vt).map (addout o) := by
  unfold reverse_nl
  simp only [addout_curs, addout_minline]
  split_ifs
  · exact pre_scrdn o { vt with hang := 0 } _ _
  · rfl
  · rfl

theorem pre_nl (o : List tmt_msg_t) (vt : TMT) :
    nl (addout o vt) = (nl vt).map (addout o) := by
  unfold nl
  simp only [addout_curs, addout_hang, addout_maxline, addout_screen]
  split_ifs
  · rw [pre_scrup]
    cases scrup vt SCR_DEF 1 with
    | none => rfl
    | some v => rfl
  · rfl
  · exact pre_scrup o vt _ _
  · rfl
  · rfl

theorem pre_settab (o : List tmt_msg_t) (vt : TMT) :
    settab (addout o vt) = (settab vt).map (addout o) := by
  unfold settab
  simp only [addout_curs, addout_tabs]
  split_ifs
  · rfl
  · rfl

theorem pre_putcell (o : List tmt_msg_t) (vt : TMT) (w : Nat) :
    putcell (addout o vt) w = addout o (putcell vt w) := rfl

theorem pre_storechar (o : List tmt_msg_t) (vt : TMT) (w : Nat) :
    storechar (addout o vt) w = (storechar vt w).map (addout o) := by
  unfold storechar
  simp only [addout_curs, addout_screen, addout_CLINE, addout_lineAt, addout_translate,
    pre_putcell, pre_advance]
  split_ifs
  · rfl
  · rfl

theorem pre_writecharatcurs (o : List tmt_msg_t) (vt : TMT) (w : Nat) :
    writecharatcurs (addout o vt) w = (writecharatcurs vt w).map (addout o) := by
  unfold writecharatcurs
  simp only [addout_hang]
  split_ifs
  · rw [pre_scrup]
    cases scrup vt SCR_DEF 1 with
    | none => rfl
    | some v =>
      simp only [Option.map_some', Option.some_bind]
      exact pre_storechar o { v with hang := 0 } w
  · simp only [Option.some_bind]
    exact pre_storechar o { vt with hang := 0 } w

theorem pre_rep_loop (o : List tmt_msg_t) (w : Nat) (k : Nat) : ∀ vt : TMT,
    rep_loop w k (addout o vt) = (rep_loop w k vt).map (addout o) := by
  induction k with
  | zero => intro vt; rfl
  | succ k ih =>
    intro vt
    simp only [rep_loop, pre_writecharatcurs]
    cases writecharatcurs vt w with
    | none => rfl
    | some v => simp only [Option.map_some', Option.some_bind]; exact ih v

theorem pre_rep (o : List tmt_msg_t) (vt : TMT) :
    rep (addout o vt) = (rep vt).map (addout o) := by
  unfold rep
  simp only [addout_curs, addout_lineAt, addout_CLINE, addout_P1]
  split_ifs
  · rfl
  · exact pre_rep_loop o _ _ vt
  · rfl

theorem pre_notify (o : List tmt_msg_t) (vt : TMT) (u m : Bool) :
    notify (addout o vt) u m = addout o (notify vt u m) := by
  cases u <;> cases m
  · rfl
  · exact pre_CB o vt _
  · exact pre_CB o vt _
  · exact (congrArg (fun v => CB v (TMT_MSG_MOVED vt.curs)) (pre_CB o vt TMT_MSG_UPDATE)).trans
      (pre_CB o (CB vt TMT_MSG_UPDATE) _)

theorem pre_tmt_reset (o : List tmt_msg_t) (vt : TMT) :
    tmt_reset (addout o vt) = addout o (tmt_reset vt) := by
  unfold tmt_reset
  simp only [addout_curs]
  have e : clearlines
      { resetparser { addout o vt with curs := { vt.curs with r := 0 } } with
        attrs := defattrs, oldattrs := defattrs, ms := 0 } 0
      ({ resetparser { addout o vt with curs := { vt.curs with r := 0 } } with
        attrs := defattrs, oldattrs := defattrs, ms := 0 } : TMT).screen.nline =
    addout o (clearlines
      { resetparser { vt with curs := { vt.curs with r := 0 } } with
        attrs := defattrs, oldattrs := defattrs, ms := 0 } 0
      ({ resetparser { vt with curs := { vt.curs with r := 0 } } with
        attrs := defattrs, oldattrs := defattrs, ms := 0 } : TMT).screen.nline) :=
    pre_clearlines o
      { resetparser { vt with curs := { vt.curs with r := 0 } } with
        attrs := defattrs, oldattrs := defattrs, ms := 0 } 0 _
  rw [e, pre_CB, pre_notify]
theorem pre_setrow (o : List tmt_msg_t) (vt : TMT) (r : Nat) :
    setrow (addout o vt) r = addout o (setrow vt r) := rfl

theorem pre_setcol (o : List tmt_msg_t) (vt : TMT) (c : Nat) :
    setcol (addout o vt) c = addout o (setcol vt c) := rfl

theorem pre_savecurs (o : List tmt_msg_t) (vt : TMT)  :
    savecurs (addout o vt)  = addout o (savecurs vt ) := rfl

theorem pre_restorecurs (o : List tmt_msg_t) (vt : TMT)  :
    restorecurs (addout o vt)  = addout o (restorecurs vt ) := rfl

theorem pre_setstate (o : List tmt_msg_t) (vt : TMT) (s : State) :
    setstate (addout o vt) s = addout o (setstate vt s) := rfl

theorem pre_setcharset (o : List tmt_msg_t) (vt : TMT) (v : Nat) :
    setcharset (addout o vt) v = addout o (setcharset vt v) := rfl

theorem pre_setxlate0 (o : List tmt_msg_t) (vt : TMT) (v : Nat) :
    setxlate0 (addout o vt) v = addout o (setxlate0 vt v) := rfl

theorem pre_setxlate1 (o : List tmt_msg_t) (vt : TMT) (v : Nat) :
    setxlate1 (addout o vt) v = addout o (setxlate1 vt v) := rfl

theorem pre_setq (o : List tmt_msg_t) (vt : TMT)  :
    setq (addout o vt)  = addout o (setq vt ) := rfl

theorem pre_act_ignore (o : List tmt_msg_t) (vt : TMT)  :
    act_ignore (addout o vt)  = addout o (act_ignore vt ) := rfl

theorem pre_act_digit (o : List tmt_msg_t) (vt : TMT) (i : Nat) :
    act_digit (addout o vt) i = addout o (act_digit vt i) := rfl

set_option maxHeartbeats 1600000 in
/-- Every action of `handlechar` commutes with putting messages before the
log. -/
theorem rules_pre : ∀ ru ∈ rules, ∀ (o : List tmt_msg_t) (vt : TMT) (i : Nat),
    ru.A (addout o vt) i = (ru.A vt i).map (addout o) := by
  intro ru hru
  simp only [rules, List.mem_cons, List.mem_singleton, List.not_mem_nil, or_false] at hru
  rcases hru with rfl | rfl | rfl | rfl | rfl | rfl | rfl | rfl | rfl | rfl | rfl | rfl | rfl | rfl | rfl | rfl | rfl | rfl | rfl | rfl | rfl | rfl | rfl | rfl | rfl | rfl | rfl | rfl | rfl | rfl | rfl | rfl | rfl | rfl | rfl | rfl | rfl | rfl | rfl | rfl | rfl | rfl | rfl | rfl | rfl | rfl | rfl | rfl | rfl | rfl | rfl | rfl | rfl | rfl | rfl | rfl | rfl | rfl | rfl | rfl | rfl | rfl | rfl | rfl | rfl | rfl
  all_goals intro o vt i
  all_goals simp only [addout_curs, addout_screen, addout_P0, addout_P1, addout_CLINE,
    Option.map_some', pre_CB, pre_act_bs, pre_act_ht, pre_nl, pre_cr, pre_setcharset,
    pre_setstate, pre_settab, pre_savecurs, pre_restorecurs, pre_act_ignore, pre_tmt_reset,
    pre_reverse_nl, pre_consumearg, pre_setq, pre_act_digit, pre_setrow, pre_setcol,
    pre_margin, pre_ed, pre_el, pre_scrdn, pre_scrup, pre_dch, pre_clearline_at, pre_act_cbt,
    pre_rep, pre_act_da, pre_act_tbc, pre_sgr, pre_act_dsr, pre_sm, pre_rm, pre_xtversion,
    pre_title, pre_ich, pre_setxlate0, pre_setxlate1]

theorem pre_DO (o : List tmt_msg_t) (vt : TMT) (A : TMT → Option TMT)
    (hA : ∀ v, A (addout o v) = (A v).map (addout o)) :
    DO (addout o vt) A = (DO vt A).map (addout o) := by
  unfold DO
  rw [pre_consumearg, addout_ignored, hA]
  split_ifs
  · rfl
  · cases A (consumearg vt) with
    | none => rfl
    | some v => rfl

/-- The function `handlechar` commutes with putting messages before the
log. -/
theorem pre_handlechar (o : List tmt_msg_t) (vt : TMT) (i : Nat) :
    handlechar (addout o vt) i = (handlechar vt i).map fun p => (addout o p.1, p.2) := by
  unfold handlechar
  have eg : (fun ru : Rule => ru.guard (addout o vt) i) = fun ru => ru.guard vt i := rfl
  rw [eg]
  cases hf : rules.find? (fun ru => ru.guard vt i) with
  | some ru =>
    have hm : ru ∈ rules := List.mem_of_find?_eq_some hf
    simp only
    unfold Rule.run
    cases hdo : ru.isDO with
    | true =>
      simp only [if_true]
      rw [pre_DO o vt _ (fun v => rules_pre ru hm o v i)]
      cases DO vt fun v => ru.A v i with
      | none => rfl
      | some v => rfl
    | false =>
      simp only [Bool.false_eq_true, if_false]
      rw [rules_pre ru hm o vt i]
      cases ru.A vt i with
      | none => rfl
      | some v => rfl
  | none =>
    simp only [addout_state, addout_ntitle]
    split_ifs
    · rfl
    · rfl

theorem pre_writemb (libc : LibC) (o : List tmt_msg_t) (vt : TMT) :
    writemb libc (addout o vt) = (writemb libc vt).map (addout o) :=
  pre_writecharatcurs o (getmbchar libc vt).1 (getmbchar libc vt).2

theorem testmbchar_addout (libc : LibC) (o : List tmt_msg_t) (vt : TMT) :
    testmbchar libc (addout o vt) = testmbchar libc vt := rfl

theorem pre_pushmb (o : List tmt_msg_t) (vt : TMT) (b : Nat) :
    pushmb (addout o vt) b = addout o (pushmb vt b) := rfl

theorem pre_after (libc : LibC) (o : List tmt_msg_t) (v1 : TMT) (b : Nat) (b1 : Bool) :
    (if b1 = true then some { addout o v1 with hang := 0 }
      else if (addout o v1).acs = true then writecharatcurs (addout o v1) (tacs (addout o v1) b)
      else if (addout o v1).nmb ≥ BUF_MAX then writemb libc (addout o v1)
      else
        (if testmbchar libc (addout o v1) = SIZE_MAX then writemb libc (addout o v1)
         else if testmbchar libc (addout o v1) = SIZE_MAX - 1 then
           some (pushmb (addout o v1) b)
         else some (addout o v1)).bind fun vt2 =>
        if testmbchar libc vt2 ≤ libc.MB_LEN_MAX then writemb libc vt2 else some vt2) =
    (if b1 = true then some { v1 with hang := 0 }
      else if v1.acs = true then writecharatcurs v1 (tacs v1 b)
      else if v1.nmb ≥ BUF_MAX then writemb libc v1
      else
        (if testmbchar libc v1 = SIZE_MAX then writemb libc v1
         else if testmbchar libc v1 = SIZE_MAX - 1 then
           some (pushmb v1 b)
         else some v1).bind fun vt2 =>
        if testmbchar libc vt2 ≤ libc.MB_LEN_MAX then writemb libc vt2 else some vt2).map
      (addout o) := by
  have tail : ∀ v : TMT,
      (if testmbchar libc (addout o v) ≤ libc.MB_LEN_MAX then writemb libc (addout o v)
        else some (addout o v)) =
      (if testmbchar libc v ≤ libc.MB_LEN_MAX then writemb libc v else some v).map
        (addout o) := by
    intro v
    rw [testmbchar_addout, pre_writemb]
    split_ifs
    · rfl
    · rfl
  simp only [addout_acs, addout_nmb, addout_tacs, testmbchar_addout, pre_writemb,
    pre_writecharatcurs, pre_pushmb]
  split_ifs
  · rfl
  · rfl
  · rfl
  · cases writemb libc v1 with
    | none => rfl
    | some v => simp only [Option.map_some', Option.some_bind]; exact tail v
  · simp only [Option.some_bind]; exact tail _
  · simp only [Option.some_bind]; exact tail _

/-- One byte of `tmt_write` commutes with putting messages before the log. -/
theorem pre_tmt_write_byte (libc : LibC) (o : List tmt_msg_t) (vt : TMT) (b : Nat) :
    tmt_write_byte libc (addout o vt) b = (tmt_write_byte libc vt b).map (addout o) := by
  unfold tmt_write_byte
  rw [pre_handlechar]
  cases handlechar vt b with
  | none => rfl
  | some p =>
    obtain ⟨v1, b1⟩ := p
    simp only [Option.map_some', Option.some_bind]
    exact pre_after libc o v1 b b1

/-- The loop of `tmt_write` commutes with putting messages before the log. -/
theorem pre_tmt_write_loop (libc : LibC) (o : List tmt_msg_t) (s : List Nat) : ∀ vt : TMT,
    tmt_write_loop libc (addout o vt) s = (tmt_write_loop libc vt s).map (addout o) := by
  induction s with
  | nil => intro vt; rfl
  | cons b bs ih =>
    intro vt
    simp only [tmt_write_loop, pre_tmt_write_byte]
    cases tmt_write_byte libc vt b with
    | none => rfl
    | some v => simp only [Option.map_some', Option.some_bind]; exact ih v
theorem addout_strip (v : TMT) (o : List tmt_msg_t) :
    ({ v with out := o } : TMT) = addout o { v with out := [] } := by
  simp only [addout, List.append_nil]

theorem tmt_write_loop_reout (libc : LibC) (v : TMT) (o : List tmt_msg_t) (s : List Nat) :
    tmt_write_loop libc { v with out := o } s =
      (tmt_write_loop libc { v with out := [] } s).map (addout o) := by
  rw [addout_strip, pre_tmt_write_loop]

theorem tmt_write_eq (libc : LibC) (vt : TMT) (s : List Nat) :
    tmt_write libc vt s s.length =
      (tmt_write_loop libc vt s).map fun v => notify v v.dirty (decide (vt.curs ≠ v.curs)) := by
  unfold tmt_write
  rw [input_bytes_length]

/-- C26: for every instance and all byte strings `s1` and `s2`, one
`tmt_write` of `s1 ++ s2` fails (an access outside an array) exactly when
`tmt_write` of `s1` followed by `tmt_write` of `s2` fails, and otherwise the
two leave the same instance in every field but the log of messages.  The logs
agree too but for the `UPDATE` and `MOVED` messages that `notify` appends at
the end of each call: with `L1` and `L2` the messages that the bytes of `s1`
and of `s2` produce, the log is `L1 ++ L2 ++ N` after the single call and
`L1 ++ N1 ++ L2 ++ N2` after the two calls, where `N`, `N1` and `N2` hold
`UPDATE` and `MOVED` only. -/
theorem C26_chunking_independence (libc : LibC) (vt : TMT) (s1 s2 : List Nat) :
    (tmt_write libc vt (s1 ++ s2) (s1 ++ s2).length = none ↔
      ((tmt_write libc vt s1 s1.length).bind fun v => tmt_write libc v s2 s2.length) = none) ∧
    ∀ a, tmt_write libc vt (s1 ++ s2) (s1 ++ s2).length = some a →
      ∃ b c, tmt_write libc vt s1 s1.length = some b ∧
        tmt_write libc b s2 s2.length = some c ∧
        { c with out := a.out } = a ∧
        ∃ L1 L2 N1 N2 N, b.out = vt.out ++ L1 ++ N1 ∧
          c.out = vt.out ++ L1 ++ N1 ++ L2 ++ N2 ∧
          a.out = vt.out ++ L1 ++ L2 ++ N ∧
          ∀ m ∈ N1 ++ N2 ++ N, isEndMsg m = true := by
  rw [tmt_write_eq, tmt_write_eq, tmt_write_loop_append]
  cases h1 : tmt_write_loop libc vt s1 with
  | none =>
    simp only [Option.none_bind, Option.map_none', true_iff]
    exact ⟨trivial, fun a h => Option.noConfusion h⟩
  | some v1 =>
    simp only [Option.some_bind, Option.map_some']
    obtain ⟨L1, hL1⟩ := tmt_write_loop_ext s1 h1
    obtain ⟨N1, hN1, pN1⟩ := notify_tail v1 v1.dirty (decide (vt.curs ≠ v1.curs))
    have eb : notify v1 v1.dirty (decide (vt.curs ≠ v1.curs)) =
        { v1 with out := v1.out ++ N1 } := by
      rw [notify_eq, hN1]
    have hv1 : tmt_write_loop libc v1 s2 =
        (tmt_write_loop libc { v1 with out := [] } s2).map (addout v1.out) :=
      tmt_write_loop_reout libc v1 v1.out s2
    have hb : tmt_write_loop libc (notify v1 v1.dirty (decide (vt.curs ≠ v1.curs))) s2 =
        (tmt_write_loop libc { v1 with out := [] } s2).map (addout (v1.out ++ N1)) := by
      rw [eb]
      exact tmt_write_loop_reout libc v1 (v1.out ++ N1) s2
    rw [tmt_write_eq, hb, hv1]
    cases hw : tmt_write_loop libc { v1 with out := [] } s2 with
    | none =>
      simp only [Option.map_none', true_iff]
      exact ⟨trivial, fun a h => Option.noConfusion h⟩
    | some w =>
      simp only [Option.map_some', Option.some.injEq, false_iff, reduceCtorEq, not_false_eq_true,
        true_and]
      intro a ha
      subst ha
      obtain ⟨N, hN, pN⟩ := notify_tail (addout v1.out w) (addout v1.out w).dirty
        (decide (vt.curs ≠ (addout v1.out w).curs))
      obtain ⟨N2, hN2, pN2⟩ := notify_tail (addout (v1.out ++ N1) w)
        (addout (v1.out ++ N1) w).dirty
        (decide ((notify v1 v1.dirty (decide (vt.curs ≠ v1.curs))).curs ≠
          (addout (v1.out ++ N1) w).curs))
      refine ⟨_, notify (addout (v1.out ++ N1) w) (addout (v1.out ++ N1) w).dirty
        (decide ((notify v1 v1.dirty (decide (vt.curs ≠ v1.curs))).curs ≠
          (addout (v1.out ++ N1) w).curs)), rfl, ?_, ?_, L1, w.out, N1, N2, N, ?_, ?_, ?_, ?_⟩
      · rw [tmt_write_eq, hb, hw]
        rfl
      · rw [notify_eq (addout (v1.out ++ N1) w), notify_eq (addout v1.out w)]
        rfl
      · rw [hN1, hL1]
      · rw [hN2, hL1]
        show (vt.out ++ L1 ++ N1) ++ w.out ++ N2 = _
        rfl
      · rw [hN, hL1]
        rfl
      · intro m hm
        simp only [List.mem_append] at hm
        rcases hm with (hm | hm) | hm
        · exact pN1 m hm
        · exact pN2 m hm
        · exact pN m hm
/-! ### Horizontal tab -/

theorem handlechar_ht {vt : TMT} (hs : vt.state = S_NUL) :
    handlechar vt 9 = (DO vt fun v => some (act_ht v)).map fun v => (v, true) := by
  unfold handlechar
  simp only [Rule.guard, hs]
  rfl

theorem tabfwd_congr {a b : TMT} (h1 : a.screen.ncol = b.screen.ncol) (h2 : a.tabs = b.tabs)
    (k : Nat) : ∀ c, tabfwd a k c = tabfwd b k c := by
  induction k with
  | zero => intro c; rfl
  | succ k ih => intro c; simp only [tabfwd, ih, h1, h2]

/-- The loop of HT stops at the first column after `c` that is a tab stop or
is not below `ncol - 1`. -/
theorem tabfwd_spec (vt : TMT) (k : Nat) : ∀ c, vt.screen.ncol ≤ c + k + 1 →
    c < tabfwd vt k c ∧
      (∀ i, c < i → i < tabfwd vt k c → i < vt.screen.ncol - 1 ∧ ¬ IsTab vt i) ∧
      (tabfwd vt k c < vt.screen.ncol - 1 → IsTab vt (tabfwd vt k c)) := by
  induction k with
  | zero =>
    intro c hk
    simp only [tabfwd]
    refine ⟨by omega, fun i h1 h2 => by omega, fun h => by omega⟩
  | succ k ih =>
    intro c hk
    simp only [tabfwd]
    by_cases hc : c + 1 < vt.screen.ncol - 1 ∧ (cellAt vt.tabs (c + 1)).c ≠ 42
    · rw [if_pos hc]
      obtain ⟨g1, g2, g3⟩ := ih (c + 1) (by omega)
      refine ⟨by omega, fun i h1 h2 => ?_, g3⟩
      by_cases hi : i = c + 1
      · subst hi; exact ⟨hc.1, hc.2⟩
      · exact g2 i (by omega) h2
    · rw [if_neg hc]
      refine ⟨by omega, fun i h1 h2 => by omega, fun h => ?_⟩
      by_contra hn
      exact hc ⟨h, hn⟩

theorem consumearg_tabs (v : TMT) :
    (consumearg v).tabs = v.tabs ∧ (consumearg v).screen.ncol = v.screen.ncol := by
  unfold consumearg; split_ifs <;> exact ⟨rfl, rfl⟩

/-- The byte HT in ground state: the cursor column becomes the column where
the loop stops, cut to `ncol - 1`. -/
theorem ht_run {libc : LibC} {vt : TMT} (hg : Ground vt) (hc : CursorOK vt) :
    ∃ v1, tmt_write_loop libc vt [9] = some v1 ∧
      v1.curs = ⟨vt.curs.r, MIN (tabfwd vt vt.screen.ncol vt.curs.c) (vt.screen.ncol - 1)⟩ := by
  have h := @do_step libc vt 9 (fun v => some (act_ht v)) hg.2.2.2.2.1 (handlechar_ht hg.1)
  have hl : tmt_write_loop libc vt [9] =
      some { resetparser (fixcursor (act_ht (consumearg vt))) with hang := 0 } := by
    unfold tmt_write_loop
    rw [h]
    rfl
  refine ⟨_, hl, ?_⟩
  obtain ⟨f1, _, f3, _⟩ := consumearg_fields vt
  obtain ⟨t1, t2⟩ := consumearg_tabs vt
  show (⟨MIN (consumearg vt).curs.r ((consumearg vt).screen.nline - 1),
    MIN (tabfwd (consumearg vt) (consumearg vt).screen.ncol (consumearg vt).curs.c)
      ((consumearg vt).screen.ncol - 1)⟩ : TMTPOINT) = _
  rw [tabfwd_congr t2 t1, f1, f3]
  have e : MIN vt.curs.r (vt.screen.nline - 1) = vt.curs.r := by
    unfold MIN; split_ifs <;> have := hc.1 <;> omega
  rw [e]
theorem tabstops_getElem? (n : Nat) (l : List TMTCHAR) : ∀ k j,
    (tabstops n k l)[j]? =
      l[j]?.map fun ch =>
        if k + j = 0 ∨ k + j = n - 1 ∨ (k + j) % TAB = 0 then { ch with c := 42 } else ch := by
  induction l with
  | nil => intro k j; simp [tabstops]
  | cons ch rest ih =>
    intro k j
    cases j with
    | zero => simp [tabstops]
    | succ j =>
      simp only [tabstops, List.getElem?_cons_succ, ih]
      have : k + 1 + j = k + (j + 1) := by omega
      rw [this]

theorem tmt_resize_tabs (vt : TMT) {nline ncol : Nat} (h1 : 2 ≤ nline) (h2 : 2 ≤ ncol) :
    (tmt_resize vt nline ncol).1.screen.ncol = ncol ∧
    ∃ v2 : TMT, v2.screen.ncol = ncol ∧
      (tmt_resize vt nline ncol).1.tabs.chars =
        tabstops ncol 0 (allocline v2 v2.tabs ncol 0).chars := by
  have hn : ¬ (nline < 2 ∨ ncol < 2) := by omega
  unfold tmt_resize
  simp only [hn, if_false]
  exact ⟨rfl, _, rfl, rfl⟩

theorem tmt_resize_tab_cell (vt : TMT) {nline ncol : Nat} (h1 : 2 ≤ nline) (h2 : 2 ≤ ncol)
    {j : Nat} (hj : j < ncol) :
    (cellAt (tmt_resize vt nline ncol).1.tabs j).c =
      if j = 0 ∨ j = ncol - 1 ∨ j % TAB = 0 then 42 else 32 := by
  obtain ⟨_, v2, e2, ht⟩ := tmt_resize_tabs vt h1 h2
  unfold cellAt
  rw [ht, List.getD_eq_getElem?_getD, tabstops_getElem?, allocline_chars_getElem?]
  have hlen : j < (v2.tabs.chars.take ncol ++
      List.replicate (ncol - v2.tabs.chars.length) zerochar).length := by
    simp only [List.length_append, List.length_take, List.length_replicate]
    omega
  rw [List.getElem?_eq_getElem hlen]
  simp only [Option.map_some', Option.getD_some, Nat.zero_add, e2, hj, Nat.zero_le, and_self,
    if_true]
  split_ifs <;> rfl

/-- The tab stops after an accepted `tmt_resize` are the defaults. -/
theorem tmt_resize_DefaultTabs (vt : TMT) {nline ncol : Nat} (h1 : 2 ≤ nline)
    (h2 : 2 ≤ ncol) : DefaultTabs (tmt_resize vt nline ncol).1 := by
  intro j hj
  rw [(tmt_resize_tabs vt h1 h2).1] at hj ⊢
  unfold IsTab
  rw [tmt_resize_tab_cell vt h1 h2 hj]
  unfold TAB
  constructor
  · intro h
    split_ifs at h with hc
    · omega
    · exact absurd h (by decide)
  · intro h
    rw [if_pos (by omega)]

/-- The tab stops after `tmt_open` are the defaults. -/
theorem tmt_open_DefaultTabs {nline ncol : Nat} {acs : Option (List Nat)} {vt : TMT}
    (h : tmt_open nline ncol acs = some vt) : DefaultTabs vt := by
  unfold tmt_open at h
  split_ifs at h with h0
  simp only at h
  by_cases hn : nline < 2 ∨ ncol < 2
  · exfalso
    unfold tmt_resize at h
    simp only [hn, if_true] at h
    exact Option.noConfusion h
  · have hk := tmt_resize_DefaultTabs { calloc_TMT with acschars := acs.getD default_acschars }
      (show 2 ≤ nline by omega) (show 2 ≤ ncol by omega)
    split at h
    · rename_i v1 hx
      simp only [Option.some.injEq] at h
      subst h
      have e : (tmt_resize { calloc_TMT with acschars := acs.getD default_acschars }
          nline ncol).1 = v1 := congrArg Prod.fst hx
      rw [e] at hk
      exact hk
    · exact Option.noConfusion h

/-- C25: in every reachable state with the parser in ground state and the
cursor at (r, c), a write of HT (0x09) leaves the cursor in line r; from the
last column the cursor stays there, and from a column `c < ncol - 1` it moves to
the smallest column `j` with `c < j ≤ ncol - 1` that is a tab stop or is
`ncol - 1`.  When the tab stops are the defaults, the new column is
`min (8 * (c / 8 + 1)) (ncol - 1)`; they are the defaults after every accepted
`tmt_resize` and after `tmt_open`. -/
theorem C25_horizontal_tab (libc : LibC) (vt : TMT) (hr : Reachable libc vt)
    (hs : vt.state = S_NUL) :
    (∃ vt', tmt_write libc vt [9] 1 = some vt' ∧ vt'.curs.r = vt.curs.r ∧
      (vt.curs.c = vt.screen.ncol - 1 → vt'.curs.c = vt.screen.ncol - 1) ∧
      (vt.curs.c < vt.screen.ncol - 1 →
        vt.curs.c < vt'.curs.c ∧ vt'.curs.c ≤ vt.screen.ncol - 1 ∧
        (IsTab vt vt'.curs.c ∨ vt'.curs.c = vt.screen.ncol - 1) ∧
        ∀ j, vt.curs.c < j → j < vt'.curs.c → ¬ (IsTab vt j ∨ j = vt.screen.ncol - 1)) ∧
      (DefaultTabs vt → vt'.curs.c = min (8 * (vt.curs.c / 8 + 1)) (vt.screen.ncol - 1))) ∧
    (∀ (v : TMT) (nline ncol : Nat), 2 ≤ nline → 2 ≤ ncol →
      DefaultTabs (tmt_resize v nline ncol).1) ∧
    (∀ (nline ncol : Nat) (acs : Option (List Nat)) (v : TMT),
      tmt_open nline ncol acs = some v → DefaultTabs v) := by
  refine ⟨?_, fun v nline ncol h1 h2 => tmt_resize_DefaultTabs v h1 h2,
    fun nline ncol acs v h => tmt_open_DefaultTabs h⟩
  have hc := (Reachable_inv hr).2
  obtain ⟨v1, hl, hcur⟩ := @ht_run libc vt (Reachable_Ground hr hs) hc
  obtain ⟨g1, g2, g3⟩ := tabfwd_spec vt vt.screen.ncol vt.curs.c (by omega)
  have hw := tmt_write_of_loop hl
  have hcc : v1.curs.c = min (tabfwd vt vt.screen.ncol vt.curs.c) (vt.screen.ncol - 1) := by
    rw [hcur, MIN_eq_min]
  have hcn := hc.2
  have hle : vt.curs.c < vt.screen.ncol - 1 →
      tabfwd vt vt.screen.ncol vt.curs.c ≤ vt.screen.ncol - 1 := by
    intro hlt
    by_contra hgt
    have := (g2 (vt.screen.ncol - 1) hlt (by omega)).1
    omega
  have htab : vt.curs.c < vt.screen.ncol - 1 →
      IsTab vt (tabfwd vt vt.screen.ncol vt.curs.c) ∨
        tabfwd vt vt.screen.ncol vt.curs.c = vt.screen.ncol - 1 := by
    intro hlt
    have := hle hlt
    by_cases hj : tabfwd vt vt.screen.ncol vt.curs.c < vt.screen.ncol - 1
    · exact Or.inl (g3 hj)
    · exact Or.inr (by omega)
  refine ⟨_, hw, ?_, ?_, ?_, ?_⟩
  · show v1.curs.r = _
    rw [hcur]
  · intro he
    show v1.curs.c = _
    rw [hcc]
    omega
  · intro hlt
    have h1 := hle hlt
    have e : v1.curs.c = tabfwd vt vt.screen.ncol vt.curs.c := by rw [hcc]; omega
    show vt.curs.c < v1.curs.c ∧ v1.curs.c ≤ vt.screen.ncol - 1 ∧
      (IsTab vt v1.curs.c ∨ v1.curs.c = vt.screen.ncol - 1) ∧
      ∀ j, vt.curs.c < j → j < v1.curs.c → ¬ (IsTab vt j ∨ j = vt.screen.ncol - 1)
    rw [e]
    refine ⟨g1, h1, htab hlt, fun j hj1 hj2 hor => ?_⟩
    obtain ⟨k1, k2⟩ := g2 j hj1 hj2
    rcases hor with hk | hk
    · exact k2 hk
    · omega
  · intro hd
    show v1.curs.c = _
    rw [hcc]
    unfold DefaultTabs TAB at hd
    by_cases hlt : vt.curs.c < vt.screen.ncol - 1
    · have h1 := hle hlt
      have h2 := htab hlt
      have h3 : IsTab vt (tabfwd vt vt.screen.ncol vt.curs.c) →
          tabfwd vt vt.screen.ncol vt.curs.c % 8 = 0 ∨
            tabfwd vt vt.screen.ncol vt.curs.c = vt.screen.ncol - 1 :=
        fun h => (hd _ (by omega)).mp h
      by_cases ht : 8 * (vt.curs.c / 8 + 1) ≤ vt.screen.ncol - 1
      · have h4 : IsTab vt (8 * (vt.curs.c / 8 + 1)) :=
          (hd _ (by omega)).mpr (Or.inl (by omega))
        have h5 : tabfwd vt vt.screen.ncol vt.curs.c ≤ 8 * (vt.curs.c / 8 + 1) := by
          by_contra hgt
          exact (g2 (8 * (vt.curs.c / 8 + 1)) (by omega) (by omega)).2 h4
        rcases h2 with h2 | h2
        · rcases h3 h2 with h6 | h6 <;> omega
        · omega
      · rcases h2 with h2 | h2
        · rcases h3 h2 with h6 | h6 <;> omega
        · omega
    · omega

theorem C25_horizontal_tab_witness :
    (∃ vt', tmt_write clocale fresh22 [9] 1 = some vt' ∧ vt'.curs.r = fresh22.curs.r ∧
      (fresh22.curs.c = fresh22.screen.ncol - 1 → vt'.curs.c = fresh22.screen.ncol - 1) ∧
      (fresh22.curs.c < fresh22.screen.ncol - 1 →
        fresh22.curs.c < vt'.curs.c ∧ vt'.curs.c ≤ fresh22.screen.ncol - 1 ∧
        (IsTab fresh22 vt'.curs.c ∨ vt'.curs.c = fresh22.screen.ncol - 1) ∧
        ∀ j, fresh22.curs.c < j → j < vt'.curs.c →
          ¬ (IsTab fresh22 j ∨ j = fresh22.screen.ncol - 1)) ∧
      (DefaultTabs fresh22 →
        vt'.curs.c = min (8 * (fresh22.curs.c / 8 + 1)) (fresh22.screen.ncol - 1))) ∧
    (∀ (v : TMT) (nline ncol : Nat), 2 ≤ nline → 2 ≤ ncol →
      DefaultTabs (tmt_resize v nline ncol).1) ∧
    (∀ (nline ncol : Nat) (acs : Option (List Nat)) (v : TMT),
      tmt_open nline ncol acs = some v → DefaultTabs v) :=
  C25_horizontal_tab clocale fresh22 (Reachable.opened 2 2 none _ fresh22_open) (by decide)
/-! ### Delete characters -/

theorem handlechar_dch {w : TMT} (hs : w.state = S_ARG) :
    handlechar w 80 = (DO w dch).map fun v => (v, true) := by
  unfold handlechar
  simp only [Rule.guard, hs]
  rfl

theorem P1_pos (w : TMT) (x : Nat) : 1 ≤ P1 w x := by
  unfold P1; split_ifs <;> omega

theorem dch_count_eq (w : TMT) : dch_count w = min (P1 w 0) (w.screen.ncol - w.curs.c) := by
  unfold dch_count; split_ifs <;> omega

/-- The handler `dch` on a well-formed screen: the cells of the cursor line
from the cursor on move `n` columns to the left and the last `n` cells of the
line are cleared with the attributes of the former cell `ncol - n`. -/
theorem dch_ok {w : TMT} (hs : ScreenOK w) (hc : CursorOK w) :
    ∃ chars, dch w =
        some { clearline_at
                 (setchars
                   { w with
                     attrs := (cellAt (lineAt w (CLINE w)) (w.screen.ncol - dch_count w)).a }
                   (CLINE w) chars)
                 (CLINE w) (w.screen.ncol - dch_count w) w.screen.ncol
               with attrs := w.attrs } ∧
      chars.length = w.screen.ncol ∧
      ∀ j, chars[j]? =
        if j < w.curs.c then (lineAt w w.curs.r).chars[j]?
        else if j < w.screen.ncol - dch_count w then (lineAt w w.curs.r).chars[j + dch_count w]?
        else (lineAt w w.curs.r).chars[j]? := by
  have hcl : CLINE w = w.curs.r := CLINE_eq hc.1
  have hlen : (lineAt w w.curs.r).chars.length = w.screen.ncol := lineAt_length hs hc.1
  have hp := P1_pos w 0
  have hn := dch_count_eq w
  have hc2 := hc.2
  have h1 : ¬ (P1 w 0 ≤ w.screen.ncol - w.curs.c ∧ P1 w 0 = 0) := by omega
  have h2 : w.screen.ncol - dch_count w < (lineAt w (CLINE w)).chars.length := by
    rw [hcl, hlen]; omega
  unfold dch
  rw [if_neg h1, if_pos h2, hcl]
  unfold memmove
  have hsl := slice_some (lineAt w w.curs.r).chars
    (show w.curs.c + dch_count w + (w.screen.ncol - w.curs.c - dch_count w) ≤
      (lineAt w w.curs.r).chars.length by rw [hlen]; omega)
  rw [hsl, Option.some_bind]
  have hsg := slice_getElem? hsl
  have hbl := blit_some (lineAt w w.curs.r).chars
    (((lineAt w w.curs.r).chars.drop (w.curs.c + dch_count w)).take
      (w.screen.ncol - w.curs.c - dch_count w))
    (show w.curs.c + (((lineAt w w.curs.r).chars.drop (w.curs.c + dch_count w)).take
      (w.screen.ncol - w.curs.c - dch_count w)).length ≤ (lineAt w w.curs.r).chars.length by
      rw [hsg.1, hlen]; omega)
  rw [hbl, Option.some_bind]
  have hbg := blit_getElem? hbl
  refine ⟨_, rfl, by rw [hbg.1, hlen], ?_⟩
  intro j
  rw [hbg.2 j, hsg.1, hsg.2]
  by_cases g1 : j < w.curs.c
  · rw [if_pos g1, if_pos g1]
  · rw [if_neg g1, if_neg g1]
    by_cases g2 : j < w.screen.ncol - dch_count w
    · rw [if_pos g2, if_pos (by omega), if_pos (by omega)]
      congr 1; omega
    · rw [if_neg g2, if_neg (by omega)]

theorem cell_setchars {v : TMT} (i0 : Nat) (chars : List TMTCHAR) (h0 : i0 < v.screen.lines.length)
    (i j : Nat) :
    cell (setchars v i0 chars) i j =
      if i = i0 then chars.getD j zerochar else cell v i j := by
  unfold cell cellAt
  show (((v.screen.lines.set i0 { lineAt v i0 with chars := chars }).getD i nullline).chars).getD j
    zerochar = _
  rw [getD_set_line _ _ _ _ h0]
  by_cases hi : i = i0
  · rw [if_pos hi, if_pos hi]
  · rw [if_neg hi, if_neg hi]
    rfl

theorem ScreenOK_setchars {v : TMT} (hs : ScreenOK v) (i0 : Nat) (chars : List TMTCHAR)
    (hl : chars.length = v.screen.ncol) : ScreenOK (setchars v i0 chars) := by
  refine ⟨?_, ?_⟩
  · show (v.screen.lines.set i0 _).length = v.screen.nline
    rw [List.length_set]; exact hs.1
  · intro l hm
    show l.chars.length = v.screen.ncol
    rcases List.mem_or_eq_of_mem_set hm with h | h
    · exact hs.2 l h
    · subst h; exact hl

/-- The cells after `dch`. -/
theorem dch_cell {w : TMT} (hs : ScreenOK w) (hc : CursorOK w) :
    ∃ v, dch w = some v ∧ v.curs = w.curs ∧ v.attrs = w.attrs ∧
      v.screen.nline = w.screen.nline ∧ v.screen.ncol = w.screen.ncol ∧
      ∀ i j, i < w.screen.nline → j < w.screen.ncol →
        cell v i j =
          if i = w.curs.r ∧ w.curs.c ≤ j then
            if j + dch_count w < w.screen.ncol then cell w w.curs.r (j + dch_count w)
            else { c := 32, a := (cell w w.curs.r (w.screen.ncol - dch_count w)).a }
          else cell w i j := by
  obtain ⟨chars, hd, hlen, hget⟩ := dch_ok hs hc
  have hcl : CLINE w = w.curs.r := CLINE_eq hc.1
  have hp := P1_pos w 0
  have hn := dch_count_eq w
  have hc2 := hc.2
  rw [hcl] at hd
  refine ⟨_, hd, rfl, rfl, rfl, rfl, ?_⟩
  intro i j hi hj
  have hs0 : ScreenOK { w with
      attrs := (cellAt (lineAt w w.curs.r) (w.screen.ncol - dch_count w)).a } := hs
  have hs1 := ScreenOK_setchars hs0 w.curs.r chars hlen
  have hl0 : w.curs.r < w.screen.lines.length := by rw [hs.1]; exact hc.1
  change cell (clearline_at (setchars { w with
      attrs := (cellAt (lineAt w w.curs.r) (w.screen.ncol - dch_count w)).a }
      w.curs.r chars) w.curs.r (w.screen.ncol - dch_count w) w.screen.ncol) i j = _
  rw [cell_clearline_at hs1 _ _ _ hc.1,
    @cell_setchars { w with
      attrs := (cellAt (lineAt w w.curs.r) (w.screen.ncol - dch_count w)).a } _ _ hl0]
  show (if i = w.curs.r ∧ w.screen.ncol - dch_count w ≤ j ∧ j < w.screen.ncol ∧
        j < w.screen.ncol then
      ({ c := 32, a := (cell w w.curs.r (w.screen.ncol - dch_count w)).a } : TMTCHAR)
    else if i = w.curs.r then chars.getD j zerochar else cell w i j) = _
  have hcell : ∀ k, cell w w.curs.r k = (lineAt w w.curs.r).chars.getD k zerochar := fun k => rfl
  by_cases h1 : i = w.curs.r
  · by_cases h2 : w.curs.c ≤ j
    · by_cases h3 : j + dch_count w < w.screen.ncol
      · have a1 : ¬ (i = w.curs.r ∧ w.screen.ncol - dch_count w ≤ j ∧ j < w.screen.ncol ∧
            j < w.screen.ncol) := by omega
        have a2 : i = w.curs.r ∧ w.curs.c ≤ j := ⟨h1, h2⟩
        rw [if_neg a1, if_pos h1, if_pos a2, if_pos h3, hcell,
          List.getD_eq_getElem?_getD, List.getD_eq_getElem?_getD, hget,
          if_neg (by omega), if_pos (by omega)]
      · have a1 : i = w.curs.r ∧ w.screen.ncol - dch_count w ≤ j ∧ j < w.screen.ncol ∧
            j < w.screen.ncol := ⟨h1, by omega, hj, hj⟩
        have a2 : i = w.curs.r ∧ w.curs.c ≤ j := ⟨h1, h2⟩
        rw [if_pos a1, if_pos a2, if_neg h3]
    · have a1 : ¬ (i = w.curs.r ∧ w.screen.ncol - dch_count w ≤ j ∧ j < w.screen.ncol ∧
          j < w.screen.ncol) := by omega
      have a2 : ¬ (i = w.curs.r ∧ w.curs.c ≤ j) := fun h => h2 h.2
      rw [if_neg a1, if_pos h1, if_neg a2, h1, hcell,
        List.getD_eq_getElem?_getD, List.getD_eq_getElem?_getD, hget, if_pos (by omega)]
  · have a1 : ¬ (i = w.curs.r ∧ w.screen.ncol - dch_count w ≤ j ∧ j < w.screen.ncol ∧
        j < w.screen.ncol) := fun h => h1 h.1
    have a2 : ¬ (i = w.curs.r ∧ w.curs.c ≤ j) := fun h => h1 h.1
    rw [if_neg a1, if_neg h1, if_neg a2]

theorem P1_csi_single (vt : TMT) (x : Nat) :
    P1 (csi_state vt [x] 0) 0 = if 1 ≤ x then x else 1 := by
  have e : P1 (csi_state vt [x] 0) 0 = if x ≠ 0 then x else 1 := rfl
  rw [e]
  split_ifs <;> omega

/-- The control sequence `ESC [ p P` in ground state on a well-formed screen. -/
theorem dch_run {libc : LibC} {vt : TMT} (hg : Ground vt) (hs : ScreenOK vt) (hc : CursorOK vt)
    (p : List Nat) (hp : IsNumeral p) (hv : numval p < SIZE_MOD) :
    ∃ v1, tmt_write_loop libc vt (csi_bytes [p] 80) = some v1 ∧ v1.curs = vt.curs ∧
      v1.attrs = vt.attrs ∧
      ∀ i j, i < vt.screen.nline → j < vt.screen.ncol →
        cell v1 i j =
          if i = vt.curs.r ∧ vt.curs.c ≤ j then
            if j + min (if 1 ≤ numval p then numval p else 1) (vt.screen.ncol - vt.curs.c) <
                vt.screen.ncol then
              cell vt vt.curs.r
                (j + min (if 1 ≤ numval p then numval p else 1) (vt.screen.ncol - vt.curs.c))
            else
              { c := 32,
                a := (cell vt vt.curs.r (vt.screen.ncol -
                  min (if 1 ≤ numval p then numval p else 1) (vt.screen.ncol - vt.curs.c))).a }
          else cell vt i j := by
  have hnum : ∀ q ∈ [p], IsNumeral q ∧ numval q < SIZE_MOD := by
    intro q hq
    simp only [List.mem_singleton] at hq
    subst hq
    exact ⟨hp, hv⟩
  have h := @csi_run libc _ hg [p] (by simp)
    (by simp only [List.length_cons, List.length_nil, PAR_MAX]; omega) hnum 80 dch
    (fun w hs => handlechar_dch hs)
  have hs0 : ScreenOK (csi_state vt [numval p] 0) := hs
  have hc0 : CursorOK (csi_state vt [numval p] 0) := hc
  obtain ⟨v, hd, k1, k2, k3, k4, k5⟩ := dch_cell hs0 hc0
  have e : [p].map numval = [numval p] := rfl
  rw [e, hd] at h
  have hn : dch_count (csi_state vt [numval p] 0) =
      min (if 1 ≤ numval p then numval p else 1) (vt.screen.ncol - vt.curs.c) := by
    rw [dch_count_eq, P1_csi_single]
    rfl
  rw [hn] at k5
  have kc : v.curs = vt.curs := k1
  have hr := hc.1
  have hcc := hc.2
  refine ⟨_, h, ?_, k2, fun i j hi hj => k5 i j hi hj⟩
  show (⟨MIN v.curs.r (v.screen.nline - 1), MIN v.curs.c (v.screen.ncol - 1)⟩ : TMTPOINT) =
    vt.curs
  have e3 : v.screen.nline = vt.screen.nline := k3
  have e4 : v.screen.ncol = vt.screen.ncol := k4
  rw [kc, e3, e4, MIN_of_le (by omega), MIN_of_le (by omega)]

/-- C22 (amended): in ground state on a well-formed screen with the cursor at (r, c),
the sequence `ESC [ p P` with a numeral `p` of value `n` below 2^64 and
`n' = min(P1(n), ncol - c)`, where `P1(n)` is `n` for `n ≥ 1` and 1 for 0,
moves the cells `[c + n', ncol)` of line r to `[c, ncol - n')`, puts the blank
U+0020 in the cells `[ncol - n', ncol)` of line r (with the attributes of the
former cell `ncol - n'`), and changes no other cell, nor the cursor, nor the
current attributes. -/
theorem C22_delete_characters (libc : LibC) (vt : TMT) (p : List Nat) (hg : Ground vt)
    (hs : ScreenOK vt) (hc : CursorOK vt) (hp : IsNumeral p) (hv : numval p < SIZE_MOD) :
    ∃ vt', tmt_write libc vt (csi_bytes [p] 80) (csi_bytes [p] 80).length = some vt' ∧
      vt'.curs = vt.curs ∧ vt'.attrs = vt.attrs ∧
      ∀ i j, i < vt.screen.nline → j < vt.screen.ncol →
        cell vt' i j =
          if i = vt.curs.r ∧ vt.curs.c ≤ j then
            if j + min (if 1 ≤ numval p then numval p else 1) (vt.screen.ncol - vt.curs.c) <
                vt.screen.ncol then
              cell vt vt.curs.r
                (j + min (if 1 ≤ numval p then numval p else 1) (vt.screen.ncol - vt.curs.c))
            else
              { c := 32,
                a := (cell vt vt.curs.r (vt.screen.ncol -
                  min (if 1 ≤ numval p then numval p else 1) (vt.screen.ncol - vt.curs.c))).a }
          else cell vt i j := by
  obtain ⟨v1, hl, g1, g2, g3⟩ := @dch_run libc vt hg hs hc p hp hv
  exact ⟨_, tmt_write_of_loop hl, g1, g2, fun i j hi hj => by rw [cell_out]; exact g3 i j hi hj⟩

theorem C22_delete_characters_witness :
    ∃ vt', tmt_write clocale fresh22 (csi_bytes [[50]] 80) (csi_bytes [[50]] 80).length =
        some vt' ∧
      vt'.curs = fresh22.curs ∧ vt'.attrs = fresh22.attrs ∧
      ∀ i j, i < fresh22.screen.nline → j < fresh22.screen.ncol →
        cell vt' i j =
          if i = fresh22.curs.r ∧ fresh22.curs.c ≤ j then
            if j + min (if 1 ≤ numval [50] then numval [50] else 1)
                (fresh22.screen.ncol - fresh22.curs.c) < fresh22.screen.ncol then
              cell fresh22 fresh22.curs.r
                (j + min (if 1 ≤ numval [50] then numval [50] else 1)
                  (fresh22.screen.ncol - fresh22.curs.c))
            else
              { c := 32,
                a := (cell fresh22 fresh22.curs.r (fresh22.screen.ncol -
                  min (if 1 ≤ numval [50] then numval [50] else 1)
                    (fresh22.screen.ncol - fresh22.curs.c))).a }
          else cell fresh22 i j :=
  C22_delete_characters clocale fresh22 [50] (by unfold Ground; decide) fresh22_ScreenOK
    fresh22_CursorOK (by unfold IsNumeral; decide) (by decide)
set_option maxRecDepth 100000 in
/-- C13, the claim as stated fails for a parameter of 2^64 or more: the
numeral 18446744073709551617 (2^64 + 1) is no value of the claim's table, so
the fold leaves the attributes as they are, but `ESC [ 18446744073709551617 m`
written to a fresh 2 x 2 instance sets bold: the digits accumulate in a
`size_t` and the parameter wraps to 1. -/
theorem C13_sgr_parameter_wraps :
    numval [49, 56, 52, 52, 54, 55, 52, 52, 48, 55, 51, 55, 48, 57, 53, 53, 49, 54, 49, 55] =
      18446744073709551617 ∧
    [18446744073709551617].foldl sgr_spec fresh22.attrs = fresh22.attrs ∧
    (tmt_write clocale fresh22
        (csi_bytes
          [[49, 56, 52, 52, 54, 55, 52, 52, 48, 55, 51, 55, 48, 57, 53, 53, 49, 54, 49, 55]] 109)
        23).map (fun v => v.attrs) = some { fresh22.attrs with bold := true } ∧
    fresh22.attrs.bold = false := by
  refine ⟨?_, ?_, ?_, ?_⟩ <;> decide

set_option maxRecDepth 100000 in
/-- C22, the claim as stated fails for a parameter of 2^64 or more: on a
2 x 4 screen whose line 0 holds `abcd`, with the cursor at (0, 0), the claim's
count for the numeral 18446744073709551616 (2^64) is `min(2^64, 4) = 4`, the
whole line, but `ESC [ 18446744073709551616 P` deletes one character and leaves
`bcd` and a blank: the digits accumulate in a `size_t`, the parameter wraps
to 0 and `P1(0)` is 1. -/
theorem C22_delete_parameter_wraps :
    numval [49, 56, 52, 52, 54, 55, 52, 52, 48, 55, 51, 55, 48, 57, 53, 53, 49, 54, 49, 54] =
      18446744073709551616 ∧
    min (if 1 ≤ 18446744073709551616 then 18446744073709551616 else 1) (4 - 0) = 4 ∧
    ((tmt_open 2 4 none).bind fun vt =>
        tmt_write clocale vt
          ([97, 98, 99, 100, 27, 91, 49, 59, 49, 72] ++
            csi_bytes
              [[49, 56, 52, 52, 54, 55, 52, 52, 48, 55, 51, 55, 48, 57, 53, 53, 49, 54, 49, 54]]
              80) 33).map
      (fun vt => (vt.curs, (lineAt vt 0).chars.map fun ch => ch.c)) =
      some (⟨0, 0⟩, [98, 99, 100, 32]) := by
  refine ⟨?_, ?_, ?_⟩ <;> decide
/-! ### Resize with allocation failure -/

/-- Without an allocation failure `tmt_resize_alloc` is `tmt_resize`. -/
theorem tmt_resize_alloc_none (vt : TMT) (nline ncol : Nat) :
    tmt_resize_alloc (fun _ => false) vt nline ncol = tmt_resize vt nline ncol := by
  unfold tmt_resize_alloc
  by_cases hn : nline < 2 ∨ ncol < 2
  · unfold tmt_resize
    simp only [hn, if_true]
  · have hf : (List.range nline).find? (fun _ => false) = none := by
      rw [List.find?_eq_none]
      intro x _ h
      exact absurd h (by decide)
    simp only [hn, if_false, Bool.false_eq_true, hf]

set_option maxRecDepth 100000 in
/-- C1, the claim as stated fails for a `tmt_resize` call that fails on an
allocation.  On a 2 x 4 screen with the cursor at (0, 3) (after `abc`), a
resize to 2 x 2 whose first `allocline` fails returns false with
`screen.ncol` already 2 and the cursor still at (0, 3).  On a 4 x 2 screen with
the cursor at (3, 0) (after `ESC [ 4 ; 1 H`), a resize to 2 x 2 whose
`allocline` of the tab line fails returns false with `screen.nline` already 2
and the cursor still at (3, 0). -/
theorem C1_resize_allocation_failure :
    ((tmt_open 2 4 none).bind fun vt => tmt_write clocale vt [97, 98, 99] 3).map
      (fun v => ((tmt_resize_alloc (fun k => k == 1) v 2 2).2,
        (tmt_resize_alloc (fun k => k == 1) v 2 2).1.curs,
        (tmt_resize_alloc (fun k => k == 1) v 2 2).1.screen.nline,
        (tmt_resize_alloc (fun k => k == 1) v 2 2).1.screen.ncol)) =
      some (false, ⟨0, 3⟩, 2, 2) ∧
    ((tmt_open 4 2 none).bind fun vt => tmt_write clocale vt [27, 91, 52, 59, 49, 72] 6).map
      (fun v => ((tmt_resize_alloc (fun k => k == 3) v 2 2).2,
        (tmt_resize_alloc (fun k => k == 3) v 2 2).1.curs,
        (tmt_resize_alloc (fun k => k == 3) v 2 2).1.screen.nline,
        (tmt_resize_alloc (fun k => k == 3) v 2 2).1.screen.ncol)) =
      some (false, ⟨3, 0⟩, 2, 2) := by
  refine ⟨?_, ?_⟩ <;> decide
end Libtmt
